import Mathlib

/-!
The sqliterepo handle cache (`sqliterepo/cache.c`)

A shallow embedding of the cache of open bases and the properties of its
slot table, beacon lists, name index and controller.

Conventions of the embedding.

* A `sqlx_base_t *` is the index of the slot in `cache->bases`; `NULL` is `none`.
* `gint` indices (`link.prev`, `link.next`, `first`, `last`, `index`) are integers
  with `-1` as the "no slot" value, as in the source.
* The `guint32` counters (`count_open`, `count_waiting`, `heat`, `bases_used`)
  are natural numbers; an increment is `+ 1` (no execution considered here
  performs `2 ^ 32` increments), a decrement wraps at zero as the C one does.
* `oio_ext_monotonic_time ()` is the argument `mt` of every function that reads
  the clock: one reading for each section of code run with the lock held.
* The code of a function that releases the global lock in the middle
  (`_expire_base`, around the close hook) is cut there in a `_begin` and an
  `_end` part; the function itself is their composition.
* `EXTRA_ASSERT` is compiled out (no `HAVE_EXTRA_DEBUG`); `g_assert_not_reached`
  aborts.
* Calls of the two hooks are recorded, in order, in the field `hook_calls`.
-/

namespace Sqlx

/-! ## Data model -/

/-- Names of bases (`hashstr_t`). -/
abbrev hashstr_t := String

/-- Thread identities (`GThread *` of a live thread). -/
abbrev GThread := Nat

/-- Untyped pointers; `0` is `NULL`. -/
abbrev gpointer := Nat

/-- The enumeration `sqlx_base_status_e`.  `SQLX_BASE_ZERO` is the integer `0`,
which is no member of the C enumeration but is what `g_malloc0` leaves in a
slot and what `SQLX_REMOVE` writes in it. -/
inductive sqlx_base_status_e
  | SQLX_BASE_ZERO
  | SQLX_BASE_FREE
  | SQLX_BASE_IDLE
  | SQLX_BASE_IDLE_HOT
  | SQLX_BASE_USED
  | SQLX_BASE_CLOSING
  | SQLX_BASE_CLOSING_FOR_DELETION
  deriving DecidableEq, Repr, Inhabited

open sqlx_base_status_e

/-- Modelled from the spec: `struct grid_single_rrd_s` and its functions are not
part of the sources at hand.  The spec describes a rolling per-second counter;
the model keeps the list of the `(second, amount)` pairs added so far. -/
abbrev grid_single_rrd_s := List (Int × Nat)

/-- Modelled from the spec: a new counter holds nothing. -/
def grid_single_rrd_create (_now : Int) (_period : Nat) : grid_single_rrd_s := []

/-- Modelled from the spec: `grid_single_rrd_add` accumulates `v` at second `now`. -/
def grid_single_rrd_add (gsr : grid_single_rrd_s) (now : Int) (v : Nat) :
    grid_single_rrd_s :=
  (now, v) :: gsr

/-- Modelled from the spec: `grid_single_rrd_get_delta` is the sum of what was
added during the last `period` seconds before `now` (`sum(counter, now, W)`). -/
def grid_single_rrd_get_delta (gsr : grid_single_rrd_s) (now : Int) (period : Nat) : Nat :=
  ((gsr.filter (fun e => decide (now - period < e.1 ∧ e.1 ≤ now))).map Prod.snd).sum

/-- The structure `struct beacon_s`. -/
structure beacon_s where
  first : Int
  last : Int
  deriving DecidableEq, Repr, Inhabited

/-- The structure `struct sqlx_base_s`, without its two condition variables. -/
structure sqlx_base_s where
  name : Option hashstr_t
  owner : Option GThread
  handle : gpointer
  last_update : Int
  link_prev : Int
  link_next : Int
  heat : Nat
  count_open : Nat
  count_waiting : Nat
  index : Int
  status : sqlx_base_status_e
  open_attempts : grid_single_rrd_s
  open_wait_time : grid_single_rrd_s
  deriving DecidableEq, Repr

/-- A slot as `g_malloc0` leaves it. -/
def sqlx_base_zero : sqlx_base_s :=
  { name := none, owner := none, handle := 0, last_update := 0,
    link_prev := 0, link_next := 0, heat := 0, count_open := 0,
    count_waiting := 0, index := 0, status := SQLX_BASE_ZERO,
    open_attempts := [], open_wait_time := [] }

instance : Inhabited sqlx_base_s := ⟨sqlx_base_zero⟩

/-- A call of one of the two hooks, with the handle passed. -/
inductive hook_call
  | unlock_hook (handle : gpointer)
  | close_hook (handle : gpointer)
  deriving DecidableEq, Repr

/-- The structure `struct sqlx_cache_s`, without its mutex.  `bases_by_name` is
the `GTree` as the list of its `(key, value)` pairs; a hook field tells whether
the function pointer is set; `hook_calls` is the record of the hook calls made
so far, most recent first. -/
structure sqlx_cache_s where
  bases_by_name : List (hashstr_t × Int)
  bases : List sqlx_base_s
  bases_max_soft : Nat
  bases_max_hard : Nat
  bases_used : Nat
  is_running : Bool
  last_memory_usage : Int
  beacon_free : beacon_s
  beacon_idle : beacon_s
  beacon_idle_hot : beacon_s
  beacon_used : beacon_s
  unlock_hook : Bool
  close_hook : Bool
  hook_calls : List hook_call
  deriving DecidableEq, Repr

/-- The variables of `sqliterepo_variables.h` and `common_variables.h` that the
cache reads (they are declared outside of the sources at hand). -/
structure config where
  sqliterepo_max_rss : Int
  sqliterepo_repo_max_bases_hard : Nat
  sqliterepo_repo_max_bases_soft : Nat
  _cache_grace_delay_cool : Int
  _cache_grace_delay_hot : Int
  _cache_min_load_on_heavy_load : Nat
  _cache_timeout_open : Int
  _cache_period_cond_wait : Int
  _cache_fail_on_heavy_load : Bool
  _cache_alert_on_heavy_load : Bool
  _cache_heat_threshold : Nat
  deriving DecidableEq, Repr

/-- The four `struct beacon_s *` that the list functions receive. -/
inductive beacon_ref
  | free
  | idle
  | idle_hot
  | used
  deriving DecidableEq, Repr

/-- Reads `*beacon`. -/
def sqlx_cache_s.beacon (cache : sqlx_cache_s) : beacon_ref → beacon_s
  | .free => cache.beacon_free
  | .idle => cache.beacon_idle
  | .idle_hot => cache.beacon_idle_hot
  | .used => cache.beacon_used

/-- Writes `*beacon`. -/
def sqlx_cache_s.set_beacon (cache : sqlx_cache_s) (r : beacon_ref) (b : beacon_s) :
    sqlx_cache_s :=
  match r with
  | .free => { cache with beacon_free := b }
  | .idle => { cache with beacon_idle := b }
  | .idle_hot => { cache with beacon_idle_hot := b }
  | .used => { cache with beacon_used := b }

/-- The macro `GET(R,I)`: the slot `(R)->bases + (I)`. -/
def GET (cache : sqlx_cache_s) (i : Nat) : sqlx_base_s :=
  cache.bases.getD i default

/-- A write through a `sqlx_base_t *`: the slot `i` becomes `f` of itself. -/
def sqlx_cache_s.update (cache : sqlx_cache_s) (i : Nat) (f : sqlx_base_s → sqlx_base_s) :
    sqlx_cache_s :=
  { cache with bases := cache.bases.set i (f (GET cache i)) }

/-- The glib macro `CLAMP(x, low, high)`. -/
def CLAMP (x low high : Nat) : Nat :=
  if x > high then high else if x < low then low else x

/-- The constant `G_TIME_SPAN_MILLISECOND`. -/
def G_TIME_SPAN_MILLISECOND : Int := 1000

/-- The constant `G_TIME_SPAN_SECOND`. -/
def G_TIME_SPAN_SECOND : Int := 1000000

/-! ## The slot table and the beacon lists -/

/-- The function `_ram_exhausted`. -/
def _ram_exhausted (cfg : config) (cache : sqlx_cache_s) : Bool :=
  if cfg.sqliterepo_max_rss ≠ 0 then
    let total := cache.last_memory_usage
    if total > cfg.sqliterepo_max_rss then true else false
  else false

/-- The function `base_id_out`. -/
def base_id_out (cache : sqlx_cache_s) (bd : Int) : Bool :=
  decide (bd < 0) || decide (bd.toNat ≥ cache.bases_max_hard)

/-- The function `sqlx_get_by_id`. -/
def sqlx_get_by_id (cache : sqlx_cache_s) (i : Int) : Option Nat :=
  if base_id_out cache i then none else some i.toNat

/-- The function `sqlx_next_by_id`. -/
def sqlx_next_by_id (cache : sqlx_cache_s) (i : Int) : Option Nat :=
  match sqlx_get_by_id cache i with
  | some current => sqlx_get_by_id cache (GET cache current).link_next
  | none => none

/-- The function `sqlx_prev_by_id`. -/
def sqlx_prev_by_id (cache : sqlx_cache_s) (i : Int) : Option Nat :=
  match sqlx_get_by_id cache i with
  | some current => sqlx_get_by_id cache (GET cache current).link_prev
  | none => none

/-- The function `sqlx_base_get_id`. -/
def sqlx_base_get_id (cache : sqlx_cache_s) (base : Option Nat) : Int :=
  match base with
  | some b => (GET cache b).index
  | none => -1

/-- The first part of `SQLX_REMOVE`: "Update the beacon". -/
def SQLX_REMOVE_beacon (cache : sqlx_cache_s) (base : Nat) (r : beacon_ref) : sqlx_cache_s :=
  let cache :=
    if (cache.beacon r).first = (GET cache base).index then
      cache.set_beacon r { cache.beacon r with
        first := sqlx_base_get_id cache (sqlx_next_by_id cache (cache.beacon r).first) }
    else cache
  if (cache.beacon r).last = (GET cache base).index then
    cache.set_beacon r { cache.beacon r with
      last := sqlx_base_get_id cache (sqlx_prev_by_id cache (cache.beacon r).last) }
  else cache

/-- The second part of `SQLX_REMOVE`: "Update the previous and next". -/
def SQLX_REMOVE_links (cache : sqlx_cache_s) (base : Nat) : sqlx_cache_s :=
  let next := sqlx_get_by_id cache (GET cache base).link_next
  let prev := sqlx_get_by_id cache (GET cache base).link_prev
  let cache :=
    match prev with
    | some p => cache.update p (fun s => { s with link_next := sqlx_base_get_id cache next })
    | none => cache
  match next with
  | some n => cache.update n (fun s => { s with link_prev := sqlx_base_get_id cache prev })
  | none => cache

/-- The third part of `SQLX_REMOVE`: "Update the base itself". -/
def SQLX_REMOVE_base (cache : sqlx_cache_s) (base : Nat) : sqlx_cache_s :=
  cache.update base (fun s =>
    { s with status := SQLX_BASE_ZERO, link_prev := -1, link_next := -1 })

/-- The function `SQLX_REMOVE`, in the three parts that its comments tell. -/
def SQLX_REMOVE (cache : sqlx_cache_s) (base : Nat) (r : beacon_ref) : sqlx_cache_s :=
  SQLX_REMOVE_base (SQLX_REMOVE_links (SQLX_REMOVE_beacon cache base r) base) base

/-- The function `SQLX_UNSHIFT`. -/
def SQLX_UNSHIFT (mt : Int) (cache : sqlx_cache_s) (base : Nat) (r : beacon_ref)
    (status : sqlx_base_status_e) : sqlx_cache_s :=
  let cache := cache.update base (fun s => { s with link_prev := -1, link_next := -1 })
  let cache := cache.update base (fun s => { s with link_next := (cache.beacon r).first })
  let first := sqlx_get_by_id cache (cache.beacon r).first
  let cache :=
    match first with
    | some f => cache.update f (fun s => { s with link_prev := (GET cache base).index })
    | none => cache
  let cache := cache.set_beacon r { cache.beacon r with first := (GET cache base).index }
  let cache :=
    if (cache.beacon r).last < 0 then
      cache.set_beacon r { cache.beacon r with last := (GET cache base).index }
    else cache
  cache.update base (fun s => { s with status := status, last_update := mt })

/-- The glib function `g_tree_lookup`; `0` is the `NULL` of a key that is absent. -/
def g_tree_lookup (tree : List (hashstr_t × Int)) (key : hashstr_t) : Int :=
  match tree.find? (fun e => e.1 = key) with
  | some e => e.2
  | none => 0

/-- The glib function `g_tree_remove`. -/
def g_tree_remove (tree : List (hashstr_t × Int)) (key : hashstr_t) :
    List (hashstr_t × Int) :=
  tree.filter (fun e => e.1 ≠ key)

/-- The glib function `g_tree_replace`. -/
def g_tree_replace (tree : List (hashstr_t × Int)) (key : hashstr_t) (value : Int) :
    List (hashstr_t × Int) :=
  (key, value) :: g_tree_remove tree key

/-- The function `sqlx_save_id`; a base without a name saves nothing. -/
def sqlx_save_id (cache : sqlx_cache_s) (base : Nat) : sqlx_cache_s :=
  match (GET cache base).name with
  | some n =>
    let pointer_index := (GET cache base).index + 1
    { cache with bases_by_name := g_tree_replace cache.bases_by_name n pointer_index }
  | none => cache

/-- The function `sqlx_lookup_id`. -/
def sqlx_lookup_id (cache : sqlx_cache_s) (hs : hashstr_t) : Int :=
  let lookup_result := g_tree_lookup cache.bases_by_name hs
  if lookup_result = 0 then -1 else lookup_result - 1

/-- The function `sqlx_base_remove_from_list`. -/
def sqlx_base_remove_from_list (cache : sqlx_cache_s) (base : Nat) : sqlx_cache_s :=
  match (GET cache base).status with
  | SQLX_BASE_FREE => SQLX_REMOVE cache base .free
  | SQLX_BASE_IDLE => SQLX_REMOVE cache base .idle
  | SQLX_BASE_IDLE_HOT => SQLX_REMOVE cache base .idle_hot
  | SQLX_BASE_USED => SQLX_REMOVE cache base .used
  | SQLX_BASE_CLOSING => cache
  | SQLX_BASE_CLOSING_FOR_DELETION => cache
  | SQLX_BASE_ZERO => cache

/-- The decrement of a `guint`. -/
def guint_dec (n : Nat) : Nat :=
  if n = 0 then 4294967295 else n - 1

/-- The function `sqlx_base_add_to_list`. -/
def sqlx_base_add_to_list (mt : Int) (cache : sqlx_cache_s) (base : Nat)
    (status : sqlx_base_status_e) : sqlx_cache_s :=
  match status with
  | SQLX_BASE_FREE =>
    let cache := { cache with bases_used := guint_dec cache.bases_used }
    SQLX_UNSHIFT mt cache base .free SQLX_BASE_FREE
  | SQLX_BASE_IDLE => SQLX_UNSHIFT mt cache base .idle SQLX_BASE_IDLE
  | SQLX_BASE_IDLE_HOT => SQLX_UNSHIFT mt cache base .idle_hot SQLX_BASE_IDLE_HOT
  | SQLX_BASE_USED => SQLX_UNSHIFT mt cache base .used SQLX_BASE_USED
  | SQLX_BASE_CLOSING => cache.update base (fun s => { s with status := status })
  | SQLX_BASE_CLOSING_FOR_DELETION => cache.update base (fun s => { s with status := status })
  | SQLX_BASE_ZERO => cache

/-- The function `sqlx_base_move_to_list`. -/
def sqlx_base_move_to_list (mt : Int) (cache : sqlx_cache_s) (base : Nat)
    (status : sqlx_base_status_e) : sqlx_cache_s :=
  if status ≠ (GET cache base).status then
    sqlx_base_add_to_list mt (sqlx_base_remove_from_list cache base) base status
  else cache

/-- The function `_has_idle_unlocked`. -/
def _has_idle_unlocked (cache : sqlx_cache_s) : Bool :=
  decide (cache.beacon_idle.first ≠ -1) || decide (cache.beacon_idle_hot.first ≠ -1)

/-! ## Reservation and eviction -/

/-- The errors (`GError *`) that the cache builds, by the macro or the code that
builds them; a message is the text of its format. -/
inductive GError
  | BUSY (message : String)
  | TIMEOUT (message : String)
  | CODE_UNAVAILABLE (message : String)
  | CODE_CONTAINER_NOTFOUND (message : String)
  | CODE_INTERNAL_ERROR (message : String)
  | EXCESSIVE_LOAD (waiting_requests : Nat) (avg_waiting_time : Int) (deadline_reached : Bool)
  deriving DecidableEq, Repr

/-- The function `sqlx_base_reserve`: the cache, the error and `*result`. -/
def sqlx_base_reserve (self : GThread) (mt : Int) (cache : sqlx_cache_s) (hs : hashstr_t) :
    sqlx_cache_s × Option GError × Option Nat :=
  if cache.bases_used ≥ cache.bases_max_soft then
    if _has_idle_unlocked cache then
      (cache, none, none)
    else
      (cache, some (GError.BUSY "Max bases reached"), none)
  else
    match sqlx_get_by_id cache cache.beacon_free.first with
    | none => (cache, none, none)
    | some base =>
      let cache := { cache with bases_used := cache.bases_used + 1 }
      let cache := cache.update base (fun s =>
        { s with name := some hs, count_open := 1, handle := 0, owner := some self })
      let cache := sqlx_base_move_to_list mt cache base SQLX_BASE_USED
      let cache := sqlx_save_id cache base
      (cache, none, some base)

/-- The function `_expire_base` until it releases the lock: the base goes to the
CLOSING state and the close hook, when there is one, is called with the handle. -/
def _expire_base_begin (mt : Int) (cache : sqlx_cache_s) (b : Nat) (deleted : Bool) :
    sqlx_cache_s :=
  let handle := (GET cache b).handle
  let cache := sqlx_base_move_to_list mt cache b
    (if deleted then SQLX_BASE_CLOSING_FOR_DELETION else SQLX_BASE_CLOSING)
  if cache.close_hook then
    { cache with hook_calls := hook_call.close_hook handle :: cache.hook_calls }
  else cache

/-- The function `_expire_base` from the point where it has the lock again. -/
def _expire_base_end (mt : Int) (cache : sqlx_cache_s) (b : Nat) : sqlx_cache_s :=
  let n := (GET cache b).name
  let cache := cache.update b (fun s =>
    { s with handle := 0, heat := 0, owner := none, name := none, count_open := 0,
             last_update := 0 })
  let cache := sqlx_base_move_to_list mt cache b SQLX_BASE_FREE
  match n with
  | some n => { cache with bases_by_name := g_tree_remove cache.bases_by_name n }
  | none => cache

/-- The function `_expire_base`, when no other thread runs while the lock is
released. -/
def _expire_base (mt : Int) (cache : sqlx_cache_s) (b : Nat) (deleted : Bool) :
    sqlx_cache_s :=
  _expire_base_end mt (_expire_base_begin mt cache b deleted) b

/-- Modelled from the spec: the macro `OLDEST(now, delay)` is not part of the
sources at hand; the spec has a candidate eligible when
`last_update ≤ now − grace_delay`. -/
def OLDEST (now delay : Int) : Int := now - delay

/-- The function `_expire_specific_base` until `_expire_base` releases the lock;
`none` is its early `return 0`, that changes nothing. -/
def _expire_specific_base_begin (self : GThread) (mt : Int) (cache : sqlx_cache_s) (b : Nat)
    (now grace_delay : Int) : Option sqlx_cache_s :=
  if now > 0 ∧ (grace_delay ≤ 0 ∨ (GET cache b).last_update > OLDEST now grace_delay) then
    none
  else
    /- make it used and locked by the current thread -/
    let cache := cache.update b (fun s => { s with owner := some self })
    let cache := sqlx_base_move_to_list mt cache b SQLX_BASE_USED
    some (_expire_base_begin mt cache b false)

/-- The function `_expire_specific_base`, when no other thread runs while the
lock is released: the cache and the value returned. -/
def _expire_specific_base (self : GThread) (mt : Int) (cache : sqlx_cache_s) (b : Nat)
    (now grace_delay : Int) : sqlx_cache_s × Int :=
  match _expire_specific_base_begin self mt cache b now grace_delay with
  | none => (cache, 0)
  | some cache => (_expire_base_end mt cache b, 1)

/-- The function `sqlx_expire_first_idle_base` until `_expire_base` releases the
lock, with the base being closed; `none` when it returns `0`, having changed
nothing. -/
def sqlx_expire_first_idle_base_begin (cfg : config) (self : GThread) (mt : Int)
    (cache : sqlx_cache_s) (now : Int) : Option (sqlx_cache_s × Nat) :=
  let first :=
    if 0 ≤ cache.beacon_idle.last then
      (_expire_specific_base_begin self mt cache cache.beacon_idle.last.toNat now
        cfg._cache_grace_delay_cool).map (fun c => (c, cache.beacon_idle.last.toNat))
    else none
  match first with
  | some r => some r
  | none =>
    if 0 ≤ cache.beacon_idle_hot.last then
      (_expire_specific_base_begin self mt cache cache.beacon_idle_hot.last.toNat now
        cfg._cache_grace_delay_hot).map (fun c => (c, cache.beacon_idle_hot.last.toNat))
    else none

/-- The function `sqlx_expire_first_idle_base`, when no other thread runs while
the lock is released: the cache and the value returned. -/
def sqlx_expire_first_idle_base (cfg : config) (self : GThread) (mt : Int)
    (cache : sqlx_cache_s) (now : Int) : sqlx_cache_s × Int :=
  match sqlx_expire_first_idle_base_begin cfg self mt cache now with
  | none => (cache, 0)
  | some (cache, b) => (_expire_base_end mt cache b, 1)

/-! ## Life cycle of the cache -/

/-- The function `sqlx_cache_reconfigure`. -/
def sqlx_cache_reconfigure (cfg : config) (cache : sqlx_cache_s) : sqlx_cache_s :=
  if cfg.sqliterepo_repo_max_bases_soft > 0 then
    let bases_max_soft := CLAMP cfg.sqliterepo_repo_max_bases_soft 1 cache.bases_max_hard
    { cache with bases_max_soft := bases_max_soft }
  else
    { cache with bases_max_soft := cache.bases_max_hard }

/-- The function `sqlx_cache_set_running`. -/
def sqlx_cache_set_running (cache : sqlx_cache_s) (is_running : Bool) : sqlx_cache_s :=
  { cache with is_running := is_running }

/-- The function `sqlx_cache_set_unlock_hook`. -/
def sqlx_cache_set_unlock_hook (cache : sqlx_cache_s) (hook : Bool) : sqlx_cache_s :=
  { cache with unlock_hook := hook }

/-- The function `sqlx_cache_set_close_hook`. -/
def sqlx_cache_set_close_hook (cache : sqlx_cache_s) (hook : Bool) : sqlx_cache_s :=
  { cache with close_hook := hook }

/-- The second loop of `sqlx_cache_init`, from `i` downwards: the bases are
stacked in the FREE list. -/
def sqlx_cache_init_stack (mt : Int) : Nat → sqlx_cache_s → sqlx_cache_s
  | 0, cache => cache
  | i + 1, cache =>
    sqlx_cache_init_stack mt i (SQLX_UNSHIFT mt cache i .free SQLX_BASE_FREE)

/-- The first part of `sqlx_cache_init`: the allocation of the cache and of its
slots, and the first loop, that sets the index and the links of every slot. -/
def sqlx_cache_init_alloc (cfg : config) (mt : Int) : sqlx_cache_s :=
  let bases_max_hard :=
    if cfg.sqliterepo_repo_max_bases_hard ≠ 0 then cfg.sqliterepo_repo_max_bases_hard
    else 1024
  let now := mt.tdiv G_TIME_SPAN_SECOND
  { bases_by_name := [],
    bases := (List.range bases_max_hard).map (fun (i : Nat) =>
      { sqlx_base_zero with
        index := (i : Int), link_prev := -1, link_next := -1,
        open_attempts := grid_single_rrd_create now 60,
        open_wait_time := grid_single_rrd_create now 60 }),
    bases_max_soft := CLAMP cfg.sqliterepo_repo_max_bases_soft 1 bases_max_hard,
    bases_max_hard := bases_max_hard,
    bases_used := 0,
    is_running := false,
    last_memory_usage := 0,
    beacon_free := ⟨-1, -1⟩,
    beacon_idle := ⟨-1, -1⟩,
    beacon_idle_hot := ⟨-1, -1⟩,
    beacon_used := ⟨-1, -1⟩,
    unlock_hook := false,
    close_hook := false,
    hook_calls := [] }

/-- The function `sqlx_cache_init`. -/
def sqlx_cache_init (cfg : config) (mt : Int) : sqlx_cache_s :=
  let cache := sqlx_cache_init_alloc cfg mt
  let cache := sqlx_cache_init_stack mt cache.bases_max_hard cache
  { cache with is_running := true }

/-- The function `sqlx_cache_get_handle`. -/
def sqlx_cache_get_handle (cache : sqlx_cache_s) (bd : Nat) : gpointer :=
  (GET cache bd).handle

/-- The function `sqlx_cache_set_handle`. -/
def sqlx_cache_set_handle (cache : sqlx_cache_s) (bd : Nat) (sq3 : gpointer) : sqlx_cache_s :=
  cache.update bd (fun s => { s with handle := sq3 })

/-- The function `sqlx_cache_set_last_memory_usage`. -/
def sqlx_cache_set_last_memory_usage (cache : sqlx_cache_s) (usage : Int) : sqlx_cache_s :=
  { cache with last_memory_usage := usage }

/-- The loop of `_count_beacon`, that follows `link.next` from `idx`. -/
def _count_beacon_from (cache : sqlx_cache_s) : Nat → Int → Option Nat
  | 0, _ => none
  | fuel + 1, idx =>
    if idx ≠ -1 then
      (_count_beacon_from cache fuel (GET cache idx.toNat).link_next).map (fun n => n + 1)
    else some 0


/-! ## The overload predicate -/

/-- The conversion of a `gint64` to a `guint64`. -/
def to_guint64 (x : Int) : Nat := (x % 18446744073709551616).toNat

/-- The function `_base_is_accessible`. -/
def _base_is_accessible (cfg : config) (cache : sqlx_cache_s) (base : Nat) (now : Int)
    (period : Nat) : Bool :=
  let period := CLAMP (period / 1000000) 1 60
  decide (grid_single_rrd_get_delta (GET cache base).open_attempts
      (now.tdiv G_TIME_SPAN_SECOND) period
    ≥ period * cfg._cache_min_load_on_heavy_load)

/-- The function `_load_too_high` on the two sums `dx` and `dt` that it reads from
the counters of the base.  The result is the average waiting time in
microseconds, that the C function returns divided by `G_TIME_SPAN_SECOND` as a
`double` (the one is positive exactly when the other is); `none` is the trap of
a division by zero. -/
def _load_too_high_of (cfg : config) (dx dt : Nat) (remaining_time : Int) : Option Int :=
  if dx ≥ 10 * cfg._cache_min_load_on_heavy_load then
    if dx = 0 then none
    else
      let avg_waiting_time : Int := ((dt / dx : Nat) : Int)
      if avg_waiting_time > remaining_time then some avg_waiting_time
      else some 0
  else some 0

/-- The function `_load_too_high`. -/
def _load_too_high (cfg : config) (cache : sqlx_cache_s) (base : Nat) (now : Int)
    (remaining_time : Int) : Option Int :=
  let dx := grid_single_rrd_get_delta (GET cache base).open_attempts
    (now.tdiv G_TIME_SPAN_SECOND) 10
  let dt := grid_single_rrd_get_delta (GET cache base).open_wait_time
    (now.tdiv G_TIME_SPAN_SECOND) 10
  _load_too_high_of cfg dx dt remaining_time

/-! ## `sqlx_cache_open_and_lock_base` -/

/-- The local variables of `sqlx_cache_open_and_lock_base` that live across its
label `retry`, with its arguments and the calling thread. -/
structure open_locals where
  self : GThread
  hname : hashstr_t
  urgent : Bool
  deadline : Int
  start : Int
  deadline_margin : Int
  attempts : Nat
  base : Option Nat
  deriving DecidableEq, Repr

/-- The code of `sqlx_cache_open_and_lock_base` before it takes the lock; `start`
is the time it reads. -/
def open_enter (cfg : config) (self : GThread) (hname : hashstr_t) (urgent : Bool)
    (deadline : Int) (start : Int) : open_locals :=
  let local_deadline := start + cfg._cache_timeout_open
  let deadline := if deadline ≤ 0 then local_deadline else min deadline local_deadline
  /- Half the request timeout, or 2 wait periods. -/
  let deadline_margin := min ((deadline - start).tdiv 2) (2 * cfg._cache_period_cond_wait)
  { self := self, hname := hname, urgent := urgent, deadline := deadline, start := start,
    deadline_margin := deadline_margin, attempts := 0, base := none }

/-- What one pass of `sqlx_cache_open_and_lock_base` from its label `retry` comes
to: the function returns (with the error and `*result`), or it goes back to
`retry` at once, or it waits on a condition of the base and goes back to
`retry`, or it is in the close hook of a base that it evicts, or it aborts. -/
inductive open_next
  | done (cache : sqlx_cache_s) (err : Option GError) (result : Option Int)
  | retry (cache : sqlx_cache_s) (l : open_locals)
  | wait_used (cache : sqlx_cache_s) (l : open_locals) (base : Nat)
  | wait_closing (cache : sqlx_cache_s) (l : open_locals)
  | closing (cache : sqlx_cache_s) (l : open_locals) (b : Nat)
  | abort
  deriving DecidableEq, Repr

/-- The end of `sqlx_cache_open_and_lock_base`, from `if (base)` to its return. -/
def open_finish (mt : Int) (cache : sqlx_cache_s) (l : open_locals) (err : Option GError)
    (result : Option Int) (base_has_been_opened : Bool) : open_next :=
  match l.base with
  | some base =>
    let now := mt
    let now_secs := now.tdiv G_TIME_SPAN_SECOND
    let wait_time := now - l.start
    let cache :=
      if base_has_been_opened then
        let cache := cache.update base (fun s =>
          { s with open_attempts := grid_single_rrd_add s.open_attempts now_secs 1 })
        let cache := cache.update base (fun s =>
          { s with open_wait_time :=
              grid_single_rrd_add s.open_wait_time now_secs (to_guint64 wait_time) })
        /- Base has been opened very quickly, consider it cold. -/
        if l.attempts = 1 ∧ wait_time < G_TIME_SPAN_MILLISECOND
            ∧ (GET cache base).count_waiting < 2 then
          cache.update base (fun s => { s with heat := 0 })
        else cache
      else cache
    open_next.done cache err result
  | none => open_next.done cache err result

/-- One pass of `sqlx_cache_open_and_lock_base` from its label `retry`, with the
lock held. -/
def open_pass (cfg : config) (mt : Int) (cache : sqlx_cache_s) (l : open_locals) :
    open_next :=
  let l := { l with attempts := l.attempts + 1 }
  if !cache.is_running then
    open_finish mt cache l (some (GError.BUSY "service exiting")) none false
  else
    let bd := sqlx_lookup_id cache l.hname
    if bd < 0 then
      match sqlx_base_reserve l.self mt cache l.hname with
      | (cache, some err, base) =>
        open_finish mt cache { l with base := base } (some err) none false
      | (cache, none, some base) =>
        open_finish mt cache { l with base := some base } none
          (some (GET cache base).index) false
      | (cache, none, none) =>
        match sqlx_expire_first_idle_base_begin cfg l.self mt cache 0 with
        | some (cache, b) =>
          /- the value returned will be 1 -/
          open_next.closing cache { l with base := none } b
        | none =>
          if (0 : Int) ≥ 0 then open_next.retry cache { l with base := none }
          else
            open_finish mt cache { l with base := none }
              (some (GError.CODE_UNAVAILABLE "No idle base in cache")) none false
    else
      let base := bd.toNat
      let l := { l with base := some base }
      let now := mt
      let remaining_time := l.deadline - now
      if remaining_time ≤ 0 then
        let wait_time := now - l.start
        if (GET cache base).status = SQLX_BASE_USED ∧ (GET cache base).owner = some l.self then
          /- The database is already open but the deadline has passed -/
          open_finish mt cache l (some (GError.TIMEOUT "Deadline reached")) none false
        else if l.attempts < 2 then
          /- The deadline was reached without having had time to make the
             slightest attempt -/
          open_finish mt cache l
            (some (GError.BUSY "DB busy (deadline reached): no attempt to open")) none false
        else if cfg._cache_fail_on_heavy_load
            ∧ _base_is_accessible cfg cache base now (to_guint64 wait_time) then
          match _load_too_high cfg cache base now 0 with
          | some avg =>
            open_finish mt cache l
              (some (GError.EXCESSIVE_LOAD (GET cache base).count_waiting avg true)) none false
          | none => open_next.abort
        else
          open_finish mt cache l (some (GError.BUSY "DB busy (deadline reached)")) none false
      else
        match (GET cache base).status with
        | SQLX_BASE_FREE => open_next.abort
        | SQLX_BASE_IDLE | SQLX_BASE_IDLE_HOT =>
          /- Base unused right now, the current thread get it! -/
          let cache := sqlx_base_move_to_list mt cache base SQLX_BASE_USED
          let cache := cache.update base (fun s =>
            { s with count_open := s.count_open + 1, owner := some l.self })
          open_finish mt cache l none (some (GET cache base).index) true
        | SQLX_BASE_USED =>
          if (GET cache base).owner ≠ some l.self then
            let waits (cache : sqlx_cache_s) : open_next :=
              open_next.wait_used
                (cache.update base (fun s =>
                  { s with count_waiting := s.count_waiting + 1, heat := 1 }))
                l base
            if !l.urgent then
              let margin : Int :=
                if !cfg._cache_fail_on_heavy_load ∧ cfg._cache_alert_on_heavy_load then
                  l.deadline_margin
                else 0
              match _load_too_high cfg cache base now (remaining_time - margin) with
              | none => open_next.abort
              | some avg_waiting_time =>
                if avg_waiting_time > 0 ∧ cfg._cache_fail_on_heavy_load then
                  open_finish mt cache l
                    (some (GError.EXCESSIVE_LOAD (GET cache base).count_waiting
                      avg_waiting_time false)) none false
                else waits cache
            else waits cache
          else
            /- Already opened by this thread -/
            let cache := cache.update base (fun s =>
              { s with owner := some l.self, count_open := s.count_open + 1 })
            open_finish mt cache l none (some (GET cache base).index) false
        | SQLX_BASE_CLOSING => open_next.wait_closing cache l
        | SQLX_BASE_CLOSING_FOR_DELETION =>
          open_finish mt cache l
            (some (GError.CODE_CONTAINER_NOTFOUND "Base being deleted")) none false
        | SQLX_BASE_ZERO => open_finish mt cache l none none false

/-- The code of `sqlx_cache_open_and_lock_base` after its wait on a condition of
a base in use: `base->count_waiting --`. -/
def open_wake_used (cache : sqlx_cache_s) (base : Nat) : sqlx_cache_s :=
  cache.update base (fun s => { s with count_waiting := guint_dec s.count_waiting })

/-- What a call of a function of the cache comes to when it runs alone. -/
inductive call_result (α : Type)
  | returned (cache : sqlx_cache_s) (value : α)
  | aborted
  | out_of_fuel
  deriving DecidableEq, Repr

/-- The loop of `sqlx_cache_open_and_lock_base` when no other thread runs:
`clock k` is the time during the `k`-th section of code run with the lock. -/
def open_loop (cfg : config) (clock : Nat → Int) :
    Nat → Nat → sqlx_cache_s → open_locals → call_result (Option GError × Option Int)
  | 0, _, _, _ => call_result.out_of_fuel
  | fuel + 1, k, cache, l =>
    match open_pass cfg (clock k) cache l with
    | open_next.done cache err result => call_result.returned cache (err, result)
    | open_next.retry cache l => open_loop cfg clock fuel (k + 1) cache l
    | open_next.wait_used cache l base =>
      open_loop cfg clock fuel (k + 1) (open_wake_used cache base) l
    | open_next.wait_closing cache l => open_loop cfg clock fuel (k + 1) cache l
    | open_next.closing cache l b =>
      open_loop cfg clock fuel (k + 1) (_expire_base_end (clock (k + 1)) cache b) l
    | open_next.abort => call_result.aborted

/-- The function `sqlx_cache_open_and_lock_base` when no other thread runs, with
at most `fuel` passes from its label `retry`: the error returned and `*result`.
The time read at the entry is `clock 0`. -/
def sqlx_cache_open_and_lock_base (fuel : Nat) (cfg : config) (clock : Nat → Int)
    (self : GThread) (cache : sqlx_cache_s) (hname : hashstr_t) (urgent : Bool)
    (deadline : Int) : call_result (Option GError × Option Int) :=
  open_loop cfg clock fuel 1 cache (open_enter cfg self hname urgent deadline (clock 0))

/-! ## `sqlx_cache_unlock_and_close_base` and the expiration functions -/

/-- Modelled from the spec: the constants `SQLX_CLOSE_IMMEDIATELY` and
`SQLX_CLOSE_FOR_DELETION` are declared outside of the sources at hand; `flags`
is the pair of the two bits that the code tests. -/
structure close_flags where
  SQLX_CLOSE_IMMEDIATELY : Bool
  SQLX_CLOSE_FOR_DELETION : Bool
  deriving DecidableEq, Repr

/-- What the code of a function comes to when it may evict a base: it returns,
or it is in the close hook of the base `b`, or it aborts. -/
inductive close_next (α : Type)
  | done (cache : sqlx_cache_s) (value : α)
  | closing (cache : sqlx_cache_s) (b : Nat)
  | abort
  deriving DecidableEq, Repr

/-- The lines of `sqlx_cache_unlock_and_close_base` that release a base whose
last opening is closed with no flag: the unlock hook, when there is one, is
called with the handle, the base has no owner any more and it goes to the
IDLE_HOT or to the IDLE list. -/
def unlock_release (cfg : config) (mt : Int) (cache : sqlx_cache_s) (base : Nat) :
    sqlx_cache_s :=
  let cache :=
    if cache.unlock_hook then
      { cache with hook_calls :=
          hook_call.unlock_hook (GET cache base).handle :: cache.hook_calls }
    else cache
  let cache := cache.update base (fun s => { s with owner := none })
  if (GET cache base).heat ≥ cfg._cache_heat_threshold then
    sqlx_base_move_to_list mt cache base SQLX_BASE_IDLE_HOT
  else
    sqlx_base_move_to_list mt cache base SQLX_BASE_IDLE

/-- The function `sqlx_cache_unlock_and_close_base` until it returns or releases
the lock around the close hook. -/
def sqlx_cache_unlock_and_close_base_begin (cfg : config) (self : GThread) (mt : Int)
    (cache : sqlx_cache_s) (bd : Int) (flags : close_flags) : close_next (Option GError) :=
  if base_id_out cache bd then
    close_next.done cache (some (GError.CODE_INTERNAL_ERROR "invalid base id"))
  else
    let base := bd.toNat
    match (GET cache base).status with
    | SQLX_BASE_FREE =>
      if (GET cache base).owner ≠ none then close_next.abort
      else if (GET cache base).count_open ≠ 0 then close_next.abort
      else close_next.done cache (some (GError.CODE_INTERNAL_ERROR "base not used"))
    | SQLX_BASE_IDLE | SQLX_BASE_IDLE_HOT =>
      if (GET cache base).owner ≠ none then close_next.abort
      else if (GET cache base).count_open ≠ 0 then close_next.abort
      else close_next.done cache (some (GError.CODE_INTERNAL_ERROR "base closed"))
    | SQLX_BASE_USED =>
      if (GET cache base).owner = none then close_next.abort
      else if (GET cache base).owner ≠ some self then close_next.abort
      else if (GET cache base).count_open < 1 then close_next.abort
      else
        /- held by the current thread -/
        let cache := cache.update base (fun s => { s with count_open := guint_dec s.count_open })
        if (GET cache base).count_open = 0 then
          /- to be closed -/
          if flags.SQLX_CLOSE_IMMEDIATELY ∨ flags.SQLX_CLOSE_FOR_DELETION then
            close_next.closing (_expire_base_begin mt cache base flags.SQLX_CLOSE_FOR_DELETION)
              base
          else
            let cache := unlock_release cfg mt cache base
            /- Optimistic memory ceiling management. -/
            if _ram_exhausted cfg cache ∧ _has_idle_unlocked cache then
              match sqlx_expire_first_idle_base_begin cfg self mt cache 0 with
              | some (cache, b) => close_next.closing cache b
              | none => close_next.done cache none
            else close_next.done cache none
        else close_next.done cache none
    | SQLX_BASE_CLOSING | SQLX_BASE_CLOSING_FOR_DELETION =>
      if (GET cache base).owner = none then close_next.abort
      else if (GET cache base).owner = some self then close_next.abort
      else close_next.done cache (some (GError.CODE_INTERNAL_ERROR "base being closed"))
    | SQLX_BASE_ZERO => close_next.done cache none

/-- The function `sqlx_cache_unlock_and_close_base` when no other thread runs
while the lock is released. -/
def sqlx_cache_unlock_and_close_base (cfg : config) (self : GThread) (mt : Int)
    (cache : sqlx_cache_s) (bd : Int) (flags : close_flags) : call_result (Option GError) :=
  match sqlx_cache_unlock_and_close_base_begin cfg self mt cache bd flags with
  | close_next.done cache err => call_result.returned cache err
  | close_next.closing cache b => call_result.returned (_expire_base_end mt cache b) none
  | close_next.abort => call_result.aborted

/-- One turn of the loop of `sqlx_cache_expire_all`, when `nb` bases have been
expired. -/
def sqlx_cache_expire_all_turn (cfg : config) (self : GThread) (mt : Int)
    (cache : sqlx_cache_s) (nb : Nat) : close_next Nat :=
  match sqlx_expire_first_idle_base_begin cfg self mt cache 0 with
  | some (cache, b) => close_next.closing cache b
  | none => close_next.done cache nb

/-- One turn of the loop of `sqlx_cache_expire`, when `nb` bases have been
expired; `deadline` is the time read at the entry plus `duration`. -/
def sqlx_cache_expire_turn (cfg : config) (self : GThread) (mt : Int)
    (cache : sqlx_cache_s) (max : Nat) (deadline : Int) (nb : Nat) : close_next Nat :=
  if max = 0 ∨ nb < max then
    let now := mt
    if now > deadline then close_next.done cache nb
    else
      match sqlx_expire_first_idle_base_begin cfg self mt cache now with
      | some (cache, b) => close_next.closing cache b
      | none => close_next.done cache nb
  else close_next.done cache nb

/-- The loop of `sqlx_cache_expire` when no other thread runs, with at most
`fuel` turns. -/
def sqlx_cache_expire_loop (cfg : config) (self : GThread) (mt : Int) (max : Nat)
    (deadline : Int) : Nat → sqlx_cache_s → Nat → call_result Nat
  | 0, _, _ => call_result.out_of_fuel
  | fuel + 1, cache, nb =>
    match sqlx_cache_expire_turn cfg self mt cache max deadline nb with
    | close_next.done cache nb => call_result.returned cache nb
    | close_next.closing cache b =>
      sqlx_cache_expire_loop cfg self mt max deadline fuel (_expire_base_end mt cache b)
        (nb + 1)
    | close_next.abort => call_result.aborted

/-- The function `sqlx_cache_expire` when no other thread runs. -/
def sqlx_cache_expire (fuel : Nat) (cfg : config) (self : GThread) (mt : Int)
    (cache : sqlx_cache_s) (max : Nat) (duration : Int) : call_result Nat :=
  sqlx_cache_expire_loop cfg self mt max (mt + duration) fuel cache 0

end Sqlx


namespace Sqlx
open sqlx_base_status_e

/-! ## Sequences of slot indices

The beacon lists of a cache are described by the sequence of the indices of
their slots, from the first to the last. -/

/-- The first index of a sequence, `-1` when it is empty. -/
def headI : List Nat → Int
  | [] => -1
  | a :: _ => a

/-- The last index of a sequence, `-1` when it is empty. -/
def lastI : List Nat → Int
  | [] => -1
  | [a] => a
  | _ :: b :: l => lastI (b :: l)

/-- The index that follows `x` in a sequence, `-1` when `x` is its last index. -/
def nextOf : List Nat → Nat → Int
  | [], _ => -1
  | a :: l, x => if x = a then headI l else nextOf l x

/-- The index that precedes `x` in a sequence, `p` for its first index. -/
def prevOf (p : Int) : List Nat → Nat → Int
  | [], _ => -1
  | a :: l, x => if x = a then p else prevOf a l x

end Sqlx

namespace Sqlx
open sqlx_base_status_e

/-! ## Well-formed beacon lists -/

/-- The status of the slots of the list of a beacon. -/
def beacon_ref.status : beacon_ref → sqlx_base_status_e
  | .free => SQLX_BASE_FREE
  | .idle => SQLX_BASE_IDLE
  | .idle_hot => SQLX_BASE_IDLE_HOT
  | .used => SQLX_BASE_USED

/-- The fields of a slot that the list functions never write. -/
def sqlx_base_s.data (s : sqlx_base_s) :
    Option hashstr_t × Option GThread × gpointer × Nat × Nat × Nat × Int
      × grid_single_rrd_s × grid_single_rrd_s :=
  (s.name, s.owner, s.handle, s.heat, s.count_open, s.count_waiting, s.index,
    s.open_attempts, s.open_wait_time)

/-- The fields of a cache other than its slots, its beacons and `bases_used`. -/
def sqlx_cache_s.frame (c : sqlx_cache_s) :
    List (hashstr_t × Int) × Nat × Nat × Bool × Int × Bool × Bool × List hook_call :=
  (c.bases_by_name, c.bases_max_soft, c.bases_max_hard, c.is_running, c.last_memory_usage,
    c.unlock_hook, c.close_hook, c.hook_calls)

/-- The beacon `r` and the links of the slots of the cache `c` make the
doubly-linked list whose slots are, from the first to the last, those of `l`:
no slot occurs twice, `first` and `last` are the two ends of `l` (`-1` when it
is empty), the `link.next` of a slot is the slot that follows it in `l` (`-1`
for the last one) and its `link.prev` the slot that precedes it (`-1` for the
first one). -/
structure DList (c : sqlx_cache_s) (r : beacon_ref) (l : List Nat) : Prop where
  nodup : l.Nodup
  lt : ∀ x ∈ l, x < c.bases_max_hard
  first : (c.beacon r).first = headI l
  last : (c.beacon r).last = lastI l
  prev : ∀ x ∈ l, (GET c x).link_prev = prevOf (-1) l x
  next : ∀ x ∈ l, (GET c x).link_next = nextOf l x

/-- The four beacon lists of the cache `c` are the well-formed lists `L`, and
the list of a beacon holds exactly the slots of its status; a slot that is
being closed has no link. -/
structure Lists (c : sqlx_cache_s) (L : beacon_ref → List Nat) : Prop where
  len : c.bases.length = c.bases_max_hard
  idx : ∀ i, i < c.bases_max_hard → (GET c i).index = (i : Int)
  dl : ∀ r, DList c r (L r)
  mem : ∀ r i, i ∈ L r ↔ (i < c.bases_max_hard ∧ (GET c i).status = r.status)
  det : ∀ i, i < c.bases_max_hard →
    ((GET c i).status = SQLX_BASE_CLOSING ∨ (GET c i).status = SQLX_BASE_CLOSING_FOR_DELETION) →
    (GET c i).link_prev = -1 ∧ (GET c i).link_next = -1

/-- The lists `L` once the slot `b`, of status `x`, has left its list. -/
def L_remove (L : beacon_ref → List Nat) (x : sqlx_base_status_e) (b : Nat) :
    beacon_ref → List Nat :=
  fun r => if r.status = x then (L r).erase b else L r

/-- The lists `L` once the slot `b` is the first of the list of the status `y`. -/
def L_add (L : beacon_ref → List Nat) (y : sqlx_base_status_e) (b : Nat) :
    beacon_ref → List Nat :=
  fun r => if r.status = y then b :: L r else L r

/-- The lists `L` once the slot `b` has moved from the status `x` to `y`. -/
def L_move (L : beacon_ref → List Nat) (x y : sqlx_base_status_e) (b : Nat) :
    beacon_ref → List Nat :=
  if y = x then L else L_add (L_remove L x b) y b

end Sqlx

namespace Sqlx
open sqlx_base_status_e

/-! ## The cache shared by threads

Every function of the cache runs with the global lock held, but where it waits
on a condition of a base and where `_expire_base` calls the close hook.  A step
of the system is thus one section of code run by one thread with the lock held:
from the call of a function, or from the point where the thread takes the lock
again, to the return of the function or to the point where it releases the
lock. -/

/-- Where a thread stands between two steps: out of the cache, or inside a
function of the cache that has released the lock. -/
inductive thread_state
  /-- out of the cache -/
  | idle
  /-- in `sqlx_cache_open_and_lock_base`, at the label `retry` -/
  | open_retry (l : open_locals)
  /-- in `sqlx_cache_open_and_lock_base`, in the wait on a condition of `base`,
  that another thread uses; `count_waiting` has been incremented -/
  | open_wait_used (l : open_locals) (base : Nat)
  /-- in `sqlx_cache_open_and_lock_base`, in the wait on a base being closed -/
  | open_wait_closing (l : open_locals)
  /-- in `sqlx_cache_open_and_lock_base`, in the close hook of `b` -/
  | open_closing (l : open_locals) (b : Nat)
  /-- in `sqlx_cache_unlock_and_close_base`, in the close hook of `b` -/
  | close_closing (b : Nat)
  /-- in `sqlx_cache_expire_all`, in the close hook of `b`, after `nb` turns -/
  | expire_all_closing (nb : Nat) (b : Nat)
  /-- in `sqlx_cache_expire`, in the close hook of `b`, after `nb` turns -/
  | expire_closing (max : Nat) (deadline : Int) (nb : Nat) (b : Nat)
  deriving DecidableEq, Repr

/-- The cache and the threads that use it. -/
structure system where
  cache : sqlx_cache_s
  threads : GThread → thread_state

/-- What a step lets see from outside: nothing, or the return of a function. -/
inductive event
  | internal
  | open_returned (t : GThread) (hname : hashstr_t) (err : Option GError)
      (result : Option Int)
  | close_returned (t : GThread) (err : Option GError)
  | expire_returned (t : GThread) (nb : Nat)
  deriving DecidableEq, Repr

/-- The steps: a call of a function of the cache by a thread that is out of it
(`mt` is the time read with the lock held, `start` the time read before), or
the thread `t` going on from where it stands. -/
inductive action
  | open_call (t : GThread) (hname : hashstr_t) (urgent : Bool) (deadline start mt : Int)
  | resume (t : GThread) (mt : Int)
  | close_call (t : GThread) (bd : Int) (flags : close_flags) (mt : Int)
  | expire_all_call (t : GThread) (mt : Int)
  | expire_call (t : GThread) (max : Nat) (duration start mt : Int)
  | set_handle (t : GThread) (bd : Nat) (sq3 : gpointer)
  | reconfigure
  | set_running (is_running : Bool)
  | set_unlock_hook (hook : Bool)
  | set_close_hook (hook : Bool)
  | set_last_memory_usage (usage : Int)
  deriving DecidableEq, Repr

/-- The system after a pass of `sqlx_cache_open_and_lock_base` by the thread
`t`; there is none when the pass aborts. -/
def open_go (s : system) (t : GThread) (hname : hashstr_t) :
    open_next → Option (system × event)
  | open_next.done c err result =>
    some (⟨c, Function.update s.threads t thread_state.idle⟩,
      event.open_returned t hname err result)
  | open_next.retry c l =>
    some (⟨c, Function.update s.threads t (thread_state.open_retry l)⟩, event.internal)
  | open_next.wait_used c l base =>
    some (⟨c, Function.update s.threads t (thread_state.open_wait_used l base)⟩,
      event.internal)
  | open_next.wait_closing c l =>
    some (⟨c, Function.update s.threads t (thread_state.open_wait_closing l)⟩, event.internal)
  | open_next.closing c l b =>
    some (⟨c, Function.update s.threads t (thread_state.open_closing l b)⟩, event.internal)
  | open_next.abort => none

/-- The system after a section of `sqlx_cache_unlock_and_close_base` run by `t`. -/
def close_go (s : system) (t : GThread) :
    close_next (Option GError) → Option (system × event)
  | close_next.done c err =>
    some (⟨c, Function.update s.threads t thread_state.idle⟩, event.close_returned t err)
  | close_next.closing c b =>
    some (⟨c, Function.update s.threads t (thread_state.close_closing b)⟩, event.internal)
  | close_next.abort => none

/-- The system after a turn of the loop of `sqlx_cache_expire_all` run by `t`. -/
def expire_all_go (s : system) (t : GThread) (nb : Nat) :
    close_next Nat → Option (system × event)
  | close_next.done c nb =>
    some (⟨c, Function.update s.threads t thread_state.idle⟩, event.expire_returned t nb)
  | close_next.closing c b =>
    some (⟨c, Function.update s.threads t (thread_state.expire_all_closing nb b)⟩,
      event.internal)
  | close_next.abort => none

/-- The system after a turn of the loop of `sqlx_cache_expire` run by `t`. -/
def expire_go (s : system) (t : GThread) (max : Nat) (deadline : Int) (nb : Nat) :
    close_next Nat → Option (system × event)
  | close_next.done c nb =>
    some (⟨c, Function.update s.threads t thread_state.idle⟩, event.expire_returned t nb)
  | close_next.closing c b =>
    some (⟨c, Function.update s.threads t (thread_state.expire_closing max deadline nb b)⟩,
      event.internal)
  | close_next.abort => none

/-- One step of the system; there is none when the thread cannot take the step
from where it stands, or when the code aborts.  A handle is set by the thread
that owns the base, on a base that it uses. -/
def run (cfg : config) (a : action) (s : system) : Option (system × event) :=
  match a with
  | action.open_call t hname urgent deadline start mt =>
    match s.threads t with
    | thread_state.idle =>
      open_go s t hname (open_pass cfg mt s.cache (open_enter cfg t hname urgent deadline start))
    | _ => none
  | action.resume t mt =>
    match s.threads t with
    | thread_state.idle => none
    | thread_state.open_retry l => open_go s t l.hname (open_pass cfg mt s.cache l)
    | thread_state.open_wait_used l base =>
      open_go s t l.hname (open_pass cfg mt (open_wake_used s.cache base) l)
    | thread_state.open_wait_closing l => open_go s t l.hname (open_pass cfg mt s.cache l)
    | thread_state.open_closing l b =>
      open_go s t l.hname (open_pass cfg mt (_expire_base_end mt s.cache b) l)
    | thread_state.close_closing b =>
      some (⟨_expire_base_end mt s.cache b, Function.update s.threads t thread_state.idle⟩,
        event.close_returned t none)
    | thread_state.expire_all_closing nb b =>
      expire_all_go s t (nb + 1)
        (sqlx_cache_expire_all_turn cfg t mt (_expire_base_end mt s.cache b) (nb + 1))
    | thread_state.expire_closing max deadline nb b =>
      expire_go s t max deadline (nb + 1)
        (sqlx_cache_expire_turn cfg t mt (_expire_base_end mt s.cache b) max deadline (nb + 1))
  | action.close_call t bd flags mt =>
    match s.threads t with
    | thread_state.idle =>
      close_go s t (sqlx_cache_unlock_and_close_base_begin cfg t mt s.cache bd flags)
    | _ => none
  | action.expire_all_call t mt =>
    match s.threads t with
    | thread_state.idle => expire_all_go s t 0 (sqlx_cache_expire_all_turn cfg t mt s.cache 0)
    | _ => none
  | action.expire_call t max duration start mt =>
    match s.threads t with
    | thread_state.idle =>
      expire_go s t max (start + duration) 0
        (sqlx_cache_expire_turn cfg t mt s.cache max (start + duration) 0)
    | _ => none
  | action.set_handle t bd sq3 =>
    if s.threads t = thread_state.idle ∧ bd < s.cache.bases_max_hard
        ∧ (GET s.cache bd).status = SQLX_BASE_USED ∧ (GET s.cache bd).owner = some t then
      some (⟨sqlx_cache_set_handle s.cache bd sq3, s.threads⟩, event.internal)
    else none
  | action.reconfigure => some (⟨sqlx_cache_reconfigure cfg s.cache, s.threads⟩, event.internal)
  | action.set_running b => some (⟨sqlx_cache_set_running s.cache b, s.threads⟩, event.internal)
  | action.set_unlock_hook h =>
    some (⟨sqlx_cache_set_unlock_hook s.cache h, s.threads⟩, event.internal)
  | action.set_close_hook h =>
    some (⟨sqlx_cache_set_close_hook s.cache h, s.threads⟩, event.internal)
  | action.set_last_memory_usage u =>
    some (⟨sqlx_cache_set_last_memory_usage s.cache u, s.threads⟩, event.internal)

/-- The system when `sqlx_cache_init` returns: no thread is in the cache. -/
def system_init (cfg : config) (mt : Int) : system :=
  ⟨sqlx_cache_init cfg mt, fun _ => thread_state.idle⟩

/-- The states of the system that are reachable from `sqlx_cache_init`, the
variables of the configuration being free to change between two steps. -/
inductive Reachable : system → Prop
  | init (cfg : config) (mt : Int) : Reachable (system_init cfg mt)
  | step {s s' : system} {ev : event} (cfg : config) (a : action) :
      Reachable s → run cfg a s = some (s', ev) → Reachable s'

end Sqlx

namespace Sqlx
open sqlx_base_status_e

/-! ## The invariants of the cache -/

/-- What the status of a slot tells of its other fields. -/
structure Fields (s : sqlx_base_s) : Prop where
  valid : s.status ≠ SQLX_BASE_ZERO
  free : s.status = SQLX_BASE_FREE →
    s.name = none ∧ s.handle = 0 ∧ s.owner = none ∧ s.count_open = 0
  idle : s.status = SQLX_BASE_IDLE ∨ s.status = SQLX_BASE_IDLE_HOT →
    s.owner = none ∧ s.count_open = 0
  used : s.status = SQLX_BASE_USED → s.owner ≠ none ∧ 1 ≤ s.count_open
  closing : s.status = SQLX_BASE_CLOSING ∨ s.status = SQLX_BASE_CLOSING_FOR_DELETION →
    s.owner ≠ none ∧ s.count_open = 0

/-- The invariant of the cache, `L` being its four beacon lists: the lists are
well formed, the fields of every slot agree with its status, `bases_used` counts
the slots that are out of the FREE list, and the name index holds exactly the
names of the slots that are not FREE, each with the index of its slot plus one. -/
structure CacheInv (c : sqlx_cache_s) (L : beacon_ref → List Nat) : Prop where
  lists : Lists c L
  fields : ∀ i, i < c.bases_max_hard → Fields (GET c i)
  used : c.bases_used + (L beacon_ref.free).length = c.bases_max_hard
  soft : 1 ≤ c.bases_max_soft ∧ c.bases_max_soft ≤ c.bases_max_hard
  tree_nodup : (c.bases_by_name.map Prod.fst).Nodup
  tree_sound : ∀ n v, (n, v) ∈ c.bases_by_name →
    ∃ i, i < c.bases_max_hard ∧ v = (i : Int) + 1 ∧ (GET c i).name = some n
      ∧ (GET c i).status ≠ SQLX_BASE_FREE
  tree_complete : ∀ i, i < c.bases_max_hard → (GET c i).status ≠ SQLX_BASE_FREE →
    ∃ n, (GET c i).name = some n ∧ (n, (i : Int) + 1) ∈ c.bases_by_name

/-- The slot `b` is being closed by the thread `t`. -/
def closing_by (c : sqlx_cache_s) (t : GThread) (b : Nat) : Prop :=
  b < c.bases_max_hard
    ∧ ((GET c b).status = SQLX_BASE_CLOSING ∨ (GET c b).status = SQLX_BASE_CLOSING_FOR_DELETION)
    ∧ (GET c b).owner = some t

/-- The slot that a thread is closing, from where it stands. -/
def thread_state.closes : thread_state → Option Nat
  | thread_state.open_closing _ b => some b
  | thread_state.close_closing b => some b
  | thread_state.expire_all_closing _ b => some b
  | thread_state.expire_closing _ _ _ b => some b
  | _ => none

/-- The local variables of `sqlx_cache_open_and_lock_base`, for a thread that
stands in it. -/
def thread_state.locals : thread_state → Option open_locals
  | thread_state.open_retry l => some l
  | thread_state.open_wait_used l _ => some l
  | thread_state.open_wait_closing l => some l
  | thread_state.open_closing l _ => some l
  | _ => none

/-- The invariant of the system: the invariant of the cache, and the slots
that are being closed are those that a thread is closing, each owned by the
thread that closes it. -/
structure Inv (s : system) : Prop where
  cache : ∃ L, CacheInv s.cache L
  self : ∀ t l, (s.threads t).locals = some l → l.self = t
  closing : ∀ t i, closing_by s.cache t i ↔ (s.threads t).closes = some i

/-- The caches `c` and `c'` differ at most by their beacons, and by the links,
the status and `last_update` of their slots. -/
structure SameData (c c' : sqlx_cache_s) : Prop where
  length : c'.bases.length = c.bases.length
  frame : c'.frame = c.frame
  data : ∀ j, (GET c' j).data = (GET c j).data

/-- The predicate: the status is one of the four that have a beacon list. -/
def listed (x : sqlx_base_status_e) : Bool :=
  match x with
  | SQLX_BASE_FREE | SQLX_BASE_IDLE | SQLX_BASE_IDLE_HOT | SQLX_BASE_USED => true
  | _ => false

end Sqlx

namespace Sqlx
open sqlx_base_status_e

/-- From the cache `c` to `c'`, no slot but `b` has changed its status or the
fields that the list functions do not write. -/
structure Touch (c c' : sqlx_cache_s) (b : Nat) : Prop where
  hard : c'.bases_max_hard = c.bases_max_hard
  status : ∀ j, j ≠ b → (GET c' j).status = (GET c j).status
  data : ∀ j, j ≠ b → (GET c' j).data = (GET c j).data

/-- A section of code run by the thread `t`, that takes the cache from `c` to
`c'`, keeps the invariant of the cache, leaves the slots that the other threads
are closing as they are, and takes the slot that `t` is closing from `o` to
`o'`. -/
structure GoodStep (c c' : sqlx_cache_s) (t : GThread) (o o' : Option Nat) : Prop where
  cache : ∃ L', CacheInv c' L'
  others : ∀ t', t' ≠ t → ∀ i, closing_by c' t' i ↔ closing_by c t' i
  own : (∀ i, closing_by c t i ↔ o = some i) → (∀ i, closing_by c' t i ↔ o' = some i)

end Sqlx

namespace Sqlx
open sqlx_base_status_e

/-- The invariant of the cache but for the fields of the slot `b`, that is not
FREE: the state of the cache in the middle of a change of `b`. -/
structure CacheInvBut (c : sqlx_cache_s) (L : beacon_ref → List Nat) (b : Nat) : Prop where
  lists : Lists c L
  fields : ∀ i, i < c.bases_max_hard → i ≠ b → Fields (GET c i)
  used : c.bases_used + (L beacon_ref.free).length = c.bases_max_hard
  soft : 1 ≤ c.bases_max_soft ∧ c.bases_max_soft ≤ c.bases_max_hard
  tree_nodup : (c.bases_by_name.map Prod.fst).Nodup
  tree_sound : ∀ n v, (n, v) ∈ c.bases_by_name →
    ∃ i, i < c.bases_max_hard ∧ v = (i : Int) + 1 ∧ (GET c i).name = some n
      ∧ (GET c i).status ≠ SQLX_BASE_FREE
  tree_complete : ∀ i, i < c.bases_max_hard → (GET c i).status ≠ SQLX_BASE_FREE →
    ∃ n, (GET c i).name = some n ∧ (n, (i : Int) + 1) ∈ c.bases_by_name
  lt : b < c.bases_max_hard
  notfree : (GET c b).status ≠ SQLX_BASE_FREE
  valid : (GET c b).status ≠ SQLX_BASE_ZERO

end Sqlx

namespace Sqlx
open sqlx_base_status_e

/-- The condition of `_expire_specific_base` under which the base is expired. -/
def expirable (c : sqlx_cache_s) (b : Nat) (now grace_delay : Int) : Prop :=
  ¬ (now > 0 ∧ (grace_delay ≤ 0 ∨ (GET c b).last_update > OLDEST now grace_delay))

instance (c : sqlx_cache_s) (b : Nat) (now grace_delay : Int) :
    Decidable (expirable c b now grace_delay) := by
  unfold expirable; infer_instance

/-- The base that `sqlx_expire_first_idle_base` expires, if any: the last of
the IDLE list when it is expirable, else the last of the IDLE_HOT list when it
is expirable. -/
def expire_victim (cfg : config) (c : sqlx_cache_s) (now : Int) : Option Nat :=
  if 0 ≤ c.beacon_idle.last
      ∧ expirable c c.beacon_idle.last.toNat now cfg._cache_grace_delay_cool then
    some c.beacon_idle.last.toNat
  else if 0 ≤ c.beacon_idle_hot.last
      ∧ expirable c c.beacon_idle_hot.last.toNat now cfg._cache_grace_delay_hot then
    some c.beacon_idle_hot.last.toNat
  else none

end Sqlx

namespace Sqlx
open sqlx_base_status_e

/-- The caches `c` and `c'` differ at most by the heat, the count of waiting
threads and the two counters of their slots. -/
structure AuxSame (c c' : sqlx_cache_s) : Prop where
  length : c'.bases.length = c.bases.length
  frame : c'.frame = c.frame
  used : c'.bases_used = c.bases_used
  beacon : ∀ r, c'.beacon r = c.beacon r
  slot : ∀ j, (GET c' j).name = (GET c j).name ∧ (GET c' j).owner = (GET c j).owner
    ∧ (GET c' j).handle = (GET c j).handle ∧ (GET c' j).last_update = (GET c j).last_update
    ∧ (GET c' j).link_prev = (GET c j).link_prev ∧ (GET c' j).link_next = (GET c j).link_next
    ∧ (GET c' j).count_open = (GET c j).count_open ∧ (GET c' j).index = (GET c j).index
    ∧ (GET c' j).status = (GET c j).status

end Sqlx

namespace Sqlx
open sqlx_base_status_e

/-- A pass of `sqlx_cache_open_and_lock_base` by the thread `t` from the cache
`c` is a good step. -/
def open_next.good (c : sqlx_cache_s) (t : GThread) : open_next → Prop
  | open_next.done c' _ _ => GoodStep c c' t none none
  | open_next.retry c' l' => GoodStep c c' t none none ∧ l'.self = t
  | open_next.wait_used c' l' _ => GoodStep c c' t none none ∧ l'.self = t
  | open_next.wait_closing c' l' => GoodStep c c' t none none ∧ l'.self = t
  | open_next.closing c' l' b => GoodStep c c' t none (some b) ∧ l'.self = t
  | open_next.abort => True

/-- A section of a function that may evict a base, run by the thread `t` from
the cache `c`, is a good step. -/
def close_next.good {α : Type} (c : sqlx_cache_s) (t : GThread) : close_next α → Prop
  | close_next.done c' _ => GoodStep c c' t none none
  | close_next.closing c' b => GoodStep c c' t none (some b)
  | close_next.abort => True

end Sqlx

namespace Sqlx
open sqlx_base_status_e

/-- The beacon lists of a cache whose only list with slots is the FREE list `l`. -/
def L_free (l : List Nat) : beacon_ref → List Nat :=
  fun r => if r.status = SQLX_BASE_FREE then l else []

end Sqlx

namespace Sqlx
open sqlx_base_status_e

/-! ## A small cache, for concrete runs -/

/-- A configuration with two slots, no memory ceiling and a heat threshold of 1. -/
def demo_cfg : config :=
  { sqliterepo_max_rss := 0,
    sqliterepo_repo_max_bases_hard := 2,
    sqliterepo_repo_max_bases_soft := 2,
    _cache_grace_delay_cool := 0,
    _cache_grace_delay_hot := 0,
    _cache_min_load_on_heavy_load := 1,
    _cache_timeout_open := 1000,
    _cache_period_cond_wait := 10,
    _cache_fail_on_heavy_load := false,
    _cache_alert_on_heavy_load := false,
    _cache_heat_threshold := 1 }

/-- The cache of a call that has returned; the cache `d` otherwise. -/
def call_result.cache_or {α : Type} (d : sqlx_cache_s) : call_result α → sqlx_cache_s
  | call_result.returned c _ => c
  | _ => d

/-- The value of a call that has returned. -/
def call_result.value {α : Type} : call_result α → Option α
  | call_result.returned _ v => some v
  | _ => none

/-- The system after a step, or the system itself when there is no step. -/
def after (cfg : config) (a : action) (s : system) : system :=
  match run cfg a s with
  | some (s', _) => s'
  | none => s

/-- The system where the thread 7 has opened the base "a" in a new cache. -/
def demo_system : system :=
  after demo_cfg (action.open_call 7 "a" false 0 5 5) (system_init demo_cfg 1)

end Sqlx

namespace Sqlx
open sqlx_base_status_e

/-! ## What a pass of `sqlx_cache_open_and_lock_base` does to the slots -/

/-- The fields of a slot that tell who holds it: its status, its name, its
owner, its handle and `count_open`. -/
def sqlx_base_s.lock (s : sqlx_base_s) :
    sqlx_base_status_e × Option hashstr_t × Option GThread × gpointer × Nat :=
  (s.status, s.name, s.owner, s.handle, s.count_open)

/-- The thread `t` holds the base of name `n` in the slot `b`: the slot is USED,
its owner is `t` and its name is `n`. -/
def holds (c : sqlx_cache_s) (t : GThread) (n : hashstr_t) (b : Nat) : Prop :=
  b < c.bases_max_hard ∧ (GET c b).status = SQLX_BASE_USED ∧ (GET c b).owner = some t
    ∧ (GET c b).name = some n

end Sqlx

namespace Sqlx
open sqlx_base_status_e

end Sqlx

namespace Sqlx
open sqlx_base_status_e

instance (c : sqlx_cache_s) (t : GThread) (n : hashstr_t) (b : Nat) : Decidable (holds c t n b) := by
  unfold holds; infer_instance

/-- The call of `sqlx_cache_open_and_lock_base` for "a" by the thread 8. -/
def demo_wait : action := action.open_call 8 "a" false 0 5 5

end Sqlx

namespace Sqlx
open sqlx_base_status_e

/-- From the cache `c` to `c'` the slot `b` has been evicted: `bases_used` is
one less, the close hook, when there is one, has been called once with the
handle that the slot had (and no other hook has been called), the slot is FREE
and the first of the FREE list, and its name is no longer in the name index. -/
def evicted (c c' : sqlx_cache_s) (b : Nat) : Prop :=
  c'.bases_used + 1 = c.bases_used
  ∧ c'.hook_calls
      = (if c.close_hook then hook_call.close_hook (GET c b).handle :: c.hook_calls
          else c.hook_calls)
  ∧ (GET c' b).status = SQLX_BASE_FREE ∧ c'.beacon_free.first = (b : Int)
  ∧ ∃ n, (GET c b).name = some n ∧ sqlx_lookup_id c' n = -1
      ∧ ∀ v, (n, v) ∉ c'.bases_by_name

/-- The flags `SQLX_CLOSE_IMMEDIATELY`, with or without `SQLX_CLOSE_FOR_DELETION`. -/
def demo_flags (deleted : Bool) : close_flags :=
  { SQLX_CLOSE_IMMEDIATELY := true, SQLX_CLOSE_FOR_DELETION := deleted }

/-- No flag. -/
def no_flags : close_flags :=
  { SQLX_CLOSE_IMMEDIATELY := false, SQLX_CLOSE_FOR_DELETION := false }

end Sqlx

namespace Sqlx
open sqlx_base_status_e

/-- A configuration with a memory ceiling of one byte. -/
def demo_cfg_rss : config := { demo_cfg with sqliterepo_max_rss := 1 }

/-- The caches of a thread that closes the slot `b` with no flag, time after
time, from the cache `c`; `cfg j` and `mt j` are the configuration and the time
of the call number `j`. -/
def closes (cfg : Nat → config) (self : GThread) (mt : Nat → Int) (c : sqlx_cache_s) (b : Nat) :
    Nat → sqlx_cache_s
  | 0 => c
  | j + 1 =>
    (sqlx_cache_unlock_and_close_base (cfg j) self (mt j) (closes cfg self mt c b j) (b : Int)
      no_flags).cache_or (closes cfg self mt c b j)

end Sqlx

namespace Sqlx
open sqlx_base_status_e

/-! ## More concrete runs -/

/-- The system where the thread 7 has opened the base "a" and closed it with no
flag: the base is idle in the slot 0. -/
def demo_idle : system :=
  after demo_cfg (action.close_call 7 0 no_flags 9) demo_system

/-- The flag `SQLX_CLOSE_FOR_DELETION` alone. -/
def for_deletion : close_flags :=
  { SQLX_CLOSE_IMMEDIATELY := false, SQLX_CLOSE_FOR_DELETION := true }

/-- The system where the thread 7 has opened the base "a" and is closing it for
deletion: the thread is in the close hook and the slot 0 is
CLOSING_FOR_DELETION. -/
def demo_deleting : system :=
  after demo_cfg (action.close_call 7 0 for_deletion 9) demo_system

/-- A configuration with one slot. -/
def demo_cfg_one : config :=
  { demo_cfg with sqliterepo_repo_max_bases_hard := 1, sqliterepo_repo_max_bases_soft := 1 }

/-- The system with one slot, that the thread 7 uses for the base "a". -/
def demo_one : system :=
  after demo_cfg_one (action.open_call 7 "a" false 0 5 5) (system_init demo_cfg_one 1)

end Sqlx

namespace Sqlx
open sqlx_base_status_e

/-! ## What an eviction leaves as it is -/

/-- From the cache `c` to `c'`, the limits, the flag `is_running`, the memory
usage and the hooks are the same, and no slot but `b` has a new `last_update`. -/
structure Rest (c c' : sqlx_cache_s) (b : Nat) : Prop where
  length : c'.bases.length = c.bases.length
  hard : c'.bases_max_hard = c.bases_max_hard
  soft : c'.bases_max_soft = c.bases_max_soft
  running : c'.is_running = c.is_running
  memory : c'.last_memory_usage = c.last_memory_usage
  unlock_hook : c'.unlock_hook = c.unlock_hook
  close_hook : c'.close_hook = c.close_hook
  last_update : ∀ j, j ≠ b → (GET c' j).last_update = (GET c j).last_update

/-- The beacon lists `L` once the slot `b`, that was idle, has been evicted: it
has left its list and it is the first of the FREE list. -/
def L_evict (L : beacon_ref → List Nat) (b : Nat) : beacon_ref → List Nat :=
  fun r => if r.status = SQLX_BASE_FREE then b :: L r else (L r).erase b

/-- The last slot of the IDLE list, or else of the IDLE_HOT list, if any: the
base that `sqlx_expire_first_idle_base` polls when every base is eligible. -/
def idle_tail (c : sqlx_cache_s) : Option Nat :=
  if 0 ≤ c.beacon_idle.last then some c.beacon_idle.last.toNat
  else if 0 ≤ c.beacon_idle_hot.last then some c.beacon_idle_hot.last.toNat
  else none

end Sqlx

namespace Sqlx
open sqlx_base_status_e

/-! ## The memory ceiling -/

/-- The cache of `sqlx_cache_unlock_and_close_base` once it has released the
base `base`, whose last opening is closed with no flag, and before it tests the
memory ceiling. -/
def released (cfg : config) (mt : Int) (cache : sqlx_cache_s) (base : Nat) : sqlx_cache_s :=
  unlock_release cfg mt
    (cache.update base (fun s => { s with count_open := guint_dec s.count_open })) base

/-- The system with a memory ceiling of one byte and a memory usage of two
bytes, where the thread 7 has opened the base "a"; no hook is set. -/
def demo_rss : system :=
  after demo_cfg_rss (action.open_call 7 "a" false 0 5 5)
    (after demo_cfg_rss (action.set_last_memory_usage 2) (system_init demo_cfg_rss 1))

/-- The system with a memory ceiling of one byte and a close hook, where the
thread 7 has opened the base "a", set its handle to 41 and closed it, the thread
8 has then opened the base "b", and the memory usage has gone to two bytes. -/
def demo_rss_two : system :=
  after demo_cfg_rss (action.set_last_memory_usage 2)
    (after demo_cfg_rss (action.open_call 8 "b" false 0 10 10)
      (after demo_cfg_rss (action.close_call 7 0 no_flags 9)
        (after demo_cfg_rss (action.set_handle 7 0 41)
          (after demo_cfg_rss (action.open_call 7 "a" false 0 5 5)
            (after demo_cfg_rss (action.set_close_hook true) (system_init demo_cfg_rss 1))))))

end Sqlx
namespace Sqlx
open sqlx_base_status_e

/-- A cache that does not keep the invariant of the cache, as no run of the
functions of the cache gives: the cache of one slot, that the thread 7 uses for
the base "a", but with `bases_used = 0`.  `sqlx_base_reserve` finds room under
the soft limit and no slot in the FREE list. -/
def demo_stuck : sqlx_cache_s :=
  { demo_one.cache with bases_used := 0 }

end Sqlx

namespace Sqlx
open sqlx_base_status_e

/-! ## The limits of the cache -/

/-- A configuration with two slots and a soft limit left at zero. -/
def demo_cfg_soft0 : config :=
  { demo_cfg with sqliterepo_repo_max_bases_soft := 0 }

end Sqlx

namespace Sqlx
open sqlx_base_status_e

/-! ## The cache after a pass, case by case -/

/-- The lines of the case `SQLX_BASE_IDLE` / `SQLX_BASE_IDLE_HOT` of
`sqlx_cache_open_and_lock_base`: the thread `self` claims the base. -/
def claimed (mt : Int) (cache : sqlx_cache_s) (base : Nat) (self : GThread) : sqlx_cache_s :=
  (sqlx_base_move_to_list mt cache base SQLX_BASE_USED).update base (fun s =>
    { s with count_open := s.count_open + 1, owner := some self })

/-- What a pass of `sqlx_cache_open_and_lock_base` with the locals `l` makes of
the cache `c`, case by case: an error leaves it as it is; a success comes from
`sqlx_base_reserve`, or from the claim of an idle base followed by the update
of its counters, or from one more opening of a base that the caller holds; a
pass that goes back to `retry` or waits on a base being closed leaves the cache
as it is; a pass that waits on a base in use has counted one more waiting
thread; a pass that starts an eviction has run
`sqlx_expire_first_idle_base` up to the close hook. -/
def open_next.shape (cfg : config) (mt : Int) (c : sqlx_cache_s) (l : open_locals) :
    open_next → Prop
  | open_next.done c' (some _) r => c' = c ∧ r = none
  | open_next.done c' none r =>
    (∃ b : Nat, sqlx_base_reserve l.self mt c l.hname = (c', none, some b)
        ∧ r = some (b : Int) ∧ ∀ v, (l.hname, v) ∉ c.bases_by_name)
    ∨ (∃ b : Nat, b < c.bases_max_hard
        ∧ ((GET c b).status = SQLX_BASE_IDLE ∨ (GET c b).status = SQLX_BASE_IDLE_HOT)
        ∧ (GET c b).name = some l.hname ∧ r = some (b : Int)
        ∧ open_finish mt (claimed mt c b l.self)
            { l with attempts := l.attempts + 1, base := some b } none (some (b : Int)) true
          = open_next.done c' none r)
    ∨ (∃ b : Nat, b < c.bases_max_hard ∧ (GET c b).status = SQLX_BASE_USED
        ∧ (GET c b).owner = some l.self ∧ (GET c b).name = some l.hname ∧ r = some (b : Int)
        ∧ c' = c.update b (fun s =>
            { s with owner := some l.self, count_open := s.count_open + 1 }))
  | open_next.retry c' _ => c' = c
  | open_next.wait_closing c' _ => c' = c
  | open_next.wait_used c' _ b =>
    b < c.bases_max_hard ∧ (GET c b).status = SQLX_BASE_USED
      ∧ c' = c.update b (fun s => { s with count_waiting := s.count_waiting + 1, heat := 1 })
  | open_next.closing c' _ b =>
    sqlx_expire_first_idle_base_begin cfg l.self mt c 0 = some (c', b)
  | open_next.abort => True

end Sqlx

namespace Events
open Sqlx

/-! ## The worker of the Kafka events queue (`events/oio_events_queue_kafka.c`) -/

/-- Modelled from the spec: the macros `CODE_IS_RETRY` and
`CODE_IS_NETWORK_ERROR` are declared outside of the sources at hand; the spec
has only that the error codes expose these two predicates. -/
structure error_codes where
  CODE_IS_RETRY : Int → Bool
  CODE_IS_NETWORK_ERROR : Int → Bool

/-- Modelled from the spec: a `GError` that `kafka_publish_message` returns, with
the two fields that `_q_manage_message` reads. -/
structure kafka_error where
  code : Int
  message : String
  deriving DecidableEq, Repr

/-- The structure `struct _running_ctx_s`, but for its pointer to the broker
session. -/
structure _running_ctx_s where
  last_flush : Int
  last_check : Int
  now : Int
  attempts_connect : Nat
  attempts_check : Nat
  attempts_put : Nat
  deriving DecidableEq, Repr

/-- Modelled from the spec: `struct _queue_with_endpoint_s` is declared outside
of the sources at hand.  The model keeps the fields that `_q_manage_message`
uses: the messages of the asynchronous queue, from the front, and the two
counters; `dropped` is the record of the messages given to `_event_dropped`,
last call first. -/
structure _queue_with_endpoint_s where
  queue : List String
  event_send_count : grid_single_rrd_s
  event_send_time : grid_single_rrd_s
  dropped : List String
  deriving DecidableEq, Repr

/-- The function `_q_manage_message`: the queue, the context and the value
returned.  `err` is what `kafka_publish_message` returns for the message, and
`start` and `end_time` are the times read before and after it.  The pop of an
empty queue times out and gives no message. -/
def _q_manage_message (codes : error_codes) (q : _queue_with_endpoint_s)
    (ctx : _running_ctx_s) (err : Option kafka_error) (start end_time : Int) :
    _queue_with_endpoint_s × _running_ctx_s × Bool :=
  match q.queue with
  | [] => (q, ctx, true)
  | msg :: rest =>
    let q := { q with queue := rest }
    if msg = "" then (q, ctx, true)
    else
      let end_seconds := end_time.tdiv G_TIME_SPAN_SECOND
      /- count the operation whether it's a success or a failure -/
      let q := { q with
        event_send_count := grid_single_rrd_add q.event_send_count end_seconds 1,
        event_send_time :=
          grid_single_rrd_add q.event_send_time end_seconds (to_guint64 (end_time - start)) }
      match err with
      | none => (q, { ctx with attempts_put := 0 }, true)
      | some e =>
        if codes.CODE_IS_RETRY e.code ∨ codes.CODE_IS_NETWORK_ERROR e.code then
          ({ q with queue := msg :: q.queue },
            { ctx with attempts_put := (ctx.attempts_put + 1) % 4294967296 }, false)
        else
          ({ q with dropped := msg :: q.dropped }, { ctx with attempts_put := 0 }, true)

/-- Error codes for concrete runs: the code 1 is a network error, the code 2
asks for a retry. -/
def demo_codes : error_codes :=
  { CODE_IS_RETRY := fun c => decide (c = 2), CODE_IS_NETWORK_ERROR := fun c => decide (c = 1) }

/-- A queue with the two messages "m" and "n". -/
def demo_queue : _queue_with_endpoint_s :=
  { queue := ["m", "n"], event_send_count := [], event_send_time := [], dropped := [] }

/-- A context after two failed attempts. -/
def demo_ctx : _running_ctx_s :=
  { last_flush := 0, last_check := 0, now := 0, attempts_connect := 0, attempts_check := 0,
    attempts_put := 2 }

end Events

namespace Sqlx
open sqlx_base_status_e

/-! ## The order of the FREE list -/

/-- The slots met from the slot `idx` by following `link.next`, as the loop of
`_count_beacon` does, `fuel` of them at most. -/
def list_from (cache : sqlx_cache_s) : Nat → Int → List Nat
  | 0, _ => []
  | fuel + 1, idx =>
    if idx ≠ -1 then idx.toNat :: list_from cache fuel (GET cache idx.toNat).link_next
    else []

/-- The list of a beacon, read from its first slot to its last one. -/
def beacon_slots (cache : sqlx_cache_s) (r : beacon_ref) : List Nat :=
  list_from cache cache.bases_max_hard (cache.beacon r).first

/-- The values returned by successive calls of `sqlx_cache_open_and_lock_base`,
each with `fuel` passes at most and by a thread that runs alone: a call is the
thread, the name, the flag `urgent` and the deadline; `none` stands for a call
that does not return. -/
def opens_values (fuel : Nat) (cfg : config) (clock : Nat → Int) :
    List (GThread × hashstr_t × Bool × Int) → sqlx_cache_s →
      List (Option (Option GError × Option Int))
  | [], _ => []
  | (t, hname, urgent, deadline) :: calls, cache =>
    (sqlx_cache_open_and_lock_base fuel cfg clock t cache hname urgent deadline).value
      :: opens_values fuel cfg clock calls
          ((sqlx_cache_open_and_lock_base fuel cfg clock t cache hname urgent deadline).cache_or
            cache)

end Sqlx

namespace Sqlx
open sqlx_base_status_e

/-! ## Waiting threads and the order of the idle lists -/

/-- The slot on which a thread is waiting, between the increment and the
decrement of `count_waiting`, from where it stands. -/
def thread_state.parks : thread_state → Option Nat
  | thread_state.open_wait_used _ base => some base
  | _ => none

/-- The count of the waiting threads of every slot is right: the threads that
are waiting on a slot are finitely many, and `count_waiting` is their number. -/
structure Waiting (s : system) : Prop where
  finite : ∀ i, {t | (s.threads t).parks = some i}.Finite
  count : ∀ i, (GET s.cache i).count_waiting = {t | (s.threads t).parks = some i}.ncard

/-- The IDLE and the IDLE_HOT lists `L` of the cache `c` are in the order of
their `last_update`, the latest first, and no `last_update` of their slots is
later than `now`. -/
def Cooling (c : sqlx_cache_s) (L : beacon_ref → List Nat) (now : Int) : Prop :=
  ∀ r, (r = beacon_ref.idle ∨ r = beacon_ref.idle_hot) →
    (L r).Pairwise (fun i j => (GET c j).last_update ≤ (GET c i).last_update)
    ∧ ∀ i ∈ L r, (GET c i).last_update ≤ now

/-- A section of code run at the time `m`, from the cache `c` of lists `L` to
the cache `c'`, keeps the invariant of the cache and the order of the idle
lists. -/
def Cool (m : Int) (c : sqlx_cache_s) (L : beacon_ref → List Nat) (c' : sqlx_cache_s) : Prop :=
  ∃ L', CacheInv c' L' ∧ ∀ now, Cooling c L now → now ≤ m → Cooling c' L' m

/-- A section of code run at the time `m` keeps the order of the idle lists,
and changes no `count_waiting` but for one more thread on the slot `inc` and one
less on the slot `dec`. -/
structure Calm (m : Int) (c : sqlx_cache_s) (L : beacon_ref → List Nat) (c' : sqlx_cache_s)
    (inc dec : Option Nat) : Prop where
  waiting : ∀ j, (GET c' j).count_waiting + (if dec = some j then 1 else 0)
    = (GET c j).count_waiting + (if inc = some j then 1 else 0)
  cool : Cool m c L c'

/-- The time that a step reads with the lock held, if it reads the clock. -/
def action.time : action → Option Int
  | action.open_call _ _ _ _ _ mt => some mt
  | action.resume _ mt => some mt
  | action.close_call _ _ _ mt => some mt
  | action.expire_all_call _ mt => some mt
  | action.expire_call _ _ _ _ mt => some mt
  | _ => none

/-- The states of the system that are reachable from `sqlx_cache_init` when the
clock never goes back from one section of code run with the lock to the next;
`now` is the last time read. -/
inductive ReachableAt : Int → system → Prop
  | init (cfg : config) (mt : Int) : ReachableAt mt (system_init cfg mt)
  | step {now : Int} {s s' : system} {ev : event} (cfg : config) (a : action) :
      ReachableAt now s → (∀ mt, a.time = some mt → now ≤ mt) →
      run cfg a s = some (s', ev) → ReachableAt (a.time.getD now) s'

/-- A pass of `sqlx_cache_open_and_lock_base` run at the time `m` from the cache
`c` of lists `L` keeps the order of the idle lists and changes no
`count_waiting`, but for the slot on which the thread starts to wait. -/
def open_next.calm (m : Int) (c : sqlx_cache_s) (L : beacon_ref → List Nat) : open_next → Prop
  | open_next.done c' _ _ => Calm m c L c' none none
  | open_next.retry c' _ => Calm m c L c' none none
  | open_next.wait_used c' _ b => Calm m c L c' (some b) none
  | open_next.wait_closing c' _ => Calm m c L c' none none
  | open_next.closing c' _ _ => Calm m c L c' none none
  | open_next.abort => True

/-- A section of code that may evict a base, run at the time `m` from the cache
`c` of lists `L`, keeps the order of the idle lists and changes no
`count_waiting`. -/
def close_next.calm {α : Type} (m : Int) (c : sqlx_cache_s) (L : beacon_ref → List Nat) :
    close_next α → Prop
  | close_next.done c' _ => Calm m c L c' none none
  | close_next.closing c' _ => Calm m c L c' none none
  | close_next.abort => True

/-- A step of the system taken at the time `m` from the state `s`, whose cache
has the lists `L`, to the state `s'`: one thread at most has moved, the order of
the idle lists is kept and the counts of the waiting threads follow the move of
that thread. -/
def Paced (m : Int) (L : beacon_ref → List Nat) (s s' : system) : Prop :=
  ∃ t, s'.threads = Function.update s.threads t (s'.threads t)
    ∧ Calm m s.cache L s'.cache (s'.threads t).parks (s.threads t).parks

end Sqlx

namespace Sqlx
open sqlx_base_status_e

/-- The system where the thread 7 has opened the base "a", the thread 8 waits for
it, and the thread 7 has closed it with the flag `SQLX_CLOSE_IMMEDIATELY`: the
slot 0 is FREE again while the thread 8 has not yet run its decrement. -/
def demo_parked : system :=
  after demo_cfg (action.resume 7 10)
    (after demo_cfg (action.close_call 7 0 (demo_flags false) 9)
      (after demo_cfg demo_wait demo_system))

/-- The system where the thread 7 has opened the base "a" and the thread 8 the
base "b", and both have closed them with no flag, at the times 7 and 8. -/
def demo_two_idle : system :=
  after demo_cfg (action.close_call 8 1 no_flags 8)
    (after demo_cfg (action.close_call 7 0 no_flags 7)
      (after demo_cfg (action.open_call 8 "b" false 0 6 6) demo_system))

end Sqlx

namespace Sqlx
open sqlx_base_status_e

/-! ## Lemmas on sequences of slot indices -/

theorem headI_nonneg_or (l : List Nat) : headI l = -1 ∨ ∃ a, a ∈ l ∧ headI l = (a : Int) := by
  cases l with
  | nil => left; rfl
  | cons a l => right; exact ⟨a, by simp, rfl⟩

theorem lastI_cons_mem (a : Nat) (l : List Nat) :
    ∃ c, c ∈ a :: l ∧ lastI (a :: l) = (c : Int) := by
  induction l generalizing a with
  | nil => exact ⟨a, by simp, rfl⟩
  | cons b l ih =>
    obtain ⟨c, hc, h⟩ := ih b
    exact ⟨c, by simp at hc ⊢; tauto, by simpa [lastI] using h⟩

theorem lastI_nonneg_or (l : List Nat) : lastI l = -1 ∨ ∃ a, a ∈ l ∧ lastI l = (a : Int) := by
  cases l with
  | nil => left; rfl
  | cons a l => right; exact lastI_cons_mem a l

theorem nextOf_mem_or (l : List Nat) (x : Nat) :
    nextOf l x = -1 ∨ ∃ a, a ∈ l ∧ nextOf l x = (a : Int) := by
  induction l with
  | nil => left; rfl
  | cons a l ih =>
    simp only [nextOf]
    split
    · rcases headI_nonneg_or l with h | ⟨c, hc, h⟩
      · left; exact h
      · right; exact ⟨c, by simp [hc], h⟩
    · rcases ih with h | ⟨c, hc, h⟩
      · left; exact h
      · right; exact ⟨c, by simp [hc], h⟩

theorem prevOf_mem_or (p : Int) (l : List Nat) (x : Nat) :
    prevOf p l x = -1 ∨ prevOf p l x = p ∨ ∃ a, a ∈ l ∧ prevOf p l x = (a : Int) := by
  induction l generalizing p with
  | nil => left; rfl
  | cons a l ih =>
    simp only [prevOf]
    split
    · right; left; rfl
    · rcases ih a with h | h | ⟨c, hc, h⟩
      · left; exact h
      · right; right; exact ⟨a, by simp, h⟩
      · right; right; exact ⟨c, by simp [hc], h⟩

theorem nextOf_ne_self {l : List Nat} (hn : l.Nodup) (x : Nat) : nextOf l x ≠ (x : Int) := by
  induction l with
  | nil => simp [nextOf]
  | cons a l ih =>
    have hn' := (List.nodup_cons.mp hn)
    simp only [nextOf]
    split
    · rename_i h
      subst h
      rcases headI_nonneg_or l with h | ⟨c, hc, h⟩
      · rw [h]; omega
      · rw [h]; intro hh; have : c = x := by exact_mod_cast hh
        subst this; exact hn'.1 hc
    · exact ih hn'.2

theorem prevOf_ne_self {l : List Nat} (hn : l.Nodup) (p : Int) (x : Nat) (hp : p ≠ (x : Int)) :
    prevOf p l x ≠ (x : Int) := by
  induction l generalizing p with
  | nil => simp [prevOf]
  | cons a l ih =>
    have hn' := (List.nodup_cons.mp hn)
    simp only [prevOf]
    split
    · exact hp
    · rename_i h
      apply ih hn'.2
      intro hh; apply h; have : a = x := by exact_mod_cast hh
      exact this.symm

theorem prevOf_eq_head_iff {l : List Nat} {a : Int} {b : Nat} (hb : b ∈ l)
    (ha : ∀ z ∈ l, (z : Int) ≠ a) (hn : l.Nodup) :
    prevOf a l b = a ↔ headI l = (b : Int) := by
  cases l with
  | nil => simp at hb
  | cons c l =>
    have hn' := (List.nodup_cons.mp hn)
    simp only [prevOf, headI]
    by_cases h : b = c
    · simp [h]
    · simp only [h, if_false]
      have hb' : b ∈ l := by simpa [h] using hb
      constructor
      · intro hh
        rcases prevOf_mem_or c l b with h1 | h1 | ⟨d, hd, h1⟩
        · rw [h1] at hh
          exfalso
          clear ha hn hn' hb
          induction l generalizing c with
          | nil => simp at hb'
          | cons e l ih =>
            simp only [prevOf] at h1
            split at h1
            · omega
            · rename_i h2
              exact ih e h2 (by simpa [h2] using hb') h1
        · rw [h1] at hh; exact absurd hh (ha c (by simp))
        · rw [h1] at hh; exact absurd hh (ha d (by simp [hd]))
      · intro hh; exfalso; apply h; exact_mod_cast hh.symm

theorem prevOf_change_head {l : List Nat} (p q : Int) (y : Nat) :
    prevOf q l y = if headI l = (y : Int) then q else prevOf p l y := by
  cases l with
  | nil => simp [prevOf, headI]
  | cons a l =>
    simp only [prevOf, headI]
    by_cases h : y = a
    · simp [h]
    · have : ¬ ((a : Int) = (y : Int)) := by intro hh; apply h; exact_mod_cast hh.symm
      simp [h, this]

theorem lastI_cons (b : Nat) (l : List Nat) :
    lastI (b :: l) = if lastI l < 0 then (b : Int) else lastI l := by
  cases l with
  | nil => simp [lastI]
  | cons a l =>
    simp only [lastI]
    obtain ⟨c, _, h⟩ := lastI_cons_mem a l
    have : ¬ (lastI (a :: l) < 0) := by rw [h]; omega
    simp [this]

theorem headI_erase {l : List Nat} (b : Nat) (hb : b ∈ l) :
    headI (l.erase b) = if headI l = (b : Int) then nextOf l b else headI l := by
  cases l with
  | nil => simp at hb
  | cons a l =>
    by_cases h : a = b
    · subst h; simp [headI, nextOf]
    · have h' : ¬ ((a : Int) = (b : Int)) := by intro hh; apply h; exact_mod_cast hh
      have h2 : ¬ (a == b) = true := by simpa using h
      simp [List.erase_cons, headI, h, h', h2]

theorem nextOf_erase {l : List Nat} {b y : Nat} (p : Int) (hn : l.Nodup) (hb : b ∈ l)
    (hy : y ∈ l) (hyb : y ≠ b) (hp : ∀ z ∈ l, (z : Int) ≠ p) :
    nextOf (l.erase b) y = if prevOf p l b = (y : Int) then nextOf l b else nextOf l y := by
  induction l generalizing p with
  | nil => simp at hb
  | cons a l ih =>
    have hn' := (List.nodup_cons.mp hn)
    by_cases h : a = b
    · subst h
      have : ¬ (p = (y : Int)) := fun hh => hp y hy hh.symm
      simp [prevOf, nextOf, this, hyb]
    · have hb' : b ∈ l := by simpa [Ne.symm h] using hb
      have h2 : ¬ (a == b) = true := by simpa using h
      have hba : ¬ (b = a) := fun hh => h hh.symm
      simp only [List.erase_cons, h2, if_false, prevOf, hba, nextOf]
      by_cases hya : y = a
      · subst hya
        simp only [if_true]
        rw [headI_erase b hb']
        have hz : ∀ z ∈ l, (z : Int) ≠ (y : Int) := by
          intro z hz hh; apply hn'.1; have : z = y := by exact_mod_cast hh
          exact this ▸ hz
        simp only [prevOf_eq_head_iff hb' hz hn'.2]
      · simp only [hya, if_false]
        have hz : ∀ z ∈ l, (z : Int) ≠ (a : Int) := by
          intro z hz hh; apply hn'.1; have : z = a := by exact_mod_cast hh
          exact this ▸ hz
        exact ih a hn'.2 hb' (by simpa [hya] using hy) hz

end Sqlx

namespace Sqlx
open sqlx_base_status_e

theorem prevOf_head {l : List Nat} {y : Nat} (p : Int) (h : headI l = (y : Int)) :
    prevOf p l y = p := by
  cases l with
  | nil => simp [headI] at h
  | cons a l =>
    have : a = y := by simpa [headI] using h
    simp [prevOf, this]

theorem prevOf_erase {l : List Nat} {b y : Nat} (p : Int) (hn : l.Nodup) (hb : b ∈ l)
    (hy : y ∈ l) (hyb : y ≠ b) :
    prevOf p (l.erase b) y = if nextOf l b = (y : Int) then prevOf p l b else prevOf p l y := by
  induction l generalizing p with
  | nil => simp at hb
  | cons a l ih =>
    have hn' := (List.nodup_cons.mp hn)
    by_cases h : a = b
    · subst h
      have hy' : y ∈ l := by simpa [hyb] using hy
      simp only [List.erase_cons_head, nextOf, prevOf, if_true, hyb, if_false]
      rw [prevOf_change_head p a y]
      by_cases hh : headI l = (y : Int)
      · simp [hh, prevOf_head p hh]
      · simp [hh]
    · have hb' : b ∈ l := by simpa [Ne.symm h] using hb
      have h2 : ¬ (a == b) = true := by simpa using h
      have hba : ¬ (b = a) := fun hh => h hh.symm
      simp only [List.erase_cons, h2, if_false, prevOf, hba, nextOf]
      by_cases hya : y = a
      · subst hya
        have : ¬ (nextOf l b = (y : Int)) := by
          rcases nextOf_mem_or l b with h1 | ⟨d, hd, h1⟩
          · rw [h1]; omega
          · rw [h1]; intro hh; have : d = y := by exact_mod_cast hh
            exact hn'.1 (this ▸ hd)
        simp [this]
      · simp only [hya, if_false]
        exact ih a hn'.2 hb' (by simpa [hya] using hy)

theorem lastI_eq_self_iff {b : Nat} {l : List Nat} (hn : (b :: l).Nodup) :
    lastI (b :: l) = (b : Int) ↔ l = [] := by
  cases l with
  | nil => simp [lastI]
  | cons a l =>
    simp only [lastI]
    obtain ⟨c, hc, h⟩ := lastI_cons_mem a l
    rw [h]
    have : c ≠ b := by
      intro hh; subst hh; exact (List.nodup_cons.mp hn).1 hc
    simp only [reduceCtorEq, iff_false]
    intro hh; apply this; exact_mod_cast hh

theorem lastI_erase {l : List Nat} {b : Nat} (p : Int) (hn : l.Nodup) (hb : b ∈ l)
    (hp : l = [b] → p = -1) :
    lastI (l.erase b) = if lastI l = (b : Int) then prevOf p l b else lastI l := by
  induction l generalizing p with
  | nil => simp at hb
  | cons a l ih =>
    have hn' := (List.nodup_cons.mp hn)
    by_cases h : a = b
    · subst h
      simp only [List.erase_cons_head, prevOf, if_true]
      cases l with
      | nil => simp [lastI, hp rfl]
      | cons c l =>
        have h1 : ¬ (lastI (a :: c :: l) = (a : Int)) := by
          rw [lastI_eq_self_iff hn]; simp
        simp only [h1, if_false]
        simp [lastI]
    · have hb' : b ∈ l := by simpa [Ne.symm h] using hb
      have h2 : ¬ (a == b) = true := by simpa using h
      have hba : ¬ (b = a) := fun hh => h hh.symm
      simp only [List.erase_cons, h2, if_false, prevOf, hba]
      cases l with
      | nil => simp at hb'
      | cons c l =>
        simp only [lastI]
        by_cases hl : c :: l = [b]
        · have hc : c = b := by simpa using (List.cons.inj hl).1
          have hl' : l = [] := (List.cons.inj hl).2
          subst hc; subst hl'
          simp [lastI, prevOf]
        · have hne : (c :: l).erase b ≠ [] := by
            intro hh
            cases l with
            | nil =>
              have : b = c := by simpa using hb'
              exact hl (by rw [this])
            | cons d l =>
              by_cases hcb : c = b
              · subst hcb; simp at hh
              · have : ¬ (c == b) = true := by simpa using hcb
                simp [List.erase_cons, this] at hh
          have := ih a hn'.2 hb' (fun hh => absurd hh hl)
          rw [← this]
          generalize (c :: l).erase b = m at hne
          cases m with
          | nil => exact absurd rfl hne
          | cons e m => simp [lastI]

end Sqlx

namespace Sqlx
open sqlx_base_status_e

/-! ## Reads and writes of slots and beacons -/

@[simp] theorem update_length (c : sqlx_cache_s) (i : Nat) (f : sqlx_base_s → sqlx_base_s) :
    (c.update i f).bases.length = c.bases.length := by
  simp [sqlx_cache_s.update]

@[simp] theorem update_hard (c : sqlx_cache_s) (i : Nat) (f : sqlx_base_s → sqlx_base_s) :
    (c.update i f).bases_max_hard = c.bases_max_hard := rfl

@[simp] theorem update_used (c : sqlx_cache_s) (i : Nat) (f : sqlx_base_s → sqlx_base_s) :
    (c.update i f).bases_used = c.bases_used := rfl

@[simp] theorem update_frame (c : sqlx_cache_s) (i : Nat) (f : sqlx_base_s → sqlx_base_s) :
    (c.update i f).frame = c.frame := rfl

@[simp] theorem update_beacon (c : sqlx_cache_s) (i : Nat) (f : sqlx_base_s → sqlx_base_s)
    (r : beacon_ref) : (c.update i f).beacon r = c.beacon r := by
  cases r <;> rfl

theorem GET_update (c : sqlx_cache_s) (i j : Nat) (f : sqlx_base_s → sqlx_base_s) :
    GET (c.update i f) j = if j = i ∧ i < c.bases.length then f (GET c i) else GET c j := by
  simp only [GET, sqlx_cache_s.update, List.getD_eq_getElem?_getD, List.getElem?_set]
  by_cases h : i = j
  · subst h
    by_cases h2 : i < c.bases.length
    · simp [h2]
    · have h3 : c.bases[i]? = none := List.getElem?_eq_none (by omega)
      simp [h2, h3]
  · have : ¬ (j = i) := fun hh => h hh.symm
    simp [h, this]

theorem GET_update_self {c : sqlx_cache_s} {i : Nat} (f : sqlx_base_s → sqlx_base_s)
    (h : i < c.bases.length) : GET (c.update i f) i = f (GET c i) := by
  simp [GET_update, h]

theorem GET_update_ne {c : sqlx_cache_s} {i j : Nat} (f : sqlx_base_s → sqlx_base_s)
    (h : j ≠ i) : GET (c.update i f) j = GET c j := by
  simp [GET_update, h]

@[simp] theorem set_beacon_bases (c : sqlx_cache_s) (r : beacon_ref) (b : beacon_s) :
    (c.set_beacon r b).bases = c.bases := by
  cases r <;> rfl

@[simp] theorem set_beacon_hard (c : sqlx_cache_s) (r : beacon_ref) (b : beacon_s) :
    (c.set_beacon r b).bases_max_hard = c.bases_max_hard := by
  cases r <;> rfl

@[simp] theorem set_beacon_used (c : sqlx_cache_s) (r : beacon_ref) (b : beacon_s) :
    (c.set_beacon r b).bases_used = c.bases_used := by
  cases r <;> rfl

@[simp] theorem set_beacon_frame (c : sqlx_cache_s) (r : beacon_ref) (b : beacon_s) :
    (c.set_beacon r b).frame = c.frame := by
  cases r <;> rfl

@[simp] theorem GET_set_beacon (c : sqlx_cache_s) (r : beacon_ref) (b : beacon_s) (j : Nat) :
    GET (c.set_beacon r b) j = GET c j := by
  simp [GET]

theorem beacon_set_beacon (c : sqlx_cache_s) (r r' : beacon_ref) (b : beacon_s) :
    (c.set_beacon r b).beacon r' = if r' = r then b else c.beacon r' := by
  cases r <;> cases r' <;> simp [sqlx_cache_s.set_beacon, sqlx_cache_s.beacon]

theorem sqlx_get_by_id_eq (c : sqlx_cache_s) (i : Int) :
    sqlx_get_by_id c i = if i < 0 ∨ c.bases_max_hard ≤ i.toNat then none else some i.toNat := by
  simp [sqlx_get_by_id, base_id_out]

theorem sqlx_get_by_id_neg (c : sqlx_cache_s) : sqlx_get_by_id c (-1) = none := by
  simp [sqlx_get_by_id_eq]

theorem sqlx_get_by_id_nat (c : sqlx_cache_s) (a : Nat) (h : a < c.bases_max_hard) :
    sqlx_get_by_id c (a : Int) = some a := by
  simp [sqlx_get_by_id_eq]; omega

@[simp] theorem sqlx_get_by_id_update (c : sqlx_cache_s) (i : Nat)
    (f : sqlx_base_s → sqlx_base_s) (k : Int) :
    sqlx_get_by_id (c.update i f) k = sqlx_get_by_id c k := by
  simp [sqlx_get_by_id_eq]

@[simp] theorem sqlx_get_by_id_set_beacon (c : sqlx_cache_s) (r : beacon_ref) (b : beacon_s)
    (k : Int) : sqlx_get_by_id (c.set_beacon r b) k = sqlx_get_by_id c k := by
  simp [sqlx_get_by_id_eq]

end Sqlx

namespace Sqlx
open sqlx_base_status_e

/-! ## What the list functions leave unchanged -/

theorem data_update_links (c : sqlx_cache_s) (i j : Nat) (f : sqlx_base_s → sqlx_base_s)
    (hf : ∀ s, (f s).data = s.data) : (GET (c.update i f) j).data = (GET c j).data := by
  rw [GET_update]
  split
  · rename_i h; rw [hf, h.1]
  · rfl

theorem last_update_update (c : sqlx_cache_s) (i j : Nat) (f : sqlx_base_s → sqlx_base_s)
    (hf : ∀ s, (f s).last_update = s.last_update) :
    (GET (c.update i f) j).last_update = (GET c j).last_update := by
  rw [GET_update]
  split
  · rename_i h; rw [hf, h.1]
  · rfl

theorem status_update (c : sqlx_cache_s) (i j : Nat) (f : sqlx_base_s → sqlx_base_s)
    (hf : ∀ s, (f s).status = s.status) :
    (GET (c.update i f) j).status = (GET c j).status := by
  rw [GET_update]
  split
  · rename_i h; rw [hf, h.1]
  · rfl

theorem SameData.same_refl (c : sqlx_cache_s) : SameData c c :=
  ⟨rfl, rfl, fun _ => rfl⟩

theorem SameData.same_trans {c c' c'' : sqlx_cache_s} (h : SameData c c') (h' : SameData c' c'') :
    SameData c c'' :=
  ⟨h'.length.trans h.length, h'.frame.trans h.frame,
    fun j => (h'.data j).trans (h.data j)⟩

theorem SameData.same_hard {c c' : sqlx_cache_s} (h : SameData c c') :
    c'.bases_max_hard = c.bases_max_hard := by
  have := h.frame
  simp only [sqlx_cache_s.frame, Prod.mk.injEq] at this
  exact this.2.2.1

theorem SameData.set_beacon (c : sqlx_cache_s) (r : beacon_ref) (b : beacon_s) :
    SameData c (c.set_beacon r b) :=
  ⟨by simp, by simp, fun _ => by simp⟩

theorem SameData.same_update (c : sqlx_cache_s) (i : Nat) (f : sqlx_base_s → sqlx_base_s)
    (hf : ∀ s, (f s).data = s.data) :
    SameData c (c.update i f) :=
  ⟨by simp, by simp, fun j => data_update_links c i j f hf⟩

theorem SameData.index {c c' : sqlx_cache_s} (h : SameData c c') (j : Nat) :
    (GET c' j).index = (GET c j).index := by
  have := h.data j
  simp only [sqlx_base_s.data, Prod.mk.injEq] at this
  exact this.2.2.2.2.2.2.1

theorem SameData.set_next (c : sqlx_cache_s) (i : Nat) (v : Int) :
    SameData c (c.update i (fun s => { s with link_next := v })) :=
  SameData.same_update c i _ (fun _ => rfl)

theorem SameData.set_prev (c : sqlx_cache_s) (i : Nat) (v : Int) :
    SameData c (c.update i (fun s => { s with link_prev := v })) :=
  SameData.same_update c i _ (fun _ => rfl)

theorem SQLX_REMOVE_base_same (c : sqlx_cache_s) (b : Nat) :
    SameData c (SQLX_REMOVE_base c b) :=
  SameData.same_update c b _ (fun _ => rfl)

theorem SQLX_REMOVE_beacon_same (c : sqlx_cache_s) (b : Nat) (r : beacon_ref) :
    SameData c (SQLX_REMOVE_beacon c b r) := by
  simp only [SQLX_REMOVE_beacon]
  split_ifs
  · exact (SameData.set_beacon _ _ _).same_trans (SameData.set_beacon _ _ _)
  · exact SameData.set_beacon _ _ _
  · exact SameData.set_beacon _ _ _
  · exact SameData.same_refl _

theorem SQLX_REMOVE_links_same (c : sqlx_cache_s) (b : Nat) :
    SameData c (SQLX_REMOVE_links c b) := by
  simp only [SQLX_REMOVE_links]
  split <;> split
  · exact (SameData.set_next _ _ _).same_trans (SameData.set_prev _ _ _)
  · exact SameData.set_prev _ _ _
  · exact SameData.set_next _ _ _
  · exact SameData.same_refl _

theorem SQLX_REMOVE_same (c : sqlx_cache_s) (b : Nat) (r : beacon_ref) :
    SameData c (SQLX_REMOVE c b r) :=
  ((SQLX_REMOVE_beacon_same c b r).same_trans (SQLX_REMOVE_links_same _ b)).same_trans
    (SQLX_REMOVE_base_same _ b)

theorem SQLX_REMOVE_beacon_GET (c : sqlx_cache_s) (b : Nat) (r : beacon_ref) (j : Nat) :
    GET (SQLX_REMOVE_beacon c b r) j = GET c j := by
  simp only [SQLX_REMOVE_beacon]
  split_ifs <;> simp

theorem SQLX_REMOVE_beacon_ne (c : sqlx_cache_s) (b : Nat) (r r' : beacon_ref) (h : r' ≠ r) :
    (SQLX_REMOVE_beacon c b r).beacon r' = c.beacon r' := by
  simp only [SQLX_REMOVE_beacon]
  split_ifs <;> simp [beacon_set_beacon, h]

theorem SQLX_REMOVE_links_beacon (c : sqlx_cache_s) (b : Nat) (r : beacon_ref) :
    (SQLX_REMOVE_links c b).beacon r = c.beacon r := by
  simp only [SQLX_REMOVE_links]
  split <;> split <;> simp

theorem SQLX_REMOVE_links_status (c : sqlx_cache_s) (b j : Nat) :
    (GET (SQLX_REMOVE_links c b) j).status = (GET c j).status := by
  simp only [SQLX_REMOVE_links]
  split <;> split <;> (repeat rw [status_update]) <;> intros <;> rfl

theorem SQLX_REMOVE_status (c : sqlx_cache_s) (b : Nat) (r : beacon_ref) (j : Nat) :
    (GET (SQLX_REMOVE c b r) j).status
      = if j = b ∧ b < c.bases.length then SQLX_BASE_ZERO else (GET c j).status := by
  simp only [SQLX_REMOVE, SQLX_REMOVE_base]
  rw [GET_update]
  rw [(SQLX_REMOVE_links_same _ b).length, (SQLX_REMOVE_beacon_same c b r).length]
  split
  · rfl
  · rw [SQLX_REMOVE_links_status, SQLX_REMOVE_beacon_GET]

theorem SQLX_REMOVE_links_last_update (c : sqlx_cache_s) (b j : Nat) :
    (GET (SQLX_REMOVE_links c b) j).last_update = (GET c j).last_update := by
  simp only [SQLX_REMOVE_links]
  split <;> split <;> (repeat rw [last_update_update]) <;> intros <;> rfl

theorem SQLX_REMOVE_last_update (c : sqlx_cache_s) (b : Nat) (r : beacon_ref) (j : Nat) :
    (GET (SQLX_REMOVE c b r) j).last_update = (GET c j).last_update := by
  simp only [SQLX_REMOVE, SQLX_REMOVE_base]
  rw [last_update_update, SQLX_REMOVE_links_last_update, SQLX_REMOVE_beacon_GET]
  intro s; rfl

theorem SQLX_REMOVE_used (c : sqlx_cache_s) (b : Nat) (r : beacon_ref) :
    (SQLX_REMOVE c b r).bases_used = c.bases_used := by
  have h1 : (SQLX_REMOVE_beacon c b r).bases_used = c.bases_used := by
    simp only [SQLX_REMOVE_beacon]
    split_ifs <;> simp
  have h2 : ∀ c : sqlx_cache_s, (SQLX_REMOVE_links c b).bases_used = c.bases_used := by
    intro c
    simp only [SQLX_REMOVE_links]
    split <;> split <;> simp
  simp only [SQLX_REMOVE, SQLX_REMOVE_base, update_used, h2, h1]

theorem SQLX_REMOVE_ne (c : sqlx_cache_s) (b : Nat) (r r' : beacon_ref) (h : r' ≠ r) :
    (SQLX_REMOVE c b r).beacon r' = c.beacon r' := by
  simp only [SQLX_REMOVE, SQLX_REMOVE_base, update_beacon, SQLX_REMOVE_links_beacon]
  exact SQLX_REMOVE_beacon_ne c b r r' h

end Sqlx

namespace Sqlx
open sqlx_base_status_e

/-! ## The effect of `SQLX_REMOVE` on a well-formed list -/

theorem get_id_get_by_id {c : sqlx_cache_s} (hidx : ∀ i, i < c.bases_max_hard → (GET c i).index = (i : Int))
    {v : Int} (hv : v = -1 ∨ ∃ a : Nat, a < c.bases_max_hard ∧ v = (a : Int)) :
    sqlx_base_get_id c (sqlx_get_by_id c v) = v := by
  rcases hv with h | ⟨a, ha, h⟩
  · subst h; simp [sqlx_get_by_id_neg, sqlx_base_get_id]
  · subst h; simp [sqlx_get_by_id_nat c a ha, sqlx_base_get_id, hidx a ha]

theorem DList.valid_prev {c : sqlx_cache_s} {r : beacon_ref} {l : List Nat} (h : DList c r l)
    {b : Nat} (hb : b ∈ l) :
    (GET c b).link_prev = -1 ∨ ∃ a : Nat, a < c.bases_max_hard ∧ (GET c b).link_prev = (a : Int) := by
  rw [h.prev b hb]
  rcases prevOf_mem_or (-1) l b with h1 | h1 | ⟨a, ha, h1⟩
  · left; exact h1
  · left; exact h1
  · right; exact ⟨a, h.lt a ha, h1⟩

theorem DList.valid_next {c : sqlx_cache_s} {r : beacon_ref} {l : List Nat} (h : DList c r l)
    {b : Nat} (hb : b ∈ l) :
    (GET c b).link_next = -1 ∨ ∃ a : Nat, a < c.bases_max_hard ∧ (GET c b).link_next = (a : Int) := by
  rw [h.next b hb]
  rcases nextOf_mem_or l b with h1 | ⟨a, ha, h1⟩
  · left; exact h1
  · right; exact ⟨a, h.lt a ha, h1⟩

theorem set_beacon_self (c : sqlx_cache_s) (r : beacon_ref) : c.set_beacon r (c.beacon r) = c := by
  cases r <;> rfl

theorem set_beacon_twice (c : sqlx_cache_s) (r : beacon_ref) (x y : beacon_s) :
    (c.set_beacon r x).set_beacon r y = c.set_beacon r y := by
  cases r <;> rfl

theorem SQLX_REMOVE_beacon_eq (c : sqlx_cache_s) (b : Nat) (r : beacon_ref)
    (hidx : (GET c b).index = (b : Int)) :
    SQLX_REMOVE_beacon c b r = c.set_beacon r
      ⟨if (c.beacon r).first = (b : Int) then sqlx_base_get_id c (sqlx_next_by_id c b)
        else (c.beacon r).first,
       if (c.beacon r).last = (b : Int) then sqlx_base_get_id c (sqlx_prev_by_id c b)
        else (c.beacon r).last⟩ := by
  have h0 : ∀ (bc : beacon_s) (k : Int),
      sqlx_prev_by_id (c.set_beacon r bc) k = sqlx_prev_by_id c k := by
    intro bc k; simp [sqlx_prev_by_id]
  have h0' : ∀ (bc : beacon_s) (o : Option Nat),
      sqlx_base_get_id (c.set_beacon r bc) o = sqlx_base_get_id c o := by
    intro bc o; cases o <;> simp [sqlx_base_get_id]
  simp only [SQLX_REMOVE_beacon, hidx]
  by_cases h1 : (c.beacon r).first = (b : Int)
  · simp only [h1, if_true, GET_set_beacon, hidx, beacon_set_beacon, h0, h0', set_beacon_twice]
    by_cases h2 : (c.beacon r).last = (b : Int)
    · simp only [h2, if_true]
    · simp only [h2, if_false]
  · simp only [h1, if_false, hidx]
    by_cases h2 : (c.beacon r).last = (b : Int)
    · simp only [h2, if_true]
    · simp only [h2, if_false]
      exact (set_beacon_self c r).symm

theorem SQLX_REMOVE_beacon_first {c : sqlx_cache_s} {L : beacon_ref → List Nat}
    (hL : Lists c L) {b : Nat} {r : beacon_ref} (hb : b ∈ L r) :
    ((SQLX_REMOVE_beacon c b r).beacon r).first = headI ((L r).erase b) := by
  have hd := hL.dl r
  have hbh := hd.lt b hb
  rw [headI_erase b hb, SQLX_REMOVE_beacon_eq c b r (hL.idx b hbh)]
  have h1 : sqlx_base_get_id c (sqlx_next_by_id c (b : Int)) = nextOf (L r) b := by
    simp only [sqlx_next_by_id, sqlx_get_by_id_nat c b hbh]
    rw [get_id_get_by_id hL.idx (hd.valid_next hb), hd.next b hb]
  simp only [beacon_set_beacon, if_true, h1, hd.first]

theorem SQLX_REMOVE_beacon_last {c : sqlx_cache_s} {L : beacon_ref → List Nat}
    (hL : Lists c L) {b : Nat} {r : beacon_ref} (hb : b ∈ L r) :
    ((SQLX_REMOVE_beacon c b r).beacon r).last = lastI ((L r).erase b) := by
  have hd := hL.dl r
  have hbh := hd.lt b hb
  rw [lastI_erase (-1) hd.nodup hb (fun _ => rfl), SQLX_REMOVE_beacon_eq c b r (hL.idx b hbh)]
  have h1 : sqlx_base_get_id c (sqlx_prev_by_id c (b : Int)) = prevOf (-1) (L r) b := by
    simp only [sqlx_prev_by_id, sqlx_get_by_id_nat c b hbh]
    rw [get_id_get_by_id hL.idx (hd.valid_prev hb), hd.prev b hb]
  simp only [beacon_set_beacon, if_true, h1, hd.last]

theorem SQLX_REMOVE_links_next {c : sqlx_cache_s}
    (hlen : c.bases.length = c.bases_max_hard)
    (hidx : ∀ i, i < c.bases_max_hard → (GET c i).index = (i : Int)) {b : Nat}
    (hp : (GET c b).link_prev = -1 ∨ ∃ a : Nat, a < c.bases_max_hard ∧ (GET c b).link_prev = (a : Int))
    (hn : (GET c b).link_next = -1 ∨ ∃ a : Nat, a < c.bases_max_hard ∧ (GET c b).link_next = (a : Int))
    (j : Nat) :
    (GET (SQLX_REMOVE_links c b) j).link_next
      = if (GET c b).link_prev = (j : Int) then (GET c b).link_next else (GET c j).link_next := by
  simp only [SQLX_REMOVE_links]
  rw [get_id_get_by_id hidx hn]
  rcases hp with hp | ⟨pa, hpa, hp⟩ <;> rcases hn with hn | ⟨na, hna, hn⟩
  · rw [hp, hn]; simp [sqlx_get_by_id_neg]
  · rw [hp, hn]; simp only [sqlx_get_by_id_neg, sqlx_get_by_id_nat c na hna, GET_update]
    split_ifs <;> first | rfl | (exfalso; omega) | simp_all
  · rw [hp, hn]; simp only [sqlx_get_by_id_neg, sqlx_get_by_id_nat c pa hpa, GET_update]
    split_ifs <;> first | rfl | (exfalso; omega)
  · rw [hp, hn]
    simp only [sqlx_get_by_id_nat c na hna, sqlx_get_by_id_nat c pa hpa, GET_update, update_length]
    split_ifs <;> first | rfl | (exfalso; omega) | simp_all

theorem SQLX_REMOVE_links_prev {c : sqlx_cache_s}
    (hlen : c.bases.length = c.bases_max_hard)
    (hidx : ∀ i, i < c.bases_max_hard → (GET c i).index = (i : Int)) {b : Nat}
    (hp : (GET c b).link_prev = -1 ∨ ∃ a : Nat, a < c.bases_max_hard ∧ (GET c b).link_prev = (a : Int))
    (hn : (GET c b).link_next = -1 ∨ ∃ a : Nat, a < c.bases_max_hard ∧ (GET c b).link_next = (a : Int))
    (j : Nat) :
    (GET (SQLX_REMOVE_links c b) j).link_prev
      = if (GET c b).link_next = (j : Int) then (GET c b).link_prev else (GET c j).link_prev := by
  simp only [SQLX_REMOVE_links]
  have hsame : ∀ (i : Nat) (v : Int) (o : Option Nat),
      sqlx_base_get_id (c.update i (fun s => { s with link_next := v })) o = sqlx_base_get_id c o := by
    intro i v o
    cases o with
    | none => rfl
    | some k =>
      simpa [sqlx_base_get_id] using (SameData.set_next c i v).index k
  rcases hp with hp | ⟨pa, hpa, hp⟩ <;> rcases hn with hn | ⟨na, hna, hn⟩
  · rw [hp, hn]; simp [sqlx_get_by_id_neg]
  · rw [hp, hn]; simp only [sqlx_get_by_id_neg, sqlx_get_by_id_nat c na hna, GET_update]
    simp only [sqlx_base_get_id]
    split_ifs <;> first | rfl | (exfalso; omega)
  · rw [hp, hn]; simp only [sqlx_get_by_id_neg, sqlx_get_by_id_nat c pa hpa, GET_update]
    split_ifs <;> first | rfl | (exfalso; omega) | simp_all
  · rw [hp, hn]
    simp only [sqlx_get_by_id_nat c na hna, sqlx_get_by_id_nat c pa hpa, hsame]
    simp only [sqlx_base_get_id, hidx pa hpa, GET_update, update_length]
    split_ifs <;> first | rfl | (exfalso; omega) | simp_all

theorem beacon_status_inj {r r' : beacon_ref} : r'.status = r.status ↔ r' = r := by
  cases r <;> cases r' <;> simp [beacon_ref.status]

theorem beacon_status_ne_zero (r : beacon_ref) : r.status ≠ SQLX_BASE_ZERO := by
  cases r <;> simp [beacon_ref.status]

theorem beacon_status_ne_closing (r : beacon_ref) :
    r.status ≠ SQLX_BASE_CLOSING ∧ r.status ≠ SQLX_BASE_CLOSING_FOR_DELETION := by
  cases r <;> simp [beacon_ref.status]

theorem Lists.disjoint {c : sqlx_cache_s} {L : beacon_ref → List Nat} (hL : Lists c L)
    {r r' : beacon_ref} {x : Nat} (h : x ∈ L r) (h' : x ∈ L r') : r' = r := by
  have h1 := ((hL.mem r x).mp h).2
  have h2 := ((hL.mem r' x).mp h').2
  exact beacon_status_inj.mp (h2.symm.trans h1)

theorem SQLX_REMOVE_GET_ne {c : sqlx_cache_s} {L : beacon_ref → List Nat} (hL : Lists c L)
    {b : Nat} {r : beacon_ref} (hb : b ∈ L r) {j : Nat} (hj : j ≠ b) :
    (GET (SQLX_REMOVE c b r) j).link_next
        = (if (GET c b).link_prev = (j : Int) then (GET c b).link_next else (GET c j).link_next)
      ∧ (GET (SQLX_REMOVE c b r) j).link_prev
        = (if (GET c b).link_next = (j : Int) then (GET c b).link_prev else (GET c j).link_prev) := by
  have hd := hL.dl r
  have h1 := SQLX_REMOVE_beacon_same c b r
  have hlen : (SQLX_REMOVE_beacon c b r).bases.length = (SQLX_REMOVE_beacon c b r).bases_max_hard := by
    rw [h1.length, h1.same_hard, hL.len]
  have hidx : ∀ i, i < (SQLX_REMOVE_beacon c b r).bases_max_hard →
      (GET (SQLX_REMOVE_beacon c b r) i).index = (i : Int) := by
    intro i hi
    rw [SQLX_REMOVE_beacon_GET]
    exact hL.idx i (h1.same_hard ▸ hi)
  have hp := hd.valid_prev hb
  have hn := hd.valid_next hb
  have hp' : (GET (SQLX_REMOVE_beacon c b r) b).link_prev = -1 ∨ ∃ a : Nat,
      a < (SQLX_REMOVE_beacon c b r).bases_max_hard
        ∧ (GET (SQLX_REMOVE_beacon c b r) b).link_prev = (a : Int) := by
    rw [SQLX_REMOVE_beacon_GET, h1.same_hard]; exact hp
  have hn' : (GET (SQLX_REMOVE_beacon c b r) b).link_next = -1 ∨ ∃ a : Nat,
      a < (SQLX_REMOVE_beacon c b r).bases_max_hard
        ∧ (GET (SQLX_REMOVE_beacon c b r) b).link_next = (a : Int) := by
    rw [SQLX_REMOVE_beacon_GET, h1.same_hard]; exact hn
  have e1 := SQLX_REMOVE_links_next hlen hidx hp' hn' j
  have e2 := SQLX_REMOVE_links_prev hlen hidx hp' hn' j
  simp only [SQLX_REMOVE_beacon_GET] at e1 e2
  simp only [SQLX_REMOVE, SQLX_REMOVE_base, GET_update_ne _ hj]
  exact ⟨e1, e2⟩

theorem SQLX_REMOVE_GET_self {c : sqlx_cache_s} {b : Nat} {r : beacon_ref}
    (hb : b < c.bases.length) :
    (GET (SQLX_REMOVE c b r) b).link_next = -1 ∧ (GET (SQLX_REMOVE c b r) b).link_prev = -1 := by
  have h1 := SQLX_REMOVE_beacon_same c b r
  have h2 := SQLX_REMOVE_links_same (SQLX_REMOVE_beacon c b r) b
  simp only [SQLX_REMOVE, SQLX_REMOVE_base]
  rw [GET_update_self _ (by rw [h2.length, h1.length]; exact hb)]
  exact ⟨rfl, rfl⟩

theorem SQLX_REMOVE_Lists {c : sqlx_cache_s} {L : beacon_ref → List Nat} (hL : Lists c L)
    {b : Nat} {r : beacon_ref} (hb : b < c.bases_max_hard)
    (hs : (GET c b).status = r.status) :
    Lists (SQLX_REMOVE c b r) (L_remove L r.status b) := by
  have hbm : b ∈ L r := (hL.mem r b).mpr ⟨hb, hs⟩
  have hsame := SQLX_REMOVE_same c b r
  have hblen : b < c.bases.length := by rw [hL.len]; exact hb
  have hd := hL.dl r
  have key : ∀ r' x, x ∈ L r' → r' ≠ r →
      (GET (SQLX_REMOVE c b r) x).link_next = (GET c x).link_next
      ∧ (GET (SQLX_REMOVE c b r) x).link_prev = (GET c x).link_prev := by
    intro r' x hx hr
    have hxb : x ≠ b := by
      intro hh; subst hh; exact hr (hL.disjoint hbm hx)
    have := SQLX_REMOVE_GET_ne hL hbm hxb
    rw [this.1, this.2, hd.prev b hbm, hd.next b hbm]
    have h1 : ¬ (prevOf (-1) (L r) b = (x : Int)) := by
      intro hh
      rcases prevOf_mem_or (-1) (L r) b with h | h | ⟨a, ha, h⟩
      · rw [h] at hh; omega
      · rw [h] at hh; omega
      · rw [h] at hh; have : a = x := by exact_mod_cast hh
        subst this; exact hr (hL.disjoint ha hx)
    have h2 : ¬ (nextOf (L r) b = (x : Int)) := by
      intro hh
      rcases nextOf_mem_or (L r) b with h | ⟨a, ha, h⟩
      · rw [h] at hh; omega
      · rw [h] at hh; have : a = x := by exact_mod_cast hh
        subst this; exact hr (hL.disjoint ha hx)
    simp [h1, h2]
  refine ⟨?_, ?_, ?_, ?_, ?_⟩
  · rw [hsame.length, hsame.same_hard, hL.len]
  · intro i hi
    rw [hsame.index i]
    exact hL.idx i (hsame.same_hard ▸ hi)
  · intro r'
    simp only [L_remove, beacon_status_inj]
    by_cases hr : r' = r
    · subst hr
      simp only [if_true]
      refine ⟨hd.nodup.erase b, ?_, ?_, ?_, ?_, ?_⟩
      · intro x hx
        rw [hsame.same_hard]
        exact hd.lt x (List.mem_of_mem_erase hx)
      · simp only [SQLX_REMOVE, SQLX_REMOVE_base, update_beacon, SQLX_REMOVE_links_beacon]
        exact SQLX_REMOVE_beacon_first hL hbm
      · simp only [SQLX_REMOVE, SQLX_REMOVE_base, update_beacon, SQLX_REMOVE_links_beacon]
        exact SQLX_REMOVE_beacon_last hL hbm
      · intro x hx
        have hx' := (hd.nodup.mem_erase_iff.mp hx)
        rw [(SQLX_REMOVE_GET_ne hL hbm hx'.1).2, hd.prev b hbm, hd.next b hbm, hd.prev x hx'.2]
        exact (prevOf_erase (-1) hd.nodup hbm hx'.2 hx'.1).symm
      · intro x hx
        have hx' := (hd.nodup.mem_erase_iff.mp hx)
        rw [(SQLX_REMOVE_GET_ne hL hbm hx'.1).1, hd.prev b hbm, hd.next b hbm, hd.next x hx'.2]
        exact (nextOf_erase (-1) hd.nodup hbm hx'.2 hx'.1 (by intro z _; omega)).symm
    · simp only [hr, if_false]
      have hd' := hL.dl r'
      refine ⟨hd'.nodup, ?_, ?_, ?_, ?_, ?_⟩
      · intro x hx; rw [hsame.same_hard]; exact hd'.lt x hx
      · rw [SQLX_REMOVE_ne c b r r' hr]; exact hd'.first
      · rw [SQLX_REMOVE_ne c b r r' hr]; exact hd'.last
      · intro x hx; rw [(key r' x hx hr).2]; exact hd'.prev x hx
      · intro x hx; rw [(key r' x hx hr).1]; exact hd'.next x hx
  · intro r' i
    simp only [L_remove, beacon_status_inj, SQLX_REMOVE_status, hsame.same_hard]
    by_cases hr : r' = r
    · subst hr
      simp only [if_true, hd.nodup.mem_erase_iff, hL.mem r' i]
      by_cases hib : i = b
      · subst hib
        simp [hblen, (beacon_status_ne_zero r').symm]
      · simp [hib]
    · simp only [hr, if_false, hL.mem r' i]
      by_cases hib : i = b
      · subst hib
        simp only [true_and, hblen, if_true, (beacon_status_ne_zero r').symm, and_false, iff_false,
          not_and]
        intro _ hh
        exact hr (beacon_status_inj.mp (hh.symm.trans hs))
      · simp [hib]
  · intro i hi hst
    rw [SQLX_REMOVE_status] at hst
    rw [hsame.same_hard] at hi
    have hib : i ≠ b := by
      intro hh; subst hh
      simp [hblen] at hst
    simp only [hib, false_and, if_false] at hst
    have hdet := hL.det i hi hst
    have := SQLX_REMOVE_GET_ne hL hbm hib
    rw [this.1, this.2, hd.prev b hbm, hd.next b hbm]
    have hnot : ∀ r', i ∉ L r' := by
      intro r' hh
      have := ((hL.mem r' i).mp hh).2
      rcases hst with h | h <;> rw [h] at this
      · exact (beacon_status_ne_closing r').1 this.symm
      · exact (beacon_status_ne_closing r').2 this.symm
    have h1 : ¬ (prevOf (-1) (L r) b = (i : Int)) := by
      intro hh
      rcases prevOf_mem_or (-1) (L r) b with h | h | ⟨a, ha, h⟩
      · rw [h] at hh; omega
      · rw [h] at hh; omega
      · rw [h] at hh; have : a = i := by exact_mod_cast hh
        subst this; exact hnot r ha
    have h2 : ¬ (nextOf (L r) b = (i : Int)) := by
      intro hh
      rcases nextOf_mem_or (L r) b with h | ⟨a, ha, h⟩
      · rw [h] at hh; omega
      · rw [h] at hh; have : a = i := by exact_mod_cast hh
        subst this; exact hnot r ha
    simp only [h1, h2, if_false]
    exact ⟨hdet.1, hdet.2⟩

end Sqlx

namespace Sqlx
open sqlx_base_status_e

/-! ## The effect of `SQLX_UNSHIFT` on a well-formed list -/

theorem update_update (c : sqlx_cache_s) (i : Nat) (f g : sqlx_base_s → sqlx_base_s) :
    (c.update i f).update i g = c.update i (fun s => g (f s)) := by
  by_cases h : i < c.bases.length
  · simp only [sqlx_cache_s.update, List.set_set]
    have : GET { c with bases := c.bases.set i (f (GET c i)) } i = f (GET c i) := by
      simp [GET, List.getD_eq_getElem?_getD, List.getElem?_set, h]
    rw [this]
  · have h1 : ∀ (l : List sqlx_base_s) (x : sqlx_base_s), l.length = c.bases.length →
        l.set i x = l := by
      intro l x hl
      exact List.set_eq_of_length_le (by omega)
    simp only [sqlx_cache_s.update]
    rw [h1 c.bases _ rfl, h1 c.bases _ rfl, h1 c.bases _ rfl]

theorem index_update (c : sqlx_cache_s) (i j : Nat) (f : sqlx_base_s → sqlx_base_s)
    (hf : ∀ s, (f s).index = s.index) : (GET (c.update i f) j).index = (GET c j).index := by
  rw [GET_update]
  split
  · rename_i h; rw [hf, h.1]
  · rfl

theorem SQLX_UNSHIFT_eq (mt : Int) (c : sqlx_cache_s) (b : Nat) (r : beacon_ref)
    (st : sqlx_base_status_e) :
    SQLX_UNSHIFT mt c b r st =
      ((match sqlx_get_by_id c (c.beacon r).first with
        | some f =>
          (c.update b (fun s => { s with link_prev := -1, link_next := (c.beacon r).first })).update f
            (fun s => { s with link_prev := (GET c b).index })
        | none =>
          c.update b (fun s => { s with link_prev := -1, link_next := (c.beacon r).first })).set_beacon r
        ⟨(GET c b).index, if (c.beacon r).last < 0 then (GET c b).index else (c.beacon r).last⟩).update b
        (fun s => { s with status := st, last_update := mt }) := by
  have hi : ∀ v : Int, (GET (c.update b (fun s => { s with link_prev := -1, link_next := v })) b).index
      = (GET c b).index := by
    intro v; rw [index_update]; intro s; rfl
  simp only [SQLX_UNSHIFT, update_update, update_beacon, sqlx_get_by_id_update]
  cases hf : sqlx_get_by_id c (c.beacon r).first with
  | none =>
    simp only [GET_set_beacon, hi, beacon_set_beacon, if_true, set_beacon_twice, update_beacon]
    by_cases hl : (c.beacon r).last < 0
    · simp only [hl, if_true]
    · simp only [hl, if_false]
  | some f =>
    have hi2 : ∀ v w : Int, (GET ((c.update b (fun s => { s with link_prev := -1, link_next := v })).update f
        (fun s => { s with link_prev := w })) b).index = (GET c b).index := by
      intro v w; rw [index_update, hi]; intro s; rfl
    simp only [GET_set_beacon, hi, hi2, beacon_set_beacon, if_true, set_beacon_twice, update_beacon]
    by_cases hl : (c.beacon r).last < 0
    · simp only [hl, if_true]
    · simp only [hl, if_false]

theorem SQLX_UNSHIFT_same (mt : Int) (c : sqlx_cache_s) (b : Nat) (r : beacon_ref)
    (st : sqlx_base_status_e) : SameData c (SQLX_UNSHIFT mt c b r st) := by
  rw [SQLX_UNSHIFT_eq]
  have h1 : SameData c
      (c.update b (fun s => { s with link_prev := -1, link_next := (c.beacon r).first })) := by
    apply SameData.same_update; intro s; rfl
  refine SameData.same_trans ?_ (by apply SameData.same_update; intro s; rfl)
  refine SameData.same_trans ?_ (SameData.set_beacon _ _ _)
  split
  · exact h1.same_trans (SameData.set_prev _ _ _)
  · exact h1

theorem SQLX_UNSHIFT_used (mt : Int) (c : sqlx_cache_s) (b : Nat) (r : beacon_ref)
    (st : sqlx_base_status_e) : (SQLX_UNSHIFT mt c b r st).bases_used = c.bases_used := by
  rw [SQLX_UNSHIFT_eq]
  simp only [update_used, set_beacon_used]
  split <;> simp

theorem SQLX_UNSHIFT_status (mt : Int) (c : sqlx_cache_s) (b : Nat) (r : beacon_ref)
    (st : sqlx_base_status_e) (j : Nat) :
    (GET (SQLX_UNSHIFT mt c b r st) j).status
      = if j = b ∧ b < c.bases.length then st else (GET c j).status := by
  rw [SQLX_UNSHIFT_eq, GET_update]
  have hlen : ((match sqlx_get_by_id c (c.beacon r).first with
        | some f =>
          (c.update b (fun s => { s with link_prev := -1, link_next := (c.beacon r).first })).update f
            (fun s => { s with link_prev := (GET c b).index })
        | none =>
          c.update b (fun s => { s with link_prev := -1, link_next := (c.beacon r).first })).set_beacon r
        ⟨(GET c b).index, if (c.beacon r).last < 0 then (GET c b).index
          else (c.beacon r).last⟩).bases.length = c.bases.length := by
    split <;> simp
  rw [hlen]
  split
  · rfl
  · simp only [GET_set_beacon]
    split <;> (repeat rw [status_update]) <;> intros <;> rfl

theorem SQLX_UNSHIFT_last_update (mt : Int) (c : sqlx_cache_s) (b : Nat) (r : beacon_ref)
    (st : sqlx_base_status_e) (j : Nat) :
    (GET (SQLX_UNSHIFT mt c b r st) j).last_update
      = if j = b ∧ b < c.bases.length then mt else (GET c j).last_update := by
  rw [SQLX_UNSHIFT_eq, GET_update]
  have hlen : ((match sqlx_get_by_id c (c.beacon r).first with
        | some f =>
          (c.update b (fun s => { s with link_prev := -1, link_next := (c.beacon r).first })).update f
            (fun s => { s with link_prev := (GET c b).index })
        | none =>
          c.update b (fun s => { s with link_prev := -1, link_next := (c.beacon r).first })).set_beacon r
        ⟨(GET c b).index, if (c.beacon r).last < 0 then (GET c b).index
          else (c.beacon r).last⟩).bases.length = c.bases.length := by
    split <;> simp
  rw [hlen]
  split
  · rfl
  · simp only [GET_set_beacon]
    split <;> (repeat rw [last_update_update]) <;> intros <;> rfl

theorem SQLX_UNSHIFT_beacon (mt : Int) (c : sqlx_cache_s) (b : Nat) (r r' : beacon_ref)
    (st : sqlx_base_status_e) :
    (SQLX_UNSHIFT mt c b r st).beacon r' =
      if r' = r then
        ⟨(GET c b).index, if (c.beacon r).last < 0 then (GET c b).index else (c.beacon r).last⟩
      else c.beacon r' := by
  rw [SQLX_UNSHIFT_eq]
  simp only [update_beacon, beacon_set_beacon]
  split
  · rfl
  · split <;> simp

theorem SQLX_UNSHIFT_links {mt : Int} {c : sqlx_cache_s} {b : Nat} {r : beacon_ref}
    {st : sqlx_base_status_e} (hlen : c.bases.length = c.bases_max_hard)
    (hb : b < c.bases_max_hard)
    (hf : (c.beacon r).first = -1 ∨ ∃ a : Nat, a < c.bases_max_hard ∧ a ≠ b
      ∧ (c.beacon r).first = (a : Int)) (j : Nat) :
    (GET (SQLX_UNSHIFT mt c b r st) j).link_next
        = (if j = b then (c.beacon r).first else (GET c j).link_next)
      ∧ (GET (SQLX_UNSHIFT mt c b r st) j).link_prev
        = (if j = b then -1 else if (c.beacon r).first = (j : Int) then (GET c b).index
            else (GET c j).link_prev) := by
  rw [SQLX_UNSHIFT_eq]
  rcases hf with hf | ⟨a, ha, hab, hf⟩
  · rw [hf]
    simp only [sqlx_get_by_id_neg, GET_update, GET_set_beacon, set_beacon_bases, update_length]
    constructor <;> split_ifs <;> first | rfl | (exfalso; omega) | simp_all
  · rw [hf]
    simp only [sqlx_get_by_id_nat c a ha, GET_update, GET_set_beacon, set_beacon_bases,
      update_length]
    constructor <;> split_ifs <;> first | rfl | (exfalso; omega) | simp_all

theorem SQLX_UNSHIFT_Lists {mt : Int} {c : sqlx_cache_s} {L : beacon_ref → List Nat}
    (hL : Lists c L) {b : Nat} {r : beacon_ref} (hb : b < c.bases_max_hard)
    (hs : ∀ r' : beacon_ref, (GET c b).status ≠ r'.status) :
    Lists (SQLX_UNSHIFT mt c b r r.status) (L_add L r.status b) := by
  have hsame := SQLX_UNSHIFT_same mt c b r r.status
  have hblen : b < c.bases.length := by rw [hL.len]; exact hb
  have hd := hL.dl r
  have hnot : ∀ r', b ∉ L r' := fun r' hh => hs r' ((hL.mem r' b).mp hh).2
  have hf : (c.beacon r).first = -1 ∨ ∃ a : Nat, a < c.bases_max_hard ∧ a ≠ b
      ∧ (c.beacon r).first = (a : Int) := by
    rw [hd.first]
    rcases headI_nonneg_or (L r) with h | ⟨a, ha, h⟩
    · left; exact h
    · right
      refine ⟨a, hd.lt a ha, ?_, h⟩
      intro hh; subst hh; exact hnot r ha
  have hlk := fun j => @SQLX_UNSHIFT_links mt c b r r.status hL.len hb hf j
  have hfirst : ∀ r' x, x ∈ L r' → r' ≠ r → ¬ ((c.beacon r).first = (x : Int)) := by
    intro r' x hx hr hh
    rw [hd.first] at hh
    rcases headI_nonneg_or (L r) with h | ⟨a, ha, h⟩
    · rw [h] at hh; omega
    · rw [h] at hh; have : a = x := by exact_mod_cast hh
      subst this; exact hr (hL.disjoint ha hx)
  refine ⟨?_, ?_, ?_, ?_, ?_⟩
  · rw [hsame.length, hsame.same_hard, hL.len]
  · intro i hi
    rw [hsame.index i]
    exact hL.idx i (hsame.same_hard ▸ hi)
  · intro r'
    simp only [L_add, beacon_status_inj]
    by_cases hr : r' = r
    · subst hr
      simp only [if_true]
      refine ⟨List.nodup_cons.mpr ⟨hnot r', hd.nodup⟩, ?_, ?_, ?_, ?_, ?_⟩
      · intro x hx
        rw [hsame.same_hard]
        rcases List.mem_cons.mp hx with h | h
        · rw [h]; exact hb
        · exact hd.lt x h
      · rw [SQLX_UNSHIFT_beacon]; simp [headI, hL.idx b hb]
      · rw [SQLX_UNSHIFT_beacon, lastI_cons]; simp [hL.idx b hb, hd.last]
      · intro x hx
        rw [(hlk x).2]
        rcases List.mem_cons.mp hx with h | h
        · subst h; simp [prevOf]
        · have hxb : x ≠ b := by intro hh; subst hh; exact hnot r' h
          simp only [hxb, if_false, prevOf, hd.first, hL.idx b hb, hd.prev x h]
          exact (prevOf_change_head (-1) (b : Int) x).symm
      · intro x hx
        rw [(hlk x).1]
        rcases List.mem_cons.mp hx with h | h
        · subst h; simp [nextOf, hd.first]
        · have hxb : x ≠ b := by intro hh; subst hh; exact hnot r' h
          simp only [hxb, if_false, nextOf, hd.next x h]
    · simp only [hr, if_false]
      have hd' := hL.dl r'
      refine ⟨hd'.nodup, ?_, ?_, ?_, ?_, ?_⟩
      · intro x hx; rw [hsame.same_hard]; exact hd'.lt x hx
      · rw [SQLX_UNSHIFT_beacon]; simp only [hr, if_false]; exact hd'.first
      · rw [SQLX_UNSHIFT_beacon]; simp only [hr, if_false]; exact hd'.last
      · intro x hx
        have hxb : x ≠ b := by intro hh; subst hh; exact hnot r' hx
        rw [(hlk x).2]
        simp only [hxb, if_false, hfirst r' x hx hr]
        exact hd'.prev x hx
      · intro x hx
        have hxb : x ≠ b := by intro hh; subst hh; exact hnot r' hx
        rw [(hlk x).1]
        simp only [hxb, if_false]
        exact hd'.next x hx
  · intro r' i
    simp only [L_add, beacon_status_inj, SQLX_UNSHIFT_status, hsame.same_hard]
    by_cases hr : r' = r
    · subst hr
      simp only [if_true, List.mem_cons, hL.mem r' i]
      by_cases hib : i = b
      · subst hib; simp [hblen, hb]
      · simp [hib]
    · simp only [hr, if_false, hL.mem r' i]
      by_cases hib : i = b
      · subst hib
        have : ¬ (r.status = r'.status) := fun hh => hr (beacon_status_inj.mp hh.symm)
        simp [hblen, this, hs r']
      · simp [hib]
  · intro i hi hst
    rw [SQLX_UNSHIFT_status] at hst
    rw [hsame.same_hard] at hi
    have hib : i ≠ b := by
      intro hh; subst hh
      simp only [hblen, and_self, if_true] at hst
      rcases hst with h | h
      · exact (beacon_status_ne_closing r).1 h
      · exact (beacon_status_ne_closing r).2 h
    simp only [hib, false_and, if_false] at hst
    have hdet := hL.det i hi hst
    rw [(hlk i).1, (hlk i).2]
    have h1 : ¬ ((c.beacon r).first = (i : Int)) := by
      intro hh
      rw [hd.first] at hh
      rcases headI_nonneg_or (L r) with h | ⟨a, ha, h⟩
      · rw [h] at hh; omega
      · rw [h] at hh; have : a = i := by exact_mod_cast hh
        subst this
        have := ((hL.mem r a).mp ha).2
        rcases hst with h | h <;> rw [h] at this
        · exact (beacon_status_ne_closing r).1 this.symm
        · exact (beacon_status_ne_closing r).2 this.symm
    simp only [hib, if_false, h1]
    exact ⟨hdet.1, hdet.2⟩

end Sqlx

namespace Sqlx
open sqlx_base_status_e

/-! ## The effect of `sqlx_base_move_to_list` -/

theorem Lists.congr {c c' : sqlx_cache_s} {L : beacon_ref → List Nat} (hL : Lists c L)
    (hlen : c'.bases.length = c.bases.length) (hhard : c'.bases_max_hard = c.bases_max_hard)
    (hbeacon : ∀ r, c'.beacon r = c.beacon r)
    (hslot : ∀ j, (GET c' j).link_prev = (GET c j).link_prev
      ∧ (GET c' j).link_next = (GET c j).link_next ∧ (GET c' j).status = (GET c j).status
      ∧ (GET c' j).index = (GET c j).index) :
    Lists c' L := by
  refine ⟨?_, ?_, ?_, ?_, ?_⟩
  · rw [hlen, hhard, hL.len]
  · intro i hi; rw [(hslot i).2.2.2]; exact hL.idx i (hhard ▸ hi)
  · intro r
    have hd := hL.dl r
    refine ⟨hd.nodup, ?_, ?_, ?_, ?_, ?_⟩
    · intro x hx; rw [hhard]; exact hd.lt x hx
    · rw [hbeacon]; exact hd.first
    · rw [hbeacon]; exact hd.last
    · intro x hx; rw [(hslot x).1]; exact hd.prev x hx
    · intro x hx; rw [(hslot x).2.1]; exact hd.next x hx
  · intro r i; rw [hhard, (hslot i).2.2.1]; exact hL.mem r i
  · intro i hi hst
    rw [(hslot i).2.2.1] at hst
    rw [(hslot i).1, (hslot i).2.1]
    exact hL.det i (hhard ▸ hi) hst

theorem Lists.set_closing {c : sqlx_cache_s} {L : beacon_ref → List Nat} (hL : Lists c L)
    {b : Nat} (hs : ∀ r' : beacon_ref, (GET c b).status ≠ r'.status)
    (hlk : (GET c b).link_prev = -1 ∧ (GET c b).link_next = -1)
    {y : sqlx_base_status_e} (hy : ∀ r' : beacon_ref, y ≠ r'.status) :
    Lists (c.update b (fun s => { s with status := y })) L := by
  have hnot : ∀ r', b ∉ L r' := fun r' hh => hs r' ((hL.mem r' b).mp hh).2
  have hne : ∀ r' x, x ∈ L r' → x ≠ b := by
    intro r' x hx hh; subst hh; exact hnot r' hx
  refine ⟨?_, ?_, ?_, ?_, ?_⟩
  · simp [hL.len]
  · intro i hi
    rw [index_update]
    · exact hL.idx i hi
    · intro s; rfl
  · intro r
    have hd := hL.dl r
    refine ⟨hd.nodup, hd.lt, ?_, ?_, ?_, ?_⟩
    · simp [hd.first]
    · simp [hd.last]
    · intro x hx; rw [GET_update_ne _ (hne r x hx)]; exact hd.prev x hx
    · intro x hx; rw [GET_update_ne _ (hne r x hx)]; exact hd.next x hx
  · intro r i
    simp only [update_hard]
    by_cases hib : i = b
    · subst hib
      rw [hL.mem r i, GET_update]
      constructor
      · intro h; exact absurd h.2 (hs r)
      · intro h
        exfalso
        have := h.2
        split at this
        · exact hy r this
        · exact hs r this
    · rw [GET_update_ne _ hib]; exact hL.mem r i
  · intro i hi hst
    simp only [update_hard] at hi
    by_cases hib : i = b
    · subst hib
      rw [GET_update]
      split
      · exact hlk
      · exact hlk
    · rw [GET_update_ne _ hib] at hst ⊢
      exact hL.det i hi hst

theorem not_listed_iff {x : sqlx_base_status_e} :
    (∀ r' : beacon_ref, x ≠ r'.status) ↔
      (x = SQLX_BASE_ZERO ∨ x = SQLX_BASE_CLOSING ∨ x = SQLX_BASE_CLOSING_FOR_DELETION) := by
  constructor
  · intro h
    have h1 := h .free
    have h2 := h .idle
    have h3 := h .idle_hot
    have h4 := h .used
    cases x <;> simp_all [beacon_ref.status]
  · intro h r'
    rcases h with h | h | h <;> subst h <;> cases r' <;> simp [beacon_ref.status]

theorem L_remove_not_listed (L : beacon_ref → List Nat) {x : sqlx_base_status_e} (b : Nat)
    (hx : ∀ r' : beacon_ref, x ≠ r'.status) : L_remove L x b = L := by
  funext r
  simp only [L_remove]
  rw [if_neg (fun h => hx r h.symm)]

theorem L_add_not_listed (L : beacon_ref → List Nat) {y : sqlx_base_status_e} (b : Nat)
    (hy : ∀ r' : beacon_ref, y ≠ r'.status) : L_add L y b = L := by
  funext r
  simp only [L_add]
  rw [if_neg (fun h => hy r h.symm)]

theorem remove_from_list_Lists {c : sqlx_cache_s} {L : beacon_ref → List Nat} (hL : Lists c L)
    {b : Nat} (hb : b < c.bases_max_hard) :
    Lists (sqlx_base_remove_from_list c b) (L_remove L (GET c b).status b)
      ∧ (∀ r' : beacon_ref, (GET (sqlx_base_remove_from_list c b) b).status ≠ r'.status)
      ∧ ((GET c b).status ≠ SQLX_BASE_ZERO →
          (GET (sqlx_base_remove_from_list c b) b).link_prev = -1
          ∧ (GET (sqlx_base_remove_from_list c b) b).link_next = -1) := by
  have hblen : b < c.bases.length := by rw [hL.len]; exact hb
  have hrem : ∀ r : beacon_ref, (GET c b).status = r.status →
      Lists (SQLX_REMOVE c b r) (L_remove L (GET c b).status b)
      ∧ (∀ r' : beacon_ref, (GET (SQLX_REMOVE c b r) b).status ≠ r'.status)
      ∧ ((GET c b).status ≠ SQLX_BASE_ZERO →
          (GET (SQLX_REMOVE c b r) b).link_prev = -1
          ∧ (GET (SQLX_REMOVE c b r) b).link_next = -1) := by
    intro r hs
    refine ⟨?_, ?_, ?_⟩
    · rw [hs]; exact SQLX_REMOVE_Lists hL hb hs
    · intro r'
      rw [SQLX_REMOVE_status]
      simp only [hblen, and_self, if_true]
      exact (beacon_status_ne_zero r').symm
    · intro _
      have := SQLX_REMOVE_GET_self (c := c) (b := b) (r := r) hblen
      exact ⟨this.2, this.1⟩
  have hclo : (GET c b).status = SQLX_BASE_CLOSING ∨ (GET c b).status = SQLX_BASE_CLOSING_FOR_DELETION ∨
      (GET c b).status = SQLX_BASE_ZERO →
      Lists c (L_remove L (GET c b).status b)
      ∧ (∀ r' : beacon_ref, (GET c b).status ≠ r'.status)
      ∧ ((GET c b).status ≠ SQLX_BASE_ZERO →
          (GET c b).link_prev = -1 ∧ (GET c b).link_next = -1) := by
    intro hs
    have hn : ∀ r' : beacon_ref, (GET c b).status ≠ r'.status :=
      not_listed_iff.mpr (by tauto)
    refine ⟨by rw [L_remove_not_listed L b hn]; exact hL, hn, ?_⟩
    intro hz
    exact hL.det b hb (by tauto)
  simp only [sqlx_base_remove_from_list]
  split
  · rename_i h; exact hrem .free h
  · rename_i h; exact hrem .idle h
  · rename_i h; exact hrem .idle_hot h
  · rename_i h; exact hrem .used h
  · rename_i h; exact hclo (Or.inl h)
  · rename_i h; exact hclo (Or.inr (Or.inl h))
  · rename_i h; exact hclo (Or.inr (Or.inr h))

theorem remove_from_list_same (c : sqlx_cache_s) (b : Nat) :
    SameData c (sqlx_base_remove_from_list c b) := by
  simp only [sqlx_base_remove_from_list]
  split <;> first | exact SQLX_REMOVE_same _ _ _ | exact SameData.same_refl _

theorem remove_from_list_used (c : sqlx_cache_s) (b : Nat) :
    (sqlx_base_remove_from_list c b).bases_used = c.bases_used := by
  simp only [sqlx_base_remove_from_list]
  split <;> first | exact SQLX_REMOVE_used _ _ _ | rfl

theorem remove_from_list_last_update (c : sqlx_cache_s) (b j : Nat) :
    (GET (sqlx_base_remove_from_list c b) j).last_update = (GET c j).last_update := by
  simp only [sqlx_base_remove_from_list]
  split <;> first | exact SQLX_REMOVE_last_update _ _ _ _ | rfl

theorem remove_from_list_status_ne (c : sqlx_cache_s) {b j : Nat} (h : j ≠ b) :
    (GET (sqlx_base_remove_from_list c b) j).status = (GET c j).status := by
  simp only [sqlx_base_remove_from_list]
  split <;> first | (rw [SQLX_REMOVE_status]; simp [h]) | rfl

theorem add_to_list_same (mt : Int) (c : sqlx_cache_s) (b : Nat) (y : sqlx_base_status_e) :
    SameData c (sqlx_base_add_to_list mt c b y) := by
  have h0 : SameData c { c with bases_used := guint_dec c.bases_used } :=
    ⟨rfl, rfl, fun _ => rfl⟩
  cases y <;> simp only [sqlx_base_add_to_list]
  · exact SameData.same_refl _
  · exact h0.same_trans (SQLX_UNSHIFT_same _ _ _ _ _)
  · exact SQLX_UNSHIFT_same _ _ _ _ _
  · exact SQLX_UNSHIFT_same _ _ _ _ _
  · exact SQLX_UNSHIFT_same _ _ _ _ _
  · apply SameData.same_update; intro s; rfl
  · apply SameData.same_update; intro s; rfl

theorem add_to_list_used (mt : Int) (c : sqlx_cache_s) (b : Nat) (y : sqlx_base_status_e) :
    (sqlx_base_add_to_list mt c b y).bases_used
      = if y = SQLX_BASE_FREE then guint_dec c.bases_used else c.bases_used := by
  cases y <;> simp [sqlx_base_add_to_list, SQLX_UNSHIFT_used]

theorem add_to_list_status (mt : Int) (c : sqlx_cache_s) (b : Nat) {y : sqlx_base_status_e}
    (hy : y ≠ SQLX_BASE_ZERO) (j : Nat) :
    (GET (sqlx_base_add_to_list mt c b y) j).status
      = if j = b ∧ b < c.bases.length then y else (GET c j).status := by
  cases y <;> simp only [sqlx_base_add_to_list]
  · exact absurd rfl hy
  · rw [SQLX_UNSHIFT_status]; rfl
  · rw [SQLX_UNSHIFT_status]
  · rw [SQLX_UNSHIFT_status]
  · rw [SQLX_UNSHIFT_status]
  · rw [GET_update]; split <;> rfl
  · rw [GET_update]; split <;> rfl

theorem listed_iff {x : sqlx_base_status_e} : listed x = true ↔ ∃ r : beacon_ref, r.status = x := by
  constructor
  · intro h
    cases x <;> simp [listed] at h
    · exact ⟨.free, rfl⟩
    · exact ⟨.idle, rfl⟩
    · exact ⟨.idle_hot, rfl⟩
    · exact ⟨.used, rfl⟩
  · rintro ⟨r, rfl⟩
    cases r <;> rfl

theorem add_to_list_last_update (mt : Int) (c : sqlx_cache_s) (b : Nat) (y : sqlx_base_status_e)
    (j : Nat) :
    (GET (sqlx_base_add_to_list mt c b y) j).last_update
      = if j = b ∧ b < c.bases.length ∧ listed y = true then mt else (GET c j).last_update := by
  cases y <;> simp only [sqlx_base_add_to_list]
  · simp [listed]
  · rw [SQLX_UNSHIFT_last_update]; simp [listed]; rfl
  · rw [SQLX_UNSHIFT_last_update]; simp [listed]
  · rw [SQLX_UNSHIFT_last_update]; simp [listed]
  · rw [SQLX_UNSHIFT_last_update]; simp [listed]
  · rw [last_update_update]
    · simp [listed]
    · intro s; rfl
  · rw [last_update_update]
    · simp [listed]
    · intro s; rfl

theorem add_to_list_Lists {mt : Int} {c : sqlx_cache_s} {L : beacon_ref → List Nat}
    (hL : Lists c L) {b : Nat} (hb : b < c.bases_max_hard)
    (hs : ∀ r' : beacon_ref, (GET c b).status ≠ r'.status)
    (hlk : (GET c b).link_prev = -1 ∧ (GET c b).link_next = -1)
    {y : sqlx_base_status_e} (hy : y ≠ SQLX_BASE_ZERO) :
    Lists (sqlx_base_add_to_list mt c b y) (L_add L y b) := by
  have h0 : Lists { c with bases_used := guint_dec c.bases_used } L :=
    hL.congr rfl rfl (fun r => by cases r <;> rfl) (fun j => ⟨rfl, rfl, rfl, rfl⟩)
  cases y <;> simp only [sqlx_base_add_to_list]
  · exact absurd rfl hy
  · exact SQLX_UNSHIFT_Lists (r := .free) h0 hb hs
  · exact SQLX_UNSHIFT_Lists (r := .idle) hL hb hs
  · exact SQLX_UNSHIFT_Lists (r := .idle_hot) hL hb hs
  · exact SQLX_UNSHIFT_Lists (r := .used) hL hb hs
  · rw [L_add_not_listed L b (not_listed_iff.mpr (by tauto))]
    exact hL.set_closing hs hlk (not_listed_iff.mpr (by tauto))
  · rw [L_add_not_listed L b (not_listed_iff.mpr (by tauto))]
    exact hL.set_closing hs hlk (not_listed_iff.mpr (by tauto))

theorem move_to_list_Lists {mt : Int} {c : sqlx_cache_s} {L : beacon_ref → List Nat}
    (hL : Lists c L) {b : Nat} (hb : b < c.bases_max_hard)
    (hx : (GET c b).status ≠ SQLX_BASE_ZERO)
    {y : sqlx_base_status_e} (hy : y ≠ SQLX_BASE_ZERO) :
    Lists (sqlx_base_move_to_list mt c b y) (L_move L (GET c b).status y b) := by
  simp only [sqlx_base_move_to_list, L_move]
  by_cases h : y = (GET c b).status
  · simp only [h, ne_eq, not_true_eq_false, if_false, if_true]
    exact hL
  · simp only [h, ne_eq, not_false_eq_true, if_true, if_false]
    obtain ⟨h1, h2, h3⟩ := remove_from_list_Lists hL hb
    have hb' : b < (sqlx_base_remove_from_list c b).bases_max_hard := by
      rw [(remove_from_list_same c b).same_hard]; exact hb
    exact add_to_list_Lists h1 hb' h2 (h3 hx) hy

theorem move_to_list_same (mt : Int) (c : sqlx_cache_s) (b : Nat) (y : sqlx_base_status_e) :
    SameData c (sqlx_base_move_to_list mt c b y) := by
  simp only [sqlx_base_move_to_list]
  split
  · exact (remove_from_list_same c b).same_trans (add_to_list_same _ _ _ _)
  · exact SameData.same_refl _

theorem move_to_list_used (mt : Int) (c : sqlx_cache_s) (b : Nat) (y : sqlx_base_status_e) :
    (sqlx_base_move_to_list mt c b y).bases_used
      = if y ≠ (GET c b).status ∧ y = SQLX_BASE_FREE then guint_dec c.bases_used
        else c.bases_used := by
  simp only [sqlx_base_move_to_list]
  split
  · rename_i h
    rw [add_to_list_used, remove_from_list_used]
    simp [h]
  · rename_i h
    simp [h]

theorem move_to_list_status (mt : Int) (c : sqlx_cache_s) {b : Nat} (hb : b < c.bases.length)
    {y : sqlx_base_status_e} (hy : y ≠ SQLX_BASE_ZERO) (j : Nat) :
    (GET (sqlx_base_move_to_list mt c b y) j).status
      = if j = b then y else (GET c j).status := by
  simp only [sqlx_base_move_to_list]
  split
  · rw [add_to_list_status _ _ _ hy, (remove_from_list_same c b).length]
    by_cases hj : j = b
    · simp [hj, hb]
    · simp [hj, remove_from_list_status_ne c hj]
  · rename_i h
    by_cases hj : j = b
    · subst hj
      simp only [if_true]
      simp only [ne_eq, Decidable.not_not] at h
      exact h.symm
    · simp [hj]

theorem move_to_list_last_update (mt : Int) (c : sqlx_cache_s) {b : Nat}
    (hb : b < c.bases.length) (y : sqlx_base_status_e) (j : Nat) :
    (GET (sqlx_base_move_to_list mt c b y) j).last_update
      = if j = b ∧ y ≠ (GET c b).status ∧ listed y = true then mt
        else (GET c j).last_update := by
  simp only [sqlx_base_move_to_list]
  split
  · rename_i h
    rw [add_to_list_last_update, (remove_from_list_same c b).length,
      remove_from_list_last_update]
    simp [hb, h]
  · rename_i h
    simp [h]

end Sqlx

namespace Sqlx
open sqlx_base_status_e

/-! ## The fields of the slots and of the cache through `sqlx_base_move_to_list` -/

theorem data_fields {s s' : sqlx_base_s} (h : s'.data = s.data) :
    s'.name = s.name ∧ s'.owner = s.owner ∧ s'.handle = s.handle ∧ s'.heat = s.heat
      ∧ s'.count_open = s.count_open ∧ s'.count_waiting = s.count_waiting
      ∧ s'.index = s.index ∧ s'.open_attempts = s.open_attempts
      ∧ s'.open_wait_time = s.open_wait_time := by
  simpa only [sqlx_base_s.data, Prod.mk.injEq] using h

theorem frame_fields {c c' : sqlx_cache_s} (h : c'.frame = c.frame) :
    c'.bases_by_name = c.bases_by_name ∧ c'.bases_max_soft = c.bases_max_soft
      ∧ c'.bases_max_hard = c.bases_max_hard ∧ c'.is_running = c.is_running
      ∧ c'.last_memory_usage = c.last_memory_usage ∧ c'.unlock_hook = c.unlock_hook
      ∧ c'.close_hook = c.close_hook ∧ c'.hook_calls = c.hook_calls := by
  simpa only [sqlx_cache_s.frame, Prod.mk.injEq] using h

section move
variable (mt : Int) (c : sqlx_cache_s) (b : Nat) (y : sqlx_base_status_e) (j : Nat)

@[simp] theorem move_name :
    (GET (sqlx_base_move_to_list mt c b y) j).name = (GET c j).name :=
  (data_fields ((move_to_list_same mt c b y).data j)).1

@[simp] theorem move_owner :
    (GET (sqlx_base_move_to_list mt c b y) j).owner = (GET c j).owner :=
  (data_fields ((move_to_list_same mt c b y).data j)).2.1

@[simp] theorem move_handle :
    (GET (sqlx_base_move_to_list mt c b y) j).handle = (GET c j).handle :=
  (data_fields ((move_to_list_same mt c b y).data j)).2.2.1

@[simp] theorem move_heat :
    (GET (sqlx_base_move_to_list mt c b y) j).heat = (GET c j).heat :=
  (data_fields ((move_to_list_same mt c b y).data j)).2.2.2.1

@[simp] theorem move_count_open :
    (GET (sqlx_base_move_to_list mt c b y) j).count_open = (GET c j).count_open :=
  (data_fields ((move_to_list_same mt c b y).data j)).2.2.2.2.1

@[simp] theorem move_count_waiting :
    (GET (sqlx_base_move_to_list mt c b y) j).count_waiting = (GET c j).count_waiting :=
  (data_fields ((move_to_list_same mt c b y).data j)).2.2.2.2.2.1

@[simp] theorem move_index :
    (GET (sqlx_base_move_to_list mt c b y) j).index = (GET c j).index :=
  (data_fields ((move_to_list_same mt c b y).data j)).2.2.2.2.2.2.1

@[simp] theorem move_open_attempts :
    (GET (sqlx_base_move_to_list mt c b y) j).open_attempts = (GET c j).open_attempts :=
  (data_fields ((move_to_list_same mt c b y).data j)).2.2.2.2.2.2.2.1

@[simp] theorem move_open_wait_time :
    (GET (sqlx_base_move_to_list mt c b y) j).open_wait_time = (GET c j).open_wait_time :=
  (data_fields ((move_to_list_same mt c b y).data j)).2.2.2.2.2.2.2.2

@[simp] theorem move_bases_by_name :
    (sqlx_base_move_to_list mt c b y).bases_by_name = c.bases_by_name :=
  (frame_fields (move_to_list_same mt c b y).frame).1

@[simp] theorem move_soft :
    (sqlx_base_move_to_list mt c b y).bases_max_soft = c.bases_max_soft :=
  (frame_fields (move_to_list_same mt c b y).frame).2.1

@[simp] theorem move_hard :
    (sqlx_base_move_to_list mt c b y).bases_max_hard = c.bases_max_hard :=
  (frame_fields (move_to_list_same mt c b y).frame).2.2.1

@[simp] theorem move_is_running :
    (sqlx_base_move_to_list mt c b y).is_running = c.is_running :=
  (frame_fields (move_to_list_same mt c b y).frame).2.2.2.1

@[simp] theorem move_last_memory_usage :
    (sqlx_base_move_to_list mt c b y).last_memory_usage = c.last_memory_usage :=
  (frame_fields (move_to_list_same mt c b y).frame).2.2.2.2.1

@[simp] theorem move_unlock_hook :
    (sqlx_base_move_to_list mt c b y).unlock_hook = c.unlock_hook :=
  (frame_fields (move_to_list_same mt c b y).frame).2.2.2.2.2.1

@[simp] theorem move_close_hook :
    (sqlx_base_move_to_list mt c b y).close_hook = c.close_hook :=
  (frame_fields (move_to_list_same mt c b y).frame).2.2.2.2.2.2.1

@[simp] theorem move_hook_calls :
    (sqlx_base_move_to_list mt c b y).hook_calls = c.hook_calls :=
  (frame_fields (move_to_list_same mt c b y).frame).2.2.2.2.2.2.2

@[simp] theorem move_length :
    (sqlx_base_move_to_list mt c b y).bases.length = c.bases.length :=
  (move_to_list_same mt c b y).length

end move

@[simp] theorem update_bases_by_name (c : sqlx_cache_s) (i : Nat) (f : sqlx_base_s → sqlx_base_s) :
    (c.update i f).bases_by_name = c.bases_by_name := rfl

@[simp] theorem update_soft (c : sqlx_cache_s) (i : Nat) (f : sqlx_base_s → sqlx_base_s) :
    (c.update i f).bases_max_soft = c.bases_max_soft := rfl

@[simp] theorem update_is_running (c : sqlx_cache_s) (i : Nat) (f : sqlx_base_s → sqlx_base_s) :
    (c.update i f).is_running = c.is_running := rfl

@[simp] theorem update_last_memory_usage (c : sqlx_cache_s) (i : Nat)
    (f : sqlx_base_s → sqlx_base_s) :
    (c.update i f).last_memory_usage = c.last_memory_usage := rfl

@[simp] theorem update_unlock_hook (c : sqlx_cache_s) (i : Nat) (f : sqlx_base_s → sqlx_base_s) :
    (c.update i f).unlock_hook = c.unlock_hook := rfl

@[simp] theorem update_close_hook (c : sqlx_cache_s) (i : Nat) (f : sqlx_base_s → sqlx_base_s) :
    (c.update i f).close_hook = c.close_hook := rfl

@[simp] theorem update_hook_calls (c : sqlx_cache_s) (i : Nat) (f : sqlx_base_s → sqlx_base_s) :
    (c.update i f).hook_calls = c.hook_calls := rfl

/-! ## The lists through a move -/

theorem L_move_free_of_ne (L : beacon_ref → List Nat) {x y : sqlx_base_status_e} (b : Nat)
    (hx : x ≠ SQLX_BASE_FREE) (hy : y ≠ SQLX_BASE_FREE) :
    L_move L x y b beacon_ref.free = L beacon_ref.free := by
  simp only [L_move]
  split
  · rfl
  · simp only [L_add, L_remove, beacon_ref.status]
    rw [if_neg (fun h => hy h.symm), if_neg (fun h => hx h.symm)]

theorem L_move_free_from (L : beacon_ref → List Nat) {y : sqlx_base_status_e} (b : Nat)
    (hy : y ≠ SQLX_BASE_FREE) :
    L_move L SQLX_BASE_FREE y b beacon_ref.free = (L beacon_ref.free).erase b := by
  simp only [L_move]
  rw [if_neg hy]
  simp only [L_add, L_remove, beacon_ref.status]
  rw [if_neg (fun h => hy h.symm)]
  simp

theorem L_move_free_to (L : beacon_ref → List Nat) {x : sqlx_base_status_e} (b : Nat)
    (hx : x ≠ SQLX_BASE_FREE) :
    L_move L x SQLX_BASE_FREE b beacon_ref.free = b :: L beacon_ref.free := by
  simp only [L_move]
  rw [if_neg (fun h => hx h.symm)]
  simp only [L_add, L_remove, beacon_ref.status]
  have : ¬ (SQLX_BASE_FREE = x) := fun h => hx h.symm
  simp [this]

/-! ## The invariant through a change of one slot -/

theorem Fields.of_same {s s' : sqlx_base_s} (h : Fields s) (hst : s'.status = s.status)
    (hd : s'.data = s.data) : Fields s' := by
  obtain ⟨h1, h2, h3, _, h5, _, _, _, _⟩ := data_fields hd
  refine ⟨?_, ?_, ?_, ?_, ?_⟩
  · rw [hst]; exact h.valid
  · rw [hst, h1, h2, h3, h5]; exact h.free
  · rw [hst, h2, h5]; exact h.idle
  · rw [hst, h2, h5]; exact h.used
  · rw [hst, h2, h5]; exact h.closing

/-- The slot `b` changes and stays out of the FREE list with its name; nothing
else changes but the lists. -/
theorem CacheInv.inv_keep {c c' : sqlx_cache_s} {L L' : beacon_ref → List Nat} {b : Nat}
    (hI : CacheInv c L) (hL' : Lists c' L')
    (hfree : L' beacon_ref.free = L beacon_ref.free)
    (hst : ∀ j, j ≠ b → (GET c' j).status = (GET c j).status)
    (hdata : ∀ j, j ≠ b → (GET c' j).data = (GET c j).data)
    (htree : c'.bases_by_name = c.bases_by_name)
    (hhard : c'.bases_max_hard = c.bases_max_hard)
    (hsoft : c'.bases_max_soft = c.bases_max_soft)
    (hused : c'.bases_used = c.bases_used)
    (hname : (GET c' b).name = (GET c b).name)
    (hnf : (GET c b).status ≠ SQLX_BASE_FREE) (hnf' : (GET c' b).status ≠ SQLX_BASE_FREE)
    (hf : Fields (GET c' b)) :
    CacheInv c' L' := by
  refine ⟨hL', ?_, ?_, ?_, ?_, ?_, ?_⟩
  · intro i hi
    by_cases hib : i = b
    · subst hib; exact hf
    · exact (hI.fields i (hhard ▸ hi)).of_same (hst i hib) (hdata i hib)
  · rw [hused, hfree, hhard]; exact hI.used
  · rw [hsoft, hhard]; exact hI.soft
  · rw [htree]; exact hI.tree_nodup
  · intro n v hv
    rw [htree] at hv
    obtain ⟨i, hi, hv, hn, hs⟩ := hI.tree_sound n v hv
    refine ⟨i, hhard ▸ hi, hv, ?_, ?_⟩
    · by_cases hib : i = b
      · subst hib; rw [hname]; exact hn
      · rw [(data_fields (hdata i hib)).1]; exact hn
    · by_cases hib : i = b
      · subst hib; exact hnf'
      · rw [hst i hib]; exact hs
  · intro i hi hs
    rw [hhard] at hi
    rw [htree]
    by_cases hib : i = b
    · subst hib; rw [hname]; exact hI.tree_complete i hi hnf
    · rw [hst i hib] at hs
      rw [(data_fields (hdata i hib)).1]; exact hI.tree_complete i hi hs

end Sqlx

namespace Sqlx
open sqlx_base_status_e

theorem Lists.update_data {c : sqlx_cache_s} {L : beacon_ref → List Nat} (hL : Lists c L)
    (b : Nat) {f : sqlx_base_s → sqlx_base_s}
    (hf : ∀ s, (f s).link_prev = s.link_prev ∧ (f s).link_next = s.link_next
      ∧ (f s).status = s.status ∧ (f s).index = s.index) :
    Lists (c.update b f) L := by
  refine hL.congr (by simp) rfl (fun r => by simp) ?_
  intro j
  rw [GET_update]
  split
  · rename_i h; rw [h.1]; exact hf _
  · exact ⟨rfl, rfl, rfl, rfl⟩

theorem nodup_length_lt {l : List Nat} {n b : Nat} (hn : l.Nodup) (hl : ∀ x ∈ l, x < n)
    (hb : b < n) (hbl : b ∉ l) : l.length < n := by
  have h1 : (b :: l).Nodup := List.nodup_cons.mpr ⟨hbl, hn⟩
  have h2 : (b :: l).toFinset ⊆ Finset.range n := by
    intro x hx
    simp only [List.toFinset_cons, Finset.mem_insert, List.mem_toFinset] at hx
    rcases hx with h | h
    · simp [h, hb]
    · simp [hl x h]
  have h3 := Finset.card_le_card h2
  rw [List.toFinset_card_of_nodup h1, Finset.card_range] at h3
  simp at h3
  omega

theorem Touch.touch_refl (c : sqlx_cache_s) (b : Nat) : Touch c c b :=
  ⟨rfl, fun _ _ => rfl, fun _ _ => rfl⟩

theorem closing_by_touch {c c' : sqlx_cache_s} {b : Nat} (hT : Touch c c' b) (t' : GThread)
    {i : Nat} (hi : i ≠ b) : closing_by c' t' i ↔ closing_by c t' i := by
  simp only [closing_by, hT.hard, hT.status i hi, (data_fields (hT.data i hi)).2.1]

/-- A step that leaves the slot that it changes as much closed as it was. -/
theorem GoodStep.good_keep {c c' : sqlx_cache_s} {L' : beacon_ref → List Nat} {b : Nat}
    {t : GThread} (o : Option Nat) (hI : CacheInv c' L') (hT : Touch c c' b)
    (hb : ∀ t', closing_by c' t' b ↔ closing_by c t' b) : GoodStep c c' t o o := by
  have key : ∀ t' i, closing_by c' t' i ↔ closing_by c t' i := by
    intro t' i
    by_cases hi : i = b
    · subst hi; exact hb t'
    · exact closing_by_touch hT t' hi
  exact ⟨⟨L', hI⟩, fun t' _ i => key t' i, fun h i => (key t i).trans (h i)⟩

/-- A step that starts the closing of the slot that it changes. -/
theorem GoodStep.begin {c c' : sqlx_cache_s} {L' : beacon_ref → List Nat} {b : Nat}
    {t : GThread} (hI : CacheInv c' L') (hT : Touch c c' b)
    (hb : ∀ t', ¬ closing_by c t' b) (hb' : closing_by c' t b) :
    GoodStep c c' t none (some b) := by
  refine ⟨⟨L', hI⟩, ?_, ?_⟩
  · intro t' ht i
    by_cases hi : i = b
    · subst hi
      constructor
      · intro h
        exfalso
        have := h.2.2
        rw [hb'.2.2] at this
        exact ht (Option.some.inj this).symm
      · intro h; exact absurd h (hb t')
    · exact closing_by_touch hT t' hi
  · intro h i
    by_cases hi : i = b
    · subst hi; simp [hb']
    · rw [closing_by_touch hT t hi, h i]
      simp only [reduceCtorEq, Option.some.injEq, false_iff]
      exact fun hh => hi hh.symm

/-- A step that ends the closing of the slot that it changes. -/
theorem GoodStep.end {c c' : sqlx_cache_s} {L' : beacon_ref → List Nat} {b : Nat}
    {t : GThread} (hI : CacheInv c' L') (hT : Touch c c' b)
    (hb : closing_by c t b) (hb' : ∀ t', ¬ closing_by c' t' b) :
    GoodStep c c' t (some b) none := by
  refine ⟨⟨L', hI⟩, ?_, ?_⟩
  · intro t' ht i
    by_cases hi : i = b
    · subst hi
      constructor
      · intro h; exact absurd h (hb' t')
      · intro h
        exfalso
        have := h.2.2
        rw [hb.2.2] at this
        exact ht (Option.some.inj this).symm
    · exact closing_by_touch hT t' hi
  · intro h i
    by_cases hi : i = b
    · subst hi; simp [hb' t]
    · rw [closing_by_touch hT t hi, h i]
      simp only [reduceCtorEq, Option.some.injEq, iff_false]
      exact fun hh => hi hh.symm

theorem GoodStep.good_refl {c : sqlx_cache_s} {L : beacon_ref → List Nat} (hI : CacheInv c L)
    (t : GThread) (o : Option Nat) : GoodStep c c t o o :=
  ⟨⟨L, hI⟩, fun _ _ _ => Iff.rfl, fun h => h⟩

theorem GoodStep.good_trans {c c' c'' : sqlx_cache_s} {t : GThread} {o o' o'' : Option Nat}
    (h : GoodStep c c' t o o') (h' : GoodStep c' c'' t o' o'') : GoodStep c c'' t o o'' :=
  ⟨h'.cache, fun t' ht i => (h'.others t' ht i).trans (h.others t' ht i),
    fun hh => h'.own (h.own hh)⟩

theorem not_closing_of_status {c : sqlx_cache_s} {b : Nat} (t' : GThread)
    (h1 : (GET c b).status ≠ SQLX_BASE_CLOSING)
    (h2 : (GET c b).status ≠ SQLX_BASE_CLOSING_FOR_DELETION) : ¬ closing_by c t' b := by
  rintro ⟨_, h | h, _⟩
  · exact h1 h
  · exact h2 h

theorem closing_by_congr {c c' : sqlx_cache_s} {b : Nat} (t' : GThread)
    (hh : c'.bases_max_hard = c.bases_max_hard)
    (hs : (GET c' b).status = (GET c b).status) (ho : (GET c' b).owner = (GET c b).owner) :
    closing_by c' t' b ↔ closing_by c t' b := by
  simp only [closing_by, hh, hs, ho]

theorem closing_iff_of_not {c c' : sqlx_cache_s} {b : Nat} (t' : GThread)
    (h1 : (GET c b).status ≠ SQLX_BASE_CLOSING)
    (h2 : (GET c b).status ≠ SQLX_BASE_CLOSING_FOR_DELETION)
    (h1' : (GET c' b).status ≠ SQLX_BASE_CLOSING)
    (h2' : (GET c' b).status ≠ SQLX_BASE_CLOSING_FOR_DELETION) :
    closing_by c' t' b ↔ closing_by c t' b :=
  ⟨fun h => absurd h (not_closing_of_status t' h1' h2'),
    fun h => absurd h (not_closing_of_status t' h1 h2)⟩

/-- A write of the slot `b`, that is not FREE, which keeps its status, its links
and its name. -/
theorem CacheInv.update_keep {c : sqlx_cache_s} {L : beacon_ref → List Nat} {b : Nat}
    (hI : CacheInv c L) (hb : b < c.bases_max_hard)
    {f : sqlx_base_s → sqlx_base_s}
    (hf : ∀ s, (f s).link_prev = s.link_prev ∧ (f s).link_next = s.link_next
      ∧ (f s).status = s.status ∧ (f s).index = s.index ∧ (f s).name = s.name)
    (hnf : (GET c b).status ≠ SQLX_BASE_FREE)
    (hF : Fields (f (GET c b))) :
    CacheInv (c.update b f) L ∧ Touch c (c.update b f) b := by
  have hlen : b < c.bases.length := by rw [hI.lists.len]; exact hb
  have hT : Touch c (c.update b f) b :=
    ⟨rfl, fun j hj => by rw [GET_update_ne _ hj], fun j hj => by rw [GET_update_ne _ hj]⟩
  refine ⟨?_, hT⟩
  refine hI.inv_keep (hI.lists.update_data b (fun s => ⟨(hf s).1, (hf s).2.1, (hf s).2.2.1, (hf s).2.2.2.1⟩))
    rfl hT.status hT.data rfl rfl rfl rfl ?_ ?_ ?_ ?_
  · rw [GET_update_self _ hlen]; exact (hf _).2.2.2.2
  · exact hnf
  · rw [GET_update_self _ hlen, (hf _).2.2.1]; exact hnf
  · rw [GET_update_self _ hlen]; exact hF

end Sqlx

namespace Sqlx
open sqlx_base_status_e

theorem Touch.touch_trans {c c' c'' : sqlx_cache_s} {b : Nat} (h : Touch c c' b) (h' : Touch c' c'' b) :
    Touch c c'' b :=
  ⟨h'.hard.trans h.hard, fun j hj => (h'.status j hj).trans (h.status j hj),
    fun j hj => (h'.data j hj).trans (h.data j hj)⟩

theorem CacheInv.but {c : sqlx_cache_s} {L : beacon_ref → List Nat} (hI : CacheInv c L)
    {b : Nat} (hb : b < c.bases_max_hard) (hnf : (GET c b).status ≠ SQLX_BASE_FREE) :
    CacheInvBut c L b :=
  ⟨hI.lists, fun i hi _ => hI.fields i hi, hI.used, hI.soft, hI.tree_nodup, hI.tree_sound,
    hI.tree_complete, hb, hnf, (hI.fields b hb).valid⟩

theorem CacheInvBut.close {c : sqlx_cache_s} {L : beacon_ref → List Nat} {b : Nat}
    (h : CacheInvBut c L b) (hF : Fields (GET c b)) : CacheInv c L := by
  refine ⟨h.lists, ?_, h.used, h.soft, h.tree_nodup, h.tree_sound, h.tree_complete⟩
  intro i hi
  by_cases hib : i = b
  · subst hib; exact hF
  · exact h.fields i hi hib

/-- The invariant but for `b` carries over to a cache whose slots other than
`b` have the same status and data, when `b` keeps its name and stays out of the
FREE list. -/
theorem CacheInvBut.carry {c c' : sqlx_cache_s} {L L' : beacon_ref → List Nat} {b : Nat}
    (h : CacheInvBut c L b) (hL' : Lists c' L')
    (hfree : L' beacon_ref.free = L beacon_ref.free)
    (hT : Touch c c' b)
    (htree : c'.bases_by_name = c.bases_by_name)
    (hsoft : c'.bases_max_soft = c.bases_max_soft)
    (hused : c'.bases_used = c.bases_used)
    (hname : (GET c' b).name = (GET c b).name)
    (hnf' : (GET c' b).status ≠ SQLX_BASE_FREE) (hv' : (GET c' b).status ≠ SQLX_BASE_ZERO) :
    CacheInvBut c' L' b := by
  have hhard := hT.hard
  refine ⟨hL', ?_, ?_, ?_, ?_, ?_, ?_, hhard ▸ h.lt, hnf', hv'⟩
  · intro i hi hib
    exact (h.fields i (hhard ▸ hi) hib).of_same (hT.status i hib) (hT.data i hib)
  · rw [hused, hfree, hhard]; exact h.used
  · rw [hsoft, hhard]; exact h.soft
  · rw [htree]; exact h.tree_nodup
  · intro n v hv
    rw [htree] at hv
    obtain ⟨i, hi, hv, hn, hs⟩ := h.tree_sound n v hv
    refine ⟨i, hhard ▸ hi, hv, ?_, ?_⟩
    · by_cases hib : i = b
      · subst hib; rw [hname]; exact hn
      · rw [(data_fields (hT.data i hib)).1]; exact hn
    · by_cases hib : i = b
      · subst hib; exact hnf'
      · rw [hT.status i hib]; exact hs
  · intro i hi hs
    rw [hhard] at hi
    rw [htree]
    by_cases hib : i = b
    · subst hib; rw [hname]; exact h.tree_complete i hi h.notfree
    · rw [hT.status i hib] at hs
      rw [(data_fields (hT.data i hib)).1]; exact h.tree_complete i hi hs

theorem CacheInvBut.but_update {c : sqlx_cache_s} {L : beacon_ref → List Nat} {b : Nat}
    (h : CacheInvBut c L b) {f : sqlx_base_s → sqlx_base_s}
    (hf : ∀ s, (f s).link_prev = s.link_prev ∧ (f s).link_next = s.link_next
      ∧ (f s).status = s.status ∧ (f s).index = s.index ∧ (f s).name = s.name) :
    CacheInvBut (c.update b f) L b ∧ Touch c (c.update b f) b := by
  have hlen : b < c.bases.length := by rw [h.lists.len]; exact h.lt
  have hT : Touch c (c.update b f) b :=
    ⟨rfl, fun j hj => by rw [GET_update_ne _ hj], fun j hj => by rw [GET_update_ne _ hj]⟩
  refine ⟨?_, hT⟩
  refine h.carry (h.lists.update_data b
    (fun s => ⟨(hf s).1, (hf s).2.1, (hf s).2.2.1, (hf s).2.2.2.1⟩)) rfl hT rfl rfl rfl ?_ ?_ ?_
  · rw [GET_update_self _ hlen]; exact (hf _).2.2.2.2
  · rw [GET_update_self _ hlen, (hf _).2.2.1]; exact h.notfree
  · rw [GET_update_self _ hlen, (hf _).2.2.1]; exact h.valid

theorem CacheInvBut.move {c : sqlx_cache_s} {L : beacon_ref → List Nat} {b : Nat}
    (h : CacheInvBut c L b) (mt : Int) {y : sqlx_base_status_e}
    (hy : y ≠ SQLX_BASE_ZERO) (hy' : y ≠ SQLX_BASE_FREE) :
    CacheInvBut (sqlx_base_move_to_list mt c b y) (L_move L (GET c b).status y b) b
      ∧ Touch c (sqlx_base_move_to_list mt c b y) b
      ∧ (GET (sqlx_base_move_to_list mt c b y) b).status = y := by
  have hlen : b < c.bases.length := by rw [h.lists.len]; exact h.lt
  have hst := move_to_list_status mt c hlen hy
  have hT : Touch c (sqlx_base_move_to_list mt c b y) b :=
    ⟨by simp, fun j hj => by rw [hst]; simp [hj], fun j _ => (move_to_list_same mt c b y).data j⟩
  have hb : (GET (sqlx_base_move_to_list mt c b y) b).status = y := by rw [hst]; simp
  refine ⟨?_, hT, hb⟩
  refine h.carry (move_to_list_Lists h.lists h.lt h.valid hy)
    (L_move_free_of_ne L b h.notfree hy') hT (by simp) (by simp) ?_ (by simp) ?_ ?_
  · rw [move_to_list_used]; simp [hy']
  · rw [hb]; exact hy'
  · rw [hb]; exact hy

/-- A change of the fields of the cache that the invariant does not read. -/
theorem CacheInvBut.but_frame {c c' : sqlx_cache_s} {L : beacon_ref → List Nat} {b : Nat}
    (h : CacheInvBut c L b) (hbases : c'.bases = c.bases)
    (hbeacon : ∀ r, c'.beacon r = c.beacon r)
    (htree : c'.bases_by_name = c.bases_by_name)
    (hhard : c'.bases_max_hard = c.bases_max_hard)
    (hsoft : c'.bases_max_soft = c.bases_max_soft)
    (hused : c'.bases_used = c.bases_used) :
    CacheInvBut c' L b ∧ Touch c c' b := by
  have hG : ∀ j, GET c' j = GET c j := fun j => by simp [GET, hbases]
  have hT : Touch c c' b := ⟨hhard, fun j _ => by rw [hG], fun j _ => by rw [hG]⟩
  refine ⟨?_, hT⟩
  refine h.carry (h.lists.congr (by rw [hbases]) hhard hbeacon (fun j => by rw [hG]; exact ⟨rfl, rfl, rfl, rfl⟩))
    rfl hT htree hsoft hused (by rw [hG]) (by rw [hG]; exact h.notfree) (by rw [hG]; exact h.valid)

theorem CacheInv.inv_frame {c c' : sqlx_cache_s} {L : beacon_ref → List Nat}
    (h : CacheInv c L) (hbases : c'.bases = c.bases)
    (hbeacon : ∀ r, c'.beacon r = c.beacon r)
    (htree : c'.bases_by_name = c.bases_by_name)
    (hhard : c'.bases_max_hard = c.bases_max_hard)
    (hsoft : 1 ≤ c'.bases_max_soft ∧ c'.bases_max_soft ≤ c'.bases_max_hard)
    (hused : c'.bases_used = c.bases_used) :
    CacheInv c' L ∧ ∀ b, Touch c c' b := by
  have hG : ∀ j, GET c' j = GET c j := fun j => by simp [GET, hbases]
  refine ⟨⟨h.lists.congr (by rw [hbases]) hhard hbeacon
      (fun j => by rw [hG]; exact ⟨rfl, rfl, rfl, rfl⟩), ?_, ?_, hsoft, ?_, ?_, ?_⟩, ?_⟩
  · intro i hi; rw [hG]; exact h.fields i (hhard ▸ hi)
  · rw [hused, hhard]; exact h.used
  · rw [htree]; exact h.tree_nodup
  · intro n v hv; rw [htree] at hv
    obtain ⟨i, hi, hv, hn, hs⟩ := h.tree_sound n v hv
    exact ⟨i, hhard ▸ hi, hv, by rw [hG]; exact hn, by rw [hG]; exact hs⟩
  · intro i hi hs; rw [hG] at hs ⊢; rw [htree]
    exact h.tree_complete i (hhard ▸ hi) hs
  · intro b
    exact ⟨hhard, fun j _ => by rw [hG], fun j _ => by rw [hG]⟩

end Sqlx

namespace Sqlx
open sqlx_base_status_e

/-! ## The name index -/

theorem g_tree_lookup_eq_zero_iff {tree : List (hashstr_t × Int)} {key : hashstr_t}
    (hv : ∀ e ∈ tree, e.2 ≠ 0) : g_tree_lookup tree key = 0 ↔ ∀ v, (key, v) ∉ tree := by
  simp only [g_tree_lookup]
  cases hf : tree.find? (fun e => decide (e.1 = key)) with
  | none =>
    simp only [true_iff]
    intro v hm
    have := List.find?_eq_none.mp hf (key, v) hm
    simp at this
  | some e =>
    have hm := List.mem_of_find?_eq_some hf
    have hk := List.find?_some hf
    simp only [decide_eq_true_eq] at hk
    constructor
    · intro h0; exact absurd h0 (hv e hm)
    · intro h; exfalso; apply h e.2; rw [← hk]; exact hm

theorem g_tree_lookup_of_mem {tree : List (hashstr_t × Int)} {key : hashstr_t} {v : Int}
    (hn : (tree.map Prod.fst).Nodup) (hm : (key, v) ∈ tree) : g_tree_lookup tree key = v := by
  induction tree with
  | nil => simp at hm
  | cons e tree ih =>
    simp only [List.map_cons, List.nodup_cons] at hn
    simp only [g_tree_lookup, List.find?_cons]
    by_cases he : e.1 = key
    · simp only [he, decide_True]
      rcases List.mem_cons.mp hm with h | h
      · rw [← h]
      · exfalso; apply hn.1; rw [he]
        exact List.mem_map.mpr ⟨(key, v), h, rfl⟩
    · simp only [he, decide_False]
      rcases List.mem_cons.mp hm with h | h
      · exfalso; apply he; rw [← h]
      · exact ih hn.2 h

theorem mem_g_tree_remove {tree : List (hashstr_t × Int)} {key n : hashstr_t} {v : Int} :
    (n, v) ∈ g_tree_remove tree key ↔ (n, v) ∈ tree ∧ n ≠ key := by
  simp [g_tree_remove]

theorem g_tree_remove_nodup {tree : List (hashstr_t × Int)} (key : hashstr_t)
    (hn : (tree.map Prod.fst).Nodup) : ((g_tree_remove tree key).map Prod.fst).Nodup := by
  simp only [g_tree_remove]
  exact hn.sublist ((List.filter_sublist tree).map Prod.fst)

theorem g_tree_remove_keys {tree : List (hashstr_t × Int)} (key : hashstr_t) :
    key ∉ (g_tree_remove tree key).map Prod.fst := by
  simp [g_tree_remove]

/-- The name index of a cache that keeps its invariant: a name is absent, or it
is the name of a slot that is not FREE. -/
theorem lookup_spec {c : sqlx_cache_s} {L : beacon_ref → List Nat} (hI : CacheInv c L)
    (hs : hashstr_t) :
    (sqlx_lookup_id c hs = -1 ∧ ∀ v, (hs, v) ∉ c.bases_by_name)
    ∨ (∃ i : Nat, i < c.bases_max_hard ∧ sqlx_lookup_id c hs = (i : Int)
        ∧ (hs, (i : Int) + 1) ∈ c.bases_by_name ∧ (GET c i).name = some hs
        ∧ (GET c i).status ≠ SQLX_BASE_FREE) := by
  have hv : ∀ e ∈ c.bases_by_name, e.2 ≠ 0 := by
    intro e he
    obtain ⟨i, _, h, _⟩ := hI.tree_sound e.1 e.2 he
    omega
  by_cases h0 : g_tree_lookup c.bases_by_name hs = 0
  · left
    exact ⟨by simp [sqlx_lookup_id, h0], (g_tree_lookup_eq_zero_iff hv).mp h0⟩
  · right
    have : ¬ ∀ v, (hs, v) ∉ c.bases_by_name := fun h => h0 ((g_tree_lookup_eq_zero_iff hv).mpr h)
    push_neg at this
    obtain ⟨v, hm⟩ := this
    obtain ⟨i, hi, hvi, hn, hst⟩ := hI.tree_sound hs v hm
    have hl := g_tree_lookup_of_mem hI.tree_nodup hm
    refine ⟨i, hi, ?_, hvi ▸ hm, hn, hst⟩
    simp only [sqlx_lookup_id, hl]
    rw [if_neg (by omega)]
    omega

end Sqlx

namespace Sqlx
open sqlx_base_status_e

/-! ## Reservation of a slot -/

theorem Lists.free_head {c : sqlx_cache_s} {L : beacon_ref → List Nat} (hL : Lists c L)
    {b : Nat} (h : sqlx_get_by_id c c.beacon_free.first = some b) :
    b < c.bases_max_hard ∧ (GET c b).status = SQLX_BASE_FREE ∧ c.beacon_free.first = (b : Int)
      ∧ ∃ l, L beacon_ref.free = b :: l := by
  have hd := hL.dl beacon_ref.free
  have hf : c.beacon_free.first = headI (L beacon_ref.free) := hd.first
  rw [sqlx_get_by_id_eq] at h
  split at h
  · simp at h
  · rename_i hh
    push_neg at hh
    have hb : c.beacon_free.first.toNat = b := by simpa using h
    have hfb : c.beacon_free.first = (b : Int) := by omega
    cases hl : L beacon_ref.free with
    | nil => rw [hl] at hf; simp [headI] at hf; omega
    | cons a l =>
      rw [hl] at hf
      simp only [headI] at hf
      have hab : a = b := by omega
      subst hab
      have hm : a ∈ L beacon_ref.free := by rw [hl]; simp
      have := (hL.mem beacon_ref.free a).mp hm
      exact ⟨this.1, this.2, hfb, l, rfl⟩

/-- What `sqlx_base_reserve` does for a name that is not in the name index: it
changes nothing when it returns no base; else the base returned was the first of
the FREE list, it is in use by the caller under the name, and the invariant is
kept. -/
theorem reserve_spec {c : sqlx_cache_s} {L : beacon_ref → List Nat} (hI : CacheInv c L)
    (self : GThread) (mt : Int) {hs : hashstr_t} (hmiss : ∀ v, (hs, v) ∉ c.bases_by_name) :
    ((sqlx_base_reserve self mt c hs).2.2 = none → (sqlx_base_reserve self mt c hs).1 = c)
    ∧ (∀ b, (sqlx_base_reserve self mt c hs).2.2 = some b →
        (sqlx_base_reserve self mt c hs).2.1 = none
        ∧ c.bases_used < c.bases_max_soft
        ∧ b < c.bases_max_hard ∧ (GET c b).status = SQLX_BASE_FREE
        ∧ c.beacon_free.first = (b : Int)
        ∧ CacheInv (sqlx_base_reserve self mt c hs).1 (L_move L SQLX_BASE_FREE SQLX_BASE_USED b)
        ∧ Touch c (sqlx_base_reserve self mt c hs).1 b
        ∧ (GET (sqlx_base_reserve self mt c hs).1 b).status = SQLX_BASE_USED
        ∧ (GET (sqlx_base_reserve self mt c hs).1 b).data
            = (some hs, some self, 0, (GET c b).heat, 1, (GET c b).count_waiting, (b : Int),
                (GET c b).open_attempts, (GET c b).open_wait_time)
        ∧ (sqlx_base_reserve self mt c hs).1.bases_used = c.bases_used + 1
        ∧ (sqlx_base_reserve self mt c hs).1.bases_by_name
            = g_tree_replace c.bases_by_name hs ((b : Int) + 1)) := by
  simp only [sqlx_base_reserve]
  by_cases hu : c.bases_used ≥ c.bases_max_soft
  · simp only [hu, if_true]
    split <;> simp
  · simp only [hu, if_false]
    cases hg : sqlx_get_by_id c c.beacon_free.first with
    | none => simp
    | some b =>
      simp only [reduceCtorEq, false_implies, Option.some.injEq, true_and]
      intro b' hb'
      subst hb'
      obtain ⟨hb, hst, hfirst, l, hl⟩ := hI.lists.free_head hg
      have hlen : b < c.bases.length := by rw [hI.lists.len]; exact hb
      -- the cache before the name is saved
      set c1 : sqlx_cache_s := { c with bases_used := c.bases_used + 1 } with hc1
      set f : sqlx_base_s → sqlx_base_s := fun s =>
        { s with name := some hs, count_open := 1, handle := 0, owner := some self } with hf
      set c2 := c1.update b f with hc2
      set c3 := sqlx_base_move_to_list mt c2 b SQLX_BASE_USED with hc3
      have hG1 : ∀ j, GET c1 j = GET c j := fun j => rfl
      have hL1 : Lists c1 L :=
        hI.lists.congr rfl rfl (fun r => by cases r <;> rfl) (fun j => ⟨rfl, rfl, rfl, rfl⟩)
      have hL2 : Lists c2 L := hL1.update_data b (fun s => ⟨rfl, rfl, rfl, rfl⟩)
      have hlen2 : b < c2.bases.length := by simp [hc2, hc1, hlen]
      have hGb2 : GET c2 b = f (GET c b) := by
        rw [hc2, GET_update_self _ (by simpa [hc1] using hlen), hG1]
      have hst2 : (GET c2 b).status = SQLX_BASE_FREE := by rw [hGb2]; exact hst
      have hL3 : Lists c3 (L_move L SQLX_BASE_FREE SQLX_BASE_USED b) := by
        have := @move_to_list_Lists mt _ _ hL2 b (by simpa [hc2, hc1] using hb)
          (by rw [hst2]; simp) SQLX_BASE_USED (by simp)
        rwa [hst2] at this
      have hst3 : ∀ j, (GET c3 j).status = if j = b then SQLX_BASE_USED else (GET c j).status := by
        intro j
        rw [hc3, move_to_list_status mt c2 hlen2 (by simp)]
        split
        · rfl
        · rename_i hj; rw [hc2, GET_update_ne _ hj]; rfl
      have hd3 : ∀ j, j ≠ b → (GET c3 j).data = (GET c j).data := by
        intro j hj
        rw [hc3, (move_to_list_same mt c2 b _).data j, hc2, GET_update_ne _ hj]; rfl
      have hdb3 : (GET c3 b).data = (f (GET c b)).data := by
        rw [hc3, (move_to_list_same mt c2 b _).data b, hGb2]
      have hname3 : (GET c3 b).name = some hs := by
        rw [(data_fields hdb3).1]
      have hidx3 : (GET c3 b).index = (b : Int) := by
        rw [(data_fields hdb3).2.2.2.2.2.2.1]; exact hI.lists.idx b hb
      simp only [sqlx_save_id, hname3, hidx3]
      set c4 : sqlx_cache_s :=
        { c3 with bases_by_name := g_tree_replace c3.bases_by_name hs ((b : Int) + 1) } with hc4
      have hG4 : ∀ j, GET c4 j = GET c3 j := fun j => rfl
      have htree3 : c3.bases_by_name = c.bases_by_name := by simp [hc3, hc2, hc1]
      have hhard3 : c3.bases_max_hard = c.bases_max_hard := by simp [hc3, hc2, hc1]
      have hT : Touch c c4 b :=
        ⟨hhard3, fun j hj => by rw [hG4, hst3]; simp [hj], fun j hj => by rw [hG4, hd3 j hj]⟩
      have hbm : b ∈ L beacon_ref.free := by rw [hl]; simp
      have hnotin : ∀ e ∈ c.bases_by_name, e.1 ≠ hs := by
        intro e he hh
        exact hmiss e.2 (by rw [← hh]; exact he)
      have hrem : g_tree_remove c.bases_by_name hs = c.bases_by_name := by
        simp only [g_tree_remove]
        exact List.filter_eq_self.mpr (fun e he => by simpa using hnotin e he)
      have hI4 : CacheInv c4 (L_move L SQLX_BASE_FREE SQLX_BASE_USED b) := by
        refine ⟨hL3.congr rfl rfl (fun r => by cases r <;> rfl) (fun j => ⟨rfl, rfl, rfl, rfl⟩),
          ?_, ?_, ?_, ?_, ?_, ?_⟩
        · intro i hi
          by_cases hib : i = b
          · subst hib
            obtain ⟨h1, h2, h3, _, h5, _⟩ := data_fields hdb3
            have hs := hst3 i
            simp only [if_true] at hs
            rw [hG4]
            refine ⟨by rw [hs]; simp, ?_, ?_, ?_, ?_⟩
            · intro h; rw [hs] at h; simp at h
            · intro h; rw [hs] at h; simp at h
            · intro _; rw [h2, h5]; simp [hf]
            · intro h; rw [hs] at h; simp at h
          · exact (hI.fields i (hhard3 ▸ hi)).of_same (hT.status i hib) (hT.data i hib)
        · rw [L_move_free_from L b (by simp)]
          have h1 : c4.bases_used = c.bases_used + 1 := by
            simp [hc4, hc3, move_to_list_used, hc2, hc1]
          have h2 : ((L beacon_ref.free).erase b).length = (L beacon_ref.free).length - 1 :=
            List.length_erase_of_mem hbm
          have h3 : 0 < (L beacon_ref.free).length := List.length_pos_of_mem hbm
          have := hI.used
          rw [h1, h2]
          show _ = c3.bases_max_hard
          rw [hhard3]; omega
        · show 1 ≤ c3.bases_max_soft ∧ c3.bases_max_soft ≤ c3.bases_max_hard
          rw [hhard3]
          have : c3.bases_max_soft = c.bases_max_soft := by simp [hc3, hc2, hc1]
          rw [this]; exact hI.soft
        · show ((g_tree_replace c3.bases_by_name hs ((b : Int) + 1)).map Prod.fst).Nodup
          rw [htree3]
          simp only [g_tree_replace, List.map_cons, List.nodup_cons]
          exact ⟨g_tree_remove_keys hs, g_tree_remove_nodup hs hI.tree_nodup⟩
        · intro n v hv
          have hv' : (n, v) ∈ g_tree_replace c.bases_by_name hs ((b : Int) + 1) := by
            rw [← htree3]; exact hv
          simp only [g_tree_replace, List.mem_cons, Prod.mk.injEq, hrem] at hv'
          rcases hv' with ⟨h1, h2⟩ | h
          · refine ⟨b, hhard3 ▸ hb, h2, ?_, ?_⟩
            · rw [hG4, hname3, h1]
            · rw [hG4, hst3]; simp
          · obtain ⟨i, hi, hvi, hn, hsi⟩ := hI.tree_sound n v h
            have hib : i ≠ b := by
              intro hh; subst hh; exact hsi hst
            refine ⟨i, hhard3 ▸ hi, hvi, ?_, ?_⟩
            · rw [(data_fields (hT.data i hib)).1]; exact hn
            · rw [hT.status i hib]; exact hsi
        · intro i hi hsi
          show ∃ n, (GET c4 i).name = some n
            ∧ (n, (i : Int) + 1) ∈ g_tree_replace c3.bases_by_name hs ((b : Int) + 1)
          rw [htree3]
          simp only [g_tree_replace, List.mem_cons, Prod.mk.injEq, hrem]
          by_cases hib : i = b
          · subst hib
            exact ⟨hs, by rw [hG4, hname3], Or.inl ⟨rfl, rfl⟩⟩
          · rw [hT.status i hib] at hsi
            obtain ⟨n, hn, hm⟩ := hI.tree_complete i (hhard3 ▸ hi) hsi
            exact ⟨n, by rw [(data_fields (hT.data i hib)).1]; exact hn, Or.inr hm⟩
      refine ⟨by omega, hb, hst, hfirst, hI4, hT, ?_, ?_, ?_, ?_⟩
      · rw [hG4, hst3]; simp
      · rw [hG4, hdb3]
        simp [sqlx_base_s.data, hf, hI.lists.idx b hb]
      · simp [hc4, hc3, move_to_list_used, hc2, hc1]
      · show g_tree_replace c3.bases_by_name hs ((b : Int) + 1) = _
        rw [htree3]

end Sqlx

namespace Sqlx
open sqlx_base_status_e

/-! ## The end of an eviction -/

theorem Lists.first_of_cons {c : sqlx_cache_s} {L : beacon_ref → List Nat} (hL : Lists c L)
    {r : beacon_ref} {b : Nat} {l : List Nat} (h : L r = b :: l) :
    (c.beacon r).first = (b : Int) := by
  rw [(hL.dl r).first, h]; rfl

/-- What `_expire_base` does once it has the lock again, on a slot that is
being closed: the slot is FREE, at the head of the FREE list, with no name, no
handle and no owner, its name has left the name index, `bases_used` has lost
one, and the invariant is kept. -/
theorem expire_end_spec {c : sqlx_cache_s} {L : beacon_ref → List Nat} (hI : CacheInv c L)
    (mt : Int) {b : Nat} (hb : b < c.bases_max_hard)
    (hcl : (GET c b).status = SQLX_BASE_CLOSING
      ∨ (GET c b).status = SQLX_BASE_CLOSING_FOR_DELETION) :
    CacheInv (_expire_base_end mt c b) (L_move L (GET c b).status SQLX_BASE_FREE b)
    ∧ Touch c (_expire_base_end mt c b) b
    ∧ (GET (_expire_base_end mt c b) b).status = SQLX_BASE_FREE
    ∧ (GET (_expire_base_end mt c b) b).data
        = (none, none, 0, 0, 0, (GET c b).count_waiting, (b : Int),
            (GET c b).open_attempts, (GET c b).open_wait_time)
    ∧ (_expire_base_end mt c b).bases_used + 1 = c.bases_used
    ∧ (_expire_base_end mt c b).beacon_free.first = (b : Int)
    ∧ (∃ n, (GET c b).name = some n
        ∧ (_expire_base_end mt c b).bases_by_name = g_tree_remove c.bases_by_name n)
    ∧ (_expire_base_end mt c b).hook_calls = c.hook_calls
    ∧ (_expire_base_end mt c b).bases_max_soft = c.bases_max_soft := by
  have hnf : (GET c b).status ≠ SQLX_BASE_FREE := by rcases hcl with h | h <;> rw [h] <;> simp
  have hnz : (GET c b).status ≠ SQLX_BASE_ZERO := by rcases hcl with h | h <;> rw [h] <;> simp
  obtain ⟨n, hn, hnm⟩ := hI.tree_complete b hb hnf
  have hlen : b < c.bases.length := by rw [hI.lists.len]; exact hb
  simp only [_expire_base_end, hn]
  set f : sqlx_base_s → sqlx_base_s := fun s =>
    { s with handle := 0, heat := 0, owner := none, name := none, count_open := 0,
             last_update := 0 } with hf
  set c1 := c.update b f with hc1
  set c2 := sqlx_base_move_to_list mt c1 b SQLX_BASE_FREE with hc2
  set c3 : sqlx_cache_s := { c2 with bases_by_name := g_tree_remove c2.bases_by_name n } with hc3
  have hL1 : Lists c1 L := hI.lists.update_data b (fun s => ⟨rfl, rfl, rfl, rfl⟩)
  have hlen1 : b < c1.bases.length := by simp [hc1, hlen]
  have hGb1 : GET c1 b = f (GET c b) := by rw [hc1, GET_update_self _ hlen]
  have hst1 : (GET c1 b).status = (GET c b).status := by rw [hGb1]
  have hL2 : Lists c2 (L_move L (GET c b).status SQLX_BASE_FREE b) := by
    have := @move_to_list_Lists mt _ _ hL1 b (by simpa [hc1] using hb)
      (by rw [hst1]; exact hnz) SQLX_BASE_FREE (by simp)
    rwa [hst1] at this
  have hst2 : ∀ j, (GET c2 j).status = if j = b then SQLX_BASE_FREE else (GET c j).status := by
    intro j
    rw [hc2, move_to_list_status mt c1 hlen1 (by simp)]
    split
    · rfl
    · rename_i hj; rw [hc1, GET_update_ne _ hj]
  have hd2 : ∀ j, j ≠ b → (GET c2 j).data = (GET c j).data := by
    intro j hj
    rw [hc2, (move_to_list_same mt c1 b _).data j, hc1, GET_update_ne _ hj]
  have hdb2 : (GET c2 b).data = (f (GET c b)).data := by
    rw [hc2, (move_to_list_same mt c1 b _).data b, hGb1]
  have hG3 : ∀ j, GET c3 j = GET c2 j := fun j => rfl
  have htree2 : c2.bases_by_name = c.bases_by_name := by simp [hc2, hc1]
  have hhard2 : c2.bases_max_hard = c.bases_max_hard := by simp [hc2, hc1]
  have hT : Touch c c3 b :=
    ⟨hhard2, fun j hj => by rw [hG3, hst2]; simp [hj], fun j hj => by rw [hG3, hd2 j hj]⟩
  have hbnot : b ∉ L beacon_ref.free := by
    intro hm
    exact hnf ((hI.lists.mem beacon_ref.free b).mp hm).2
  have hlt : (L beacon_ref.free).length < c.bases_max_hard :=
    nodup_length_lt (hI.lists.dl _).nodup (hI.lists.dl _).lt hb hbnot
  have hused2 : c2.bases_used = c.bases_used - 1 ∧ 1 ≤ c.bases_used := by
    have := hI.used
    have h1 : 1 ≤ c.bases_used := by omega
    refine ⟨?_, h1⟩
    rw [hc2, move_to_list_used, hst1]
    have : SQLX_BASE_FREE ≠ (GET c b).status := fun h => hnf h.symm
    simp only [this, ne_eq, not_false_eq_true, and_self, if_true, hc1, update_used, guint_dec]
    rw [if_neg (by omega)]
  have hfreeL : L_move L (GET c b).status SQLX_BASE_FREE b beacon_ref.free
      = b :: L beacon_ref.free := L_move_free_to L b hnf
  have hL3 : Lists c3 (L_move L (GET c b).status SQLX_BASE_FREE b) :=
    hL2.congr rfl rfl (fun r => by cases r <;> rfl) (fun j => ⟨rfl, rfl, rfl, rfl⟩)
  have hI3 : CacheInv c3 (L_move L (GET c b).status SQLX_BASE_FREE b) := by
    refine ⟨hL3, ?_, ?_, ?_, ?_, ?_, ?_⟩
    · intro i hi
      by_cases hib : i = b
      · subst hib
        obtain ⟨h1, h2, h3, _, h5, _⟩ := data_fields hdb2
        have hs := hst2 i
        simp only [if_true] at hs
        rw [hG3]
        refine ⟨by rw [hs]; simp, ?_, ?_, ?_, ?_⟩
        · intro _; rw [h1, h2, h3, h5]; simp [hf]
        · intro h; rw [hs] at h; simp at h
        · intro h; rw [hs] at h; simp at h
        · intro h; rw [hs] at h; simp at h
      · exact (hI.fields i (hhard2 ▸ hi)).of_same (hT.status i hib) (hT.data i hib)
    · rw [hfreeL]
      show c2.bases_used + _ = c2.bases_max_hard
      rw [hused2.1, hhard2]
      have := hI.used
      have := hused2.2
      simp only [List.length_cons]
      omega
    · show 1 ≤ c2.bases_max_soft ∧ c2.bases_max_soft ≤ c2.bases_max_hard
      rw [hhard2]
      have : c2.bases_max_soft = c.bases_max_soft := by simp [hc2, hc1]
      rw [this]; exact hI.soft
    · show ((g_tree_remove c2.bases_by_name n).map Prod.fst).Nodup
      rw [htree2]
      exact g_tree_remove_nodup n hI.tree_nodup
    · intro m v hv
      have hv' : (m, v) ∈ g_tree_remove c.bases_by_name n := by rw [← htree2]; exact hv
      rw [mem_g_tree_remove] at hv'
      obtain ⟨i, hi, hvi, hm, hsi⟩ := hI.tree_sound m v hv'.1
      have hib : i ≠ b := by
        intro hh; subst hh
        rw [hn] at hm
        exact hv'.2 (Option.some.inj hm).symm
      refine ⟨i, hhard2 ▸ hi, hvi, ?_, ?_⟩
      · rw [(data_fields (hT.data i hib)).1]; exact hm
      · rw [hT.status i hib]; exact hsi
    · intro i hi hsi
      show ∃ m, (GET c3 i).name = some m ∧ (m, (i : Int) + 1) ∈ g_tree_remove c2.bases_by_name n
      rw [htree2]
      have hib : i ≠ b := by
        intro hh; subst hh
        rw [hG3, hst2] at hsi; simp at hsi
      rw [hT.status i hib] at hsi
      obtain ⟨m, hm, hmm⟩ := hI.tree_complete i (hhard2 ▸ hi) hsi
      refine ⟨m, by rw [(data_fields (hT.data i hib)).1]; exact hm, ?_⟩
      rw [mem_g_tree_remove]
      refine ⟨hmm, ?_⟩
      intro hh
      subst hh
      have h1 := g_tree_lookup_of_mem hI.tree_nodup hmm
      have h2 := g_tree_lookup_of_mem hI.tree_nodup hnm
      have : (i : Int) + 1 = (b : Int) + 1 := h1.symm.trans h2
      exact hib (by omega)
  refine ⟨hI3, hT, ?_, ?_, ?_, ?_, ⟨n, rfl, ?_⟩, ?_, ?_⟩
  · rw [hG3, hst2]; simp
  · rw [hG3, hdb2]
    simp [sqlx_base_s.data, hf, hI.lists.idx b hb]
  · show c2.bases_used + 1 = c.bases_used
    rw [hused2.1]; have := hused2.2; omega
  · exact hL3.first_of_cons hfreeL
  · show g_tree_remove c2.bases_by_name n = _
    rw [htree2]
  · show c2.hook_calls = c.hook_calls
    simp [hc2, hc1]
  · show c2.bases_max_soft = c.bases_max_soft
    simp [hc2, hc1]

end Sqlx

namespace Sqlx
open sqlx_base_status_e

/-! ## The start of an eviction -/

theorem Lists.last_mem {c : sqlx_cache_s} {L : beacon_ref → List Nat} (hL : Lists c L)
    {r : beacon_ref} (h : 0 ≤ (c.beacon r).last) :
    (c.beacon r).last.toNat < c.bases_max_hard
      ∧ (GET c (c.beacon r).last.toNat).status = r.status
      ∧ (c.beacon r).last.toNat ∈ L r
      ∧ lastI (L r) = ((c.beacon r).last.toNat : Int) := by
  have hd := hL.dl r
  have hl := hd.last
  rcases lastI_nonneg_or (L r) with h1 | ⟨a, ha, h1⟩
  · rw [h1] at hl; omega
  · rw [h1] at hl
    have : (c.beacon r).last.toNat = a := by omega
    rw [this]
    have hm := (hL.mem r a).mp ha
    exact ⟨hm.1, hm.2, ha, h1⟩

/-- The first part of `_expire_base` on a slot in use with no opening left. -/
theorem expire_begin_but {c : sqlx_cache_s} {L : beacon_ref → List Nat} {b : Nat}
    (h : CacheInvBut c L b) (mt : Int) (deleted : Bool)
    (hst : (GET c b).status = SQLX_BASE_USED) (ho : (GET c b).owner ≠ none)
    (hco : (GET c b).count_open = 0) :
    CacheInv (_expire_base_begin mt c b deleted)
        (L_move L SQLX_BASE_USED
          (if deleted then SQLX_BASE_CLOSING_FOR_DELETION else SQLX_BASE_CLOSING) b)
    ∧ Touch c (_expire_base_begin mt c b deleted) b
    ∧ (GET (_expire_base_begin mt c b deleted) b).status
        = (if deleted then SQLX_BASE_CLOSING_FOR_DELETION else SQLX_BASE_CLOSING)
    ∧ (GET (_expire_base_begin mt c b deleted) b).data = (GET c b).data
    ∧ (_expire_base_begin mt c b deleted).bases_used = c.bases_used
    ∧ (_expire_base_begin mt c b deleted).bases_by_name = c.bases_by_name
    ∧ (_expire_base_begin mt c b deleted).bases_max_soft = c.bases_max_soft
    ∧ (_expire_base_begin mt c b deleted).hook_calls
        = (if c.close_hook then hook_call.close_hook (GET c b).handle :: c.hook_calls
            else c.hook_calls) := by
  set y := (if deleted then SQLX_BASE_CLOSING_FOR_DELETION else SQLX_BASE_CLOSING) with hy
  have hy0 : y ≠ SQLX_BASE_ZERO := by rw [hy]; split <;> simp
  have hyf : y ≠ SQLX_BASE_FREE := by rw [hy]; split <;> simp
  have hycl : y = SQLX_BASE_CLOSING ∨ y = SQLX_BASE_CLOSING_FOR_DELETION := by
    rw [hy]; split <;> simp
  obtain ⟨h1, hT1, hs1⟩ := h.move mt hy0 hyf
  rw [hst] at h1
  set c1 := sqlx_base_move_to_list mt c b y with hc1
  have hd1 : (GET c1 b).data = (GET c b).data := (move_to_list_same mt c b y).data b
  have hu1 : c1.bases_used = c.bases_used := by
    rw [hc1, move_to_list_used]; simp [hyf]
  have hF : ∀ c2 : sqlx_cache_s, c2.bases = c1.bases → Fields (GET c2 b) := by
    intro c2 h2
    have hG : GET c2 b = GET c1 b := by simp [GET, h2]
    rw [hG]
    obtain ⟨_, h2, _, _, h5, _⟩ := data_fields hd1
    refine ⟨by rw [hs1]; exact hy0, ?_, ?_, ?_, ?_⟩
    · intro hh; rw [hs1] at hh; exact absurd hh hyf
    · intro hh; rw [hs1] at hh; rcases hycl with h | h <;> rw [h] at hh <;> simp at hh
    · intro hh; rw [hs1] at hh; rcases hycl with h | h <;> rw [h] at hh <;> simp at hh
    · intro _; rw [h2, h5]; exact ⟨ho, hco⟩
  have e : _expire_base_begin mt c b deleted
      = (if c.close_hook = true then
          { c1 with hook_calls := (hook_call.close_hook (GET c b).handle :: c1.hook_calls) }
        else c1) := by
    simp only [_expire_base_begin, hc1, hy, move_close_hook]
  rw [e]
  by_cases hk : c.close_hook = true
  · simp only [hk, if_true]
    obtain ⟨h2, hT2⟩ := @CacheInvBut.but_frame _
      { c1 with hook_calls := (hook_call.close_hook (GET c b).handle :: c1.hook_calls) } _ _ h1
      rfl (fun r => by cases r <;> rfl) rfl rfl rfl rfl
    refine ⟨h2.close (hF _ rfl), hT1.touch_trans hT2, hs1, hd1, hu1, by simp [hc1], by simp [hc1], ?_⟩
    simp [hc1]
  · simp only [hk]
    refine ⟨h1.close (hF _ rfl), hT1, hs1, hd1, hu1, by simp [hc1], by simp [hc1], ?_⟩
    simp [hc1]

/-- What `_expire_specific_base` does to an idle slot until the close hook. -/
theorem expire_specific_begin_spec {c : sqlx_cache_s} {L : beacon_ref → List Nat}
    (hI : CacheInv c L) (self : GThread) (mt : Int) {b : Nat} (hb : b < c.bases_max_hard)
    (hst : (GET c b).status = SQLX_BASE_IDLE ∨ (GET c b).status = SQLX_BASE_IDLE_HOT)
    (now grace_delay : Int) :
    (¬ expirable c b now grace_delay →
      _expire_specific_base_begin self mt c b now grace_delay = none)
    ∧ (expirable c b now grace_delay →
      ∃ c', _expire_specific_base_begin self mt c b now grace_delay = some c'
        ∧ CacheInv c' (L_move (L_move L (GET c b).status SQLX_BASE_USED b)
            SQLX_BASE_USED SQLX_BASE_CLOSING b)
        ∧ Touch c c' b
        ∧ (GET c' b).status = SQLX_BASE_CLOSING
        ∧ (GET c' b).data = ((GET c b).name, some self, (GET c b).handle, (GET c b).heat,
            (GET c b).count_open, (GET c b).count_waiting, (GET c b).index,
            (GET c b).open_attempts, (GET c b).open_wait_time)
        ∧ c'.bases_used = c.bases_used
        ∧ c'.bases_by_name = c.bases_by_name
        ∧ c'.bases_max_soft = c.bases_max_soft
        ∧ c'.hook_calls
          = (if c.close_hook then hook_call.close_hook (GET c b).handle :: c.hook_calls
              else c.hook_calls)) := by
  have hnf : (GET c b).status ≠ SQLX_BASE_FREE := by rcases hst with h | h <;> rw [h] <;> simp
  have hF := hI.fields b hb
  have hlen : b < c.bases.length := by rw [hI.lists.len]; exact hb
  constructor
  · intro he
    simp only [expirable, not_not] at he
    simp only [_expire_specific_base_begin]
    rw [if_pos he]
  · intro he
    simp only [expirable] at he
    simp only [_expire_specific_base_begin]
    rw [if_neg he]
    refine ⟨_, rfl, ?_⟩
    have h0 := hI.but hb hnf
    obtain ⟨h1, hT1⟩ := h0.but_update (f := fun s => { s with owner := some self })
      (fun s => ⟨rfl, rfl, rfl, rfl, rfl⟩)
    set c1 := c.update b (fun s => { s with owner := some self }) with hc1
    have hGb1 : GET c1 b = { GET c b with owner := some self } := by
      rw [hc1, GET_update_self _ hlen]
    obtain ⟨h2, hT2, hs2⟩ := h1.move mt (y := SQLX_BASE_USED) (by simp) (by simp)
    have hst1 : (GET c1 b).status = (GET c b).status := by rw [hGb1]
    rw [hst1] at h2
    set c2 := sqlx_base_move_to_list mt c1 b SQLX_BASE_USED with hc2
    have hd2 : (GET c2 b).data = (GET c1 b).data := (move_to_list_same mt c1 b _).data b
    obtain ⟨_, ho2, hh2, _, hco2, _⟩ := data_fields hd2
    have hco : (GET c b).count_open = 0 := by
      rcases hst with h | h
      · exact (hF.idle (Or.inl h)).2
      · exact (hF.idle (Or.inr h)).2
    obtain ⟨h3, hT3, hs3, hd3, hu3, ht3, hso3, hk3⟩ := expire_begin_but h2 mt false hs2
      (by rw [ho2, hGb1]; simp) (by rw [hco2, hGb1]; exact hco)
    simp only [Bool.false_eq_true, if_false] at h3 hs3
    refine ⟨h3, (hT1.touch_trans hT2).touch_trans hT3, hs3, ?_, ?_, ?_, ?_, ?_⟩
    · rw [hd3, hd2, hGb1]; rfl
    · rw [hu3, hc2, move_to_list_used]; simp [hc1]
    · rw [ht3]; simp [hc2, hc1]
    · rw [hso3]; simp [hc2, hc1]
    · rw [hk3, hh2, hGb1]; simp [hc2, hc1]

end Sqlx

namespace Sqlx
open sqlx_base_status_e

theorem expire_victim_idle {cfg : config} {c : sqlx_cache_s} {L : beacon_ref → List Nat}
    (hI : CacheInv c L) {now : Int} {b : Nat} (h : expire_victim cfg c now = some b) :
    b < c.bases_max_hard
    ∧ ((GET c b).status = SQLX_BASE_IDLE ∨ (GET c b).status = SQLX_BASE_IDLE_HOT) := by
  simp only [expire_victim] at h
  split at h
  · rename_i h1
    have := hI.lists.last_mem (r := beacon_ref.idle) h1.1
    simp only [Option.some.injEq] at h
    subst h
    exact ⟨this.1, Or.inl this.2.1⟩
  · split at h
    · rename_i h1
      have := hI.lists.last_mem (r := beacon_ref.idle_hot) h1.1
      simp only [Option.some.injEq] at h
      subst h
      exact ⟨this.1, Or.inr this.2.1⟩
    · simp at h

/-- What `sqlx_expire_first_idle_base` does until the close hook: nothing when
there is no base to expire, else the base goes from its idle list to the
CLOSING status, owned by the caller, and the close hook is called on its
handle when there is a hook. -/
theorem first_idle_begin_spec {c : sqlx_cache_s} {L : beacon_ref → List Nat}
    (hI : CacheInv c L) (cfg : config) (self : GThread) (mt : Int) (now : Int) :
    (expire_victim cfg c now = none →
      sqlx_expire_first_idle_base_begin cfg self mt c now = none)
    ∧ (∀ b, expire_victim cfg c now = some b →
      ∃ c', sqlx_expire_first_idle_base_begin cfg self mt c now = some (c', b)
        ∧ CacheInv c' (L_move (L_move L (GET c b).status SQLX_BASE_USED b)
            SQLX_BASE_USED SQLX_BASE_CLOSING b)
        ∧ Touch c c' b
        ∧ (GET c' b).status = SQLX_BASE_CLOSING
        ∧ (GET c' b).data = ((GET c b).name, some self, (GET c b).handle, (GET c b).heat,
            (GET c b).count_open, (GET c b).count_waiting, (GET c b).index,
            (GET c b).open_attempts, (GET c b).open_wait_time)
        ∧ c'.bases_used = c.bases_used
        ∧ c'.bases_by_name = c.bases_by_name
        ∧ c'.bases_max_soft = c.bases_max_soft
        ∧ c'.hook_calls
          = (if c.close_hook then hook_call.close_hook (GET c b).handle :: c.hook_calls
              else c.hook_calls)) := by
  have hidle : 0 ≤ c.beacon_idle.last →
      c.beacon_idle.last.toNat < c.bases_max_hard
      ∧ ((GET c c.beacon_idle.last.toNat).status = SQLX_BASE_IDLE
        ∨ (GET c c.beacon_idle.last.toNat).status = SQLX_BASE_IDLE_HOT) := by
    intro h
    have := hI.lists.last_mem (r := beacon_ref.idle) h
    exact ⟨this.1, Or.inl this.2.1⟩
  have hhot : 0 ≤ c.beacon_idle_hot.last →
      c.beacon_idle_hot.last.toNat < c.bases_max_hard
      ∧ ((GET c c.beacon_idle_hot.last.toNat).status = SQLX_BASE_IDLE
        ∨ (GET c c.beacon_idle_hot.last.toNat).status = SQLX_BASE_IDLE_HOT) := by
    intro h
    have := hI.lists.last_mem (r := beacon_ref.idle_hot) h
    exact ⟨this.1, Or.inr this.2.1⟩
  simp only [expire_victim, sqlx_expire_first_idle_base_begin]
  by_cases h1 : 0 ≤ c.beacon_idle.last
  · obtain ⟨hb, hst⟩ := hidle h1
    obtain ⟨sn, sy⟩ := expire_specific_begin_spec hI self mt hb hst now cfg._cache_grace_delay_cool
    by_cases e1 : expirable c c.beacon_idle.last.toNat now cfg._cache_grace_delay_cool
    · obtain ⟨c', hc', rest⟩ := sy e1
      simp only [h1, e1, and_self, if_true, hc', Option.map_some', reduceCtorEq, false_implies,
        Option.some.injEq, true_and]
      intro b hb'
      subst hb'
      exact ⟨c', rfl, rest⟩
    · simp only [h1, e1, and_false, if_false, if_true, sn e1, Option.map_none']
      by_cases h2 : 0 ≤ c.beacon_idle_hot.last
      · obtain ⟨hb2, hst2⟩ := hhot h2
        obtain ⟨sn2, sy2⟩ := expire_specific_begin_spec hI self mt hb2 hst2 now
          cfg._cache_grace_delay_hot
        by_cases e2 : expirable c c.beacon_idle_hot.last.toNat now cfg._cache_grace_delay_hot
        · obtain ⟨c', hc', rest⟩ := sy2 e2
          simp only [h2, e2, and_self, if_true, hc', Option.map_some', reduceCtorEq,
            false_implies, Option.some.injEq, true_and]
          intro b hb'
          subst hb'
          exact ⟨c', rfl, rest⟩
        · simp [h2, e2, sn2 e2]
      · simp [h2]
  · simp only [h1, false_and, if_false]
    by_cases h2 : 0 ≤ c.beacon_idle_hot.last
    · obtain ⟨hb2, hst2⟩ := hhot h2
      obtain ⟨sn2, sy2⟩ := expire_specific_begin_spec hI self mt hb2 hst2 now
        cfg._cache_grace_delay_hot
      by_cases e2 : expirable c c.beacon_idle_hot.last.toNat now cfg._cache_grace_delay_hot
      · obtain ⟨c', hc', rest⟩ := sy2 e2
        simp only [h2, e2, and_self, if_true, hc', Option.map_some', reduceCtorEq,
          false_implies, Option.some.injEq, true_and]
        intro b hb'
        subst hb'
        exact ⟨c', rfl, rest⟩
      · simp [h2, e2, sn2 e2]
    · simp [h2]

end Sqlx

namespace Sqlx
open sqlx_base_status_e

/-! ## Steps that keep the invariant -/

theorem AuxSame.aux_refl (c : sqlx_cache_s) : AuxSame c c :=
  ⟨rfl, rfl, rfl, fun _ => rfl, fun _ => ⟨rfl, rfl, rfl, rfl, rfl, rfl, rfl, rfl, rfl⟩⟩

theorem AuxSame.aux_trans {c c' c'' : sqlx_cache_s} (h : AuxSame c c') (h' : AuxSame c' c'') :
    AuxSame c c'' := by
  refine ⟨h'.length.trans h.length, h'.frame.trans h.frame, h'.used.trans h.used,
    fun r => (h'.beacon r).trans (h.beacon r), fun j => ?_⟩
  obtain ⟨a1, a2, a3, a4, a5, a6, a7, a8, a9⟩ := h.slot j
  obtain ⟨b1, b2, b3, b4, b5, b6, b7, b8, b9⟩ := h'.slot j
  exact ⟨b1.trans a1, b2.trans a2, b3.trans a3, b4.trans a4, b5.trans a5, b6.trans a6,
    b7.trans a7, b8.trans a8, b9.trans a9⟩

theorem AuxSame.aux_update (c : sqlx_cache_s) (b : Nat) {f : sqlx_base_s → sqlx_base_s}
    (hf : ∀ s, (f s).name = s.name ∧ (f s).owner = s.owner ∧ (f s).handle = s.handle
      ∧ (f s).last_update = s.last_update ∧ (f s).link_prev = s.link_prev
      ∧ (f s).link_next = s.link_next ∧ (f s).count_open = s.count_open
      ∧ (f s).index = s.index ∧ (f s).status = s.status) :
    AuxSame c (c.update b f) := by
  refine ⟨by simp, rfl, rfl, fun r => by simp, fun j => ?_⟩
  rw [GET_update]
  split
  · rename_i h; rw [h.1]; exact hf _
  · exact ⟨rfl, rfl, rfl, rfl, rfl, rfl, rfl, rfl, rfl⟩

theorem AuxSame.aux_hard {c c' : sqlx_cache_s} (h : AuxSame c c') :
    c'.bases_max_hard = c.bases_max_hard := (frame_fields h.frame).2.2.1

theorem CacheInv.inv_aux {c c' : sqlx_cache_s} {L : beacon_ref → List Nat} (hI : CacheInv c L)
    (h : AuxSame c c') : CacheInv c' L := by
  have hhard := h.aux_hard
  obtain ⟨htree, hsoft, _, _⟩ := frame_fields h.frame
  have hF : ∀ i, Fields (GET c i) → Fields (GET c' i) := by
    intro i hf
    obtain ⟨a1, a2, a3, _, _, _, a7, _, a9⟩ := h.slot i
    refine ⟨?_, ?_, ?_, ?_, ?_⟩
    · rw [a9]; exact hf.valid
    · rw [a9, a1, a2, a3, a7]; exact hf.free
    · rw [a9, a2, a7]; exact hf.idle
    · rw [a9, a2, a7]; exact hf.used
    · rw [a9, a2, a7]; exact hf.closing
  refine ⟨hI.lists.congr h.length hhard h.beacon
      (fun j => ⟨(h.slot j).2.2.2.2.1, (h.slot j).2.2.2.2.2.1, (h.slot j).2.2.2.2.2.2.2.2,
        (h.slot j).2.2.2.2.2.2.2.1⟩), ?_, ?_, ?_, ?_, ?_, ?_⟩
  · intro i hi; exact hF i (hI.fields i (hhard ▸ hi))
  · rw [h.used, hhard]; exact hI.used
  · rw [hsoft, hhard]; exact hI.soft
  · rw [htree]; exact hI.tree_nodup
  · intro n v hv; rw [htree] at hv
    obtain ⟨i, hi, hv, hn, hs⟩ := hI.tree_sound n v hv
    exact ⟨i, hhard ▸ hi, hv, by rw [(h.slot i).1]; exact hn,
      by rw [(h.slot i).2.2.2.2.2.2.2.2]; exact hs⟩
  · intro i hi hs
    rw [(h.slot i).2.2.2.2.2.2.2.2] at hs
    rw [(h.slot i).1, htree]
    exact hI.tree_complete i (hhard ▸ hi) hs

theorem GoodStep.good_aux {c c' : sqlx_cache_s} {L : beacon_ref → List Nat} (hI : CacheInv c L)
    (h : AuxSame c c') (t : GThread) (o : Option Nat) : GoodStep c c' t o o := by
  have key : ∀ t' i, closing_by c' t' i ↔ closing_by c t' i := fun t' i =>
    closing_by_congr t' h.aux_hard (h.slot i).2.2.2.2.2.2.2.2 (h.slot i).2.1
  exact ⟨⟨L, hI.inv_aux h⟩, fun t' _ i => key t' i, fun hh i => (key t i).trans (hh i)⟩

theorem expire_end_good {c : sqlx_cache_s} {L : beacon_ref → List Nat} (hI : CacheInv c L)
    (mt : Int) {t : GThread} {b : Nat} (hb : closing_by c t b) :
    GoodStep c (_expire_base_end mt c b) t (some b) none := by
  obtain ⟨h1, hT, hs, _⟩ := expire_end_spec hI mt hb.1 hb.2.1
  exact GoodStep.end h1 hT hb (fun t' => not_closing_of_status t' (by rw [hs]; simp)
    (by rw [hs]; simp))

theorem first_idle_begin_good {c : sqlx_cache_s} {L : beacon_ref → List Nat}
    (hI : CacheInv c L) (cfg : config) (t : GThread) (mt now : Int) :
    match sqlx_expire_first_idle_base_begin cfg t mt c now with
    | none => True
    | some (c', b) => GoodStep c c' t none (some b) := by
  obtain ⟨hn, hs⟩ := first_idle_begin_spec hI cfg t mt now
  cases hv : expire_victim cfg c now with
  | none => rw [hn hv]; trivial
  | some b =>
    obtain ⟨c', hc', hI', hT, hst, hd, _⟩ := hs b hv
    rw [hc']
    obtain ⟨hb, hidle⟩ := expire_victim_idle hI hv
    refine GoodStep.begin hI' hT ?_ ⟨hT.hard ▸ hb, Or.inl hst, ?_⟩
    · intro t'
      exact not_closing_of_status t' (by rcases hidle with h | h <;> rw [h] <;> simp)
        (by rcases hidle with h | h <;> rw [h] <;> simp)
    · simp only [sqlx_base_s.data, Prod.mk.injEq] at hd
      exact hd.2.1

end Sqlx

namespace Sqlx
open sqlx_base_status_e

/-! ## `sqlx_cache_open_and_lock_base` keeps the invariant -/

theorem open_finish_false (mt : Int) (c : sqlx_cache_s) (l : open_locals)
    (err : Option GError) (result : Option Int) :
    open_finish mt c l err result false = open_next.done c err result := by
  simp only [open_finish]
  split <;> simp

theorem AuxSame.aux_step {c0 c : sqlx_cache_s} (h : AuxSame c0 c) (b : Nat)
    {f : sqlx_base_s → sqlx_base_s}
    (hf : ∀ s, (f s).name = s.name ∧ (f s).owner = s.owner ∧ (f s).handle = s.handle
      ∧ (f s).last_update = s.last_update ∧ (f s).link_prev = s.link_prev
      ∧ (f s).link_next = s.link_next ∧ (f s).count_open = s.count_open
      ∧ (f s).index = s.index ∧ (f s).status = s.status) :
    AuxSame c0 (c.update b f) :=
  h.aux_trans (AuxSame.aux_update c b hf)

theorem open_finish_true (mt : Int) (c : sqlx_cache_s) (l : open_locals)
    (err : Option GError) (result : Option Int) :
    ∃ c', open_finish mt c l err result true = open_next.done c' err result
      ∧ AuxSame c c' := by
  simp only [open_finish]
  cases l.base with
  | none => exact ⟨c, rfl, AuxSame.aux_refl c⟩
  | some base =>
    simp only [if_true]
    split
    · refine ⟨_, rfl, ?_⟩
      refine AuxSame.aux_step (AuxSame.aux_step (AuxSame.aux_step (AuxSame.aux_refl c) _ ?_) _ ?_) _ ?_ <;>
        intro s <;> exact ⟨rfl, rfl, rfl, rfl, rfl, rfl, rfl, rfl, rfl⟩
    · refine ⟨_, rfl, ?_⟩
      refine AuxSame.aux_step (AuxSame.aux_step (AuxSame.aux_refl c) _ ?_) _ ?_ <;>
        intro s <;> exact ⟨rfl, rfl, rfl, rfl, rfl, rfl, rfl, rfl, rfl⟩

/-- The claim of an idle slot by the thread `t`. -/
theorem claim_spec {c : sqlx_cache_s} {L : beacon_ref → List Nat} (hI : CacheInv c L)
    (mt : Int) (t : GThread) {b : Nat} (hb : b < c.bases_max_hard)
    (hst : (GET c b).status = SQLX_BASE_IDLE ∨ (GET c b).status = SQLX_BASE_IDLE_HOT) :
    CacheInv ((sqlx_base_move_to_list mt c b SQLX_BASE_USED).update b (fun s =>
        { s with count_open := s.count_open + 1, owner := some t }))
      (L_move L (GET c b).status SQLX_BASE_USED b)
    ∧ Touch c ((sqlx_base_move_to_list mt c b SQLX_BASE_USED).update b (fun s =>
        { s with count_open := s.count_open + 1, owner := some t })) b
    ∧ (GET ((sqlx_base_move_to_list mt c b SQLX_BASE_USED).update b (fun s =>
        { s with count_open := s.count_open + 1, owner := some t })) b).status = SQLX_BASE_USED
    ∧ (GET ((sqlx_base_move_to_list mt c b SQLX_BASE_USED).update b (fun s =>
        { s with count_open := s.count_open + 1, owner := some t })) b).data
      = ((GET c b).name, some t, (GET c b).handle, (GET c b).heat, 1, (GET c b).count_waiting,
          (GET c b).index, (GET c b).open_attempts, (GET c b).open_wait_time) := by
  have hnf : (GET c b).status ≠ SQLX_BASE_FREE := by rcases hst with h | h <;> rw [h] <;> simp
  have hF := hI.fields b hb
  have hco : (GET c b).count_open = 0 := by
    rcases hst with h | h
    · exact (hF.idle (Or.inl h)).2
    · exact (hF.idle (Or.inr h)).2
  have hlen : b < c.bases.length := by rw [hI.lists.len]; exact hb
  obtain ⟨h1, hT1, hs1⟩ := (hI.but hb hnf).move mt (y := SQLX_BASE_USED) (by simp) (by simp)
  obtain ⟨h2, hT2⟩ := h1.but_update (f := fun s =>
    { s with count_open := s.count_open + 1, owner := some t })
    (fun s => ⟨rfl, rfl, rfl, rfl, rfl⟩)
  have hG : GET ((sqlx_base_move_to_list mt c b SQLX_BASE_USED).update b (fun s =>
      { s with count_open := s.count_open + 1, owner := some t })) b
      = { GET (sqlx_base_move_to_list mt c b SQLX_BASE_USED) b with
          count_open := (GET (sqlx_base_move_to_list mt c b SQLX_BASE_USED) b).count_open + 1,
          owner := some t } := by
    rw [GET_update_self _ (by simpa using hlen)]
  have hs2 : (GET ((sqlx_base_move_to_list mt c b SQLX_BASE_USED).update b (fun s =>
      { s with count_open := s.count_open + 1, owner := some t })) b).status = SQLX_BASE_USED := by
    rw [hG]; exact hs1
  have hd2 : (GET ((sqlx_base_move_to_list mt c b SQLX_BASE_USED).update b (fun s =>
      { s with count_open := s.count_open + 1, owner := some t })) b).data
      = ((GET c b).name, some t, (GET c b).handle, (GET c b).heat, 1, (GET c b).count_waiting,
          (GET c b).index, (GET c b).open_attempts, (GET c b).open_wait_time) := by
    rw [hG]
    simp [sqlx_base_s.data, hco]
  refine ⟨h2.close ?_, hT1.touch_trans hT2, hs2, hd2⟩
  simp only [sqlx_base_s.data, Prod.mk.injEq] at hd2
  refine ⟨by rw [hs2]; simp, ?_, ?_, ?_, ?_⟩
  · intro h; rw [hs2] at h; simp at h
  · intro h; rw [hs2] at h; simp at h
  · intro _; rw [hd2.2.1, hd2.2.2.2.2.1]; simp
  · intro h; rw [hs2] at h; simp at h

theorem claim_good {c : sqlx_cache_s} {L : beacon_ref → List Nat} (hI : CacheInv c L)
    (mt : Int) (t : GThread) {b : Nat} (hb : b < c.bases_max_hard)
    (hst : (GET c b).status = SQLX_BASE_IDLE ∨ (GET c b).status = SQLX_BASE_IDLE_HOT) :
    GoodStep c ((sqlx_base_move_to_list mt c b SQLX_BASE_USED).update b (fun s =>
        { s with count_open := s.count_open + 1, owner := some t })) t none none := by
  obtain ⟨h1, hT, hs, _⟩ := claim_spec hI mt t hb hst
  refine GoodStep.good_keep none h1 hT (fun t' => closing_iff_of_not t' ?_ ?_ ?_ ?_)
  · rcases hst with h | h <;> rw [h] <;> simp
  · rcases hst with h | h <;> rw [h] <;> simp
  · rw [hs]; simp
  · rw [hs]; simp

theorem update_used_good {c : sqlx_cache_s} {L : beacon_ref → List Nat} (hI : CacheInv c L)
    (t : GThread) {b : Nat} (hb : b < c.bases_max_hard)
    (hst : (GET c b).status = SQLX_BASE_USED)
    {f : sqlx_base_s → sqlx_base_s}
    (hf : ∀ s, (f s).link_prev = s.link_prev ∧ (f s).link_next = s.link_next
      ∧ (f s).status = s.status ∧ (f s).index = s.index ∧ (f s).name = s.name)
    (hF : (f (GET c b)).owner ≠ none ∧ 1 ≤ (f (GET c b)).count_open) (o : Option Nat) :
    GoodStep c (c.update b f) t o o := by
  have hlen : b < c.bases.length := by rw [hI.lists.len]; exact hb
  have hs' : (f (GET c b)).status = SQLX_BASE_USED := by rw [(hf _).2.2.1]; exact hst
  obtain ⟨h1, hT⟩ := hI.update_keep hb hf (by rw [hst]; simp)
    ⟨by rw [hs']; simp, by intro h; rw [hs'] at h; simp at h,
      by intro h; rw [hs'] at h; simp at h, fun _ => hF,
      by intro h; rw [hs'] at h; simp at h⟩
  refine GoodStep.good_keep o h1 hT (fun t' => closing_iff_of_not t' ?_ ?_ ?_ ?_)
  · rw [hst]; simp
  · rw [hst]; simp
  · rw [GET_update_self _ hlen, hs']; simp
  · rw [GET_update_self _ hlen, hs']; simp

end Sqlx

namespace Sqlx
open sqlx_base_status_e

theorem open_pass_good {c : sqlx_cache_s} {L : beacon_ref → List Nat} (hI : CacheInv c L)
    (cfg : config) (mt : Int) (l : open_locals) (t : GThread) (hl : l.self = t) :
    (open_pass cfg mt c l).good c t := by
  have hrefl := GoodStep.good_refl hI t none
  simp only [open_pass]
  by_cases hr : c.is_running = true
  swap
  · simp only [hr, Bool.not_false, if_true, open_finish_false, open_next.good]
    simpa using hrefl
  simp only [hr, Bool.not_true, Bool.false_eq_true, if_false]
  rcases lookup_spec hI l.hname with ⟨hlk, hmiss⟩ | ⟨i, hi, hlk, hmem, hname, hnf⟩
  · -- the name is not in the index
    rw [hlk]
    simp only [Int.reduceNeg, Int.reduceLT, if_true]
    obtain ⟨hnone, hsome⟩ := reserve_spec hI l.self mt hmiss
    rcases hres : sqlx_base_reserve l.self mt c l.hname with ⟨c', err, res⟩
    rw [hres] at hnone hsome
    simp only at hnone hsome
    cases res with
    | none =>
      have hc := hnone rfl
      subst hc
      cases err with
      | some e => simpa only [open_finish_false, open_next.good] using hrefl
      | none =>
        simp only
        have hb := first_idle_begin_good hI cfg l.self mt 0
        cases hbeg : sqlx_expire_first_idle_base_begin cfg l.self mt c' 0 with
        | none =>
          simp only [ge_iff_le, le_refl, if_true, open_next.good]
          exact ⟨hrefl, hl⟩
        | some p =>
          obtain ⟨c'', b⟩ := p
          rw [hbeg] at hb
          simp only [open_next.good]
          exact ⟨hl ▸ hb, hl⟩
    | some b =>
      obtain ⟨he, _, hb, hst, _, hI', hT, hst', _⟩ := hsome b rfl
      subst he
      simp only [open_finish_false, open_next.good]
      refine GoodStep.good_keep none hI' hT (fun t' => closing_iff_of_not t' ?_ ?_ ?_ ?_)
      · rw [hst]; simp
      · rw [hst]; simp
      · rw [hst']; simp
      · rw [hst']; simp
  · -- the name is the name of the slot `i`
    rw [hlk]
    have hneg : ¬ ((i : Int) < 0) := by omega
    simp only [hneg, if_false, Int.toNat_ofNat]
    by_cases hrem : l.deadline - mt ≤ 0
    · simp only [hrem, if_true]
      split
      · simpa only [open_finish_false, open_next.good] using hrefl
      · split
        · simpa only [open_finish_false, open_next.good] using hrefl
        · split
          · split
            · simpa only [open_finish_false, open_next.good] using hrefl
            · trivial
          · simpa only [open_finish_false, open_next.good] using hrefl
    · simp only [hrem, if_false]
      have hF := hI.fields i hi
      split
      · trivial
      · -- IDLE
        rename_i hst
        obtain ⟨c', hc', haux⟩ := open_finish_true mt
          ((sqlx_base_move_to_list mt c i SQLX_BASE_USED).update i (fun s =>
            { s with count_open := s.count_open + 1, owner := some l.self }))
          { l with attempts := l.attempts + 1, base := some i } none
          (some (GET ((sqlx_base_move_to_list mt c i SQLX_BASE_USED).update i (fun s =>
            { s with count_open := s.count_open + 1, owner := some l.self })) i).index)
        rw [hc']
        simp only [open_next.good]
        have hg := claim_good hI mt l.self hi (Or.inl hst)
        obtain ⟨L', hI'⟩ := hg.cache
        exact hl ▸ (hg.good_trans (GoodStep.good_aux hI' haux l.self none))
      · -- IDLE_HOT
        rename_i hst
        obtain ⟨c', hc', haux⟩ := open_finish_true mt
          ((sqlx_base_move_to_list mt c i SQLX_BASE_USED).update i (fun s =>
            { s with count_open := s.count_open + 1, owner := some l.self }))
          { l with attempts := l.attempts + 1, base := some i } none
          (some (GET ((sqlx_base_move_to_list mt c i SQLX_BASE_USED).update i (fun s =>
            { s with count_open := s.count_open + 1, owner := some l.self })) i).index)
        rw [hc']
        simp only [open_next.good]
        have hg := claim_good hI mt l.self hi (Or.inr hst)
        obtain ⟨L', hI'⟩ := hg.cache
        exact hl ▸ (hg.good_trans (GoodStep.good_aux hI' haux l.self none))
      · -- USED
        rename_i hst
        have hpark : GoodStep c (c.update i (fun s =>
            { s with count_waiting := s.count_waiting + 1, heat := 1 })) t none none := by
          refine GoodStep.good_aux hI (AuxSame.aux_step (AuxSame.aux_refl c) _ ?_) t none
          intro s; exact ⟨rfl, rfl, rfl, rfl, rfl, rfl, rfl, rfl, rfl⟩
        by_cases how : (GET c i).owner = some l.self
        · simp only [how, ne_eq, not_true_eq_false, if_false, open_finish_false, open_next.good]
          refine update_used_good hI t hi hst ?_ ⟨?_, ?_⟩ none
          · intro s; exact ⟨rfl, rfl, rfl, rfl, rfl⟩
          · simp
          · exact Nat.le_add_left 1 _
        · simp only [how, ne_eq, not_false_eq_true, if_true]
          split
          · split
            · trivial
            · split
              · simpa only [open_finish_false, open_next.good] using hrefl
              · exact ⟨hpark, hl⟩
          · exact ⟨hpark, hl⟩
      · -- CLOSING
        exact ⟨hrefl, hl⟩
      · simpa only [open_finish_false, open_next.good] using hrefl
      · simpa only [open_finish_false, open_next.good] using hrefl

end Sqlx

namespace Sqlx
open sqlx_base_status_e

/-! ## `sqlx_cache_unlock_and_close_base` keeps the invariant -/

/-- The release of a slot in use whose last opening is closed. -/
theorem unlock_release_spec {c : sqlx_cache_s} {L : beacon_ref → List Nat} {b : Nat}
    (h : CacheInvBut c L b) (cfg : config) (mt : Int)
    (hst : (GET c b).status = SQLX_BASE_USED) (hco : (GET c b).count_open = 0) :
    CacheInv (unlock_release cfg mt c b)
        (L_move L SQLX_BASE_USED
          (if (GET c b).heat ≥ cfg._cache_heat_threshold then SQLX_BASE_IDLE_HOT
            else SQLX_BASE_IDLE) b)
    ∧ Touch c (unlock_release cfg mt c b) b
    ∧ (GET (unlock_release cfg mt c b) b).status
        = (if (GET c b).heat ≥ cfg._cache_heat_threshold then SQLX_BASE_IDLE_HOT
            else SQLX_BASE_IDLE)
    ∧ (GET (unlock_release cfg mt c b) b).data
        = ((GET c b).name, none, (GET c b).handle, (GET c b).heat, (GET c b).count_open,
            (GET c b).count_waiting, (GET c b).index, (GET c b).open_attempts,
            (GET c b).open_wait_time)
    ∧ (unlock_release cfg mt c b).bases_used = c.bases_used
    ∧ (unlock_release cfg mt c b).bases_by_name = c.bases_by_name
    ∧ (unlock_release cfg mt c b).bases_max_soft = c.bases_max_soft
    ∧ (unlock_release cfg mt c b).last_memory_usage = c.last_memory_usage
    ∧ (unlock_release cfg mt c b).close_hook = c.close_hook
    ∧ (unlock_release cfg mt c b).hook_calls
        = (if c.unlock_hook then hook_call.unlock_hook (GET c b).handle :: c.hook_calls
            else c.hook_calls) := by
  have hlen : b < c.bases.length := by rw [h.lists.len]; exact h.lt
  set y := (if (GET c b).heat ≥ cfg._cache_heat_threshold then SQLX_BASE_IDLE_HOT
    else SQLX_BASE_IDLE) with hy
  have hy0 : y ≠ SQLX_BASE_ZERO := by rw [hy]; split <;> simp
  have hyf : y ≠ SQLX_BASE_FREE := by rw [hy]; split <;> simp
  have hyi : y = SQLX_BASE_IDLE ∨ y = SQLX_BASE_IDLE_HOT := by rw [hy]; split <;> simp
  -- the cache once the hook is called
  set c1 : sqlx_cache_s := (if c.unlock_hook = true then
      { c with hook_calls := (hook_call.unlock_hook (GET c b).handle :: c.hook_calls) }
    else c) with hc1
  have hb1 : c1.bases = c.bases := by rw [hc1]; split <;> rfl
  have hG1 : ∀ j, GET c1 j = GET c j := fun j => by simp [GET, hb1]
  obtain ⟨h1, hT1⟩ := @CacheInvBut.but_frame _ c1 _ _ h hb1
    (fun r => by rw [hc1]; split <;> cases r <;> rfl) (by rw [hc1]; split <;> rfl)
    (by rw [hc1]; split <;> rfl) (by rw [hc1]; split <;> rfl) (by rw [hc1]; split <;> rfl)
  obtain ⟨h2, hT2⟩ := h1.but_update (f := fun s => { s with owner := none })
    (fun s => ⟨rfl, rfl, rfl, rfl, rfl⟩)
  set c2 := c1.update b (fun s => { s with owner := none }) with hc2
  have hGb2 : GET c2 b = { GET c b with owner := none } := by
    rw [hc2, GET_update_self _ (by rw [hb1]; exact hlen), hG1]
  have e : unlock_release cfg mt c b = sqlx_base_move_to_list mt c2 b y := by
    simp only [unlock_release]
    rw [← hc1, ← hc2, hGb2, hy]
    split <;> rfl
  rw [e]
  obtain ⟨h3, hT3, hs3⟩ := h2.move mt hy0 hyf
  have hst2 : (GET c2 b).status = SQLX_BASE_USED := by rw [hGb2]; exact hst
  rw [hst2] at h3
  set c3 := sqlx_base_move_to_list mt c2 b y with hc3
  have hd3 : (GET c3 b).data = (GET c2 b).data := (move_to_list_same mt c2 b y).data b
  have hd3' : (GET c3 b).data = ((GET c b).name, none, (GET c b).handle, (GET c b).heat,
      (GET c b).count_open, (GET c b).count_waiting, (GET c b).index, (GET c b).open_attempts,
      (GET c b).open_wait_time) := by
    rw [hd3, hGb2]; rfl
  have hF : Fields (GET c3 b) := by
    have hd := hd3'
    simp only [sqlx_base_s.data, Prod.mk.injEq] at hd
    refine ⟨by rw [hs3]; exact hy0, ?_, ?_, ?_, ?_⟩
    · intro hh; rw [hs3] at hh; exact absurd hh hyf
    · intro _; rw [hd.2.1, hd.2.2.2.2.1]; exact ⟨rfl, hco⟩
    · intro hh; rw [hs3] at hh; rcases hyi with h | h <;> rw [h] at hh <;> simp at hh
    · intro hh; rw [hs3] at hh; rcases hyi with h | h <;> rw [h] at hh <;> simp at hh
  refine ⟨h3.close hF, (hT1.touch_trans hT2).touch_trans hT3, hs3, hd3', ?_, ?_, ?_, ?_, ?_, ?_⟩
  · rw [hc3, move_to_list_used]; simp only [hyf, and_false, if_false, hc2, update_used]
    rw [hc1]; split <;> rfl
  · simp only [hc3, move_bases_by_name, hc2, update_bases_by_name]
    rw [hc1]; split <;> rfl
  · simp only [hc3, move_soft, hc2, update_soft]
    rw [hc1]; split <;> rfl
  · simp only [hc3, move_last_memory_usage, hc2, update_last_memory_usage]
    rw [hc1]; split <;> rfl
  · simp only [hc3, move_close_hook, hc2, update_close_hook]
    rw [hc1]; split <;> rfl
  · simp only [hc3, move_hook_calls, hc2, update_hook_calls]
    rw [hc1]; split <;> simp_all

end Sqlx

namespace Sqlx
open sqlx_base_status_e

/-- The slot `b`, in use by `t` with one opening, once `count_open` is
decremented. -/
theorem unlock_dec_but {c : sqlx_cache_s} {L : beacon_ref → List Nat} (hI : CacheInv c L)
    {b : Nat} (hb : b < c.bases_max_hard) (hst : (GET c b).status = SQLX_BASE_USED) :
    CacheInvBut (c.update b (fun s => { s with count_open := guint_dec s.count_open })) L b
    ∧ Touch c (c.update b (fun s => { s with count_open := guint_dec s.count_open })) b
    ∧ GET (c.update b (fun s => { s with count_open := guint_dec s.count_open })) b
        = { GET c b with count_open := guint_dec (GET c b).count_open } := by
  have hlen : b < c.bases.length := by rw [hI.lists.len]; exact hb
  obtain ⟨h1, hT1⟩ := (hI.but hb (by rw [hst]; simp)).but_update
    (f := fun s => { s with count_open := guint_dec s.count_open })
    (fun s => ⟨rfl, rfl, rfl, rfl, rfl⟩)
  exact ⟨h1, hT1, GET_update_self _ hlen⟩

theorem close_begin_good {c : sqlx_cache_s} {L : beacon_ref → List Nat} (hI : CacheInv c L)
    (cfg : config) (t : GThread) (mt : Int) (bd : Int) (flags : close_flags) :
    (sqlx_cache_unlock_and_close_base_begin cfg t mt c bd flags).good c t := by
  have hrefl := GoodStep.good_refl hI t none
  simp only [sqlx_cache_unlock_and_close_base_begin]
  by_cases hout : base_id_out c bd = true
  · simp only [hout, if_true, close_next.good]; exact hrefl
  simp only [hout, Bool.false_eq_true, if_false]
  have hb : bd.toNat < c.bases_max_hard := by
    simp only [base_id_out, Bool.or_eq_true, decide_eq_true_eq, not_or, not_lt, not_le,
      ge_iff_le] at hout
    exact hout.2
  generalize bd.toNat = b at hb ⊢
  have hlen : b < c.bases.length := by rw [hI.lists.len]; exact hb
  split
  · split
    · trivial
    · split
      · trivial
      · exact hrefl
  · split
    · trivial
    · split
      · trivial
      · exact hrefl
  · split
    · trivial
    · split
      · trivial
      · exact hrefl
  · -- USED
    rename_i hst
    split
    · trivial
    · split
      · trivial
      · split
        · trivial
        · rename_i hown hown' hco
          simp only [not_lt] at hco
          simp only [ne_eq, not_not] at hown'
          obtain ⟨h1, hT1, hG1⟩ := unlock_dec_but hI hb hst
          have hdec : guint_dec (GET c b).count_open = (GET c b).count_open - 1 := by
            simp only [guint_dec]; rw [if_neg (by omega)]
          rw [hG1]
          simp only [hdec]
          have hncl : ∀ t', ¬ closing_by c t' b := fun t' =>
            not_closing_of_status t' (by rw [hst]; simp) (by rw [hst]; simp)
          by_cases hz : (GET c b).count_open - 1 = 0
          · simp only [hz, if_true]
            have hst1 : (GET (c.update b (fun s =>
                { s with count_open := guint_dec s.count_open })) b).status = SQLX_BASE_USED := by
              rw [hG1]; exact hst
            have hco1 : (GET (c.update b (fun s =>
                { s with count_open := guint_dec s.count_open })) b).count_open = 0 := by
              rw [hG1]; simp only [hdec]; exact hz
            have how1 : (GET (c.update b (fun s =>
                { s with count_open := guint_dec s.count_open })) b).owner = some t := by
              rw [hG1]; exact hown'
            split
            · -- eviction
              obtain ⟨h2, hT2, hs2, hd2, _⟩ := expire_begin_but h1 mt flags.SQLX_CLOSE_FOR_DELETION
                hst1 (by rw [how1]; simp) hco1
              simp only [close_next.good]
              refine GoodStep.begin h2 (hT1.touch_trans hT2) hncl ⟨?_, ?_, ?_⟩
              · rw [(hT1.touch_trans hT2).hard]; exact hb
              · rw [hs2]; split <;> simp
              · rw [(data_fields hd2).2.1]; exact how1
            · -- release
              obtain ⟨h2, hT2, hs2, hd2, _⟩ := unlock_release_spec h1 cfg mt hst1 hco1
              have hg : GoodStep c (unlock_release cfg mt (c.update b (fun s =>
                  { s with count_open := guint_dec s.count_open })) b) t none none := by
                refine GoodStep.good_keep none h2 (hT1.touch_trans hT2)
                  (fun t' => closing_iff_of_not t' ?_ ?_ ?_ ?_)
                · rw [hst]; simp
                · rw [hst]; simp
                · rw [hs2]; split <;> simp
                · rw [hs2]; split <;> simp
              split
              · have hb2 := first_idle_begin_good h2 cfg t mt 0
                split
                · rename_i c' b' hbeg
                  rw [hbeg] at hb2
                  simp only [close_next.good]
                  exact hg.good_trans hb2
                · exact hg
              · exact hg
          · simp only [hz, if_false, close_next.good]
            refine update_used_good hI t hb hst ?_ ⟨?_, ?_⟩ none
            · intro s; exact ⟨rfl, rfl, rfl, rfl, rfl⟩
            · show (GET c b).owner ≠ none
              rw [hown']; simp
            · show 1 ≤ guint_dec (GET c b).count_open
              rw [hdec]; omega
  · -- CLOSING
    split
    · trivial
    · split
      · trivial
      · exact hrefl
  · split
    · trivial
    · split
      · trivial
      · exact hrefl
  · exact hrefl

end Sqlx

namespace Sqlx
open sqlx_base_status_e

/-! ## Every step keeps the invariant of the system -/

theorem expire_all_turn_good {c : sqlx_cache_s} {L : beacon_ref → List Nat} (hI : CacheInv c L)
    (cfg : config) (t : GThread) (mt : Int) (nb : Nat) :
    (sqlx_cache_expire_all_turn cfg t mt c nb).good c t := by
  have hb := first_idle_begin_good hI cfg t mt 0
  simp only [sqlx_cache_expire_all_turn]
  split
  · rename_i c' b hbeg
    rw [hbeg] at hb
    exact hb
  · exact GoodStep.good_refl hI t none

theorem expire_turn_good {c : sqlx_cache_s} {L : beacon_ref → List Nat} (hI : CacheInv c L)
    (cfg : config) (t : GThread) (mt : Int) (max : Nat) (deadline : Int) (nb : Nat) :
    (sqlx_cache_expire_turn cfg t mt c max deadline nb).good c t := by
  have hb := first_idle_begin_good hI cfg t mt mt
  have hrefl := GoodStep.good_refl hI t none
  simp only [sqlx_cache_expire_turn]
  split
  · split
    · exact hrefl
    · split
      · rename_i c' b hbeg
        rw [hbeg] at hb
        exact hb
      · exact hrefl
  · exact hrefl

theorem Inv.sys_step {s : system} (hI : Inv s) {c' : sqlx_cache_s} {t : GThread}
    {u : thread_state}
    (hG : GoodStep s.cache c' t (s.threads t).closes u.closes)
    (hl : ∀ l, u.locals = some l → l.self = t) :
    Inv ⟨c', Function.update s.threads t u⟩ := by
  refine ⟨hG.cache, ?_, ?_⟩
  · intro t' l h
    by_cases ht : t' = t
    · subst ht
      simp only [Function.update_same] at h
      exact hl l h
    · simp only [Function.update_noteq ht] at h
      exact hI.self t' l h
  · intro t' i
    by_cases ht : t' = t
    · subst ht
      simp only [Function.update_same]
      exact hG.own (fun i => hI.closing t' i) i
    · simp only [Function.update_noteq ht]
      exact (hG.others t' ht i).trans (hI.closing t' i)

theorem Inv.same_threads {s : system} (hI : Inv s) {c' : sqlx_cache_s}
    (hG : ∀ t o, GoodStep s.cache c' t o o) : Inv ⟨c', s.threads⟩ := by
  refine ⟨(hG 0 none).cache, hI.self, ?_⟩
  intro t i
  exact ((hG t (s.threads t).closes).own (fun i => hI.closing t i)) i

theorem open_go_inv {s s' : system} {ev : event} (hI : Inv s) {t : GThread}
    {hname : hashstr_t} {n : open_next} {c0 : sqlx_cache_s} {o : Option Nat}
    (ho : (s.threads t).closes = o)
    (h0 : GoodStep s.cache c0 t o none)
    (hn : n.good c0 t) (h : open_go s t hname n = some (s', ev)) : Inv s' := by
  cases n with
  | done c' err res =>
    simp only [open_go, Option.some.injEq, Prod.mk.injEq] at h
    rw [← h.1]
    exact hI.sys_step (u := thread_state.idle) (ho ▸ h0.good_trans hn) (fun l hl => by simp [thread_state.locals] at hl)
  | retry c' l' =>
    simp only [open_go, Option.some.injEq, Prod.mk.injEq] at h
    rw [← h.1]
    exact hI.sys_step (u := thread_state.open_retry l') (ho ▸ h0.good_trans hn.1)
      (fun l hl => by simp only [thread_state.locals, Option.some.injEq] at hl; exact hl ▸ hn.2)
  | wait_used c' l' b =>
    simp only [open_go, Option.some.injEq, Prod.mk.injEq] at h
    rw [← h.1]
    exact hI.sys_step (u := thread_state.open_wait_used l' b) (ho ▸ h0.good_trans hn.1)
      (fun l hl => by simp only [thread_state.locals, Option.some.injEq] at hl; exact hl ▸ hn.2)
  | wait_closing c' l' =>
    simp only [open_go, Option.some.injEq, Prod.mk.injEq] at h
    rw [← h.1]
    exact hI.sys_step (u := thread_state.open_wait_closing l') (ho ▸ h0.good_trans hn.1)
      (fun l hl => by simp only [thread_state.locals, Option.some.injEq] at hl; exact hl ▸ hn.2)
  | closing c' l' b =>
    simp only [open_go, Option.some.injEq, Prod.mk.injEq] at h
    rw [← h.1]
    exact hI.sys_step (u := thread_state.open_closing l' b) (ho ▸ h0.good_trans hn.1)
      (fun l hl => by simp only [thread_state.locals, Option.some.injEq] at hl; exact hl ▸ hn.2)
  | abort => simp [open_go] at h

theorem close_go_inv {s s' : system} {ev : event} (hI : Inv s) {t : GThread}
    {n : close_next (Option GError)}
    (ho : (s.threads t).closes = none)
    (hn : n.good s.cache t) (h : close_go s t n = some (s', ev)) : Inv s' := by
  cases n with
  | done c' err =>
    simp only [close_go, Option.some.injEq, Prod.mk.injEq] at h
    rw [← h.1]
    exact hI.sys_step (u := thread_state.idle) (ho ▸ hn) (fun l hl => by simp [thread_state.locals] at hl)
  | closing c' b =>
    simp only [close_go, Option.some.injEq, Prod.mk.injEq] at h
    rw [← h.1]
    exact hI.sys_step (u := thread_state.close_closing b) (ho ▸ hn)
      (fun l hl => by simp [thread_state.locals] at hl)
  | abort => simp [close_go] at h

theorem expire_all_go_inv {s s' : system} {ev : event} (hI : Inv s) {t : GThread} {nb : Nat}
    {n : close_next Nat} {c0 : sqlx_cache_s} {o : Option Nat}
    (ho : (s.threads t).closes = o)
    (h0 : GoodStep s.cache c0 t o none)
    (hn : n.good c0 t) (h : expire_all_go s t nb n = some (s', ev)) : Inv s' := by
  cases n with
  | done c' v =>
    simp only [expire_all_go, Option.some.injEq, Prod.mk.injEq] at h
    rw [← h.1]
    exact hI.sys_step (u := thread_state.idle) (ho ▸ h0.good_trans hn)
      (fun l hl => by simp [thread_state.locals] at hl)
  | closing c' b =>
    simp only [expire_all_go, Option.some.injEq, Prod.mk.injEq] at h
    rw [← h.1]
    exact hI.sys_step (u := thread_state.expire_all_closing nb b) (ho ▸ h0.good_trans hn)
      (fun l hl => by simp [thread_state.locals] at hl)
  | abort => simp [expire_all_go] at h

theorem expire_go_inv {s s' : system} {ev : event} (hI : Inv s) {t : GThread} {max nb : Nat}
    {deadline : Int} {n : close_next Nat} {c0 : sqlx_cache_s} {o : Option Nat}
    (ho : (s.threads t).closes = o)
    (h0 : GoodStep s.cache c0 t o none)
    (hn : n.good c0 t) (h : expire_go s t max deadline nb n = some (s', ev)) : Inv s' := by
  cases n with
  | done c' v =>
    simp only [expire_go, Option.some.injEq, Prod.mk.injEq] at h
    rw [← h.1]
    exact hI.sys_step (u := thread_state.idle) (ho ▸ h0.good_trans hn)
      (fun l hl => by simp [thread_state.locals] at hl)
  | closing c' b =>
    simp only [expire_go, Option.some.injEq, Prod.mk.injEq] at h
    rw [← h.1]
    exact hI.sys_step (u := thread_state.expire_closing max deadline nb b) (ho ▸ h0.good_trans hn)
      (fun l hl => by simp [thread_state.locals] at hl)
  | abort => simp [expire_go] at h

theorem open_enter_self (cfg : config) (t : GThread) (hname : hashstr_t) (urgent : Bool)
    (deadline start : Int) : (open_enter cfg t hname urgent deadline start).self = t := rfl

theorem wake_good {c : sqlx_cache_s} {L : beacon_ref → List Nat} (hI : CacheInv c L)
    (t : GThread) (b : Nat) (o : Option Nat) : GoodStep c (open_wake_used c b) t o o := by
  refine GoodStep.good_aux hI (AuxSame.aux_step (AuxSame.aux_refl c) _ ?_) t o
  intro s; exact ⟨rfl, rfl, rfl, rfl, rfl, rfl, rfl, rfl, rfl⟩

theorem CLAMP_bounds (x high : Nat) (h : 1 ≤ high) : 1 ≤ CLAMP x 1 high ∧ CLAMP x 1 high ≤ high := by
  simp only [CLAMP]
  split
  · exact ⟨h, le_refl _⟩
  · split <;> omega

theorem frame_good {c c' : sqlx_cache_s} {L : beacon_ref → List Nat}
    (h : CacheInv c L) (hbases : c'.bases = c.bases)
    (hbeacon : ∀ r, c'.beacon r = c.beacon r)
    (htree : c'.bases_by_name = c.bases_by_name)
    (hhard : c'.bases_max_hard = c.bases_max_hard)
    (hsoft : 1 ≤ c'.bases_max_soft ∧ c'.bases_max_soft ≤ c'.bases_max_hard)
    (hused : c'.bases_used = c.bases_used) (t : GThread) (o : Option Nat) :
    GoodStep c c' t o o := by
  obtain ⟨h1, hT⟩ := h.inv_frame hbases hbeacon htree hhard hsoft hused
  have hG : ∀ j, GET c' j = GET c j := fun j => by simp [GET, hbases]
  exact GoodStep.good_keep (b := 0) o h1 (hT 0) (fun t' => closing_by_congr t' hhard (by rw [hG]) (by rw [hG]))

/-- Every step of the system keeps its invariant. -/
theorem run_inv {s s' : system} {ev : event} (hI : Inv s) (cfg : config) (a : action)
    (h : run cfg a s = some (s', ev)) : Inv s' := by
  obtain ⟨L, hC⟩ := hI.cache
  cases a with
  | open_call t hname urgent deadline start mt =>
    simp only [run] at h
    split at h
    · rename_i hts
      exact open_go_inv hI (by rw [hts]; rfl) (GoodStep.good_refl hC t none)
        (open_pass_good hC cfg mt _ t (open_enter_self ..)) h
    · simp at h
  | resume t mt =>
    simp only [run] at h
    split at h
    · simp at h
    · rename_i l hts
      have hs := hI.self t l (by rw [hts]; rfl)
      rw [← hs] at h
      exact open_go_inv hI (by rw [hts]; rfl) (GoodStep.good_refl hC t none)
        (open_pass_good hC cfg mt _ t hs) (hs ▸ h)
    · rename_i l b hts
      have hs := hI.self t l (by rw [hts]; rfl)
      have hw := wake_good hC t b none
      obtain ⟨L1, hC1⟩ := hw.cache
      exact open_go_inv hI (by rw [hts]; rfl) hw (open_pass_good hC1 cfg mt _ t hs) h
    · rename_i l hts
      have hs := hI.self t l (by rw [hts]; rfl)
      exact open_go_inv hI (by rw [hts]; rfl) (GoodStep.good_refl hC t none)
        (open_pass_good hC cfg mt _ t hs) h
    · rename_i l b hts
      have hs := hI.self t l (by rw [hts]; rfl)
      have hcl : closing_by s.cache t b := (hI.closing t b).mpr (by rw [hts]; rfl)
      have he := expire_end_good hC mt hcl
      obtain ⟨L1, hC1⟩ := he.cache
      exact open_go_inv hI (by rw [hts]; rfl) he (open_pass_good hC1 cfg mt _ t hs) h
    · rename_i b hts
      have hcl : closing_by s.cache t b := (hI.closing t b).mpr (by rw [hts]; rfl)
      have he := expire_end_good hC mt hcl
      simp only [Option.some.injEq, Prod.mk.injEq] at h
      rw [← h.1]
      exact hI.sys_step (u := thread_state.idle) (by rw [hts]; exact he)
        (fun l hl => by simp [thread_state.locals] at hl)
    · rename_i nb b hts
      have hcl : closing_by s.cache t b := (hI.closing t b).mpr (by rw [hts]; rfl)
      have he := expire_end_good hC mt hcl
      obtain ⟨L1, hC1⟩ := he.cache
      exact expire_all_go_inv hI (by rw [hts]; rfl) he
        (expire_all_turn_good hC1 cfg t mt (nb + 1)) h
    · rename_i max deadline nb b hts
      have hcl : closing_by s.cache t b := (hI.closing t b).mpr (by rw [hts]; rfl)
      have he := expire_end_good hC mt hcl
      obtain ⟨L1, hC1⟩ := he.cache
      exact expire_go_inv hI (by rw [hts]; rfl) he
        (expire_turn_good hC1 cfg t mt max deadline (nb + 1)) h
  | close_call t bd flags mt =>
    simp only [run] at h
    split at h
    · rename_i hts
      exact close_go_inv hI (by rw [hts]; rfl) (close_begin_good hC cfg t mt bd flags) h
    · simp at h
  | expire_all_call t mt =>
    simp only [run] at h
    split at h
    · rename_i hts
      exact expire_all_go_inv hI (by rw [hts]; rfl) (GoodStep.good_refl hC t none)
        (expire_all_turn_good hC cfg t mt 0) h
    · simp at h
  | expire_call t max duration start mt =>
    simp only [run] at h
    split at h
    · rename_i hts
      exact expire_go_inv hI (by rw [hts]; rfl) (GoodStep.good_refl hC t none)
        (expire_turn_good hC cfg t mt max (start + duration) 0) h
    · simp at h
  | set_handle t bd sq3 =>
    simp only [run] at h
    split at h
    · rename_i hc
      simp only [Option.some.injEq, Prod.mk.injEq] at h
      rw [← h.1]
      apply hI.same_threads
      intro t' o
      simp only [sqlx_cache_set_handle]
      refine update_used_good hC t' hc.2.1 hc.2.2.1 ?_ ⟨?_, ?_⟩ o
      · intro s; exact ⟨rfl, rfl, rfl, rfl, rfl⟩
      · exact ((hC.fields bd hc.2.1).used hc.2.2.1).1
      · exact ((hC.fields bd hc.2.1).used hc.2.2.1).2
    · simp at h
  | reconfigure =>
    simp only [run, Option.some.injEq, Prod.mk.injEq] at h
    rw [← h.1]
    apply hI.same_threads
    intro t' o
    simp only [sqlx_cache_reconfigure]
    have h1 : 1 ≤ s.cache.bases_max_hard := le_trans hC.soft.1 hC.soft.2
    split
    · refine frame_good hC ?_ ?_ ?_ ?_ ?_ ?_ t' o
      · rfl
      · intro r; cases r <;> rfl
      · rfl
      · rfl
      · exact CLAMP_bounds _ _ h1
      · rfl
    · refine frame_good hC ?_ ?_ ?_ ?_ ?_ ?_ t' o
      · rfl
      · intro r; cases r <;> rfl
      · rfl
      · rfl
      · exact ⟨h1, le_refl _⟩
      · rfl
  | set_running b =>
    simp only [run, Option.some.injEq, Prod.mk.injEq] at h
    rw [← h.1]
    apply hI.same_threads
    intro t' o
    refine frame_good hC ?_ ?_ ?_ ?_ ?_ ?_ t' o
    · rfl
    · intro r; cases r <;> rfl
    · rfl
    · rfl
    · exact hC.soft
    · rfl
  | set_unlock_hook b =>
    simp only [run, Option.some.injEq, Prod.mk.injEq] at h
    rw [← h.1]
    apply hI.same_threads
    intro t' o
    refine frame_good hC ?_ ?_ ?_ ?_ ?_ ?_ t' o
    · rfl
    · intro r; cases r <;> rfl
    · rfl
    · rfl
    · exact hC.soft
    · rfl
  | set_close_hook b =>
    simp only [run, Option.some.injEq, Prod.mk.injEq] at h
    rw [← h.1]
    apply hI.same_threads
    intro t' o
    refine frame_good hC ?_ ?_ ?_ ?_ ?_ ?_ t' o
    · rfl
    · intro r; cases r <;> rfl
    · rfl
    · rfl
    · exact hC.soft
    · rfl
  | set_last_memory_usage u =>
    simp only [run, Option.some.injEq, Prod.mk.injEq] at h
    rw [← h.1]
    apply hI.same_threads
    intro t' o
    refine frame_good hC ?_ ?_ ?_ ?_ ?_ ?_ t' o
    · rfl
    · intro r; cases r <;> rfl
    · rfl
    · rfl
    · exact hC.soft
    · rfl

end Sqlx

namespace Sqlx
open sqlx_base_status_e

/-! ## The invariant holds after `sqlx_cache_init` -/

theorem L_add_free (l : List Nat) (i : Nat) :
    L_add (L_free l) SQLX_BASE_FREE i = L_free (i :: l) := by
  funext r
  simp only [L_add, L_free]
  split <;> rfl

theorem init_stack_spec (mt : Int) : ∀ (k : Nat) (c : sqlx_cache_s) (l : List Nat),
    Lists c (L_free l) → k ≤ c.bases_max_hard →
    (∀ i, i < k → (GET c i).status = SQLX_BASE_ZERO) →
    Lists (sqlx_cache_init_stack mt k c) (L_free (List.range k ++ l))
      ∧ SameData c (sqlx_cache_init_stack mt k c)
      ∧ (sqlx_cache_init_stack mt k c).bases_used = c.bases_used
      ∧ (∀ j, (GET (sqlx_cache_init_stack mt k c) j).status
          = if j < k then SQLX_BASE_FREE else (GET c j).status) := by
  intro k
  induction k with
  | zero =>
    intro c l hL _ _
    exact ⟨hL, SameData.same_refl c, rfl, fun j => by simp [sqlx_cache_init_stack]⟩
  | succ k ih =>
    intro c l hL hk hz
    simp only [sqlx_cache_init_stack]
    have hkb : k < c.bases_max_hard := by omega
    have hs : ∀ r' : beacon_ref, (GET c k).status ≠ r'.status := by
      intro r'
      rw [hz k (by omega)]
      cases r' <;> simp [beacon_ref.status]
    have hU := @SQLX_UNSHIFT_Lists mt _ _ hL _ beacon_ref.free hkb hs
    have hfs : beacon_ref.free.status = SQLX_BASE_FREE := rfl
    rw [hfs, L_add_free] at hU
    have hsame := SQLX_UNSHIFT_same mt c k beacon_ref.free SQLX_BASE_FREE
    have hst := SQLX_UNSHIFT_status mt c k beacon_ref.free SQLX_BASE_FREE
    have hused := SQLX_UNSHIFT_used mt c k beacon_ref.free SQLX_BASE_FREE
    obtain ⟨h1, h2, h3, h4⟩ := ih (SQLX_UNSHIFT mt c k beacon_ref.free SQLX_BASE_FREE) (k :: l) hU
      (by rw [hsame.same_hard]; omega)
      (by
        intro i hi
        rw [hst, if_neg (by omega)]
        exact hz i (by omega))
    refine ⟨?_, hsame.same_trans h2, h3.trans hused, ?_⟩
    · rw [List.range_succ, List.append_assoc]
      exact h1
    · intro j
      rw [h4, hst]
      have hlen : c.bases.length = c.bases_max_hard := hL.len
      by_cases hj : j < k
      · rw [if_pos hj, if_pos (by omega)]
      · rw [if_neg hj]
        by_cases hjk : j = k
        · rw [if_pos ⟨hjk, by omega⟩, if_pos (by omega)]
        · rw [if_neg (fun h => hjk h.1), if_neg (by omega)]

theorem init_hard_pos (cfg : config) (mt : Int) :
    1 ≤ (sqlx_cache_init_alloc cfg mt).bases_max_hard := by
  simp only [sqlx_cache_init_alloc]
  split <;> omega

theorem init_alloc_GET (cfg : config) (mt : Int) (i : Nat)
    (hi : i < (sqlx_cache_init_alloc cfg mt).bases_max_hard) :
    GET (sqlx_cache_init_alloc cfg mt) i =
      { sqlx_base_zero with
        index := i, link_prev := -1, link_next := -1,
        open_attempts := grid_single_rrd_create (mt.tdiv G_TIME_SPAN_SECOND) 60,
        open_wait_time := grid_single_rrd_create (mt.tdiv G_TIME_SPAN_SECOND) 60 } := by
  simp only [sqlx_cache_init_alloc] at hi ⊢
  simp only [GET, List.getD_eq_getElem?_getD, List.getElem?_map]
  rw [List.getElem?_range hi]
  rfl

theorem init_alloc_Lists (cfg : config) (mt : Int) :
    Lists (sqlx_cache_init_alloc cfg mt) (L_free []) := by
  have hnil : ∀ r, L_free [] r = [] := by
    intro r; simp only [L_free]; split <;> rfl
  refine ⟨?_, ?_, ?_, ?_, ?_⟩
  · simp [sqlx_cache_init_alloc]
  · intro i hi
    rw [init_alloc_GET cfg mt i hi]
  · intro r
    rw [hnil]
    refine ⟨List.nodup_nil, by simp, ?_, ?_, by simp, by simp⟩
    · cases r <;> rfl
    · cases r <;> rfl
  · intro r i
    rw [hnil]
    constructor
    · intro h; simp at h
    · rintro ⟨hi, hs⟩
      rw [init_alloc_GET cfg mt i hi] at hs
      cases r <;> simp [beacon_ref.status, sqlx_base_zero] at hs
  · intro i hi _
    rw [init_alloc_GET cfg mt i hi]
    exact ⟨rfl, rfl⟩

/-- After `sqlx_cache_init` the invariant of the cache holds, and the FREE list
holds every slot, from the slot 0 to the last one. -/
theorem init_CacheInv (cfg : config) (mt : Int) :
    CacheInv (sqlx_cache_init cfg mt)
      (L_free (List.range (sqlx_cache_init cfg mt).bases_max_hard)) := by
  have hA := init_alloc_Lists cfg mt
  have hpos := init_hard_pos cfg mt
  obtain ⟨h1, h2, h3, h4⟩ := init_stack_spec mt (sqlx_cache_init_alloc cfg mt).bases_max_hard
    (sqlx_cache_init_alloc cfg mt) [] hA (le_refl _)
    (by intro i hi; rw [init_alloc_GET cfg mt i hi]; rfl)
  rw [List.append_nil] at h1
  have hhard := h2.same_hard
  have hfr := h2.frame
  simp only [sqlx_cache_s.frame, Prod.mk.injEq] at hfr
  have hI : CacheInv (sqlx_cache_init_stack mt (sqlx_cache_init_alloc cfg mt).bases_max_hard
      (sqlx_cache_init_alloc cfg mt))
      (L_free (List.range (sqlx_cache_init_alloc cfg mt).bases_max_hard)) := by
    refine ⟨h1, ?_, ?_, ?_, ?_, ?_, ?_⟩
    · intro i hi
      rw [hhard] at hi
      have hs := h4 i
      rw [if_pos hi] at hs
      have hd := h2.data i
      rw [init_alloc_GET cfg mt i hi] at hd
      simp only [sqlx_base_s.data, Prod.mk.injEq, sqlx_base_zero] at hd
      refine ⟨by rw [hs]; simp, ?_, ?_, ?_, ?_⟩
      · intro _; exact ⟨hd.1, hd.2.2.1, hd.2.1, hd.2.2.2.2.1⟩
      · intro _; exact ⟨hd.2.1, hd.2.2.2.2.1⟩
      · intro h; rw [hs] at h; simp at h
      · intro h; rw [hs] at h; simp at h
    · rw [h3, hhard]
      simp [L_free, beacon_ref.status, sqlx_cache_init_alloc]
    · rw [hfr.2.1, hhard]
      simp only [sqlx_cache_init_alloc]
      exact CLAMP_bounds _ _ hpos
    · rw [hfr.1]; simp [sqlx_cache_init_alloc]
    · intro n v hm
      rw [hfr.1] at hm
      simp [sqlx_cache_init_alloc] at hm
    · intro i hi hne
      rw [hhard] at hi
      have hs := h4 i
      rw [if_pos hi] at hs
      exact absurd hs hne
  have hh : (sqlx_cache_init cfg mt).bases_max_hard
      = (sqlx_cache_init_alloc cfg mt).bases_max_hard := hhard
  rw [hh]
  exact (@CacheInv.inv_frame _ (sqlx_cache_init cfg mt) _ hI rfl (fun r => by cases r <;> rfl) rfl rfl
    hI.soft rfl).1

theorem init_Inv (cfg : config) (mt : Int) : Inv (system_init cfg mt) := by
  refine ⟨⟨_, init_CacheInv cfg mt⟩, ?_, ?_⟩
  · intro t l h
    simp [system_init, thread_state.locals] at h
  · intro t i
    have hI := init_CacheInv cfg mt
    constructor
    · rintro ⟨hi, hs, _⟩
      exfalso
      simp only [system_init] at hi hs
      have hm := (hI.lists.mem beacon_ref.free i).mp (by
        simp only [L_free, beacon_ref.status, if_true]
        exact List.mem_range.mpr hi)
      rw [hm.2] at hs
      simp [beacon_ref.status] at hs
    · intro h
      simp [system_init, thread_state.closes] at h

/-- The invariant holds in every reachable state of the system. -/
theorem reachable_inv {s : system} (h : Reachable s) : Inv s := by
  induction h with
  | init cfg mt => exact init_Inv cfg mt
  | step cfg a _ hrun ih => exact run_inv ih cfg a hrun

end Sqlx

namespace Sqlx
open sqlx_base_status_e

/-! ## The invariants of the reachable states -/

theorem after_reachable {s : system} (h : Reachable s) (cfg : config) (a : action) :
    Reachable (after cfg a s) := by
  unfold after
  split
  · rename_i s' ev hrun
    exact Reachable.step cfg a h hrun
  · exact h

theorem demo_reachable : Reachable demo_system :=
  after_reachable (Reachable.init demo_cfg 1) _ _

theorem name_unique {c : sqlx_cache_s} {L : beacon_ref → List Nat} (hI : CacheInv c L)
    {i j : Nat} (hi : i < c.bases_max_hard) (hj : j < c.bases_max_hard)
    (hsi : (GET c i).status ≠ SQLX_BASE_FREE) (hsj : (GET c j).status ≠ SQLX_BASE_FREE)
    (hn : (GET c i).name = (GET c j).name) : i = j := by
  obtain ⟨n, hni, hmi⟩ := hI.tree_complete i hi hsi
  obtain ⟨m, hnj, hmj⟩ := hI.tree_complete j hj hsj
  have hnm : n = m := by
    rw [hni, hnj] at hn
    exact Option.some.inj hn
  subst hnm
  have h1 := g_tree_lookup_of_mem hI.tree_nodup hmi
  have h2 := g_tree_lookup_of_mem hI.tree_nodup hmj
  omega

theorem bases_eq_map_GET (c : sqlx_cache_s) :
    c.bases = (List.range c.bases.length).map (GET c) := by
  apply List.ext_getElem
  · simp
  · intro i h1 h2
    simp [GET, List.getD_eq_getElem?_getD, List.getElem?_eq_getElem h1]

theorem Lists.length_eq_countP {c : sqlx_cache_s} {L : beacon_ref → List Nat} (hL : Lists c L)
    (r : beacon_ref) :
    (L r).length = c.bases.countP (fun b => decide (b.status = r.status)) := by
  have hperm : (L r).Perm
      ((List.range c.bases_max_hard).filter (fun i => decide ((GET c i).status = r.status))) := by
    apply (List.perm_ext_iff_of_nodup (hL.dl r).nodup
      (List.Nodup.filter _ (List.nodup_range _))).mpr
    intro i
    rw [hL.mem r i]
    simp [List.mem_filter, List.mem_range]
  rw [hperm.length_eq]
  conv_rhs => rw [bases_eq_map_GET c, List.countP_map, hL.len]
  rw [List.countP_eq_length_filter]
  rfl

theorem used_eq_countP {c : sqlx_cache_s} {L : beacon_ref → List Nat} (hI : CacheInv c L) :
    c.bases_used = c.bases.countP (fun b => decide (b.status ≠ SQLX_BASE_FREE)) := by
  have h1 := hI.lists.length_eq_countP beacon_ref.free
  have h2 := hI.used
  have h3 : ∀ l : List sqlx_base_s,
      l.countP (fun b => decide (b.status = SQLX_BASE_FREE))
        + l.countP (fun b => decide (b.status ≠ SQLX_BASE_FREE)) = l.length := by
    intro l
    induction l with
    | nil => rfl
    | cons x l ih =>
      simp only [List.countP_cons, List.length_cons]
      by_cases hx : x.status = SQLX_BASE_FREE
      · rw [if_pos (by simp [hx]), if_neg (by simp [hx])]
        omega
      · rw [if_neg (by simp [hx]), if_pos (by simp [hx])]
        omega
  have h4 := h3 c.bases
  have h5 := hI.lists.len
  simp only [beacon_ref.status] at h1
  omega

theorem mem_bases_iff (c : sqlx_cache_s) (b : sqlx_base_s) :
    b ∈ c.bases ↔ ∃ i, i < c.bases.length ∧ GET c i = b := by
  constructor
  · intro h
    obtain ⟨i, hi, he⟩ := List.getElem_of_mem h
    exact ⟨i, hi, by simp [GET, List.getD_eq_getElem?_getD, List.getElem?_eq_getElem hi, he]⟩
  · rintro ⟨i, hi, he⟩
    rw [← he]
    simp only [GET, List.getD_eq_getElem?_getD, List.getElem?_eq_getElem hi, Option.getD_some]
    exact List.getElem_mem hi

/-- C1: in every reachable state, an entry of the name index gives the index
plus one of a slot that is not FREE and that has the key as its name (and
`sqlx_lookup_id` finds this slot), and no two slots that are not FREE have the
same name. -/
theorem C1_name_index {s : system} (h : Reachable s) :
    (∀ n v, (n, v) ∈ s.cache.bases_by_name →
      ∃ i : Nat, i < s.cache.bases_max_hard ∧ v = (i : Int) + 1
        ∧ sqlx_lookup_id s.cache n = (i : Int)
        ∧ (GET s.cache i).name = some n ∧ (GET s.cache i).status ≠ SQLX_BASE_FREE)
    ∧ (∀ i j, i < s.cache.bases_max_hard → j < s.cache.bases_max_hard →
        (GET s.cache i).status ≠ SQLX_BASE_FREE → (GET s.cache j).status ≠ SQLX_BASE_FREE →
        (GET s.cache i).name = (GET s.cache j).name → i = j) := by
  obtain ⟨L, hI⟩ := (reachable_inv h).cache
  refine ⟨?_, fun i j hi hj hsi hsj hn => name_unique hI hi hj hsi hsj hn⟩
  intro n v hm
  obtain ⟨i, hi, hv, hn, hs⟩ := hI.tree_sound n v hm
  refine ⟨i, hi, hv, ?_, hn, hs⟩
  have hl := g_tree_lookup_of_mem hI.tree_nodup hm
  simp only [sqlx_lookup_id, hl]
  rw [if_neg (by omega)]
  omega

/-- The statement of C1 in a state where the base "a" is open. -/
theorem C1_name_index_witness :
    Reachable demo_system ∧ (∀ n v, (n, v) ∈ demo_system.cache.bases_by_name →
      ∃ i : Nat, i < demo_system.cache.bases_max_hard ∧ v = (i : Int) + 1
        ∧ sqlx_lookup_id demo_system.cache n = (i : Int)
        ∧ (GET demo_system.cache i).name = some n
        ∧ (GET demo_system.cache i).status ≠ SQLX_BASE_FREE) :=
  ⟨demo_reachable, (C1_name_index demo_reachable).1⟩

/-- C2: in every reachable state, `bases_used` is the number of the slots whose
status is not FREE, that is the number of the slots that are USED, IDLE,
IDLE_HOT, CLOSING or CLOSING_FOR_DELETION, and it is at most `bases_max_hard`. -/
theorem C2_bases_used {s : system} (h : Reachable s) :
    s.cache.bases_used
        = s.cache.bases.countP (fun b => decide (b.status ≠ SQLX_BASE_FREE))
    ∧ s.cache.bases_used
        = s.cache.bases.countP (fun b => decide (b.status = SQLX_BASE_USED
            ∨ b.status = SQLX_BASE_IDLE ∨ b.status = SQLX_BASE_IDLE_HOT
            ∨ b.status = SQLX_BASE_CLOSING ∨ b.status = SQLX_BASE_CLOSING_FOR_DELETION))
    ∧ s.cache.bases_used ≤ s.cache.bases_max_hard := by
  obtain ⟨L, hI⟩ := (reachable_inv h).cache
  have h1 := used_eq_countP hI
  refine ⟨h1, ?_, by have := hI.used; omega⟩
  rw [h1]
  apply List.countP_congr
  intro b hb
  obtain ⟨i, hi, he⟩ := (mem_bases_iff _ b).mp hb
  have hv := (hI.fields i (by rw [← hI.lists.len]; exact hi)).valid
  rw [he] at hv
  cases hst : b.status <;> simp_all

/-- The statement of C2 in a state where the base "a" is open. -/
theorem C2_bases_used_witness :
    Reachable demo_system ∧ demo_system.cache.bases_used
      = demo_system.cache.bases.countP (fun b => decide (b.status ≠ SQLX_BASE_FREE)) :=
  ⟨demo_reachable, (C2_bases_used demo_reachable).1⟩

/-- C3: in every reachable state there are four lists of slots `L`, one for each
of the beacons FREE, IDLE, IDLE_HOT and USED, such that the beacon and the links
make the doubly-linked list `L r` (no slot twice, `first` and `last` are its
head and its tail, `link.next` and `link.prev` are the neighbours in the list,
`-1` at the ends), a slot is in the list of a beacon exactly when it has the
status of this beacon, hence in no other list, and a slot that is CLOSING or
CLOSING_FOR_DELETION is in no list and has both links at `-1`. -/
theorem C3_beacon_lists {s : system} (h : Reachable s) :
    ∃ L : beacon_ref → List Nat,
      (∀ r, DList s.cache r (L r))
      ∧ (∀ r i, i ∈ L r ↔ (i < s.cache.bases_max_hard ∧ (GET s.cache i).status = r.status))
      ∧ (∀ r r' i, i ∈ L r → i ∈ L r' → r = r')
      ∧ (∀ i, i < s.cache.bases_max_hard →
          ((GET s.cache i).status = SQLX_BASE_CLOSING
            ∨ (GET s.cache i).status = SQLX_BASE_CLOSING_FOR_DELETION) →
          (∀ r, i ∉ L r) ∧ (GET s.cache i).link_prev = -1 ∧ (GET s.cache i).link_next = -1) := by
  obtain ⟨L, hI⟩ := (reachable_inv h).cache
  refine ⟨L, hI.lists.dl, hI.lists.mem, ?_, ?_⟩
  · intro r r' i hr hr'
    have h1 := ((hI.lists.mem r i).mp hr).2
    have h2 := ((hI.lists.mem r' i).mp hr').2
    rw [h1] at h2
    cases r <;> cases r' <;> simp [beacon_ref.status] at h2 <;> rfl
  · intro i hi hs
    refine ⟨?_, hI.lists.det i hi hs⟩
    intro r hr
    have h1 := ((hI.lists.mem r i).mp hr).2
    rw [h1] at hs
    cases r <;> simp [beacon_ref.status] at hs

/-- The statement of C3 in a state where the base "a" is open. -/
theorem C3_beacon_lists_witness :
    Reachable demo_system ∧ ∃ L : beacon_ref → List Nat,
      (∀ r, DList demo_system.cache r (L r))
      ∧ (∀ r i, i ∈ L r ↔
          (i < demo_system.cache.bases_max_hard ∧ (GET demo_system.cache i).status = r.status)) := by
  obtain ⟨L, h1, h2, _⟩ := C3_beacon_lists demo_reachable
  exact ⟨demo_reachable, L, h1, h2⟩

/-- C5: in every reachable state (the steps are those of
`sqlx_cache_open_and_lock_base`, `sqlx_cache_unlock_and_close_base`,
`sqlx_cache_expire`, `sqlx_cache_expire_all`, the setters, and
`sqlx_cache_set_handle` by the owner of a slot that it uses), a FREE slot has no
name, no handle, no owner and `count_open = 0`. -/
theorem C5_free_slots {s : system} (h : Reachable s) (i : Nat)
    (hi : i < s.cache.bases_max_hard) (hs : (GET s.cache i).status = SQLX_BASE_FREE) :
    (GET s.cache i).name = none ∧ (GET s.cache i).handle = 0
      ∧ (GET s.cache i).owner = none ∧ (GET s.cache i).count_open = 0 := by
  obtain ⟨L, hI⟩ := (reachable_inv h).cache
  exact (hI.fields i hi).free hs

/-- The statement of C5 for the slot 1, that is FREE when one base is open. -/
theorem C5_free_slots_witness :
    Reachable demo_system ∧ 1 < demo_system.cache.bases_max_hard
    ∧ (GET demo_system.cache 1).status = SQLX_BASE_FREE
    ∧ (GET demo_system.cache 1).name = none ∧ (GET demo_system.cache 1).handle = 0
      ∧ (GET demo_system.cache 1).owner = none ∧ (GET demo_system.cache 1).count_open = 0 :=
  ⟨demo_reachable, by decide, by decide,
    C5_free_slots demo_reachable 1 (by decide) (by decide)⟩

end Sqlx

namespace Sqlx
open sqlx_base_status_e

/-! ## The slots through a pass of `sqlx_cache_open_and_lock_base` -/

theorem Touch.touch_lock {c c' : sqlx_cache_s} {b : Nat} (hT : Touch c c' b) {j : Nat} (hj : j ≠ b) :
    (GET c' j).lock = (GET c j).lock := by
  obtain ⟨h1, h2, h3, _, h5, _⟩ := data_fields (hT.data j hj)
  simp only [sqlx_base_s.lock, hT.status j hj, h1, h2, h3, h5]

end Sqlx

namespace Sqlx
open sqlx_base_status_e

/-! ## Isolation -/

end Sqlx

namespace Sqlx
open sqlx_base_status_e

/-! ## Eviction -/

theorem lookup_absent {c : sqlx_cache_s} {L : beacon_ref → List Nat} (hI : CacheInv c L)
    {n : hashstr_t} (h : ∀ v, (n, v) ∉ c.bases_by_name) : sqlx_lookup_id c n = -1 := by
  rcases lookup_spec hI n with ⟨hl, _⟩ | ⟨i, _, _, hm, _⟩
  · exact hl
  · exact absurd hm (h _)

/-- The end of `_expire_base`, for a slot that is being closed. -/
theorem expire_end_evicted {c : sqlx_cache_s} {L : beacon_ref → List Nat} (hI : CacheInv c L)
    (mt : Int) {b : Nat} (hb : b < c.bases_max_hard)
    (hcl : (GET c b).status = SQLX_BASE_CLOSING
      ∨ (GET c b).status = SQLX_BASE_CLOSING_FOR_DELETION) :
    (∃ L', CacheInv (_expire_base_end mt c b) L')
    ∧ (_expire_base_end mt c b).bases_used + 1 = c.bases_used
    ∧ (_expire_base_end mt c b).hook_calls = c.hook_calls
    ∧ (GET (_expire_base_end mt c b) b).status = SQLX_BASE_FREE
    ∧ (_expire_base_end mt c b).beacon_free.first = (b : Int)
    ∧ ∃ n, (GET c b).name = some n ∧ sqlx_lookup_id (_expire_base_end mt c b) n = -1
        ∧ ∀ v, (n, v) ∉ (_expire_base_end mt c b).bases_by_name := by
  obtain ⟨h1, _, hs, _, hu, hf, ⟨n, hn, ht⟩, hh, _⟩ := expire_end_spec hI mt hb hcl
  have habs : ∀ v, (n, v) ∉ (_expire_base_end mt c b).bases_by_name := by
    intro v hv
    rw [ht] at hv
    exact (mem_g_tree_remove.mp hv).2 rfl
  exact ⟨⟨_, h1⟩, hu, hh, hs, hf, n, hn, lookup_absent h1 habs, habs⟩

/-- The eviction of a slot by `sqlx_cache_unlock_and_close_base`. -/
theorem unlock_evicted {c : sqlx_cache_s} {L : beacon_ref → List Nat} (hI : CacheInv c L)
    (cfg : config) (self : GThread) (mt : Int) {b : Nat} {n : hashstr_t}
    (hold : holds c self n b) (hco : (GET c b).count_open = 1) (flags : close_flags)
    (hfl : flags.SQLX_CLOSE_IMMEDIATELY = true ∨ flags.SQLX_CLOSE_FOR_DELETION = true) :
    ∃ c', sqlx_cache_unlock_and_close_base cfg self mt c (b : Int) flags
        = call_result.returned c' none
      ∧ (∃ L', CacheInv c' L') ∧ evicted c c' b := by
  obtain ⟨hb, hst, how, hname⟩ := hold
  have hlen : b < c.bases.length := by rw [hI.lists.len]; exact hb
  obtain ⟨hB, hT, hG⟩ := unlock_dec_but hI hb hst
  have hdec : guint_dec (GET c b).count_open = 0 := by rw [hco]; rfl
  rw [hdec] at hG
  obtain ⟨h2, hT2, hs2, hd2, hu2, ht2, _, hh2⟩ := expire_begin_but hB mt
    flags.SQLX_CLOSE_FOR_DELETION (by rw [hG]; exact hst) (by rw [hG]; simp [how])
    (by rw [hG])
  have hcl : (GET (_expire_base_begin mt
      (c.update b (fun s => { s with count_open := guint_dec s.count_open })) b
      flags.SQLX_CLOSE_FOR_DELETION) b).status = SQLX_BASE_CLOSING
      ∨ (GET (_expire_base_begin mt
      (c.update b (fun s => { s with count_open := guint_dec s.count_open })) b
      flags.SQLX_CLOSE_FOR_DELETION) b).status = SQLX_BASE_CLOSING_FOR_DELETION := by
    rw [hs2]; split <;> simp
  obtain ⟨h3, hu3, hh3, hs3, hf3, m, hm, hl3, ha3⟩ := expire_end_evicted h2 mt
    (by rw [hT2.hard, hT.hard]; exact hb) hcl
  have hname2 := (data_fields hd2).1
  rw [hG] at hname2
  simp only at hname2
  rw [hname2, hname] at hm
  cases hm
  have hrun : sqlx_cache_unlock_and_close_base cfg self mt c (b : Int) flags
      = call_result.returned (_expire_base_end mt (_expire_base_begin mt
          (c.update b (fun s => { s with count_open := guint_dec s.count_open })) b
          flags.SQLX_CLOSE_FOR_DELETION) b) none := by
    have hout : base_id_out c (b : Int) = false := by
      simp [base_id_out, hb]
    have hco' : (GET (c.update b (fun s => { s with count_open := guint_dec s.count_open }))
        b).count_open = 0 := by rw [hG]
    simp only [sqlx_cache_unlock_and_close_base, sqlx_cache_unlock_and_close_base_begin, hout,
      Bool.false_eq_true, if_false, Int.toNat_ofNat, hst, how, hco, hco']
    simp [hfl]
  refine ⟨_, hrun, h3, ?_, ?_, hs3, hf3, n, hname, hl3, ha3⟩
  · rw [hu3, hu2]; rfl
  · rw [hh3, hh2, hG]; rfl

/-- The eviction of a slot by `sqlx_expire_first_idle_base`. -/
theorem first_idle_evicted {c : sqlx_cache_s} {L : beacon_ref → List Nat} (hI : CacheInv c L)
    (cfg : config) (self : GThread) (mt now : Int) :
    (sqlx_expire_first_idle_base cfg self mt c now = (c, 0)
      ∧ expire_victim cfg c now = none)
    ∨ ∃ b c', sqlx_expire_first_idle_base cfg self mt c now = (c', 1)
        ∧ expire_victim cfg c now = some b
        ∧ b < c.bases_max_hard
        ∧ ((GET c b).status = SQLX_BASE_IDLE ∨ (GET c b).status = SQLX_BASE_IDLE_HOT)
        ∧ (∃ L', CacheInv c' L') ∧ evicted c c' b := by
  obtain ⟨hn, hs⟩ := first_idle_begin_spec hI cfg self mt now
  cases hv : expire_victim cfg c now with
  | none =>
    left
    simp only [sqlx_expire_first_idle_base, hn hv, and_self]
  | some b =>
    right
    obtain ⟨c1, hbeg, h1, hT, hst, hd, hu, ht, _, hh⟩ := hs b hv
    have hvi := expire_victim_idle hI hv
    have hb1 : b < c1.bases_max_hard := by rw [hT.hard]; exact hvi.1
    obtain ⟨h3, hu3, hh3, hs3, hf3, m, hm, hl3, ha3⟩ := expire_end_evicted h1 mt hb1
      (Or.inl hst)
    simp only [sqlx_base_s.data, Prod.mk.injEq] at hd
    refine ⟨b, _, by simp only [sqlx_expire_first_idle_base, hbeg], rfl, hvi.1, hvi.2, h3,
      by rw [hu3, hu], by rw [hh3, hh], hs3, hf3, m, by rw [← hd.1]; exact hm, hl3, ha3⟩

end Sqlx

namespace Sqlx
open sqlx_base_status_e

theorem demo_inv : ∃ L, CacheInv demo_system.cache L := (reachable_inv demo_reachable).cache

/-- C8, the claim as stated fails: in a cache where no close hook is set (as
after `sqlx_cache_init`), the thread 7 closes its only opening of the base "a"
with `SQLX_CLOSE_IMMEDIATELY`; the base is evicted (`bases_used` goes from 1 to
0) and no call of the close hook is made. -/
theorem C8_eviction_counterexample :
    holds demo_system.cache 7 "a" 0 ∧ (GET demo_system.cache 0).count_open = 1
    ∧ (sqlx_cache_unlock_and_close_base demo_cfg 7 9 demo_system.cache 0
        (demo_flags false)).value = some none
    ∧ ((sqlx_cache_unlock_and_close_base demo_cfg 7 9 demo_system.cache 0
        (demo_flags false)).cache_or demo_system.cache).bases_used + 1
        = demo_system.cache.bases_used
    ∧ (GET ((sqlx_cache_unlock_and_close_base demo_cfg 7 9 demo_system.cache 0
        (demo_flags false)).cache_or demo_system.cache) 0).status = SQLX_BASE_FREE
    ∧ ((sqlx_cache_unlock_and_close_base demo_cfg 7 9 demo_system.cache 0
        (demo_flags false)).cache_or demo_system.cache).hook_calls = [] := by
  decide

/-- C8 (amended): every eviction, from `sqlx_cache_unlock_and_close_base` with
`SQLX_CLOSE_IMMEDIATELY` or `SQLX_CLOSE_FOR_DELETION` on the last opening of a
base that the caller holds, or from `sqlx_expire_first_idle_base` when it returns
1, takes one from `bases_used`, calls the close hook once with the handle that
the slot had when a close hook is set (and makes no call when none is set),
leaves the slot FREE and first of the FREE list, and removes the name of the
slot from the name index; `sqlx_expire_first_idle_base` returns 0 and changes
nothing when it evicts no base. -/
theorem C8_eviction {c : sqlx_cache_s} (hI : ∃ L, CacheInv c L) (cfg : config)
    (self : GThread) (mt : Int) :
    (∀ (b : Nat) (n : hashstr_t) (flags : close_flags), holds c self n b →
      (GET c b).count_open = 1 →
      (flags.SQLX_CLOSE_IMMEDIATELY = true ∨ flags.SQLX_CLOSE_FOR_DELETION = true) →
      ∃ c', sqlx_cache_unlock_and_close_base cfg self mt c (b : Int) flags
          = call_result.returned c' none ∧ evicted c c' b)
    ∧ (∀ now : Int, sqlx_expire_first_idle_base cfg self mt c now = (c, 0)
        ∨ ∃ b c', sqlx_expire_first_idle_base cfg self mt c now = (c', 1)
            ∧ b < c.bases_max_hard
            ∧ ((GET c b).status = SQLX_BASE_IDLE ∨ (GET c b).status = SQLX_BASE_IDLE_HOT)
            ∧ evicted c c' b) := by
  obtain ⟨L, hC⟩ := hI
  refine ⟨?_, ?_⟩
  · intro b n flags hold hco hfl
    obtain ⟨c', h1, _, h2⟩ := unlock_evicted hC cfg self mt hold hco flags hfl
    exact ⟨c', h1, h2⟩
  · intro now
    rcases first_idle_evicted hC cfg self mt now with h | ⟨b, c', h1, _, h2, h3, _, h4⟩
    · exact Or.inl h.1
    · exact Or.inr ⟨b, c', h1, h2, h3, h4⟩

/-- The statement of C8 for the base "a", that the thread 7 holds with one
opening and closes with `SQLX_CLOSE_IMMEDIATELY`. -/
theorem C8_eviction_witness :
    (∃ L, CacheInv demo_system.cache L)
    ∧ holds demo_system.cache 7 "a" 0 ∧ (GET demo_system.cache 0).count_open = 1
    ∧ ∃ c', sqlx_cache_unlock_and_close_base demo_cfg 7 9 demo_system.cache ((0 : Nat) : Int)
          (demo_flags false) = call_result.returned c' none
        ∧ evicted demo_system.cache c' 0 :=
  ⟨demo_inv, by decide, by decide,
    (C8_eviction demo_inv demo_cfg 7 9).1 0 "a" (demo_flags false) (by decide) (by decide)
      (Or.inl rfl)⟩

end Sqlx

namespace Sqlx
open sqlx_base_status_e

/-! ## The release of a base -/

theorem ram_exhausted_congr (cfg : config) {c c' : sqlx_cache_s}
    (h : c'.last_memory_usage = c.last_memory_usage) :
    _ram_exhausted cfg c' = _ram_exhausted cfg c := by
  simp only [_ram_exhausted, h]

/-- The close of the last opening of a base with no flag, when the memory
ceiling is not exceeded. -/
theorem unlock_released {c : sqlx_cache_s} {L : beacon_ref → List Nat} (hI : CacheInv c L)
    (cfg : config) (self : GThread) (mt : Int) {b : Nat} {n : hashstr_t}
    (hold : holds c self n b) (hco : (GET c b).count_open = 1)
    (hram : _ram_exhausted cfg c = false) :
    ∃ c', sqlx_cache_unlock_and_close_base cfg self mt c (b : Int) no_flags
        = call_result.returned c' none
      ∧ (∃ L', CacheInv c' L')
      ∧ c'.bases_max_hard = c.bases_max_hard
      ∧ (∀ j, j ≠ b → (GET c' j).lock = (GET c j).lock)
      ∧ (GET c' b).lock
          = (if (GET c b).heat ≥ cfg._cache_heat_threshold then SQLX_BASE_IDLE_HOT
              else SQLX_BASE_IDLE, some n, none, (GET c b).handle, 0)
      ∧ (if (GET c b).heat ≥ cfg._cache_heat_threshold then c'.beacon_idle_hot.first = (b : Int)
          else c'.beacon_idle.first = (b : Int))
      ∧ c'.hook_calls
          = (if c.unlock_hook then hook_call.unlock_hook (GET c b).handle :: c.hook_calls
              else c.hook_calls)
      ∧ c'.bases_used = c.bases_used
      ∧ c'.last_memory_usage = c.last_memory_usage := by
  obtain ⟨hb, hst, how, hname⟩ := hold
  have hlen : b < c.bases.length := by rw [hI.lists.len]; exact hb
  obtain ⟨hB, hT, hG⟩ := unlock_dec_but hI hb hst
  have hdec : guint_dec (GET c b).count_open = 0 := by rw [hco]; rfl
  rw [hdec] at hG
  obtain ⟨h2, hT2, hs2, hd2, hu2, _, _, hm2, _, hh2⟩ := unlock_release_spec hB cfg mt
    (by rw [hG]; exact hst) (by rw [hG])
  rw [hG] at hs2 hd2 hh2
  simp only at hs2 hd2 hh2
  have hram2 : _ram_exhausted cfg (unlock_release cfg mt
      (c.update b (fun s => { s with count_open := guint_dec s.count_open })) b) = false := by
    rw [ram_exhausted_congr cfg (hm2.trans rfl)]
    exact hram
  have hrun : sqlx_cache_unlock_and_close_base cfg self mt c (b : Int) no_flags
      = call_result.returned (unlock_release cfg mt
          (c.update b (fun s => { s with count_open := guint_dec s.count_open })) b) none := by
    have hout : base_id_out c (b : Int) = false := by
      simp [base_id_out, hb]
    have hco' : (GET (c.update b (fun s => { s with count_open := guint_dec s.count_open }))
        b).count_open = 0 := by rw [hG]
    simp only [sqlx_cache_unlock_and_close_base, sqlx_cache_unlock_and_close_base_begin, hout,
      Bool.false_eq_true, if_false, Int.toNat_ofNat, hst, how, hco, hco', no_flags, hram2]
    simp
  simp only [sqlx_base_s.data, Prod.mk.injEq] at hd2
  refine ⟨_, hrun, ⟨_, h2⟩, hT2.hard.trans hT.hard,
    fun j hj => (hT2.touch_lock hj).trans (hT.touch_lock hj), ?_, ?_, ?_, hu2, hm2⟩
  · simp only [sqlx_base_s.lock, hs2, hd2.1, hd2.2.1, hd2.2.2.1, hd2.2.2.2.2.1, hname]
  · have hL := h2.lists
    split
    · rename_i hh
      apply hL.first_of_cons (r := beacon_ref.idle_hot) (l := L beacon_ref.idle_hot)
      simp [hG, hh, L_move, L_add, L_remove, beacon_ref.status]
    · rename_i hh
      apply hL.first_of_cons (r := beacon_ref.idle) (l := L beacon_ref.idle)
      simp [hG, hh, L_move, L_add, L_remove, beacon_ref.status]
  · rw [hh2]; rfl

/-- C9, the claim as stated fails: in a cache where no unlock hook is set (as
after `sqlx_cache_init`), the thread 7 closes its only opening of the base "a"
with no flag, the memory ceiling being off; the slot goes to the IDLE list and
no call of the unlock hook is made. -/
theorem C9_release_counterexample :
    holds demo_system.cache 7 "a" 0 ∧ (GET demo_system.cache 0).count_open = 1
    ∧ _ram_exhausted demo_cfg demo_system.cache = false
    ∧ (sqlx_cache_unlock_and_close_base demo_cfg 7 9 demo_system.cache 0 no_flags).value
        = some none
    ∧ (GET ((sqlx_cache_unlock_and_close_base demo_cfg 7 9 demo_system.cache 0
        no_flags).cache_or demo_system.cache) 0).status = SQLX_BASE_IDLE
    ∧ ((sqlx_cache_unlock_and_close_base demo_cfg 7 9 demo_system.cache 0
        no_flags).cache_or demo_system.cache).hook_calls = [] := by
  decide

/-- C9 (amended): for a slot that the caller holds with `count_open = 1`,
`sqlx_cache_unlock_and_close_base` with no flag, the memory ceiling not being
exceeded, returns no error, clears the owner and `count_open`, keeps the name
and the handle, and puts the slot first in the IDLE_HOT list when
`heat ≥ _cache_heat_threshold` and first in the IDLE list otherwise; the unlock
hook is called once with the handle of the slot when an unlock hook is set, and
not otherwise; the close hook is not called. -/
theorem C9_release {c : sqlx_cache_s} (hI : ∃ L, CacheInv c L) (cfg : config)
    (self : GThread) (mt : Int) (b : Nat) (n : hashstr_t)
    (hold : holds c self n b) (hco : (GET c b).count_open = 1)
    (hram : _ram_exhausted cfg c = false) :
    ∃ c', sqlx_cache_unlock_and_close_base cfg self mt c (b : Int) no_flags
        = call_result.returned c' none
      ∧ (GET c' b).owner = none ∧ (GET c' b).count_open = 0
      ∧ (GET c' b).name = some n ∧ (GET c' b).handle = (GET c b).handle
      ∧ ((GET c b).heat ≥ cfg._cache_heat_threshold →
          (GET c' b).status = SQLX_BASE_IDLE_HOT ∧ c'.beacon_idle_hot.first = (b : Int))
      ∧ ((GET c b).heat < cfg._cache_heat_threshold →
          (GET c' b).status = SQLX_BASE_IDLE ∧ c'.beacon_idle.first = (b : Int))
      ∧ c'.hook_calls
          = (if c.unlock_hook then hook_call.unlock_hook (GET c b).handle :: c.hook_calls
              else c.hook_calls) := by
  obtain ⟨L, hC⟩ := hI
  obtain ⟨c', hrun, _, _, _, hl, hf, hh, _⟩ := unlock_released hC cfg self mt hold hco hram
  simp only [sqlx_base_s.lock, Prod.mk.injEq] at hl
  refine ⟨c', hrun, hl.2.2.1, hl.2.2.2.2, hl.2.1, hl.2.2.2.1, ?_, ?_, hh⟩
  · intro h
    rw [if_pos h] at hf hl
    exact ⟨hl.1, hf⟩
  · intro h
    have h' : ¬ (GET c b).heat ≥ cfg._cache_heat_threshold := by omega
    rw [if_neg h'] at hf hl
    exact ⟨hl.1, hf⟩

/-- The statement of C9 for the base "a", that the thread 7 holds with one
opening. -/
theorem C9_release_witness :
    (∃ L, CacheInv demo_system.cache L)
    ∧ holds demo_system.cache 7 "a" 0 ∧ (GET demo_system.cache 0).count_open = 1
    ∧ _ram_exhausted demo_cfg demo_system.cache = false
    ∧ ∃ c', sqlx_cache_unlock_and_close_base demo_cfg 7 9 demo_system.cache ((0 : Nat) : Int)
          no_flags = call_result.returned c' none
        ∧ (GET c' 0).owner = none ∧ (GET c' 0).count_open = 0 := by
  obtain ⟨c', h1, h2, h3, _⟩ := C9_release demo_inv demo_cfg 7 9 0 "a" (by decide) (by decide)
    (by decide)
  exact ⟨demo_inv, by decide, by decide, by decide, c', h1, h2, h3⟩

end Sqlx

namespace Sqlx
open sqlx_base_status_e

/-! ## A deadline that is already in the past -/

/-- With room under the soft limit, `sqlx_base_reserve` returns a slot. -/
theorem reserve_some {c : sqlx_cache_s} {L : beacon_ref → List Nat} (hI : CacheInv c L)
    (self : GThread) (mt : Int) (hs : hashstr_t) (hroom : c.bases_used < c.bases_max_soft) :
    ∃ b, (sqlx_base_reserve self mt c hs).2.2 = some b := by
  have hlen : 0 < (L beacon_ref.free).length := by
    have h1 := hI.used
    have h2 := hI.soft
    omega
  obtain ⟨a, l, hal⟩ := List.exists_cons_of_length_pos hlen
  have hfirst : c.beacon_free.first = (a : Int) :=
    hI.lists.first_of_cons (r := beacon_ref.free) hal
  have ha : a < c.bases_max_hard :=
    ((hI.lists.mem beacon_ref.free a).mp (by rw [hal]; simp)).1
  have hget : sqlx_get_by_id c c.beacon_free.first = some a := by
    rw [hfirst, sqlx_get_by_id_nat]
    simp [ha]
  simp only [sqlx_base_reserve, ge_iff_le, not_le.mpr hroom, if_false, hget]
  exact ⟨a, rfl⟩

end Sqlx

namespace Sqlx
open sqlx_base_status_e

/-! ## Reentrancy -/

end Sqlx

namespace Sqlx
open sqlx_base_status_e

end Sqlx

namespace Sqlx
open sqlx_base_status_e

/-! ## The errors of `sqlx_cache_open_and_lock_base` -/

theorem demo_idle_reachable : Reachable demo_idle := after_reachable demo_reachable _ _

theorem demo_deleting_reachable : Reachable demo_deleting := after_reachable demo_reachable _ _

theorem demo_one_reachable : Reachable demo_one :=
  after_reachable (Reachable.init demo_cfg_one 1) _ _

/-- C11: in a running cache where the lookup of the name finds a slot that is
USED and owned by the caller, `sqlx_cache_open_and_lock_base` called when the
deadline (the one given, bounded by the time of the call plus
`_cache_timeout_open`) is reached returns the TIMEOUT error at its first pass and
leaves the cache as it is: `count_open` is not incremented, the slot stays USED
with the same owner. -/
theorem C11_timeout_on_own_base (c : sqlx_cache_s) (cfg : config) (clock : Nat → Int)
    (self : GThread) (hname : hashstr_t) (urgent : Bool) (deadline : Int) (fuel b : Nat)
    (hrun : c.is_running = true) (hhit : sqlx_lookup_id c hname = (b : Int))
    (hst : (GET c b).status = SQLX_BASE_USED) (how : (GET c b).owner = some self)
    (hpast : (open_enter cfg self hname urgent deadline (clock 0)).deadline ≤ clock 1) :
    sqlx_cache_open_and_lock_base (fuel + 1) cfg clock self c hname urgent deadline
      = call_result.returned c (some (GError.TIMEOUT "Deadline reached"), none) := by
  have hneg : ¬ ((b : Int) < 0) := by omega
  have hrem : (open_enter cfg self hname urgent deadline (clock 0)).deadline - clock 1 ≤ 0 := by
    omega
  have hself : (open_enter cfg self hname urgent deadline (clock 0)).self = self := rfl
  have hn : (open_enter cfg self hname urgent deadline (clock 0)).hname = hname := rfl
  simp only [sqlx_cache_open_and_lock_base, open_loop, open_pass, hrun, hn, hself, hhit, hneg,
    hrem, hst, how, Bool.not_true, Bool.false_eq_true, if_false, if_true, Int.toNat_ofNat,
    and_self, open_finish_false]

/-- The statement of C11 for the thread 7, that holds the base "a" and calls for
it at the time 5 with the deadline 3. -/
theorem C11_timeout_on_own_base_witness :
    demo_system.cache.is_running = true ∧ sqlx_lookup_id demo_system.cache "a" = ((0 : Nat) : Int)
    ∧ (GET demo_system.cache 0).status = SQLX_BASE_USED
    ∧ (GET demo_system.cache 0).owner = some 7
    ∧ (open_enter demo_cfg 7 "a" false 3 5).deadline ≤ 5
    ∧ sqlx_cache_open_and_lock_base (0 + 1) demo_cfg (fun _ => 5) 7 demo_system.cache "a" false 3
        = call_result.returned demo_system.cache (some (GError.TIMEOUT "Deadline reached"), none) :=
  ⟨by decide, by decide, by decide, by decide, by decide,
    C11_timeout_on_own_base demo_system.cache demo_cfg (fun _ => 5) 7 "a" false 3 0 0
      (by decide) (by decide) (by decide) (by decide) (by decide)⟩

/-- C15: in a running cache where the lookup of the name finds a slot that is
CLOSING_FOR_DELETION, `sqlx_cache_open_and_lock_base` called before the deadline
returns the CODE_CONTAINER_NOTFOUND error at its first pass, without a wait, and
leaves the cache as it is: the status, the owner, `count_open` and
`count_waiting` of the slot are unchanged. -/
theorem C15_being_deleted (c : sqlx_cache_s) (cfg : config) (clock : Nat → Int)
    (self : GThread) (hname : hashstr_t) (urgent : Bool) (deadline : Int) (fuel b : Nat)
    (hrun : c.is_running = true) (hhit : sqlx_lookup_id c hname = (b : Int))
    (hst : (GET c b).status = SQLX_BASE_CLOSING_FOR_DELETION)
    (hbefore : clock 1 < (open_enter cfg self hname urgent deadline (clock 0)).deadline) :
    sqlx_cache_open_and_lock_base (fuel + 1) cfg clock self c hname urgent deadline
      = call_result.returned c
          (some (GError.CODE_CONTAINER_NOTFOUND "Base being deleted"), none) := by
  have hneg : ¬ ((b : Int) < 0) := by omega
  have hrem : ¬ (open_enter cfg self hname urgent deadline (clock 0)).deadline - clock 1 ≤ 0 := by
    omega
  have hn : (open_enter cfg self hname urgent deadline (clock 0)).hname = hname := rfl
  simp only [sqlx_cache_open_and_lock_base, open_loop, open_pass, hrun, hn, hhit, hneg,
    hrem, hst, Bool.not_true, Bool.false_eq_true, if_false, Int.toNat_ofNat,
    open_finish_false]

/-- The statement of C15 for the thread 8, that calls for the base "a" while the
thread 7 closes it for deletion. -/
theorem C15_being_deleted_witness :
    demo_deleting.cache.is_running = true
    ∧ sqlx_lookup_id demo_deleting.cache "a" = ((0 : Nat) : Int)
    ∧ (GET demo_deleting.cache 0).status = SQLX_BASE_CLOSING_FOR_DELETION
    ∧ (10 : Int) < (open_enter demo_cfg 8 "a" false 0 10).deadline
    ∧ sqlx_cache_open_and_lock_base (0 + 1) demo_cfg (fun _ => 10) 8 demo_deleting.cache "a"
        false 0
        = call_result.returned demo_deleting.cache
            (some (GError.CODE_CONTAINER_NOTFOUND "Base being deleted"), none) :=
  ⟨by decide, by decide, by decide, by decide,
    C15_being_deleted demo_deleting.cache demo_cfg (fun _ => 10) 8 "a" false 0 0 0
      (by decide) (by decide) (by decide) (by decide)⟩

end Sqlx

namespace Sqlx
open sqlx_base_status_e

theorem Lists.nil_of_no_status {c : sqlx_cache_s} {L : beacon_ref → List Nat} (hL : Lists c L)
    (r : beacon_ref) (h : ∀ i, i < c.bases_max_hard → (GET c i).status ≠ r.status) :
    L r = [] := by
  apply List.eq_nil_iff_forall_not_mem.mpr
  intro i hi
  obtain ⟨h1, h2⟩ := (hL.mem r i).mp hi
  exact h i h1 h2

theorem Lists.first_of_nil {c : sqlx_cache_s} {L : beacon_ref → List Nat} (hL : Lists c L)
    {r : beacon_ref} (h : L r = []) : (c.beacon r).first = -1 ∧ (c.beacon r).last = -1 := by
  have h1 := (hL.dl r).first
  have h2 := (hL.dl r).last
  rw [h] at h1 h2
  exact ⟨h1, h2⟩

theorem no_idle_unlocked {c : sqlx_cache_s} {L : beacon_ref → List Nat} (hL : Lists c L)
    (h : ∀ i, i < c.bases_max_hard →
      (GET c i).status ≠ SQLX_BASE_IDLE ∧ (GET c i).status ≠ SQLX_BASE_IDLE_HOT) :
    _has_idle_unlocked c = false := by
  have h1 := (hL.first_of_nil (hL.nil_of_no_status beacon_ref.idle (fun i hi => (h i hi).1))).1
  have h2 := (hL.first_of_nil
    (hL.nil_of_no_status beacon_ref.idle_hot (fun i hi => (h i hi).2))).1
  simp only [sqlx_cache_s.beacon] at h1 h2
  simp [_has_idle_unlocked, h1, h2]

/-- C12: in a running cache that keeps its invariant, with
`bases_used ≥ bases_max_soft` and no slot IDLE or IDLE_HOT,
`sqlx_cache_open_and_lock_base` for a name that is not in the name index returns
the error BUSY "Max bases reached" at its first pass and leaves the cache as it
is. -/
theorem C12_max_bases_reached {c : sqlx_cache_s} (hI : ∃ L, CacheInv c L) (cfg : config)
    (clock : Nat → Int) (self : GThread) (hname : hashstr_t) (urgent : Bool) (deadline : Int)
    (fuel : Nat) (hrun : c.is_running = true)
    (hmiss : ∀ v, (hname, v) ∉ c.bases_by_name)
    (hfull : c.bases_used ≥ c.bases_max_soft)
    (hnoidle : ∀ i, i < c.bases_max_hard →
      (GET c i).status ≠ SQLX_BASE_IDLE ∧ (GET c i).status ≠ SQLX_BASE_IDLE_HOT) :
    sqlx_cache_open_and_lock_base (fuel + 1) cfg clock self c hname urgent deadline
      = call_result.returned c (some (GError.BUSY "Max bases reached"), none) := by
  obtain ⟨L, hC⟩ := hI
  have hlk := lookup_absent hC hmiss
  have hidle := no_idle_unlocked hC.lists hnoidle
  have hn : (open_enter cfg self hname urgent deadline (clock 0)).hname = hname := rfl
  simp only [sqlx_cache_open_and_lock_base, open_loop, open_pass, hrun, hn, hlk,
    sqlx_base_reserve, hfull, hidle, Bool.not_true, Bool.false_eq_true, if_false, if_true,
    Int.reduceNeg, Int.reduceLT, open_finish_false]

theorem demo_one_inv : ∃ L, CacheInv demo_one.cache L := (reachable_inv demo_one_reachable).cache

/-- The statement of C12 for a cache of one slot, that the thread 7 uses for the
base "a": the thread 8 calls for the base "b". -/
theorem C12_max_bases_reached_witness :
    (∃ L, CacheInv demo_one.cache L) ∧ demo_one.cache.is_running = true
    ∧ demo_one.cache.bases_max_hard = 1
    ∧ (GET demo_one.cache 0).status = SQLX_BASE_USED ∧ (GET demo_one.cache 0).name = some "a"
    ∧ (∀ v, (("b" : hashstr_t), v) ∉ demo_one.cache.bases_by_name)
    ∧ demo_one.cache.bases_used ≥ demo_one.cache.bases_max_soft
    ∧ (∀ i, i < demo_one.cache.bases_max_hard →
        (GET demo_one.cache i).status ≠ SQLX_BASE_IDLE
          ∧ (GET demo_one.cache i).status ≠ SQLX_BASE_IDLE_HOT)
    ∧ sqlx_cache_open_and_lock_base (0 + 1) demo_cfg_one (fun _ => 5) 8 demo_one.cache "b"
        false 0
        = call_result.returned demo_one.cache (some (GError.BUSY "Max bases reached"), none) := by
  have hmiss : ∀ v, (("b" : hashstr_t), v) ∉ demo_one.cache.bases_by_name := by
    intro v hv
    have h : demo_one.cache.bases_by_name = [("a", 1)] := by decide
    rw [h] at hv
    simp at hv
  have hnoidle : ∀ i, i < demo_one.cache.bases_max_hard →
      (GET demo_one.cache i).status ≠ SQLX_BASE_IDLE
        ∧ (GET demo_one.cache i).status ≠ SQLX_BASE_IDLE_HOT := by
    intro i hi
    have h1 : i < 1 := hi
    interval_cases i
    decide
  exact ⟨demo_one_inv, by decide, by decide, by decide, by decide, hmiss, by decide, hnoidle,
    C12_max_bases_reached demo_one_inv demo_cfg_one (fun _ => 5) 8 "b" false 0 0 (by decide)
      hmiss (by decide) hnoidle⟩

end Sqlx

namespace Sqlx
open sqlx_base_status_e

/-! ## The errors of `sqlx_cache_unlock_and_close_base` -/

/-- The calls of `sqlx_cache_unlock_and_close_base` that return an error: the
base id is out of the table, or the slot is not in use; the caller is not
closing the slot. -/
theorem unlock_error {c : sqlx_cache_s} {L : beacon_ref → List Nat} (hI : CacheInv c L)
    (cfg : config) (self : GThread) (mt : Int) (bd : Int) (flags : close_flags)
    (hself : ∀ i, ¬ closing_by c self i)
    (hbad : ¬ (0 ≤ bd ∧ bd < (c.bases_max_hard : Int))
      ∨ (0 ≤ bd ∧ bd < (c.bases_max_hard : Int)
        ∧ ((GET c bd.toNat).status = SQLX_BASE_FREE ∨ (GET c bd.toNat).status = SQLX_BASE_IDLE
          ∨ (GET c bd.toNat).status = SQLX_BASE_IDLE_HOT
          ∨ (GET c bd.toNat).status = SQLX_BASE_CLOSING
          ∨ (GET c bd.toNat).status = SQLX_BASE_CLOSING_FOR_DELETION))) :
    ∃ msg, sqlx_cache_unlock_and_close_base_begin cfg self mt c bd flags
      = close_next.done c (some (GError.CODE_INTERNAL_ERROR msg)) := by
  simp only [sqlx_cache_unlock_and_close_base_begin]
  rcases hbad with hout | ⟨h0, h1, hst⟩
  · have : base_id_out c bd = true := by
      simp only [base_id_out, Bool.or_eq_true, decide_eq_true_eq]
      omega
    rw [if_pos this]
    exact ⟨_, rfl⟩
  · have hout : ¬ base_id_out c bd = true := by
      simp only [base_id_out, Bool.or_eq_true, decide_eq_true_eq]
      omega
    rw [if_neg hout]
    have hb : bd.toNat < c.bases_max_hard := by omega
    have hF := hI.fields bd.toNat hb
    have hnc := hself bd.toNat
    generalize bd.toNat = b at hb hF hnc hst
    rcases hst with hs | hs | hs | hs | hs
    · obtain ⟨_, _, ho, hc⟩ := hF.free hs
      simp only [hs, ho, hc, ne_eq, not_true_eq_false, if_false]
      exact ⟨_, rfl⟩
    · obtain ⟨ho, hc⟩ := hF.idle (Or.inl hs)
      simp only [hs, ho, hc, ne_eq, not_true_eq_false, if_false]
      exact ⟨_, rfl⟩
    · obtain ⟨ho, hc⟩ := hF.idle (Or.inr hs)
      simp only [hs, ho, hc, ne_eq, not_true_eq_false, if_false]
      exact ⟨_, rfl⟩
    · have ho := (hF.closing (Or.inl hs)).1
      have ho' : ¬ (GET c b).owner = some self := fun h => hnc ⟨hb, Or.inl hs, h⟩
      simp only [hs, ho, ho', if_false]
      exact ⟨_, rfl⟩
    · have ho := (hF.closing (Or.inr hs)).1
      have ho' : ¬ (GET c b).owner = some self := fun h => hnc ⟨hb, Or.inr hs, h⟩
      simp only [hs, ho, ho', if_false]
      exact ⟨_, rfl⟩

/-- C16: in every reachable state, a call of `sqlx_cache_unlock_and_close_base`
by a thread that is out of the cache, with a base id out of
`[0, bases_max_hard)`, or with the id of a slot that is FREE, IDLE, IDLE_HOT,
CLOSING or CLOSING_FOR_DELETION, returns a CODE_INTERNAL_ERROR error and leaves
the cache as it is (the slots, the beacons, the name index and `bases_used`). -/
theorem C16_internal_error {s : system} (hR : Reachable s) (cfg : config) (t : GThread)
    (bd : Int) (flags : close_flags) (mt : Int)
    (hidle : s.threads t = thread_state.idle)
    (hbad : ¬ (0 ≤ bd ∧ bd < (s.cache.bases_max_hard : Int))
      ∨ (0 ≤ bd ∧ bd < (s.cache.bases_max_hard : Int)
        ∧ ((GET s.cache bd.toNat).status = SQLX_BASE_FREE
          ∨ (GET s.cache bd.toNat).status = SQLX_BASE_IDLE
          ∨ (GET s.cache bd.toNat).status = SQLX_BASE_IDLE_HOT
          ∨ (GET s.cache bd.toNat).status = SQLX_BASE_CLOSING
          ∨ (GET s.cache bd.toNat).status = SQLX_BASE_CLOSING_FOR_DELETION))) :
    ∃ msg,
      run cfg (action.close_call t bd flags mt) s
        = some (⟨s.cache, Function.update s.threads t thread_state.idle⟩,
            event.close_returned t (some (GError.CODE_INTERNAL_ERROR msg)))
      ∧ sqlx_cache_unlock_and_close_base cfg t mt s.cache bd flags
        = call_result.returned s.cache (some (GError.CODE_INTERNAL_ERROR msg)) := by
  have hI := reachable_inv hR
  obtain ⟨L, hC⟩ := hI.cache
  have hself : ∀ i, ¬ closing_by s.cache t i := by
    intro i hi
    have := (hI.closing t i).mp hi
    rw [hidle] at this
    simp [thread_state.closes] at this
  obtain ⟨msg, h⟩ := unlock_error hC cfg t mt bd flags hself hbad
  refine ⟨msg, ?_, ?_⟩
  · simp only [run, hidle, h, close_go]
  · simp only [sqlx_cache_unlock_and_close_base, h]

/-- The statement of C16 for the thread 7 and the slot 0, that is IDLE. -/
theorem C16_internal_error_witness :
    Reachable demo_idle ∧ demo_idle.threads 7 = thread_state.idle
    ∧ (0 ≤ (0 : Int) ∧ (0 : Int) < (demo_idle.cache.bases_max_hard : Int)
        ∧ (GET demo_idle.cache (0 : Int).toNat).status = SQLX_BASE_IDLE)
    ∧ ∃ msg,
      run demo_cfg (action.close_call 7 0 no_flags 9) demo_idle
        = some (⟨demo_idle.cache, Function.update demo_idle.threads 7 thread_state.idle⟩,
            event.close_returned 7 (some (GError.CODE_INTERNAL_ERROR msg)))
      ∧ sqlx_cache_unlock_and_close_base demo_cfg 7 9 demo_idle.cache 0 no_flags
        = call_result.returned demo_idle.cache (some (GError.CODE_INTERNAL_ERROR msg)) :=
  ⟨demo_idle_reachable, by decide, by decide,
    C16_internal_error demo_idle_reachable demo_cfg 7 0 no_flags 9 (by decide)
      (Or.inr ⟨by decide, by decide, Or.inr (Or.inl (by decide))⟩)⟩

end Sqlx

namespace Sqlx
open sqlx_base_status_e

/-! ## What an eviction leaves as it is -/

theorem Rest.rest_refl (c : sqlx_cache_s) (b : Nat) : Rest c c b :=
  ⟨rfl, rfl, rfl, rfl, rfl, rfl, rfl, fun _ _ => rfl⟩

theorem Rest.rest_trans {c c' c'' : sqlx_cache_s} {b : Nat} (h : Rest c c' b)
    (h' : Rest c' c'' b) : Rest c c'' b :=
  ⟨h'.length.trans h.length, h'.hard.trans h.hard, h'.soft.trans h.soft,
    h'.running.trans h.running, h'.memory.trans h.memory,
    h'.unlock_hook.trans h.unlock_hook, h'.close_hook.trans h.close_hook,
    fun j hj => (h'.last_update j hj).trans (h.last_update j hj)⟩

theorem Rest.rest_update (c : sqlx_cache_s) (b : Nat) (f : sqlx_base_s → sqlx_base_s) :
    Rest c (c.update b f) b :=
  ⟨by simp, rfl, rfl, rfl, rfl, rfl, rfl, fun j hj => by rw [GET_update_ne _ hj]⟩

theorem Rest.rest_move (mt : Int) (c : sqlx_cache_s) {b : Nat} (hb : b < c.bases.length)
    (y : sqlx_base_status_e) : Rest c (sqlx_base_move_to_list mt c b y) b :=
  ⟨by simp, by simp, by simp, by simp, by simp, by simp, by simp,
    fun j hj => by rw [move_to_list_last_update mt c hb]; simp [hj]⟩

theorem Rest.rest_bases {c c' : sqlx_cache_s} (b : Nat) (h : c'.bases = c.bases)
    (hh : c'.bases_max_hard = c.bases_max_hard) (hs : c'.bases_max_soft = c.bases_max_soft)
    (hr : c'.is_running = c.is_running) (hm : c'.last_memory_usage = c.last_memory_usage)
    (hu : c'.unlock_hook = c.unlock_hook) (hc : c'.close_hook = c.close_hook) : Rest c c' b :=
  ⟨by rw [h], hh, hs, hr, hm, hu, hc, fun j _ => by simp [GET, h]⟩

theorem expire_base_begin_rest (mt : Int) (c : sqlx_cache_s) {b : Nat} (hb : b < c.bases.length)
    (deleted : Bool) : Rest c (_expire_base_begin mt c b deleted) b := by
  have hm := Rest.rest_move mt c hb
    (if deleted then SQLX_BASE_CLOSING_FOR_DELETION else SQLX_BASE_CLOSING)
  simp only [_expire_base_begin]
  by_cases hk : (sqlx_base_move_to_list mt c b
      (if deleted then SQLX_BASE_CLOSING_FOR_DELETION else SQLX_BASE_CLOSING)).close_hook = true
  · rw [if_pos hk]
    exact hm.rest_trans (Rest.rest_bases b rfl rfl rfl rfl rfl rfl rfl)
  · rw [if_neg hk]
    exact hm

theorem expire_base_end_rest (mt : Int) (c : sqlx_cache_s) {b : Nat} (hb : b < c.bases.length) :
    Rest c (_expire_base_end mt c b) b := by
  simp only [_expire_base_end]
  have h1 := (Rest.rest_update c b (fun s =>
    { s with handle := 0, heat := 0, owner := none, name := none, count_open := 0,
             last_update := 0 })).rest_trans (Rest.rest_move mt _ (by simpa using hb) SQLX_BASE_FREE)
  split
  · exact h1.rest_trans (Rest.rest_bases b rfl rfl rfl rfl rfl rfl rfl)
  · exact h1

theorem expire_specific_begin_rest {self : GThread} {mt : Int} {c c' : sqlx_cache_s} {b : Nat}
    (hb : b < c.bases.length) {now grace_delay : Int}
    (h : _expire_specific_base_begin self mt c b now grace_delay = some c') : Rest c c' b := by
  simp only [_expire_specific_base_begin] at h
  split at h
  · simp at h
  · simp only [Option.some.injEq] at h
    rw [← h]
    exact ((Rest.rest_update c b _).rest_trans (Rest.rest_move mt _ (by simpa using hb) _)).rest_trans
      (expire_base_begin_rest mt _ (by simpa using hb) false)

theorem first_idle_begin_rest {c : sqlx_cache_s} {L : beacon_ref → List Nat} (hI : CacheInv c L)
    {cfg : config} {self : GThread} {mt now : Int} {c' : sqlx_cache_s} {b : Nat}
    (h : sqlx_expire_first_idle_base_begin cfg self mt c now = some (c', b)) : Rest c c' b := by
  have hlen := hI.lists.len
  have second : (if 0 ≤ c.beacon_idle_hot.last then
      (_expire_specific_base_begin self mt c c.beacon_idle_hot.last.toNat now
        cfg._cache_grace_delay_hot).map (fun x => (x, c.beacon_idle_hot.last.toNat))
      else none) = some (c', b) → Rest c c' b := by
    intro h2
    by_cases h0 : 0 ≤ c.beacon_idle_hot.last
    · rw [if_pos h0] at h2
      cases hsp : _expire_specific_base_begin self mt c c.beacon_idle_hot.last.toNat now
          cfg._cache_grace_delay_hot with
      | none => rw [hsp] at h2; simp at h2
      | some c2 =>
        rw [hsp] at h2
        simp only [Option.map_some', Option.some.injEq, Prod.mk.injEq] at h2
        obtain ⟨rfl, rfl⟩ := h2
        exact expire_specific_begin_rest (by
          rw [hlen]
          exact (hI.lists.last_mem (r := beacon_ref.idle_hot) h0).1) hsp
    · rw [if_neg h0] at h2
      simp at h2
  simp only [sqlx_expire_first_idle_base_begin] at h
  by_cases h1 : 0 ≤ c.beacon_idle.last
  · rw [if_pos h1] at h
    cases hsp : _expire_specific_base_begin self mt c c.beacon_idle.last.toNat now
        cfg._cache_grace_delay_cool with
    | none =>
      rw [hsp] at h
      exact second h
    | some c2 =>
      rw [hsp] at h
      simp only [Option.map_some', Option.some.injEq, Prod.mk.injEq] at h
      obtain ⟨rfl, rfl⟩ := h
      exact expire_specific_begin_rest (by
        rw [hlen]
        exact (hI.lists.last_mem (r := beacon_ref.idle) h1).1) hsp
  · rw [if_neg h1] at h
    exact second h

end Sqlx

namespace Sqlx
open sqlx_base_status_e

/-! ## The eviction of the first idle base -/

theorem L_evict_eq {c : sqlx_cache_s} {L : beacon_ref → List Nat} (hL : Lists c L) {b : Nat}
    (hst : (GET c b).status = SQLX_BASE_IDLE ∨ (GET c b).status = SQLX_BASE_IDLE_HOT) :
    L_move (L_move (L_move L (GET c b).status SQLX_BASE_USED b) SQLX_BASE_USED
      SQLX_BASE_CLOSING b) SQLX_BASE_CLOSING SQLX_BASE_FREE b = L_evict L b := by
  have hnot : ∀ r : beacon_ref, r.status ≠ (GET c b).status → (L r).erase b = L r := by
    intro r hr
    apply List.erase_of_not_mem
    intro hm
    exact hr ((hL.mem r b).mp hm).2.symm
  funext r
  rcases hst with h | h <;> rw [h] at hnot ⊢ <;> cases r <;>
    simp [L_move, L_add, L_remove, L_evict, beacon_ref.status] <;>
    first
      | exact (hnot beacon_ref.used (by simp [beacon_ref.status])).symm
      | exact (hnot beacon_ref.idle (by simp [beacon_ref.status])).symm
      | exact (hnot beacon_ref.idle_hot (by simp [beacon_ref.status])).symm

/-- What `sqlx_expire_first_idle_base` does once it has chosen the base `b`, that
it closes at the time `mt` and frees at the time `mt2`: the base expired is FREE,
first of the FREE list, out of the name index, and no other slot has changed its
status or its fields. -/
theorem first_idle_then {c : sqlx_cache_s} {L : beacon_ref → List Nat} (hI : CacheInv c L)
    (cfg : config) (self : GThread) (mt mt2 now : Int) {cb : sqlx_cache_s} {b : Nat}
    (hbeg : sqlx_expire_first_idle_base_begin cfg self mt c now = some (cb, b)) :
    expire_victim cfg c now = some b
    ∧ b < c.bases_max_hard
    ∧ ((GET c b).status = SQLX_BASE_IDLE ∨ (GET c b).status = SQLX_BASE_IDLE_HOT)
    ∧ CacheInv (_expire_base_end mt2 cb b) (L_evict L b)
    ∧ Touch c (_expire_base_end mt2 cb b) b ∧ Rest c (_expire_base_end mt2 cb b) b
    ∧ evicted c (_expire_base_end mt2 cb b) b
    ∧ ∃ n, (GET c b).name = some n
        ∧ (_expire_base_end mt2 cb b).bases_by_name = g_tree_remove c.bases_by_name n := by
  obtain ⟨hn, hs⟩ := first_idle_begin_spec hI cfg self mt now
  cases hv : expire_victim cfg c now with
  | none =>
    rw [hn hv] at hbeg
    simp at hbeg
  | some b0 =>
    obtain ⟨c1, hbeg1, h1, hT, hst, hd, hu, ht, _, hh⟩ := hs b0 hv
    rw [hbeg1] at hbeg
    simp only [Option.some.injEq, Prod.mk.injEq] at hbeg
    obtain ⟨rfl, rfl⟩ := hbeg
    have hvi := expire_victim_idle hI hv
    have hb1 : b0 < c1.bases_max_hard := by rw [hT.hard]; exact hvi.1
    have hR1 := first_idle_begin_rest hI hbeg1
    have hR2 := expire_base_end_rest mt2 c1 (b := b0) (by rw [h1.lists.len]; exact hb1)
    obtain ⟨h2, hT2, hs2, _, hu2, hf2, ⟨n, hn2, ht2⟩, hh2, _⟩ :=
      expire_end_spec h1 mt2 hb1 (Or.inl hst)
    rw [hst, L_evict_eq hI.lists hvi.2] at h2
    simp only [sqlx_base_s.data, Prod.mk.injEq] at hd
    have hname : (GET c b0).name = some n := by rw [← hd.1]; exact hn2
    have habs : ∀ v, (n, v) ∉ (_expire_base_end mt2 c1 b0).bases_by_name := by
      intro v hv2
      rw [ht2] at hv2
      exact (mem_g_tree_remove.mp hv2).2 rfl
    exact ⟨rfl, hvi.1, hvi.2, h2, hT.touch_trans hT2, hR1.rest_trans hR2,
      ⟨by rw [hu2, hu], by rw [hh2, hh], hs2, hf2, n, hname, lookup_absent h2 habs, habs⟩,
      n, hname, by rw [ht2, ht]⟩

/-- What `sqlx_expire_first_idle_base` does, when no other thread runs while the
lock is released: it returns 0 and changes nothing when it has no base to
expire; else it returns 1 and the base expired is FREE, first of the FREE list,
out of the name index, and no other slot has changed its status or its
fields. -/
theorem first_idle_spec {c : sqlx_cache_s} {L : beacon_ref → List Nat} (hI : CacheInv c L)
    (cfg : config) (self : GThread) (mt now : Int) :
    (expire_victim cfg c now = none ∧ sqlx_expire_first_idle_base cfg self mt c now = (c, 0))
    ∨ ∃ b c', expire_victim cfg c now = some b
        ∧ sqlx_expire_first_idle_base cfg self mt c now = (c', 1)
        ∧ b < c.bases_max_hard
        ∧ ((GET c b).status = SQLX_BASE_IDLE ∨ (GET c b).status = SQLX_BASE_IDLE_HOT)
        ∧ CacheInv c' (L_evict L b) ∧ Touch c c' b ∧ Rest c c' b ∧ evicted c c' b
        ∧ ∃ n, (GET c b).name = some n
            ∧ c'.bases_by_name = g_tree_remove c.bases_by_name n := by
  cases hbeg : sqlx_expire_first_idle_base_begin cfg self mt c now with
  | none =>
    left
    refine ⟨?_, by simp only [sqlx_expire_first_idle_base, hbeg]⟩
    cases hv : expire_victim cfg c now with
    | none => rfl
    | some b =>
      obtain ⟨c1, h, _⟩ := (first_idle_begin_spec hI cfg self mt now).2 b hv
      rw [hbeg] at h
      simp at h
  | some p =>
    right
    obtain ⟨cb, b⟩ := p
    obtain ⟨h1, h2, h3, h4, h5, h6, h7, h8⟩ := first_idle_then hI cfg self mt mt now hbeg
    exact ⟨b, _, h1, by simp only [sqlx_expire_first_idle_base, hbeg], h2, h3, h4, h5, h6, h7, h8⟩

end Sqlx

namespace Sqlx
open sqlx_base_status_e

/-! ## Which base is expired -/

theorem expirable_iff (c : sqlx_cache_s) (b : Nat) (now grace_delay : Int) :
    expirable c b now grace_delay
      ↔ (now ≤ 0 ∨ (0 < grace_delay ∧ (GET c b).last_update ≤ OLDEST now grace_delay)) := by
  simp only [expirable]
  constructor
  · intro h
    by_cases h0 : now ≤ 0
    · exact Or.inl h0
    · right
      by_contra h1
      apply h
      refine ⟨by omega, ?_⟩
      by_cases hg : grace_delay ≤ 0
      · exact Or.inl hg
      · right
        by_contra h2
        exact h1 ⟨by omega, by omega⟩
  · rintro (h | ⟨h1, h2⟩) ⟨h3, h4⟩
    · omega
    · rcases h4 with h4 | h4 <;> omega

/-- What `_expire_specific_base` does to an idle slot, when no other thread runs
while the lock is released. -/
theorem expire_specific_spec {c : sqlx_cache_s} {L : beacon_ref → List Nat} (hI : CacheInv c L)
    (self : GThread) (mt : Int) {b : Nat} (hb : b < c.bases_max_hard)
    (hst : (GET c b).status = SQLX_BASE_IDLE ∨ (GET c b).status = SQLX_BASE_IDLE_HOT)
    (now grace_delay : Int) :
    (¬ expirable c b now grace_delay →
      _expire_specific_base self mt c b now grace_delay = (c, 0))
    ∧ (expirable c b now grace_delay →
      ∃ c', _expire_specific_base self mt c b now grace_delay = (c', 1) ∧ evicted c c' b) := by
  obtain ⟨sn, sy⟩ := expire_specific_begin_spec hI self mt hb hst now grace_delay
  refine ⟨?_, ?_⟩
  · intro h
    simp only [_expire_specific_base, sn h]
  · intro h
    obtain ⟨c1, hc1, h1, hT, hs1, hd, hu, _, _, hh⟩ := sy h
    obtain ⟨_, hu3, hh3, hs3, hf3, m, hm, hl3, ha3⟩ := expire_end_evicted h1 mt
      (by rw [hT.hard]; exact hb) (Or.inl hs1)
    simp only [sqlx_base_s.data, Prod.mk.injEq] at hd
    exact ⟨_, by simp only [_expire_specific_base, hc1], by rw [hu3, hu], by rw [hh3, hh], hs3,
      hf3, m, by rw [← hd.1]; exact hm, hl3, ha3⟩

theorem demo_idle_inv : ∃ L, CacheInv demo_idle.cache L :=
  (reachable_inv demo_idle_reachable).cache

/-- C17, the claim as stated fails: the slot 0 is IDLE; at the time 5, with a
grace delay of 0, `_expire_specific_base` returns 0 and leaves the cache as it
is, where the claim has the candidate evicted. -/
theorem C17_expire_specific_counterexample :
    (GET demo_idle.cache 0).status = SQLX_BASE_IDLE ∧ (0 : Int) < 5 ∧ (0 : Int) ≤ 0
    ∧ _expire_specific_base 7 9 demo_idle.cache 0 5 0 = (demo_idle.cache, 0) := by
  decide

/-- C17 (amended): for every idle candidate slot, time `now` and grace delay,
`_expire_specific_base` evicts the candidate and returns 1 if and only if
`now ≤ 0`, or `grace_delay > 0` and `last_update ≤ OLDEST(now, grace_delay)`;
otherwise it returns 0 and changes nothing.  In particular a candidate is not
evicted when `now > 0` and `grace_delay ≤ 0`. -/
theorem C17_expire_specific {c : sqlx_cache_s} (hI : ∃ L, CacheInv c L) (self : GThread)
    (mt : Int) (b : Nat) (hb : b < c.bases_max_hard)
    (hst : (GET c b).status = SQLX_BASE_IDLE ∨ (GET c b).status = SQLX_BASE_IDLE_HOT)
    (now grace_delay : Int) :
    ((_expire_specific_base self mt c b now grace_delay).2 = 1
      ↔ (now ≤ 0 ∨ (0 < grace_delay ∧ (GET c b).last_update ≤ OLDEST now grace_delay)))
    ∧ ((_expire_specific_base self mt c b now grace_delay).2 = 1 →
        evicted c (_expire_specific_base self mt c b now grace_delay).1 b)
    ∧ ((_expire_specific_base self mt c b now grace_delay).2 ≠ 1 →
        _expire_specific_base self mt c b now grace_delay = (c, 0))
    ∧ (0 < now → grace_delay ≤ 0 →
        _expire_specific_base self mt c b now grace_delay = (c, 0)) := by
  obtain ⟨L, hC⟩ := hI
  obtain ⟨hno, hyes⟩ := expire_specific_spec hC self mt hb hst now grace_delay
  rw [← expirable_iff]
  by_cases he : expirable c b now grace_delay
  · obtain ⟨c', hc', hev⟩ := hyes he
    rw [hc']
    refine ⟨by simp [he], fun _ => hev, fun h => absurd rfl h, ?_⟩
    intro h1 h2
    exact absurd he (by rw [expirable_iff]; omega)
  · rw [hno he]
    exact ⟨by simp [he], fun h => absurd h (by simp), fun _ => rfl, fun _ _ => rfl⟩

/-- The statement of C17 for the slot 0, that is IDLE, at the time 0. -/
theorem C17_expire_specific_witness :
    (∃ L, CacheInv demo_idle.cache L) ∧ 0 < demo_idle.cache.bases_max_hard
    ∧ (GET demo_idle.cache 0).status = SQLX_BASE_IDLE
    ∧ ((_expire_specific_base 7 9 demo_idle.cache 0 0 0).2 = 1
      ↔ ((0 : Int) ≤ 0 ∨ ((0 : Int) < 0
          ∧ (GET demo_idle.cache 0).last_update ≤ OLDEST 0 0))) :=
  ⟨demo_idle_inv, by decide, by decide,
    (C17_expire_specific demo_idle_inv 7 9 0 (by decide) (Or.inl (by decide)) 0 0).1⟩

end Sqlx

namespace Sqlx
open sqlx_base_status_e

theorem slot_ext {s s' : sqlx_base_s} (h1 : s'.status = s.status) (h2 : s'.data = s.data)
    (h3 : s'.link_prev = s.link_prev) (h4 : s'.link_next = s.link_next)
    (h5 : s'.last_update = s.last_update) : s' = s := by
  cases s
  cases s'
  simp only [sqlx_base_s.data, Prod.mk.injEq] at h2
  simp only at h1 h3 h4 h5
  simp only [sqlx_base_s.mk.injEq]
  tauto

theorem lt_of_status {c : sqlx_cache_s} (hlen : c.bases.length = c.bases_max_hard) {j : Nat}
    (h : (GET c j).status ≠ SQLX_BASE_ZERO) : j < c.bases_max_hard := by
  by_contra hj
  apply h
  have : c.bases.length ≤ j := by omega
  simp only [GET, List.getD_eq_getElem?_getD, List.getElem?_eq_none this, Option.getD_none]
  rfl

/-- A slot that an eviction leaves in its list, with the same list around it, is
the same after the eviction. -/
theorem slot_same {c c' : sqlx_cache_s} {L L' : beacon_ref → List Nat} (hL : Lists c L)
    (hL' : Lists c' L') {b : Nat} (hT : Touch c c' b) (hR : Rest c c' b) {j : Nat} (hj : j ≠ b)
    {r : beacon_ref} (hr : (GET c j).status = r.status) (hsame : L' r = L r) :
    GET c' j = GET c j := by
  have hjlt : j < c.bases_max_hard := lt_of_status hL.len (by rw [hr]; cases r <;> simp [beacon_ref.status])
  have hm : j ∈ L r := (hL.mem r j).mpr ⟨hjlt, hr⟩
  have hm' : j ∈ L' r := by rw [hsame]; exact hm
  refine slot_ext (hT.status j hj) (hT.data j hj) ?_ ?_ (hR.last_update j hj)
  · rw [(hL'.dl r).prev j hm', (hL.dl r).prev j hm, hsame]
  · rw [(hL'.dl r).next j hm', (hL.dl r).next j hm, hsame]

theorem L_evict_used {c : sqlx_cache_s} {L : beacon_ref → List Nat} (hL : Lists c L) {b : Nat}
    (hst : (GET c b).status = SQLX_BASE_IDLE ∨ (GET c b).status = SQLX_BASE_IDLE_HOT) :
    L_evict L b beacon_ref.used = L beacon_ref.used := by
  simp only [L_evict, beacon_ref.status]
  rw [if_neg (by simp)]
  apply List.erase_of_not_mem
  intro hm
  have := ((hL.mem beacon_ref.used b).mp hm).2
  rcases hst with h | h <;> rw [h] at this <;> simp [beacon_ref.status] at this

theorem last_nonneg_iff {c : sqlx_cache_s} {L : beacon_ref → List Nat} (hL : Lists c L)
    (r : beacon_ref) :
    0 ≤ (c.beacon r).last ↔ ∃ i, i < c.bases_max_hard ∧ (GET c i).status = r.status := by
  constructor
  · intro h
    obtain ⟨h1, h2, _⟩ := hL.last_mem h
    exact ⟨_, h1, h2⟩
  · rintro ⟨i, hi, hs⟩
    have hm : i ∈ L r := (hL.mem r i).mpr ⟨hi, hs⟩
    rw [(hL.dl r).last]
    cases hl : L r with
    | nil => rw [hl] at hm; simp at hm
    | cons a l =>
      obtain ⟨x, _, hx⟩ := lastI_cons_mem a l
      rw [hx]
      omega

theorem expire_victim_zero (cfg : config) (c : sqlx_cache_s) :
    expire_victim cfg c 0 = idle_tail c := by
  have h : ∀ b g, expirable c b 0 g := by
    intro b g
    simp [expirable]
  simp only [expire_victim, idle_tail, h, and_true]

theorem idle_tail_none_iff {c : sqlx_cache_s} {L : beacon_ref → List Nat} (hL : Lists c L) :
    idle_tail c = none ↔ ∀ i, i < c.bases_max_hard →
      (GET c i).status ≠ SQLX_BASE_IDLE ∧ (GET c i).status ≠ SQLX_BASE_IDLE_HOT := by
  have h1 := last_nonneg_iff hL beacon_ref.idle
  have h2 := last_nonneg_iff hL beacon_ref.idle_hot
  simp only [sqlx_cache_s.beacon, beacon_ref.status] at h1 h2
  simp only [idle_tail]
  constructor
  · intro h i hi
    by_cases ha : 0 ≤ c.beacon_idle.last
    · rw [if_pos ha] at h; simp at h
    · rw [if_neg ha] at h
      by_cases hb : 0 ≤ c.beacon_idle_hot.last
      · rw [if_pos hb] at h; simp at h
      · exact ⟨fun hs => ha (h1.mpr ⟨i, hi, hs⟩), fun hs => hb (h2.mpr ⟨i, hi, hs⟩)⟩
  · intro h
    have ha : ¬ 0 ≤ c.beacon_idle.last := by
      intro hh
      obtain ⟨i, hi, hs⟩ := h1.mp hh
      exact (h i hi).1 hs
    have hb : ¬ 0 ≤ c.beacon_idle_hot.last := by
      intro hh
      obtain ⟨i, hi, hs⟩ := h2.mp hh
      exact (h i hi).2 hs
    rw [if_neg ha, if_neg hb]

/-- C18: `sqlx_expire_first_idle_base` (when no other thread runs while the lock
is released) evicts the last slot of the IDLE list when it is expirable; or else
the last slot of the IDLE_HOT list when it is expirable; or else it evicts
nothing, changes nothing and returns 0.  When it evicts a slot it returns 1, the
slot evicted is one of these two, no other slot changes its status or the
fields that tell who holds it, and a USED slot is the same after the call.
Called with `now = 0` it evicts a slot if and only if some slot is IDLE or
IDLE_HOT. -/
theorem C18_first_idle {c : sqlx_cache_s} (hI : ∃ L, CacheInv c L) (cfg : config)
    (self : GThread) (mt now : Int) :
    (0 ≤ c.beacon_idle.last →
      expirable c c.beacon_idle.last.toNat now cfg._cache_grace_delay_cool →
      ∃ c', sqlx_expire_first_idle_base cfg self mt c now = (c', 1)
        ∧ evicted c c' c.beacon_idle.last.toNat)
    ∧ (¬ (0 ≤ c.beacon_idle.last
          ∧ expirable c c.beacon_idle.last.toNat now cfg._cache_grace_delay_cool) →
      0 ≤ c.beacon_idle_hot.last →
      expirable c c.beacon_idle_hot.last.toNat now cfg._cache_grace_delay_hot →
      ∃ c', sqlx_expire_first_idle_base cfg self mt c now = (c', 1)
        ∧ evicted c c' c.beacon_idle_hot.last.toNat)
    ∧ (¬ (0 ≤ c.beacon_idle.last
          ∧ expirable c c.beacon_idle.last.toNat now cfg._cache_grace_delay_cool) →
      ¬ (0 ≤ c.beacon_idle_hot.last
          ∧ expirable c c.beacon_idle_hot.last.toNat now cfg._cache_grace_delay_hot) →
      sqlx_expire_first_idle_base cfg self mt c now = (c, 0))
    ∧ (sqlx_expire_first_idle_base cfg self mt c now = (c, 0)
      ∨ ∃ b c', sqlx_expire_first_idle_base cfg self mt c now = (c', 1)
          ∧ evicted c c' b
          ∧ ((0 ≤ c.beacon_idle.last ∧ b = c.beacon_idle.last.toNat)
            ∨ (0 ≤ c.beacon_idle_hot.last ∧ b = c.beacon_idle_hot.last.toNat))
          ∧ ((GET c b).status = SQLX_BASE_IDLE ∨ (GET c b).status = SQLX_BASE_IDLE_HOT)
          ∧ (∀ j, j ≠ b → (GET c' j).status = (GET c j).status
              ∧ (GET c' j).lock = (GET c j).lock)
          ∧ (∀ j, (GET c j).status = SQLX_BASE_USED → GET c' j = GET c j))
    ∧ (now = 0 →
        ((sqlx_expire_first_idle_base cfg self mt c now).2 = 1
          ↔ ∃ i, i < c.bases_max_hard
              ∧ ((GET c i).status = SQLX_BASE_IDLE ∨ (GET c i).status = SQLX_BASE_IDLE_HOT))) := by
  obtain ⟨L, hC⟩ := hI
  have hspec := first_idle_spec hC cfg self mt now
  refine ⟨?_, ?_, ?_, ?_, ?_⟩
  · intro h0 he
    have hv : expire_victim cfg c now = some c.beacon_idle.last.toNat := by
      simp only [expire_victim, h0, he, and_self, if_true]
    rcases hspec with ⟨h, _⟩ | ⟨b, c', hb, hr, _, _, _, _, _, hev, _⟩
    · rw [hv] at h; simp at h
    · rw [hv] at hb
      simp only [Option.some.injEq] at hb
      exact ⟨c', hr, hb ▸ hev⟩
  · intro hn h0 he
    have hv : expire_victim cfg c now = some c.beacon_idle_hot.last.toNat := by
      simp only [expire_victim, hn, h0, he, and_self, if_true, if_false]
    rcases hspec with ⟨h, _⟩ | ⟨b, c', hb, hr, _, _, _, _, _, hev, _⟩
    · rw [hv] at h; simp at h
    · rw [hv] at hb
      simp only [Option.some.injEq] at hb
      exact ⟨c', hr, hb ▸ hev⟩
  · intro hn1 hn2
    have hv : expire_victim cfg c now = none := by
      simp only [expire_victim, hn1, hn2, if_false]
    rcases hspec with ⟨_, h⟩ | ⟨b, c', hb, _⟩
    · exact h
    · rw [hv] at hb; simp at hb
  · rcases hspec with ⟨_, h⟩ | ⟨b, c', hb, hr, hlt, hst, hI', hT, hR, hev, _⟩
    · exact Or.inl h
    · right
      refine ⟨b, c', hr, hev, ?_, hst, fun j hj => ⟨hT.status j hj, hT.touch_lock hj⟩, ?_⟩
      · simp only [expire_victim] at hb
        split at hb
        · rename_i h1
          simp only [Option.some.injEq] at hb
          exact Or.inl ⟨h1.1, hb.symm⟩
        · split at hb
          · rename_i h2
            simp only [Option.some.injEq] at hb
            exact Or.inr ⟨h2.1, hb.symm⟩
          · simp at hb
      · intro j hj
        have hjb : j ≠ b := by
          rintro rfl
          rcases hst with h | h <;> rw [hj] at h <;> simp at h
        exact slot_same hC.lists hI'.lists hT hR hjb (r := beacon_ref.used) hj
          (L_evict_used hC.lists hst)
  · intro h0
    subst h0
    have hz := expire_victim_zero cfg c
    have hnone := idle_tail_none_iff hC.lists
    rcases hspec with ⟨hv, h⟩ | ⟨b, c', hb, hr, hlt, hst, _⟩
    · rw [h]
      rw [hz] at hv
      have := hnone.mp hv
      constructor
      · intro h1; simp at h1
      · rintro ⟨i, hi, hs⟩
        rcases hs with hs | hs
        · exact absurd hs (this i hi).1
        · exact absurd hs (this i hi).2
    · rw [hr]
      exact ⟨fun _ => ⟨b, hlt, hst⟩, fun _ => rfl⟩

/-- The statement of C18 for a cache whose slot 0 is the only idle slot. -/
theorem C18_first_idle_witness :
    (∃ L, CacheInv demo_idle.cache L)
    ∧ (0 : Int) ≤ demo_idle.cache.beacon_idle.last
    ∧ expirable demo_idle.cache demo_idle.cache.beacon_idle.last.toNat 0
        demo_cfg._cache_grace_delay_cool
    ∧ ∃ c', sqlx_expire_first_idle_base demo_cfg 7 9 demo_idle.cache 0 = (c', 1)
        ∧ evicted demo_idle.cache c' demo_idle.cache.beacon_idle.last.toNat :=
  ⟨demo_idle_inv, by decide, by decide,
    (C18_first_idle demo_idle_inv demo_cfg 7 9 0).1 (by decide) (by decide)⟩

end Sqlx

namespace Sqlx
open sqlx_base_status_e

/-! ## `sqlx_cache_expire_all` -/

theorem first_idle_of_begin (cfg : config) (self : GThread) (mt now : Int) (c : sqlx_cache_s) :
    (sqlx_expire_first_idle_base_begin cfg self mt c now = none
      ∧ sqlx_expire_first_idle_base cfg self mt c now = (c, 0))
    ∨ ∃ cb b, sqlx_expire_first_idle_base_begin cfg self mt c now = some (cb, b)
        ∧ sqlx_expire_first_idle_base cfg self mt c now = (_expire_base_end mt cb b, 1) := by
  cases h : sqlx_expire_first_idle_base_begin cfg self mt c now with
  | none => left; exact ⟨rfl, by simp only [sqlx_expire_first_idle_base, h]⟩
  | some p => right; exact ⟨p.1, p.2, rfl, by simp only [sqlx_expire_first_idle_base, h]⟩

end Sqlx

namespace Sqlx
open sqlx_base_status_e

/-! ## An open that evicts an idle base -/

theorem has_idle_unlocked_of {c : sqlx_cache_s} {L : beacon_ref → List Nat} (hL : Lists c L)
    {i : Nat} (hi : i < c.bases_max_hard)
    (hst : (GET c i).status = SQLX_BASE_IDLE ∨ (GET c i).status = SQLX_BASE_IDLE_HOT) :
    _has_idle_unlocked c = true := by
  cases hb : _has_idle_unlocked c with
  | true => rfl
  | false =>
    exfalso
    simp only [_has_idle_unlocked, Bool.or_eq_false_iff, decide_eq_false_iff_not, not_not] at hb
    have key : ∀ r : beacon_ref, (c.beacon r).first = -1 → i ∉ L r := by
      intro r hr hm
      obtain ⟨a, l, hal⟩ := List.exists_cons_of_ne_nil (List.ne_nil_of_mem hm)
      have := hL.first_of_cons hal
      omega
    rcases hst with h | h
    · exact key beacon_ref.idle hb.1 ((hL.mem beacon_ref.idle i).mpr ⟨hi, h⟩)
    · exact key beacon_ref.idle_hot hb.2 ((hL.mem beacon_ref.idle_hot i).mpr ⟨hi, h⟩)

/-- A pass of `sqlx_cache_open_and_lock_base` for a name that is not in the
index, when `sqlx_base_reserve` returns a base. -/
theorem open_pass_reserved {c : sqlx_cache_s} {L : beacon_ref → List Nat} (hI : CacheInv c L)
    (hrun : c.is_running = true) (cfg : config) (mt : Int) (l : open_locals)
    (hmiss : ∀ v, (l.hname, v) ∉ c.bases_by_name) {b : Nat}
    (hb : (sqlx_base_reserve l.self mt c l.hname).2.2 = some b) :
    open_pass cfg mt c l = open_next.done (sqlx_base_reserve l.self mt c l.hname).1 none
      (some (GET (sqlx_base_reserve l.self mt c l.hname).1 b).index) := by
  have he := ((reserve_spec hI l.self mt hmiss).2 b hb).1
  simp only [open_pass, hrun, Bool.not_true, Bool.false_eq_true, if_false, lookup_absent hI hmiss,
    Int.reduceNeg, Int.reduceLT, if_true]
  rcases hres : sqlx_base_reserve l.self mt c l.hname with ⟨c', err, res⟩
  rw [hres] at hb he
  simp only at hb he
  subst hb he
  simp only [open_finish_false]

end Sqlx

namespace Sqlx
open sqlx_base_status_e

end Sqlx

namespace Sqlx
open sqlx_base_status_e

theorem demo_rss_reachable : Reachable demo_rss :=
  after_reachable (after_reachable (Reachable.init demo_cfg_rss 1) _ _) _ _

theorem demo_rss_two_reachable : Reachable demo_rss_two :=
  after_reachable (after_reachable (after_reachable (after_reachable (after_reachable
    (after_reachable (Reachable.init demo_cfg_rss 1) _ _) _ _) _ _) _ _) _ _) _ _

theorem demo_rss_two_facts :
    holds demo_rss_two.cache 8 "b" 1 ∧ (GET demo_rss_two.cache 1).count_open = 1
    ∧ (GET demo_rss_two.cache 0).status = SQLX_BASE_IDLE
    ∧ (GET demo_rss_two.cache 0).handle = 41
    ∧ demo_rss_two.cache.close_hook = true
    ∧ demo_rss_two.cache.hook_calls = []
    ∧ demo_rss_two.cache.bases_used = 2
    ∧ _ram_exhausted demo_cfg_rss demo_rss_two.cache = true
    ∧ idle_tail (released demo_cfg_rss 11 demo_rss_two.cache 1) = some 0 := by
  decide

end Sqlx
namespace Sqlx
open sqlx_base_status_e

/-! ## The close of a base when the memory ceiling is exceeded -/

/-- The cache once `sqlx_cache_unlock_and_close_base` has released a base that
the caller held with one opening. -/
theorem released_spec {c : sqlx_cache_s} {L : beacon_ref → List Nat} (hI : CacheInv c L)
    (cfg : config) (self : GThread) (mt : Int) {b : Nat} {n : hashstr_t}
    (hold : holds c self n b) (hco : (GET c b).count_open = 1) :
    (∃ L', CacheInv (released cfg mt c b) L')
    ∧ Touch c (released cfg mt c b) b
    ∧ ((GET (released cfg mt c b) b).status = SQLX_BASE_IDLE
        ∨ (GET (released cfg mt c b) b).status = SQLX_BASE_IDLE_HOT)
    ∧ (GET (released cfg mt c b) b).handle = (GET c b).handle
    ∧ (released cfg mt c b).bases_used = c.bases_used
    ∧ (released cfg mt c b).last_memory_usage = c.last_memory_usage
    ∧ (released cfg mt c b).close_hook = c.close_hook
    ∧ (released cfg mt c b).hook_calls
        = (if c.unlock_hook then hook_call.unlock_hook (GET c b).handle :: c.hook_calls
            else c.hook_calls) := by
  obtain ⟨hb, hst, how, hname⟩ := hold
  obtain ⟨hB, hT, hG⟩ := unlock_dec_but hI hb hst
  have hdec : guint_dec (GET c b).count_open = 0 := by rw [hco]; rfl
  rw [hdec] at hG
  obtain ⟨h2, hT2, hs2, hd2, hu2, _, _, hm2, hk2, hh2⟩ := unlock_release_spec hB cfg mt
    (by rw [hG]; exact hst) (by rw [hG])
  rw [hG] at hs2 hd2 hh2
  simp only at hs2 hd2 hh2
  simp only [sqlx_base_s.data, Prod.mk.injEq] at hd2
  refine ⟨⟨_, h2⟩, hT.touch_trans hT2, ?_, hd2.2.2.1, hu2, hm2, hk2, ?_⟩
  · have hs : (GET (released cfg mt c b) b).status
        = (if (GET c b).heat ≥ cfg._cache_heat_threshold then SQLX_BASE_IDLE_HOT
            else SQLX_BASE_IDLE) := hs2
    by_cases hh : (GET c b).heat ≥ cfg._cache_heat_threshold
    · rw [if_pos hh] at hs; exact Or.inr hs
    · rw [if_neg hh] at hs; exact Or.inl hs
  · exact hh2

/-- The close of the last opening of a base with no flag, when the memory
ceiling is exceeded: the last base of the IDLE list, or else of the IDLE_HOT
list, as they stand once the base is released, is evicted. -/
theorem unlock_ceiling {c : sqlx_cache_s} {L : beacon_ref → List Nat} (hI : CacheInv c L)
    (cfg : config) (self : GThread) (mt : Int) {b : Nat} {n : hashstr_t}
    (hold : holds c self n b) (hco : (GET c b).count_open = 1)
    (hram : _ram_exhausted cfg c = true) :
    ∃ v c', idle_tail (released cfg mt c b) = some v
      ∧ sqlx_cache_unlock_and_close_base cfg self mt c (b : Int) no_flags
          = call_result.returned c' none
      ∧ v < c.bases_max_hard
      ∧ ((GET (released cfg mt c b) v).status = SQLX_BASE_IDLE
          ∨ (GET (released cfg mt c b) v).status = SQLX_BASE_IDLE_HOT)
      ∧ (∃ L', CacheInv c' L')
      ∧ Touch (released cfg mt c b) c' v
      ∧ evicted (released cfg mt c b) c' v := by
  obtain ⟨⟨L1, hC1⟩, hT1, hs1, _, _, hm1, _, _⟩ := released_spec hI cfg self mt hold hco
  obtain ⟨hb, hst, how, hname⟩ := hold
  have hb1 : b < (released cfg mt c b).bases_max_hard := by rw [hT1.hard]; exact hb
  have hidle := has_idle_unlocked_of hC1.lists hb1 hs1
  have hram1 : _ram_exhausted cfg (released cfg mt c b) = true := by
    rw [ram_exhausted_congr cfg hm1]; exact hram
  have hv : expire_victim cfg (released cfg mt c b) 0 ≠ none := by
    rw [expire_victim_zero]
    intro h
    have := (idle_tail_none_iff hC1.lists).mp h b hb1
    rcases hs1 with h | h
    · exact this.1 h
    · exact this.2 h
  obtain ⟨v, hv⟩ := Option.ne_none_iff_exists'.mp hv
  obtain ⟨cb, hbeg, _⟩ := (first_idle_begin_spec hC1 cfg self mt 0).2 v hv
  obtain ⟨_, hvlt, hvst, hC2, hT2, _, hev, _⟩ := first_idle_then hC1 cfg self mt mt 0 hbeg
  rw [expire_victim_zero] at hv
  refine ⟨v, _expire_base_end mt cb v, hv, ?_, by rw [← hT1.hard]; exact hvlt, hvst, ⟨_, hC2⟩,
    hT2, hev⟩
  have hout : base_id_out c (b : Int) = false := by
    simp [base_id_out, hb]
  have hco2 : (GET (c.update b (fun s => { s with count_open := guint_dec s.count_open }))
      b).count_open = 0 := by
    rw [(unlock_dec_but hI hb hst).2.2, hco]; rfl
  simp only [released] at hram1 hidle hbeg
  simp only [sqlx_cache_unlock_and_close_base, sqlx_cache_unlock_and_close_base_begin, hout,
    Bool.false_eq_true, if_false, Int.toNat_ofNat, hst, how, hco, hco2, no_flags, hram1, hidle,
    hbeg]
  simp

end Sqlx

namespace Sqlx
open sqlx_base_status_e

/-- C20, the claim as stated fails: in a cache where no close hook is set (as
after `sqlx_cache_init`), with a memory ceiling of one byte and a memory usage
of two bytes, the thread 7 closes its only opening of the base "a" with no flag;
the slot is released and evicted (`bases_used` goes from 1 to 0) and no call of
the close hook is made. -/
theorem C20_memory_ceiling_counterexample :
    holds demo_rss.cache 7 "a" 0 ∧ (GET demo_rss.cache 0).count_open = 1
    ∧ demo_cfg_rss.sqliterepo_max_rss = 1 ∧ demo_rss.cache.last_memory_usage = 2
    ∧ demo_rss.cache.bases_used = 1
    ∧ (sqlx_cache_unlock_and_close_base demo_cfg_rss 7 9 demo_rss.cache 0 no_flags).value
        = some none
    ∧ (GET ((sqlx_cache_unlock_and_close_base demo_cfg_rss 7 9 demo_rss.cache 0
        no_flags).cache_or demo_rss.cache) 0).status = SQLX_BASE_FREE
    ∧ ((sqlx_cache_unlock_and_close_base demo_cfg_rss 7 9 demo_rss.cache 0
        no_flags).cache_or demo_rss.cache).bases_used = 0
    ∧ ((sqlx_cache_unlock_and_close_base demo_cfg_rss 7 9 demo_rss.cache 0
        no_flags).cache_or demo_rss.cache).hook_calls = [] := by
  decide

/-- C20 (amended): for a slot `b` that the caller holds with `count_open = 1`,
`sqlx_cache_unlock_and_close_base` with no flag (when no other thread runs while
the lock is released) returns no error and, when `last_memory_usage` exceeds a
`sqliterepo_max_rss` that is not zero, evicts one idle slot `v`: the last of the
IDLE list as it stands once `b` is released, or the last of the IDLE_HOT list
when the IDLE list is empty.  The slot `v` is FREE and its name is out of the
name index, no other slot has another status than after the release,
`bases_used` is one less, and the close hook is called once with the handle of
`v` when a close hook is set, and not otherwise.  With `sqliterepo_max_rss = 0`
or `last_memory_usage ≤ sqliterepo_max_rss` no slot is evicted: `bases_used` is
the same, `b` is IDLE or IDLE_HOT, the other slots keep their status, and the
close hook is not called. -/
theorem C20_memory_ceiling {c : sqlx_cache_s} (hI : ∃ L, CacheInv c L) (cfg : config)
    (self : GThread) (mt : Int) (b : Nat) (n : hashstr_t)
    (hold : holds c self n b) (hco : (GET c b).count_open = 1) :
    ((cfg.sqliterepo_max_rss ≠ 0 ∧ c.last_memory_usage > cfg.sqliterepo_max_rss) →
      ∃ (v : Nat) (c' : sqlx_cache_s),
        idle_tail (released cfg mt c b) = some v
        ∧ sqlx_cache_unlock_and_close_base cfg self mt c (b : Int) no_flags
            = call_result.returned c' none
        ∧ ((GET (released cfg mt c b) v).status = SQLX_BASE_IDLE
            ∨ (GET (released cfg mt c b) v).status = SQLX_BASE_IDLE_HOT)
        ∧ (GET c' v).status = SQLX_BASE_FREE
        ∧ (∀ j, j ≠ v → (GET c' j).status = (GET (released cfg mt c b) j).status)
        ∧ (∀ j, j ≠ v → j ≠ b → (GET c' j).status = (GET c j).status)
        ∧ c'.bases_used + 1 = c.bases_used
        ∧ c'.hook_calls
            = (if c.close_hook then
                hook_call.close_hook (GET c v).handle
                  :: (if c.unlock_hook then hook_call.unlock_hook (GET c b).handle :: c.hook_calls
                      else c.hook_calls)
              else
                (if c.unlock_hook then hook_call.unlock_hook (GET c b).handle :: c.hook_calls
                  else c.hook_calls))
        ∧ ∃ m, (GET c v).name = some m ∧ sqlx_lookup_id c' m = -1)
    ∧ ((cfg.sqliterepo_max_rss = 0 ∨ c.last_memory_usage ≤ cfg.sqliterepo_max_rss) →
      ∃ c' : sqlx_cache_s,
        sqlx_cache_unlock_and_close_base cfg self mt c (b : Int) no_flags
            = call_result.returned c' none
        ∧ c' = released cfg mt c b
        ∧ c'.bases_used = c.bases_used
        ∧ ((GET c' b).status = SQLX_BASE_IDLE ∨ (GET c' b).status = SQLX_BASE_IDLE_HOT)
        ∧ (∀ j, j ≠ b → (GET c' j).status = (GET c j).status)
        ∧ c'.hook_calls
            = (if c.unlock_hook then hook_call.unlock_hook (GET c b).handle :: c.hook_calls
                else c.hook_calls)) := by
  obtain ⟨L, hC⟩ := hI
  obtain ⟨_, hT1, hs1, hh1, hu1, _, hk1, hl1⟩ := released_spec hC cfg self mt hold hco
  constructor
  · rintro ⟨h0, hgt⟩
    have hram : _ram_exhausted cfg c = true := by
      simp [_ram_exhausted, h0, hgt]
    obtain ⟨v, c', hv, hrun, _, hvst, _, hT2, hev⟩ := unlock_ceiling hC cfg self mt hold hco hram
    obtain ⟨hu, hh, hfree, _, m, hm, hlk, _⟩ := hev
    have hdata : (GET (released cfg mt c b) v).handle = (GET c v).handle
        ∧ (GET (released cfg mt c b) v).name = (GET c v).name := by
      by_cases hvb : v = b
      · subst hvb
        have hd := (unlock_release_spec (unlock_dec_but hC hold.1 hold.2.1).1 cfg mt
          (by rw [(unlock_dec_but hC hold.1 hold.2.1).2.2]; exact hold.2.1)
          (by rw [(unlock_dec_but hC hold.1 hold.2.1).2.2, hco]; rfl)).2.2.2.1
        rw [(unlock_dec_but hC hold.1 hold.2.1).2.2] at hd
        simp only [sqlx_base_s.data, Prod.mk.injEq] at hd
        exact ⟨hh1, hd.1⟩
      · obtain ⟨d1, _, d3, _⟩ := data_fields (hT1.data v hvb)
        exact ⟨d3, d1⟩
    refine ⟨v, c', hv, hrun, hvst, hfree, hT2.status, ?_, by omega, ?_, m, ?_, hlk⟩
    · intro j hjv hjb
      rw [hT2.status j hjv, hT1.status j hjb]
    · rw [hh, hk1, hl1, hdata.1]
    · rw [← hdata.2]; exact hm
  · intro h
    have hram : _ram_exhausted cfg c = false := by
      simp only [_ram_exhausted]
      rcases h with h | h
      · simp [h]
      · simp [not_lt.mpr h]
    obtain ⟨hb, hst, how, hname⟩ := hold
    have hG := (unlock_dec_but hC hb hst).2.2
    have hm : (released cfg mt c b).last_memory_usage = c.last_memory_usage := by
      exact (released_spec hC cfg self mt ⟨hb, hst, how, hname⟩ hco).2.2.2.2.2.1
    have hram2 : _ram_exhausted cfg (released cfg mt c b) = false := by
      rw [ram_exhausted_congr cfg hm]; exact hram
    refine ⟨released cfg mt c b, ?_, rfl, hu1, hs1, hT1.status, hl1⟩
    have hout : base_id_out c (b : Int) = false := by
      simp [base_id_out, hb]
    have hco2 : (GET (c.update b (fun s => { s with count_open := guint_dec s.count_open }))
        b).count_open = 0 := by
      rw [hG, hco]; rfl
    simp only [released] at hram2 ⊢
    simp only [sqlx_cache_unlock_and_close_base, sqlx_cache_unlock_and_close_base_begin, hout,
      Bool.false_eq_true, if_false, Int.toNat_ofNat, hst, how, hco, hco2, no_flags, hram2]
    simp

theorem demo_rss_two_inv : ∃ L, CacheInv demo_rss_two.cache L :=
  (reachable_inv demo_rss_two_reachable).cache

/-- The statement of C20 for a cache with a close hook where the base "a", of
handle 41, is idle in the slot 0 and the thread 8 closes the base "b" of the
slot 1, the memory usage being over the ceiling: the slot 0 is evicted and the
close hook is called with the handle 41. -/
theorem C20_memory_ceiling_witness :
    (∃ L, CacheInv demo_rss_two.cache L)
    ∧ holds demo_rss_two.cache 8 "b" 1 ∧ (GET demo_rss_two.cache 1).count_open = 1
    ∧ demo_cfg_rss.sqliterepo_max_rss ≠ 0
    ∧ demo_rss_two.cache.last_memory_usage > demo_cfg_rss.sqliterepo_max_rss
    ∧ ∃ c' : sqlx_cache_s,
        sqlx_cache_unlock_and_close_base demo_cfg_rss 8 11 demo_rss_two.cache ((1 : Nat) : Int)
            no_flags = call_result.returned c' none
        ∧ (GET c' 0).status = SQLX_BASE_FREE
        ∧ c'.bases_used + 1 = 2
        ∧ c'.hook_calls = [hook_call.close_hook 41] := by
  obtain ⟨f1, f2, _, f4, f5, f6, f7, _, f9⟩ := demo_rss_two_facts
  obtain ⟨v, c', h1, h2, _, h3, _, _, h4, h5, _⟩ :=
    (C20_memory_ceiling demo_rss_two_inv demo_cfg_rss 8 11 1 "b" f1 f2).1
      ⟨by decide, by decide⟩
  rw [f9] at h1
  cases h1
  refine ⟨demo_rss_two_inv, f1, f2, by decide, by decide, c', h2, h3, ?_, ?_⟩
  · rw [f7] at h4; exact h4
  · rw [h5, f5, f4, f6]
    have : demo_rss_two.cache.unlock_hook = false := by decide
    simp [this]

end Sqlx

namespace Sqlx
open sqlx_base_status_e

/-! ## The error UNAVAILABLE -/

theorem open_finish_err {mt : Int} {c : sqlx_cache_s} {l : open_locals} {err : Option GError}
    {result : Option Int} {opened : Bool} {c' : sqlx_cache_s} {err' : Option GError}
    {r : Option Int} (h : open_finish mt c l err result opened = open_next.done c' err' r) :
    err' = err := by
  simp only [open_finish] at h
  split at h <;> simp only [open_next.done.injEq] at h <;> exact h.2.1.symm

theorem reserve_err (self : GThread) (mt : Int) (c : sqlx_cache_s) (hs : hashstr_t)
    (msg : String) :
    (sqlx_base_reserve self mt c hs).2.1 ≠ some (GError.CODE_UNAVAILABLE msg) := by
  simp only [sqlx_base_reserve]
  split
  · split <;> simp
  · split <;> simp

/-- No pass of `sqlx_cache_open_and_lock_base` returns the error UNAVAILABLE,
whatever the cache. -/
theorem open_pass_never_unavailable (cfg : config) (mt : Int) (c : sqlx_cache_s)
    (l : open_locals) (c' : sqlx_cache_s) (msg : String) (r : Option Int) :
    open_pass cfg mt c l ≠ open_next.done c' (some (GError.CODE_UNAVAILABLE msg)) r := by
  intro h
  simp only [open_pass] at h
  by_cases hrun : c.is_running = true
  swap
  · simp only [Bool.not_eq_true] at hrun
    simp only [hrun, Bool.not_false, if_true] at h
    have := open_finish_err h
    simp at this
  simp only [hrun, Bool.not_true, Bool.false_eq_true, if_false] at h
  by_cases hbd : sqlx_lookup_id c l.hname < 0
  · simp only [hbd, if_true] at h
    have hne := reserve_err l.self mt c l.hname msg
    rcases hres : sqlx_base_reserve l.self mt c l.hname with ⟨c1, err, base⟩
    rw [hres] at h hne
    cases err with
    | some e =>
      simp only at h hne
      have := open_finish_err h
      exact hne this.symm
    | none =>
      cases base with
      | some b =>
        simp only at h
        have := open_finish_err h
        simp at this
      | none =>
        simp only at h
        cases hb : sqlx_expire_first_idle_base_begin cfg l.self mt c1 0 with
        | none => rw [hb] at h; simp at h
        | some p => rw [hb] at h; simp at h
  · simp only [hbd, if_false] at h
    repeat (any_goals (split at h))
    all_goals cases h

end Sqlx
namespace Sqlx
open sqlx_base_status_e

/-- In a cache that keeps its invariant, when `sqlx_base_reserve` returns neither
a base nor an error, `sqlx_expire_first_idle_base` called with `now = 0` evicts
a base: the case where it evicts nothing does not occur. -/
theorem miss_always_evicts {c : sqlx_cache_s} {L : beacon_ref → List Nat} (hI : CacheInv c L)
    (cfg : config) (self : GThread) (mt : Int) (hs : hashstr_t)
    (hres : (sqlx_base_reserve self mt c hs).2 = (none, none)) :
    (sqlx_expire_first_idle_base cfg self mt c 0).2 = 1 := by
  have hidle : ∃ i, i < c.bases_max_hard
      ∧ ((GET c i).status = SQLX_BASE_IDLE ∨ (GET c i).status = SQLX_BASE_IDLE_HOT) := by
    by_contra hno
    push_neg at hno
    have hf := no_idle_unlocked hI.lists hno
    by_cases hu : c.bases_used ≥ c.bases_max_soft
    · simp [sqlx_base_reserve, hu, hf] at hres
    · obtain ⟨b, hb⟩ := reserve_some hI self mt hs (by omega)
      rw [hres] at hb
      simp at hb
  obtain ⟨i, hi, hst⟩ := hidle
  rcases first_idle_spec hI cfg self mt 0 with ⟨hv, _⟩ | ⟨b, c', _, hr, _⟩
  · rw [expire_victim_zero] at hv
    have := (idle_tail_none_iff hI.lists).mp hv i hi
    rcases hst with h | h
    · exact absurd h this.1
    · exact absurd h this.2
  · rw [hr]

/-- Whatever the cache, when it is running, the name is not in the name index,
`sqlx_base_reserve` returns neither a base nor an error and
`sqlx_expire_first_idle_base` evicts nothing (it returns 0), a pass of
`sqlx_cache_open_and_lock_base` goes back to its label `retry` with the cache as
it is, since the value returned, 0 or 1, is compared with `>= 0`; the call then
returns nothing, whatever the number of passes.  By `miss_always_evicts` no
cache that keeps the invariant is in this case. -/
theorem miss_retries_forever (cfg : config) (clock : Nat → Int) (self : GThread)
    (c : sqlx_cache_s) (hname : hashstr_t) (urgent : Bool) (deadline : Int)
    (hrun : c.is_running = true) (hmiss : sqlx_lookup_id c hname < 0)
    (hres : ∀ mt, sqlx_base_reserve self mt c hname = (c, none, none))
    (hev : ∀ mt, sqlx_expire_first_idle_base cfg self mt c 0 = (c, 0)) :
    (∀ mt l, l.self = self → l.hname = hname →
      open_pass cfg mt c l
        = open_next.retry c { l with attempts := l.attempts + 1, base := none })
    ∧ ∀ fuel, sqlx_cache_open_and_lock_base fuel cfg clock self c hname urgent deadline
        = call_result.out_of_fuel := by
  have hpass : ∀ mt l, l.self = self → l.hname = hname →
      open_pass cfg mt c l
        = open_next.retry c { l with attempts := l.attempts + 1, base := none } := by
    intro mt l hs hn
    have hbeg : sqlx_expire_first_idle_base_begin cfg self mt c 0 = none := by
      rcases first_idle_of_begin cfg self mt 0 c with
        ⟨h, _⟩ | ⟨cb, b, _, h⟩
      · exact h
      · rw [hev mt] at h
        simp at h
    simp only [open_pass, hrun, hs, hn, hmiss, hres mt, hbeg, Bool.not_true, Bool.false_eq_true,
      if_false, if_true, ge_iff_le, le_refl]
  refine ⟨hpass, ?_⟩
  have hloop : ∀ fuel k l, l.self = self → l.hname = hname →
      open_loop cfg clock fuel k c l = call_result.out_of_fuel := by
    intro fuel
    induction fuel with
    | zero => intro k l _ _; rfl
    | succ f ih =>
      intro k l hs hn
      simp only [open_loop, hpass (clock k) l hs hn]
      exact ih (k + 1) _ hs hn
  intro fuel
  exact hloop fuel 1 _ rfl rfl

/-- The cache `demo_stuck`, that does not keep the invariant, is in the case of
`miss_retries_forever`: the thread 8 calls for the base "b". -/
theorem demo_stuck_retries :
    demo_stuck.is_running = true ∧ sqlx_lookup_id demo_stuck "b" < 0
    ∧ (∀ mt, sqlx_base_reserve 8 mt demo_stuck "b" = (demo_stuck, none, none))
    ∧ (∀ mt, sqlx_expire_first_idle_base demo_cfg_one 8 mt demo_stuck 0 = (demo_stuck, 0))
    ∧ (¬ ∃ L, CacheInv demo_stuck L)
    ∧ ∀ fuel, sqlx_cache_open_and_lock_base fuel demo_cfg_one (fun _ => 5) 8 demo_stuck "b"
        false 0 = call_result.out_of_fuel := by
  have h1 : demo_stuck.is_running = true := by decide
  have h2 : sqlx_lookup_id demo_stuck "b" < 0 := by decide
  have h3 : ∀ mt, sqlx_base_reserve 8 mt demo_stuck "b" = (demo_stuck, none, none) := by
    intro mt
    have a : ¬ demo_stuck.bases_used ≥ demo_stuck.bases_max_soft := by decide
    have b : sqlx_get_by_id demo_stuck demo_stuck.beacon_free.first = none := by decide
    simp only [sqlx_base_reserve, a, b, if_false]
  have h4 : ∀ mt, sqlx_expire_first_idle_base demo_cfg_one 8 mt demo_stuck 0
      = (demo_stuck, 0) := by
    intro mt
    have a : ¬ 0 ≤ demo_stuck.beacon_idle.last := by decide
    have b : ¬ 0 ≤ demo_stuck.beacon_idle_hot.last := by decide
    simp only [sqlx_expire_first_idle_base, sqlx_expire_first_idle_base_begin, a, b, if_false]
  refine ⟨h1, h2, h3, h4, ?_,
    (miss_retries_forever demo_cfg_one (fun _ => 5) 8 demo_stuck "b" false 0 h1 h2 h3 h4).2⟩
  rintro ⟨L, hL⟩
  have := miss_always_evicts hL demo_cfg_one 8 0 "b" (by rw [h3 0])
  rw [h4 0] at this
  simp at this

end Sqlx

namespace Sqlx
open sqlx_base_status_e

/-! ## The overload predicate -/

/-- What `_load_too_high` returns, on the two sums that it reads: it traps when
`dx` and the threshold are both zero; else it returns the average `dt / dx` when
`dx` is over the bar and the average exceeds the remaining time, and 0 in every
other case. -/
theorem load_too_high_of_eq (cfg : config) (dx dt : Nat) (remaining_time : Int) :
    _load_too_high_of cfg dx dt remaining_time
      = (if dx = 0 ∧ cfg._cache_min_load_on_heavy_load = 0 then none
         else some (if dx ≥ 10 * cfg._cache_min_load_on_heavy_load
                      ∧ ((dt / dx : Nat) : Int) > remaining_time
                    then ((dt / dx : Nat) : Int) else 0)) := by
  simp only [_load_too_high_of]
  by_cases h1 : dx ≥ 10 * cfg._cache_min_load_on_heavy_load
  · by_cases h2 : dx = 0
    · have : cfg._cache_min_load_on_heavy_load = 0 := by omega
      simp [h2, this]
    · simp only [h1, h2, if_true, if_false, true_and, false_and]
      split <;> rfl
  · have h2 : ¬ (dx = 0 ∧ cfg._cache_min_load_on_heavy_load = 0) := by omega
    simp [h1, h2]

/-- C28: for every threshold `_cache_min_load_on_heavy_load ≥ 1` and every pair of
sums `dx` and `dt`, `_load_too_high` does not trap on its division: the guard of
the division, `dx ≥ 10 * threshold`, gives `dx ≥ 10`, and with `dx < 10` the
function returns 0 without a division. -/
theorem C28_no_division_by_zero (cfg : config) (dx dt : Nat) (remaining_time : Int)
    (h : 1 ≤ cfg._cache_min_load_on_heavy_load) :
    (∃ v, _load_too_high_of cfg dx dt remaining_time = some v)
    ∧ (dx ≥ 10 * cfg._cache_min_load_on_heavy_load → 10 ≤ dx ∧ dx ≠ 0)
    ∧ (dx < 10 → _load_too_high_of cfg dx dt remaining_time = some 0)
    ∧ (∀ (c : sqlx_cache_s) (base : Nat) (now : Int),
        ∃ v, _load_too_high cfg c base now remaining_time = some v) := by
  have hnt : ∀ dx dt : Nat, ∃ v, _load_too_high_of cfg dx dt remaining_time = some v := by
    intro dx dt
    rw [load_too_high_of_eq]
    rw [if_neg (by omega)]
    exact ⟨_, rfl⟩
  refine ⟨hnt dx dt, fun hg => ⟨by omega, by omega⟩, ?_, ?_⟩
  · intro hlt
    rw [load_too_high_of_eq, if_neg (by omega), if_neg (by omega)]
  · intro c base now
    exact hnt _ _

/-- The statement of C28 for a threshold of 1 and no open in the last 10
seconds. -/
theorem C28_no_division_by_zero_witness :
    1 ≤ demo_cfg._cache_min_load_on_heavy_load
    ∧ ∃ v, _load_too_high_of demo_cfg 0 0 0 = some v :=
  ⟨by decide, (C28_no_division_by_zero demo_cfg 0 0 0 (by decide)).1⟩

end Sqlx

namespace Sqlx
open sqlx_base_status_e

/-! ## The soft limit -/

theorem init_stack_frame (mt : Int) : ∀ (n : Nat) (c : sqlx_cache_s),
    (sqlx_cache_init_stack mt n c).bases_max_soft = c.bases_max_soft
    ∧ (sqlx_cache_init_stack mt n c).bases_max_hard = c.bases_max_hard := by
  intro n
  induction n with
  | zero => intro c; exact ⟨rfl, rfl⟩
  | succ n ih =>
    intro c
    simp only [sqlx_cache_init_stack]
    obtain ⟨h1, h2⟩ := ih (SQLX_UNSHIFT mt c n .free SQLX_BASE_FREE)
    have hf := (SQLX_UNSHIFT_same mt c n .free SQLX_BASE_FREE).frame
    simp only [sqlx_cache_s.frame, Prod.mk.injEq] at hf
    exact ⟨h1.trans hf.2.1, h2.trans hf.2.2.1⟩

theorem init_soft (cfg : config) (mt : Int) :
    (sqlx_cache_init cfg mt).bases_max_soft
      = CLAMP cfg.sqliterepo_repo_max_bases_soft 1 (sqlx_cache_init cfg mt).bases_max_hard := by
  have key := init_stack_frame mt (sqlx_cache_init_alloc cfg mt).bases_max_hard
    (sqlx_cache_init_alloc cfg mt)
  show (sqlx_cache_init_stack mt _ (sqlx_cache_init_alloc cfg mt)).bases_max_soft
    = CLAMP _ 1 (sqlx_cache_init_stack mt _ (sqlx_cache_init_alloc cfg mt)).bases_max_hard
  rw [key.1, key.2]
  rfl

/-- C29: the code does not do what the claim says when the soft limit of the
configuration is zero: `sqlx_cache_init` sets `bases_max_soft` to 1, and
`sqlx_cache_reconfigure`, that tests `sqliterepo_repo_max_bases_soft > 0`, sets
it to `bases_max_hard`, so that a call of `sqlx_cache_reconfigure` right after
`sqlx_cache_init` with the same configuration changes `bases_max_soft` as soon
as there are two slots.  When the soft limit of the configuration is not zero
the two functions compute the same `bases_max_soft`.  After either function
`1 ≤ bases_max_soft ≤ bases_max_hard`. -/
theorem C29_soft_limit (cfg : config) (mt : Int) :
    (0 < cfg.sqliterepo_repo_max_bases_soft →
      (sqlx_cache_reconfigure cfg (sqlx_cache_init cfg mt)).bases_max_soft
        = (sqlx_cache_init cfg mt).bases_max_soft)
    ∧ (cfg.sqliterepo_repo_max_bases_soft = 0 →
        (sqlx_cache_init cfg mt).bases_max_soft = 1
        ∧ (sqlx_cache_reconfigure cfg (sqlx_cache_init cfg mt)).bases_max_soft
            = (sqlx_cache_init cfg mt).bases_max_hard)
    ∧ (1 ≤ (sqlx_cache_init cfg mt).bases_max_soft
        ∧ (sqlx_cache_init cfg mt).bases_max_soft ≤ (sqlx_cache_init cfg mt).bases_max_hard)
    ∧ (∀ c : sqlx_cache_s, 1 ≤ c.bases_max_hard →
        1 ≤ (sqlx_cache_reconfigure cfg c).bases_max_soft
        ∧ (sqlx_cache_reconfigure cfg c).bases_max_soft
            ≤ (sqlx_cache_reconfigure cfg c).bases_max_hard) := by
  have hs := init_soft cfg mt
  have hI := init_CacheInv cfg mt
  have hpos : 1 ≤ (sqlx_cache_init cfg mt).bases_max_hard := le_trans hI.soft.1 hI.soft.2
  refine ⟨?_, ?_, hI.soft, ?_⟩
  · intro h
    simp only [sqlx_cache_reconfigure, gt_iff_lt, h, if_true]
    exact hs.symm
  · intro h
    constructor
    · rw [hs, h]
      simp only [CLAMP]
      rw [if_neg (by omega), if_pos (by omega)]
    · simp only [sqlx_cache_reconfigure, h, gt_iff_lt, lt_self_iff_false, if_false]
  · intro c hc
    simp only [sqlx_cache_reconfigure]
    split
    · exact CLAMP_bounds _ _ hc
    · exact ⟨hc, le_refl _⟩

end Sqlx
namespace Sqlx
open sqlx_base_status_e

/-- The statement of C29 for a configuration with a soft limit of 2, where the
two functions agree, and for the same configuration with a soft limit of 0 and
two slots, where `sqlx_cache_init` gives 1 and `sqlx_cache_reconfigure` 2. -/
theorem C29_soft_limit_witness :
    (0 < demo_cfg.sqliterepo_repo_max_bases_soft
      ∧ (sqlx_cache_reconfigure demo_cfg (sqlx_cache_init demo_cfg 1)).bases_max_soft
          = (sqlx_cache_init demo_cfg 1).bases_max_soft)
    ∧ (demo_cfg_soft0.sqliterepo_repo_max_bases_soft = 0
      ∧ (sqlx_cache_init demo_cfg_soft0 1).bases_max_hard = 2
      ∧ (sqlx_cache_init demo_cfg_soft0 1).bases_max_soft = 1
      ∧ (sqlx_cache_reconfigure demo_cfg_soft0
          (sqlx_cache_init demo_cfg_soft0 1)).bases_max_soft
          = (sqlx_cache_init demo_cfg_soft0 1).bases_max_hard
      ∧ (sqlx_cache_reconfigure demo_cfg_soft0
          (sqlx_cache_init demo_cfg_soft0 1)).bases_max_soft
          ≠ (sqlx_cache_init demo_cfg_soft0 1).bases_max_soft) :=
  ⟨⟨by decide, (C29_soft_limit demo_cfg 1).1 (by decide)⟩,
    by decide, by decide, ((C29_soft_limit demo_cfg_soft0 1).2.1 (by decide)).1,
    ((C29_soft_limit demo_cfg_soft0 1).2.1 (by decide)).2, by decide⟩

/-! ## The deadline reached on a base that the caller does not hold -/

end Sqlx

namespace Sqlx
open sqlx_base_status_e

/-! ## The cache after a pass of `sqlx_cache_open_and_lock_base` -/

theorem open_pass_shape {c : sqlx_cache_s} {L : beacon_ref → List Nat} (hI : CacheInv c L)
    (cfg : config) (mt : Int) (l : open_locals) :
    (open_pass cfg mt c l).shape cfg mt c l := by
  simp only [open_pass]
  by_cases hr : c.is_running = true
  swap
  · simp [hr, open_finish_false, open_next.shape]
  simp only [hr, Bool.not_true, Bool.false_eq_true, if_false]
  rcases lookup_spec hI l.hname with ⟨hlk, hmiss⟩ | ⟨i, hi, hlk, hmem, hname, hnf⟩
  · -- the name is not in the index
    rw [hlk]
    simp only [Int.reduceNeg, Int.reduceLT, if_true]
    obtain ⟨hnone, hsome⟩ := reserve_spec hI l.self mt hmiss
    rcases hres : sqlx_base_reserve l.self mt c l.hname with ⟨c', err, res⟩
    rw [hres] at hnone hsome
    simp only at hnone hsome
    cases res with
    | none =>
      have hc := hnone rfl
      subst hc
      cases err with
      | some e =>
        simp [open_finish_false, open_next.shape]
      | none =>
        simp only
        cases hbeg : sqlx_expire_first_idle_base_begin cfg l.self mt c' 0 with
        | none =>
          simp only [ge_iff_le, le_refl, if_true, open_next.shape]
        | some p =>
          obtain ⟨c'', b⟩ := p
          simp only [open_next.shape]
          exact hbeg
    | some b =>
      obtain ⟨he, _, hb, hst, _, hI', hT, hst', hd, hu, _⟩ := hsome b rfl
      subst he
      simp only [open_finish_false, open_next.shape]
      simp only [sqlx_base_s.data, Prod.mk.injEq] at hd
      left
      exact ⟨b, hres, by rw [hd.2.2.2.2.2.2.1], hmiss⟩
  · -- the name is the name of the slot `i`
    rw [hlk]
    have hneg : ¬ ((i : Int) < 0) := by omega
    simp only [hneg, if_false, Int.toNat_ofNat]
    have hlen : i < c.bases.length := by rw [hI.lists.len]; exact hi
    have hidx : (GET c i).index = (i : Int) := hI.lists.idx i hi
    by_cases hrem : l.deadline - mt ≤ 0
    · simp only [hrem, if_true]
      split
      · simp [open_finish_false, open_next.shape]
      · split
        · simp [open_finish_false, open_next.shape]
        · split
          · split
            · simp [open_finish_false, open_next.shape]
            · trivial
          · simp [open_finish_false, open_next.shape]
    · simp only [hrem, if_false]
      have hF := hI.fields i hi
      have hidle : ((GET c i).status = SQLX_BASE_IDLE ∨ (GET c i).status = SQLX_BASE_IDLE_HOT) →
          (match open_finish mt
            ((sqlx_base_move_to_list mt c i SQLX_BASE_USED).update i (fun s =>
              { s with count_open := s.count_open + 1, owner := some l.self }))
            { l with attempts := l.attempts + 1, base := some i } none
            (some (GET ((sqlx_base_move_to_list mt c i SQLX_BASE_USED).update i (fun s =>
              { s with count_open := s.count_open + 1, owner := some l.self })) i).index) true with
          | r => r.shape cfg mt c l) := by
        intro hst
        obtain ⟨_, hT, hs, hd⟩ := claim_spec hI mt l.self hi hst
        simp only [sqlx_base_s.data, Prod.mk.injEq] at hd
        rw [hd.2.2.2.2.2.2.1, hidx]
        obtain ⟨c', hc', haux⟩ := open_finish_true mt
          ((sqlx_base_move_to_list mt c i SQLX_BASE_USED).update i (fun s =>
            { s with count_open := s.count_open + 1, owner := some l.self }))
          { l with attempts := l.attempts + 1, base := some i } none (some (i : Int))
        rw [hc']
        simp only [open_next.shape]
        right; left
        exact ⟨i, hi, hst, hname, rfl, hc'⟩
      split
      · trivial
      · rename_i hst
        exact hidle (Or.inl hst)
      · rename_i hst
        exact hidle (Or.inr hst)
      · -- USED
        rename_i hst
        have hpark : (open_next.wait_used (c.update i (fun s =>
            { s with count_waiting := s.count_waiting + 1, heat := 1 }))
            { l with attempts := l.attempts + 1, base := some i } i).shape cfg mt c l :=
          ⟨hi, hst, rfl⟩
        by_cases how : (GET c i).owner = some l.self
        · simp only [how, ne_eq, not_true_eq_false, if_false, open_finish_false, open_next.shape]
          right; right
          refine ⟨i, hi, hst, how, hname, ?_, rfl⟩
          rw [GET_update_self _ hlen]; simp only; rw [hidx]
        · simp only [how, ne_eq, not_false_eq_true, if_true]
          split
          · split
            · trivial
            · split
              · simp [open_finish_false, open_next.shape]
              · exact hpark
          · exact hpark
      · -- CLOSING
        rfl
      · simp [open_finish_false, open_next.shape]
      · rename_i hst
        exact absurd hst hF.valid

end Sqlx

namespace Sqlx
open sqlx_base_status_e

/-! ## The counters of the opens -/

theorem count_waiting_update (c : sqlx_cache_s) (i j : Nat) (f : sqlx_base_s → sqlx_base_s)
    (hf : ∀ s, (f s).count_waiting = s.count_waiting) :
    (GET (c.update i f) j).count_waiting = (GET c j).count_waiting := by
  rw [GET_update]
  split
  · rename_i h; rw [hf, h.1]
  · rfl

/-- The end of `sqlx_cache_open_and_lock_base` for a base that has been opened:
one open and the time waited are added to its counters, its heat may go to 0,
and nothing else changes. -/
theorem open_finish_opened {mt : Int} {c : sqlx_cache_s} {l : open_locals}
    {err : Option GError} {result : Option Int} {b : Nat} (hb : l.base = some b)
    (hlen : b < c.bases.length) {c' : sqlx_cache_s} {err' : Option GError} {r : Option Int}
    (h : open_finish mt c l err result true = open_next.done c' err' r) :
    (GET c' b).open_attempts
        = grid_single_rrd_add (GET c b).open_attempts (mt.tdiv G_TIME_SPAN_SECOND) 1
    ∧ (GET c' b).open_wait_time
        = grid_single_rrd_add (GET c b).open_wait_time (mt.tdiv G_TIME_SPAN_SECOND)
            (to_guint64 (mt - l.start))
    ∧ (∀ j, j ≠ b → GET c' j = GET c j)
    ∧ (∀ j, (GET c' j).count_waiting = (GET c j).count_waiting)
    ∧ AuxSame c c' := by
  obtain ⟨c2, hc2, haux⟩ := open_finish_true mt c l err result
  rw [hc2] at h
  simp only [open_next.done.injEq] at h
  obtain ⟨rfl, _, _⟩ := h
  simp only [open_finish, hb, if_true, open_next.done.injEq, and_true] at hc2
  subst hc2
  refine ⟨?_, ?_, ?_, ?_, haux⟩
  · split <;> simp [GET_update, hlen]
  · split <;> simp [GET_update, hlen]
  · intro j hj
    split <;> simp [GET_update, hj]
  · intro j
    split
    · rw [count_waiting_update, count_waiting_update, count_waiting_update] <;> intro s <;> rfl
    · rw [count_waiting_update, count_waiting_update] <;> intro s <;> rfl

end Sqlx
namespace Sqlx
open sqlx_base_status_e

theorem claimed_length {c : sqlx_cache_s} {L : beacon_ref → List Nat} (hI : CacheInv c L)
    (mt : Int) (t : GThread) {b : Nat} (hb : b < c.bases_max_hard)
    (hst : (GET c b).status = SQLX_BASE_IDLE ∨ (GET c b).status = SQLX_BASE_IDLE_HOT) :
    b < (claimed mt c b t).bases.length := by
  obtain ⟨h1, hT, _⟩ := claim_spec hI mt t hb hst
  show b < ((sqlx_base_move_to_list mt c b SQLX_BASE_USED).update b _).bases.length
  rw [h1.lists.len, hT.hard]
  exact hb

/-- C21, the claim as stated fails: in a new cache, the thread 7 opens the base
"a" at the time 5; the call reserves the slot 0, that was FREE, and returns no
error; no open and no wait time has been added to the counters of the slot. -/
theorem C21_open_counters_counterexample :
    (GET (sqlx_cache_init demo_cfg 1) 0).status = SQLX_BASE_FREE
    ∧ (sqlx_cache_open_and_lock_base 1 demo_cfg (fun _ => 5) 7 (sqlx_cache_init demo_cfg 1)
        "a" false 0).value = some (none, some 0)
    ∧ (GET ((sqlx_cache_open_and_lock_base 1 demo_cfg (fun _ => 5) 7 (sqlx_cache_init demo_cfg 1)
        "a" false 0).cache_or (sqlx_cache_init demo_cfg 1)) 0).status = SQLX_BASE_USED
    ∧ (GET ((sqlx_cache_open_and_lock_base 1 demo_cfg (fun _ => 5) 7 (sqlx_cache_init demo_cfg 1)
        "a" false 0).cache_or (sqlx_cache_init demo_cfg 1)) 0).open_attempts
        = (GET (sqlx_cache_init demo_cfg 1) 0).open_attempts
    ∧ (GET ((sqlx_cache_open_and_lock_base 1 demo_cfg (fun _ => 5) 7 (sqlx_cache_init demo_cfg 1)
        "a" false 0).cache_or (sqlx_cache_init demo_cfg 1)) 0).open_wait_time
        = (GET (sqlx_cache_init demo_cfg 1) 0).open_wait_time
    ∧ grid_single_rrd_get_delta
        (GET ((sqlx_cache_open_and_lock_base 1 demo_cfg (fun _ => 5) 7
          (sqlx_cache_init demo_cfg 1) "a" false 0).cache_or (sqlx_cache_init demo_cfg 1))
          0).open_attempts 0 60 = 0 := by
  decide

/-- C21 (amended): a pass of `sqlx_cache_open_and_lock_base` that returns no
error returns a slot `b`, and adds one open (at the second `mt / 1000000`) and
the time elapsed since the entry in the function to the counters
`open_attempts` and `open_wait_time` of `b` when, and only when, it has claimed
`b` from the IDLE or the IDLE_HOT list.  When it has newly reserved `b`, that
was FREE, for a name that was not in the index, or when the caller held `b`
already, it adds nothing.  The counters of the other slots are unchanged. -/
theorem C21_open_counters {c : sqlx_cache_s} (hI : ∃ L, CacheInv c L) (cfg : config)
    (mt : Int) (l : open_locals) (c' : sqlx_cache_s) (r : Option Int)
    (h : open_pass cfg mt c l = open_next.done c' none r) :
    ∃ b : Nat, r = some (b : Int) ∧ b < c.bases_max_hard
      ∧ ((GET c b).status = SQLX_BASE_FREE ∨ (GET c b).status = SQLX_BASE_IDLE
          ∨ (GET c b).status = SQLX_BASE_IDLE_HOT ∨ (GET c b).status = SQLX_BASE_USED)
      ∧ ((GET c b).status = SQLX_BASE_IDLE ∨ (GET c b).status = SQLX_BASE_IDLE_HOT →
          (GET c' b).open_attempts
            = grid_single_rrd_add (GET c b).open_attempts (mt.tdiv G_TIME_SPAN_SECOND) 1
          ∧ (GET c' b).open_wait_time
            = grid_single_rrd_add (GET c b).open_wait_time (mt.tdiv G_TIME_SPAN_SECOND)
                (to_guint64 (mt - l.start)))
      ∧ ((GET c b).status = SQLX_BASE_FREE →
          (∀ v, (l.hname, v) ∉ c.bases_by_name)
          ∧ (GET c' b).open_attempts = (GET c b).open_attempts
          ∧ (GET c' b).open_wait_time = (GET c b).open_wait_time)
      ∧ ((GET c b).status = SQLX_BASE_USED →
          (GET c b).owner = some l.self
          ∧ (GET c' b).open_attempts = (GET c b).open_attempts
          ∧ (GET c' b).open_wait_time = (GET c b).open_wait_time)
      ∧ (∀ j, j ≠ b → (GET c' j).open_attempts = (GET c j).open_attempts
          ∧ (GET c' j).open_wait_time = (GET c j).open_wait_time) := by
  obtain ⟨L, hC⟩ := hI
  have hs := open_pass_shape hC cfg mt l
  rw [h] at hs
  simp only [open_next.shape] at hs
  rcases hs with ⟨b, hres, hr, hmiss⟩ | ⟨b, hb, hst, hname, hr, hfin⟩
      | ⟨b, hb, hst, how, hname, hr, hc'⟩
  · -- the slot is newly reserved
    obtain ⟨_, _, hb, hst, _, _, hT, _, hd, _⟩ :=
      (reserve_spec hC l.self mt hmiss).2 b (by rw [hres])
    rw [hres] at hT hd
    simp only [sqlx_base_s.data, Prod.mk.injEq] at hT hd
    obtain ⟨_, _, _, _, _, _, _, d8, d9⟩ := hd
    refine ⟨b, hr, hb, Or.inl hst, ?_, fun _ => ⟨hmiss, d8, d9⟩, ?_, ?_⟩
    · intro h2; rcases h2 with h2 | h2 <;> rw [hst] at h2 <;> simp at h2
    · intro h2; rw [hst] at h2; simp at h2
    · intro j hj
      obtain ⟨_, _, _, _, _, _, _, e8, e9⟩ := data_fields (hT.data j hj)
      exact ⟨e8, e9⟩
  · -- the slot is claimed
    obtain ⟨_, hT, _, hd⟩ := claim_spec hC mt l.self hb hst
    simp only [sqlx_base_s.data, Prod.mk.injEq] at hd
    obtain ⟨_, _, _, _, _, _, _, d8, d9⟩ := hd
    obtain ⟨f1, f2, f3, _⟩ := open_finish_opened (b := b) rfl
      (claimed_length hC mt l.self hb hst) hfin
    refine ⟨b, hr, hb, ?_, fun _ => ⟨?_, ?_⟩, ?_, ?_, ?_⟩
    · rcases hst with h2 | h2
      · exact Or.inr (Or.inl h2)
      · exact Or.inr (Or.inr (Or.inl h2))
    · rw [f1]; exact congrArg (fun x => grid_single_rrd_add x _ 1) d8
    · rw [f2]; exact congrArg (fun x => grid_single_rrd_add x _ _) d9
    · intro h2; rcases hst with h3 | h3 <;> rw [h3] at h2 <;> simp at h2
    · intro h2; rcases hst with h3 | h3 <;> rw [h3] at h2 <;> simp at h2
    · intro j hj
      rw [f3 j hj]
      obtain ⟨_, _, _, _, _, _, _, e8, e9⟩ := data_fields (hT.data j hj)
      exact ⟨e8, e9⟩
  · -- the caller held the slot
    have hlen : b < c.bases.length := by rw [hC.lists.len]; exact hb
    subst hc'
    refine ⟨b, hr, hb, Or.inr (Or.inr (Or.inr hst)), ?_, ?_, fun _ => ⟨how, ?_, ?_⟩, ?_⟩
    · intro h2; rcases h2 with h2 | h2 <;> rw [hst] at h2 <;> simp at h2
    · intro h2; rw [hst] at h2; simp at h2
    · rw [GET_update_self _ hlen]
    · rw [GET_update_self _ hlen]
    · intro j hj
      rw [GET_update_ne _ hj]
      exact ⟨rfl, rfl⟩

/-- The statement of C21 for the thread 8, that claims at the time 10 the base
"a", idle in the slot 0. -/
theorem C21_open_counters_witness :
    (∃ L, CacheInv demo_idle.cache L)
    ∧ (GET demo_idle.cache 0).status = SQLX_BASE_IDLE
    ∧ open_pass demo_cfg 10 demo_idle.cache (open_enter demo_cfg 8 "a" false 0 10)
        = open_next.done
            ((sqlx_cache_open_and_lock_base 1 demo_cfg (fun _ => 10) 8 demo_idle.cache "a"
              false 0).cache_or demo_idle.cache) none (some 0)
    ∧ (GET ((sqlx_cache_open_and_lock_base 1 demo_cfg (fun _ => 10) 8 demo_idle.cache "a"
          false 0).cache_or demo_idle.cache) 0).open_attempts
        = grid_single_rrd_add (GET demo_idle.cache 0).open_attempts
            ((10 : Int).tdiv G_TIME_SPAN_SECOND) 1 := by
  have h : open_pass demo_cfg 10 demo_idle.cache (open_enter demo_cfg 8 "a" false 0 10)
      = open_next.done
          ((sqlx_cache_open_and_lock_base 1 demo_cfg (fun _ => 10) 8 demo_idle.cache "a"
            false 0).cache_or demo_idle.cache) none (some 0) := by decide
  obtain ⟨b, hr, _, _, hidle, _⟩ := C21_open_counters demo_idle_inv demo_cfg 10
    (open_enter demo_cfg 8 "a" false 0 10) _ _ h
  have hb : b = 0 := by
    have := Option.some.inj hr
    omega
  subst hb
  exact ⟨demo_idle_inv, by decide, h, (hidle (Or.inl (by decide))).1⟩

end Sqlx

namespace Events
open Sqlx

/-! ## `_q_manage_message` -/

/-- C25: for every message that is not empty, popped from the front of the
queue, and every outcome of `kafka_publish_message`: on a success
`attempts_put` becomes 0, the message is not put back and the function returns
TRUE; on an error whose code is a retry or a network error the message is put
back at the front of the queue, `attempts_put` is one more (modulo `2 ^ 32`, so
exactly one more below `2 ^ 32 - 1`), and the function returns FALSE; on any
other error the message is given once to `_event_dropped`, it is not put back,
`attempts_put` becomes 0 and the function returns TRUE.  In the three cases one
event, at the second of the end of the publication, is added to
`event_send_count`, and the time elapsed to `event_send_time`. -/
theorem C25_manage_message (codes : error_codes) (q : _queue_with_endpoint_s)
    (ctx : _running_ctx_s) (err : Option kafka_error) (start end_time : Int)
    (msg : String) (rest : List String) (hq : q.queue = msg :: rest) (hmsg : msg ≠ "") :
    (err = none →
      (_q_manage_message codes q ctx err start end_time).2.1.attempts_put = 0
      ∧ (_q_manage_message codes q ctx err start end_time).1.queue = rest
      ∧ (_q_manage_message codes q ctx err start end_time).1.dropped = q.dropped
      ∧ (_q_manage_message codes q ctx err start end_time).2.2 = true)
    ∧ (∀ e, err = some e →
        (codes.CODE_IS_RETRY e.code = true ∨ codes.CODE_IS_NETWORK_ERROR e.code = true) →
        (_q_manage_message codes q ctx err start end_time).1.queue = msg :: rest
        ∧ (_q_manage_message codes q ctx err start end_time).2.1.attempts_put
            = (ctx.attempts_put + 1) % 4294967296
        ∧ (ctx.attempts_put < 4294967295 →
            (_q_manage_message codes q ctx err start end_time).2.1.attempts_put
              = ctx.attempts_put + 1)
        ∧ (_q_manage_message codes q ctx err start end_time).1.dropped = q.dropped
        ∧ (_q_manage_message codes q ctx err start end_time).2.2 = false)
    ∧ (∀ e, err = some e →
        ¬ (codes.CODE_IS_RETRY e.code = true ∨ codes.CODE_IS_NETWORK_ERROR e.code = true) →
        (_q_manage_message codes q ctx err start end_time).1.dropped = msg :: q.dropped
        ∧ (_q_manage_message codes q ctx err start end_time).1.queue = rest
        ∧ (_q_manage_message codes q ctx err start end_time).2.1.attempts_put = 0
        ∧ (_q_manage_message codes q ctx err start end_time).2.2 = true)
    ∧ (_q_manage_message codes q ctx err start end_time).1.event_send_count
        = grid_single_rrd_add q.event_send_count (end_time.tdiv G_TIME_SPAN_SECOND) 1
    ∧ (_q_manage_message codes q ctx err start end_time).1.event_send_time
        = grid_single_rrd_add q.event_send_time (end_time.tdiv G_TIME_SPAN_SECOND)
            (to_guint64 (end_time - start))
    ∧ (∀ period : Nat, 1 ≤ period →
        grid_single_rrd_get_delta
            (_q_manage_message codes q ctx err start end_time).1.event_send_count
            (end_time.tdiv G_TIME_SPAN_SECOND) period
          = grid_single_rrd_get_delta q.event_send_count
              (end_time.tdiv G_TIME_SPAN_SECOND) period + 1) := by
  have hcount : (_q_manage_message codes q ctx err start end_time).1.event_send_count
      = grid_single_rrd_add q.event_send_count (end_time.tdiv G_TIME_SPAN_SECOND) 1 := by
    simp only [_q_manage_message, hq, hmsg, if_false]
    cases err with
    | none => rfl
    | some e => simp only; split <;> rfl
  refine ⟨?_, ?_, ?_, hcount, ?_, ?_⟩
  · rintro rfl
    simp only [_q_manage_message, hq, hmsg, if_false, and_self]
  · intro e he hr
    subst he
    simp only [_q_manage_message, hq, hmsg, if_false, hr, if_true, true_and, and_true]
    intro hlt
    exact Nat.mod_eq_of_lt (by omega)
  · intro e he hr
    subst he
    simp only [_q_manage_message, hq, hmsg, if_false, hr, and_self]
  · simp only [_q_manage_message, hq, hmsg, if_false]
    cases err with
    | none => rfl
    | some e => simp only; split <;> rfl
  · intro period hp
    rw [hcount]
    simp only [grid_single_rrd_get_delta, grid_single_rrd_add]
    have hin : decide (end_time.tdiv G_TIME_SPAN_SECOND - (period : Int)
        < end_time.tdiv G_TIME_SPAN_SECOND
        ∧ end_time.tdiv G_TIME_SPAN_SECOND ≤ end_time.tdiv G_TIME_SPAN_SECOND) = true := by
      simp only [decide_eq_true_eq]
      constructor
      · have : (1 : Int) ≤ (period : Int) := by exact_mod_cast hp
        omega
      · exact le_refl _
    rw [List.filter_cons_of_pos (by simpa using hin)]
    simp only [List.map_cons, List.sum_cons]
    omega

/-- The statement of C25 for the message "m", popped from a queue that holds
"m" and "n", after two failed attempts, when the broker returns a network
error. -/
theorem C25_manage_message_witness :
    demo_queue.queue = "m" :: ["n"] ∧ ("m" : String) ≠ ""
    ∧ demo_codes.CODE_IS_NETWORK_ERROR 1 = true
    ∧ (_q_manage_message demo_codes demo_queue demo_ctx (some ⟨1, "down"⟩) 5 9).1.queue
        = "m" :: ["n"]
    ∧ (_q_manage_message demo_codes demo_queue demo_ctx (some ⟨1, "down"⟩) 5 9).2.1.attempts_put
        = (demo_ctx.attempts_put + 1) % 4294967296
    ∧ (_q_manage_message demo_codes demo_queue demo_ctx (some ⟨1, "down"⟩) 5 9).2.2 = false := by
  obtain ⟨h1, h2, _, _, h5⟩ :=
    (C25_manage_message demo_codes demo_queue demo_ctx (some ⟨1, "down"⟩) 5 9 "m" ["n"] rfl
      (by decide)).2.1 ⟨1, "down"⟩ rfl (Or.inr (by decide))
  exact ⟨rfl, by decide, by decide, h1, h2, h5⟩

end Events

namespace Sqlx
open sqlx_base_status_e

/-! ## The cache after `sqlx_cache_init` and the first opens -/

theorem list_from_eq (c : sqlx_cache_s) :
    ∀ (l : List Nat), l.Nodup → (∀ x ∈ l, (GET c x).link_next = nextOf l x) →
      ∀ fuel, l.length ≤ fuel → list_from c fuel (headI l) = l := by
  intro l
  induction l with
  | nil =>
    intro _ _ fuel _
    cases fuel <;> simp [list_from, headI]
  | cons a l ih =>
    intro hn hnext fuel hf
    obtain ⟨f, rfl⟩ : ∃ f, fuel = f + 1 := ⟨fuel - 1, by simp at hf; omega⟩
    have hn' := List.nodup_cons.mp hn
    have ha : (GET c a).link_next = headI l := by
      rw [hnext a (by simp)]
      simp [nextOf]
    have hne : ((a : Nat) : Int) ≠ -1 := by omega
    simp only [list_from, headI, hne, ne_eq, not_false_eq_true, if_true, Int.toNat_ofNat, ha]
    congr 1
    apply ih hn'.2
    · intro x hx
      rw [hnext x (by simp [hx])]
      have hxa : x ≠ a := by
        rintro rfl
        exact hn'.1 hx
      simp [nextOf, hxa]
    · simp at hf; omega

theorem nodup_length_le {l : List Nat} {n : Nat} (hn : l.Nodup) (hl : ∀ x ∈ l, x < n) :
    l.length ≤ n := by
  have h2 : l.toFinset ⊆ Finset.range n := by
    intro x hx
    simp only [List.mem_toFinset] at hx
    simp [hl x hx]
  have h3 := Finset.card_le_card h2
  rw [List.toFinset_card_of_nodup hn, Finset.card_range] at h3
  exact h3

/-- The list of a beacon, read through the links, is the list of the
invariant. -/
theorem beacon_slots_eq {c : sqlx_cache_s} {L : beacon_ref → List Nat} (hL : Lists c L)
    (r : beacon_ref) : beacon_slots c r = L r := by
  have hd := hL.dl r
  simp only [beacon_slots]
  rw [hd.first]
  apply list_from_eq c (L r) hd.nodup hd.next
  exact nodup_length_le hd.nodup hd.lt

end Sqlx
namespace Sqlx
open sqlx_base_status_e

theorem reserve_frame (self : GThread) (mt : Int) (c : sqlx_cache_s) (hs : hashstr_t) :
    (sqlx_base_reserve self mt c hs).1.is_running = c.is_running
    ∧ (sqlx_base_reserve self mt c hs).1.bases_max_soft = c.bases_max_soft
    ∧ (sqlx_base_reserve self mt c hs).1.bases_max_hard = c.bases_max_hard := by
  simp only [sqlx_base_reserve]
  split
  · split <;> exact ⟨rfl, rfl, rfl⟩
  · split
    · exact ⟨rfl, rfl, rfl⟩
    · simp only [sqlx_save_id]
      split <;> simp

/-- Successive opens of distinct names that are not in the index, while there
is room under the soft limit, take the slots of the FREE list in its order. -/
theorem opens_values_fresh (fuel : Nat) (cfg : config) (clock : Nat → Int) :
    ∀ (calls : List (GThread × hashstr_t × Bool × Int)) (c : sqlx_cache_s)
      (L : beacon_ref → List Nat) (j : Nat),
      CacheInv c L → c.is_running = true →
      L beacon_ref.free = List.range' j (c.bases_max_hard - j) → c.bases_used = j →
      (calls.map (fun call => call.2.1)).Nodup →
      (∀ call ∈ calls, ∀ v, (call.2.1, v) ∉ c.bases_by_name) →
      j + calls.length ≤ c.bases_max_soft →
      opens_values (fuel + 1) cfg clock calls c
        = (List.range' j calls.length).map (fun i => some (none, some (i : Int))) := by
  intro calls
  induction calls with
  | nil => intro c L j _ _ _ _ _ _ _; rfl
  | cons call calls ih =>
    intro c L j hI hrun hfree hused hnd hmiss hlen
    obtain ⟨t, hname, urgent, deadline⟩ := call
    simp only [List.length_cons] at hlen
    simp only [List.map_cons, List.nodup_cons] at hnd
    have hsoft := hI.soft
    have hjlt : j < c.bases_max_hard := by omega
    have hmiss0 : ∀ v, (hname, v) ∉ c.bases_by_name := hmiss (t, hname, urgent, deadline) (by simp)
    have hroom : c.bases_used < c.bases_max_soft := by omega
    obtain ⟨b, hb⟩ := reserve_some hI t (clock 1) hname hroom
    obtain ⟨_, _, hblt, _, hfirst, hI', hT, hst', hd, hu, htree⟩ :=
      (reserve_spec hI t (clock 1) hmiss0).2 b hb
    have hrange : List.range' j (c.bases_max_hard - j)
        = j :: List.range' (j + 1) (c.bases_max_hard - (j + 1)) := by
      obtain ⟨m, hm⟩ : ∃ m, c.bases_max_hard - j = m + 1 := ⟨c.bases_max_hard - j - 1, by omega⟩
      rw [hm, List.range'_succ]
      congr 2
      omega
    have hbj : b = j := by
      have h1 := hI.lists.first_of_cons (r := beacon_ref.free) (hfree.trans hrange)
      simp only [sqlx_cache_s.beacon] at h1
      omega
    subst hbj
    simp only [sqlx_base_s.data, Prod.mk.injEq] at hd
    have hp := open_pass_reserved hI hrun cfg (clock 1)
      (open_enter cfg t hname urgent deadline (clock 0)) hmiss0 (b := b) hb
    have hcall : sqlx_cache_open_and_lock_base (fuel + 1) cfg clock t c hname urgent deadline
        = call_result.returned (sqlx_base_reserve t (clock 1) c hname).1
            (none, some (b : Int)) := by
      simp only [sqlx_cache_open_and_lock_base, open_loop, hp]
      rw [show (open_enter cfg t hname urgent deadline (clock 0)).self = t from rfl,
        show (open_enter cfg t hname urgent deadline (clock 0)).hname = hname from rfl,
        hd.2.2.2.2.2.2.1]
    obtain ⟨f1, f2, f3⟩ := reserve_frame t (clock 1) c hname
    simp only [opens_values, hcall, call_result.value, call_result.cache_or, List.length_cons,
      List.range'_succ, List.map_cons]
    congr 1
    apply ih _ (L_move L SQLX_BASE_FREE SQLX_BASE_USED b) (b + 1) hI' (f1.trans hrun)
    · rw [f3]
      have : L_move L SQLX_BASE_FREE SQLX_BASE_USED b beacon_ref.free
          = (L beacon_ref.free).erase b := by
        simp [L_move, L_add, L_remove, beacon_ref.status]
      rw [this, hfree, hrange]
      simp
    · rw [hu, hused]
    · exact hnd.2
    · intro call hc v hv
      rw [htree] at hv
      simp only [g_tree_replace, List.mem_cons, Prod.mk.injEq] at hv
      rcases hv with ⟨h1, _⟩ | hv
      · apply hnd.1
        rw [← h1]
        exact List.mem_map_of_mem (fun call => call.2.1) hc
      · exact hmiss call (by simp [hc]) v (mem_g_tree_remove.mp hv).1
    · rw [f2]; omega

end Sqlx
namespace Sqlx
open sqlx_base_status_e

/-- C22: after `sqlx_cache_init`, with `N = bases_max_hard` slots (the capacity
of the configuration, or 1024 when it is 0), every slot is FREE,
`bases_used = 0`, the IDLE, IDLE_HOT and USED lists are empty, and the FREE list
read from its first slot through `link.next` is `0, 1, ..., N - 1`.  Hence
successive calls of `sqlx_cache_open_and_lock_base` for distinct names, as many
as `bases_max_soft` at most, each by a thread that runs alone, return no error
and the slots `0, 1, ...` in this order. -/
theorem C22_init_order (cfg : config) (mt : Int) :
    (sqlx_cache_init cfg mt).bases_max_hard
      = (if cfg.sqliterepo_repo_max_bases_hard ≠ 0 then cfg.sqliterepo_repo_max_bases_hard
          else 1024)
    ∧ (∀ i, i < (sqlx_cache_init cfg mt).bases_max_hard →
        (GET (sqlx_cache_init cfg mt) i).status = SQLX_BASE_FREE)
    ∧ (sqlx_cache_init cfg mt).bases_used = 0
    ∧ beacon_slots (sqlx_cache_init cfg mt) beacon_ref.idle = []
    ∧ beacon_slots (sqlx_cache_init cfg mt) beacon_ref.idle_hot = []
    ∧ beacon_slots (sqlx_cache_init cfg mt) beacon_ref.used = []
    ∧ (sqlx_cache_init cfg mt).beacon_idle = ⟨-1, -1⟩
    ∧ (sqlx_cache_init cfg mt).beacon_idle_hot = ⟨-1, -1⟩
    ∧ (sqlx_cache_init cfg mt).beacon_used = ⟨-1, -1⟩
    ∧ beacon_slots (sqlx_cache_init cfg mt) beacon_ref.free
        = List.range (sqlx_cache_init cfg mt).bases_max_hard
    ∧ (∀ (fuel : Nat) (cfg2 : config) (clock : Nat → Int)
        (calls : List (GThread × hashstr_t × Bool × Int)),
        (calls.map (fun call => call.2.1)).Nodup →
        calls.length ≤ (sqlx_cache_init cfg mt).bases_max_soft →
        opens_values (fuel + 1) cfg2 clock calls (sqlx_cache_init cfg mt)
          = (List.range calls.length).map (fun i => some (none, some (i : Int)))) := by
  have hI := init_CacheInv cfg mt
  have hL := hI.lists
  have hfree : L_free (List.range (sqlx_cache_init cfg mt).bases_max_hard) beacon_ref.free
      = List.range (sqlx_cache_init cfg mt).bases_max_hard := by
    simp [L_free, beacon_ref.status]
  have hnil : ∀ r : beacon_ref, r ≠ beacon_ref.free →
      L_free (List.range (sqlx_cache_init cfg mt).bases_max_hard) r = [] := by
    intro r hr
    cases r <;> simp [L_free, beacon_ref.status] at hr ⊢
  have hbeacon : ∀ r : beacon_ref, r ≠ beacon_ref.free →
      (sqlx_cache_init cfg mt).beacon r = ⟨-1, -1⟩ := by
    intro r hr
    obtain ⟨h1, h2⟩ := hL.first_of_nil (hnil r hr)
    cases hb : (sqlx_cache_init cfg mt).beacon r
    rw [hb] at h1 h2
    simp only at h1 h2
    rw [h1, h2]
  have hhard : (sqlx_cache_init cfg mt).bases_max_hard
      = (if cfg.sqliterepo_repo_max_bases_hard ≠ 0 then cfg.sqliterepo_repo_max_bases_hard
          else 1024) := by
    have h := (init_stack_frame mt (sqlx_cache_init_alloc cfg mt).bases_max_hard
      (sqlx_cache_init_alloc cfg mt)).2
    exact h
  have hused : (sqlx_cache_init cfg mt).bases_used = 0 := by
    have h := hI.used
    rw [hfree, List.length_range] at h
    omega
  refine ⟨hhard, ?_, hused, ?_, ?_, ?_, hbeacon beacon_ref.idle (by simp),
    hbeacon beacon_ref.idle_hot (by simp), hbeacon beacon_ref.used (by simp), ?_, ?_⟩
  · intro i hi
    exact ((hL.mem beacon_ref.free i).mp (by rw [hfree]; exact List.mem_range.mpr hi)).2
  · rw [beacon_slots_eq hL, hnil _ (by simp)]
  · rw [beacon_slots_eq hL, hnil _ (by simp)]
  · rw [beacon_slots_eq hL, hnil _ (by simp)]
  · rw [beacon_slots_eq hL, hfree]
  · intro fuel cfg2 clock calls hnd hlen
    have h := opens_values_fresh fuel cfg2 clock calls (sqlx_cache_init cfg mt) _ 0 hI rfl
      (by rw [hfree, List.range_eq_range']; rfl) hused hnd
      (by
        intro call _ v hv
        obtain ⟨i, hi, _, _, hs⟩ := hI.tree_sound _ _ hv
        exact hs ((hL.mem beacon_ref.free i).mp
          (by rw [hfree]; exact List.mem_range.mpr hi)).2)
      (by omega)
    rw [h, List.range_eq_range']

/-- The statement of C22 for two opens in a new cache of two slots. -/
theorem C22_init_order_witness :
    (sqlx_cache_init demo_cfg 1).bases_max_hard = 2
    ∧ beacon_slots (sqlx_cache_init demo_cfg 1) beacon_ref.free = [0, 1]
    ∧ opens_values 1 demo_cfg (fun _ => 5) [(7, "a", false, 0), (8, "b", false, 0)]
        (sqlx_cache_init demo_cfg 1)
        = [some (none, some 0), some (none, some 1)] := by
  obtain ⟨h1, _, _, _, _, _, _, _, _, h2, h3⟩ := C22_init_order demo_cfg 1
  refine ⟨by decide, by rw [h2]; decide, ?_⟩
  rw [h3 0 demo_cfg (fun _ => 5) _ (by decide) (by decide)]
  rfl

end Sqlx

namespace Sqlx
open sqlx_base_status_e

/-! ## The order of the idle lists, one section of code after the other -/

theorem cooling_step {c c' : sqlx_cache_s} {L L' : beacon_ref → List Nat} {now m : Int} {b : Nat}
    (hC : Cooling c L now) (hle : now ≤ m)
    (h : ∀ r, (r = beacon_ref.idle ∨ r = beacon_ref.idle_hot) →
      ∃ rest, rest.Sublist (L r)
        ∧ (∀ j ∈ rest, (GET c' j).last_update = (GET c j).last_update)
        ∧ (L' r = rest ∨ (L' r = b :: rest ∧ (GET c' b).last_update = m))) :
    Cooling c' L' m := by
  intro r hr
  obtain ⟨rest, hsub, hlu, hL'⟩ := h r hr
  obtain ⟨hp, hb⟩ := hC r hr
  have hp' : rest.Pairwise (fun i j => (GET c' j).last_update ≤ (GET c' i).last_update) := by
    refine (hp.sublist hsub).imp_of_mem ?_
    intro i j hi hj hij
    rw [hlu i hi, hlu j hj]; exact hij
  have hb' : ∀ i ∈ rest, (GET c' i).last_update ≤ m := by
    intro i hi
    rw [hlu i hi]
    exact le_trans (hb i (hsub.subset hi)) hle
  rcases hL' with h1 | ⟨h1, h2⟩
  · rw [h1]; exact ⟨hp', hb'⟩
  · rw [h1]
    refine ⟨List.pairwise_cons.mpr ⟨?_, hp'⟩, ?_⟩
    · intro j hj; rw [h2]; exact hb' j hj
    · intro i hi
      rcases List.mem_cons.mp hi with rfl | hi
      · rw [h2]
      · exact hb' i hi

theorem move_sublist (L : beacon_ref → List Nat) (x y : sqlx_base_status_e) (b : Nat)
    (r : beacon_ref) (hr : r.status ≠ y) : (L_move L x y b r).Sublist (L r) := by
  unfold L_move
  split
  · exact List.Sublist.refl _
  · simp only [L_add, hr, if_false, L_remove]
    split
    · exact List.erase_sublist _ _
    · exact List.Sublist.refl _

theorem idle_status_ne {r : beacon_ref} (hr : r = beacon_ref.idle ∨ r = beacon_ref.idle_hot) :
    (r.status = SQLX_BASE_IDLE ∨ r.status = SQLX_BASE_IDLE_HOT) ∧ r.status ≠ SQLX_BASE_FREE
      ∧ r.status ≠ SQLX_BASE_USED ∧ r.status ≠ SQLX_BASE_CLOSING
      ∧ r.status ≠ SQLX_BASE_CLOSING_FOR_DELETION := by
  rcases hr with rfl | rfl <;> simp [beacon_ref.status]

/-- A section of code that takes the slot `b` out of the idle lists, or leaves
them as they are, keeps their order. -/
theorem cool_sub {c c' : sqlx_cache_s} {L L' : beacon_ref → List Nat} {b : Nat} (m : Int)
    (hI' : CacheInv c' L')
    (hsub : ∀ r, (r = beacon_ref.idle ∨ r = beacon_ref.idle_hot) → (L' r).Sublist (L r))
    (hst : (GET c' b).status ≠ SQLX_BASE_IDLE ∧ (GET c' b).status ≠ SQLX_BASE_IDLE_HOT)
    (hR : ∀ j, j ≠ b → (GET c' j).last_update = (GET c j).last_update) : Cool m c L c' := by
  refine ⟨L', hI', fun now hC hle => cooling_step (b := b) hC hle ?_⟩
  intro r hr
  refine ⟨L' r, hsub r hr, ?_, Or.inl rfl⟩
  intro j hj
  apply hR
  rintro rfl
  have h2 := ((hI'.lists.mem r j).1 hj).2
  rcases (idle_status_ne hr).1 with h | h
  · exact hst.1 (h2.trans h)
  · exact hst.2 (h2.trans h)

/-- A section of code that changes no list and no `last_update` keeps the order
of the idle lists. -/
theorem cool_same {c c' : sqlx_cache_s} {L : beacon_ref → List Nat} (m : Int)
    (hI' : CacheInv c' L)
    (hR : ∀ j, (GET c' j).last_update = (GET c j).last_update) : Cool m c L c' := by
  refine ⟨L, hI', fun now hC hle => cooling_step (b := 0) hC hle ?_⟩
  intro r _
  exact ⟨L r, List.Sublist.refl _, fun j _ => hR j, Or.inl rfl⟩

/-- The release of the slot `b`, that was in use, at the time `m`, keeps the
order of the idle lists: `b` is the first of its list, and the latest. -/
theorem cool_cons {c c' : sqlx_cache_s} {L : beacon_ref → List Nat} {b : Nat} {m : Int}
    {y : sqlx_base_status_e} (hL : Lists c L)
    (hI' : CacheInv c' (L_move L SQLX_BASE_USED y b))
    (hst : (GET c b).status = SQLX_BASE_USED)
    (hR : ∀ j, j ≠ b → (GET c' j).last_update = (GET c j).last_update)
    (hlu : (GET c' b).last_update = m) : Cool m c L c' := by
  refine ⟨_, hI', fun now hC hle => cooling_step (b := b) hC hle ?_⟩
  intro r hr
  have hne := idle_status_ne hr
  refine ⟨L r, List.Sublist.refl _, ?_, ?_⟩
  · intro j hj
    apply hR
    rintro rfl
    have h2 := ((hL.mem r j).1 hj).2
    exact hne.2.2.1 (h2.symm.trans hst)
  · unfold L_move
    split
    · exact Or.inl rfl
    · simp only [L_add, L_remove, hne.2.2.1, if_false]
      split
      · exact Or.inr ⟨rfl, hlu⟩
      · exact Or.inl rfl

theorem waiting_of_touch {c c' : sqlx_cache_s} {b : Nat} (hT : Touch c c' b)
    (hb : (GET c' b).count_waiting = (GET c b).count_waiting) (j : Nat) :
    (GET c' j).count_waiting = (GET c j).count_waiting := by
  by_cases hj : j = b
  · rw [hj]; exact hb
  · have := hT.data j hj
    simp only [sqlx_base_s.data, Prod.mk.injEq] at this
    exact this.2.2.2.2.2.1

theorem Calm.quiet {m : Int} {c c' : sqlx_cache_s} {L : beacon_ref → List Nat}
    (hw : ∀ j, (GET c' j).count_waiting = (GET c j).count_waiting) (hc : Cool m c L c')
    (o : Option Nat) : Calm m c L c' o o :=
  ⟨fun j => by rw [hw j], hc⟩

theorem Calm.calm_refl {c : sqlx_cache_s} {L : beacon_ref → List Nat} (hI : CacheInv c L)
    (m : Int) (o : Option Nat) : Calm m c L c o o :=
  Calm.quiet (fun _ => rfl) (cool_same m hI (fun _ => rfl)) o

/-- Two sections of code run one after the other at the same time. -/
theorem Calm.calm_then {m : Int} {c c1 c' : sqlx_cache_s} {L : beacon_ref → List Nat}
    {inc dec : Option Nat} (h1 : Calm m c L c1 none dec)
    (h2 : ∀ L1, CacheInv c1 L1 → Calm m c1 L1 c' inc none) : Calm m c L c' inc dec := by
  obtain ⟨L1, hI1, hC1⟩ := h1.cool
  have h3 := h2 L1 hI1
  obtain ⟨L2, hI2, hC2⟩ := h3.cool
  refine ⟨fun j => ?_, L2, hI2, fun now hC hle => hC2 m (hC1 now hC hle) (le_refl m)⟩
  have e1 := h1.waiting j
  have e2 := h3.waiting j
  simp only [reduceCtorEq, if_false, Nat.add_zero] at e1 e2
  omega

theorem Calm.calm_inv {m : Int} {c c' : sqlx_cache_s} {L : beacon_ref → List Nat}
    {inc dec : Option Nat} (h : Calm m c L c' inc dec) : ∃ L', CacheInv c' L' := by
  obtain ⟨L', hI, _⟩ := h.cool
  exact ⟨L', hI⟩

end Sqlx

namespace Sqlx
open sqlx_base_status_e

/-! ## The sections of code of the cache keep the counts and the order -/

theorem reserve_rest (self : GThread) (mt : Int) {c : sqlx_cache_s} (hs : hashstr_t) {b : Nat}
    (hlen : b < c.bases.length) (h : (sqlx_base_reserve self mt c hs).2.2 = some b) :
    Rest c (sqlx_base_reserve self mt c hs).1 b := by
  simp only [sqlx_base_reserve] at h ⊢
  split at h
  · split at h <;> simp at h
  · rename_i hfull
    rw [if_neg hfull]
    split at h
    · simp at h
    · rename_i base hget
      simp only [Option.some.injEq] at h
      subst h
      have h3 : ∀ c1 : sqlx_cache_s, Rest c1 (sqlx_save_id c1 base) base := by
        intro c1
        simp only [sqlx_save_id]
        split
        · exact Rest.rest_bases base rfl rfl rfl rfl rfl rfl rfl
        · exact Rest.rest_refl _ _
      refine Rest.rest_trans ?_ (h3 _)
      refine Rest.rest_trans ?_ (Rest.rest_move mt _ ?_ _)
      · refine Rest.rest_trans ?_ (Rest.rest_update _ base _)
        exact Rest.rest_bases base rfl rfl rfl rfl rfl rfl rfl
      · simpa using hlen

/-- The reservation of a FREE slot keeps the counts and the order. -/
theorem reserve_calm {c : sqlx_cache_s} {L : beacon_ref → List Nat} (hI : CacheInv c L)
    (self : GThread) (mt : Int) {hs : hashstr_t} (hmiss : ∀ v, (hs, v) ∉ c.bases_by_name)
    {b : Nat} (h : (sqlx_base_reserve self mt c hs).2.2 = some b) (m : Int) (o : Option Nat) :
    Calm m c L (sqlx_base_reserve self mt c hs).1 o o := by
  obtain ⟨_, _, hb, _, _, hI', hT, hst, hd, _⟩ := (reserve_spec hI self mt hmiss).2 b h
  have hlen : b < c.bases.length := by rw [hI.lists.len]; exact hb
  simp only [sqlx_base_s.data, Prod.mk.injEq] at hd
  refine Calm.quiet (waiting_of_touch hT hd.2.2.2.2.2.1) ?_ o
  refine cool_sub (b := b) m hI' (fun r hr => move_sublist _ _ _ _ _ (idle_status_ne hr).2.2.1)
    ?_ (reserve_rest self mt hs hlen h).last_update
  rw [hst]; simp

/-- The claim of an idle slot keeps the counts and the order. -/
theorem claim_calm {c : sqlx_cache_s} {L : beacon_ref → List Nat} (hI : CacheInv c L)
    (mt : Int) (t : GThread) {b : Nat} (hb : b < c.bases_max_hard)
    (hst : (GET c b).status = SQLX_BASE_IDLE ∨ (GET c b).status = SQLX_BASE_IDLE_HOT)
    (m : Int) (o : Option Nat) : Calm m c L (claimed mt c b t) o o := by
  obtain ⟨hI', hT, hst', hd⟩ := claim_spec hI mt t hb hst
  have hlen : b < c.bases.length := by rw [hI.lists.len]; exact hb
  simp only [sqlx_base_s.data, Prod.mk.injEq] at hd
  refine Calm.quiet (waiting_of_touch hT hd.2.2.2.2.2.1) ?_ o
  refine cool_sub (b := b) m hI' (fun r hr => move_sublist _ _ _ _ _ (idle_status_ne hr).2.2.1)
    ?_ ((Rest.rest_move mt c hlen SQLX_BASE_USED).rest_trans (Rest.rest_update _ b _)).last_update
  rw [hst']; simp

/-- The first half of an eviction keeps the counts and the order. -/
theorem first_idle_begin_calm {c : sqlx_cache_s} {L : beacon_ref → List Nat} (hI : CacheInv c L)
    {cfg : config} {self : GThread} {mt now : Int} {c' : sqlx_cache_s} {b : Nat}
    (h : sqlx_expire_first_idle_base_begin cfg self mt c now = some (c', b))
    (m : Int) (o : Option Nat) : Calm m c L c' o o := by
  have hR := first_idle_begin_rest hI h
  obtain ⟨hnone, hsome⟩ := first_idle_begin_spec hI cfg self mt now
  cases hv : expire_victim cfg c now with
  | none => rw [hnone hv] at h; simp at h
  | some b' =>
    obtain ⟨c'', hc'', hI', hT, hst, hd, _⟩ := hsome b' hv
    rw [hc''] at h
    simp only [Option.some.injEq, Prod.mk.injEq] at h
    obtain ⟨rfl, rfl⟩ := h
    simp only [sqlx_base_s.data, Prod.mk.injEq] at hd
    refine Calm.quiet (waiting_of_touch hT hd.2.2.2.2.2.1) ?_ o
    refine cool_sub (b := b') m hI' (fun r hr => ?_) ?_ hR.last_update
    · exact (move_sublist _ _ _ _ _ (idle_status_ne hr).2.2.2.1).trans
        (move_sublist _ _ _ _ _ (idle_status_ne hr).2.2.1)
    · rw [hst]; simp

/-- The second half of an eviction keeps the counts and the order. -/
theorem expire_end_calm {c : sqlx_cache_s} {L : beacon_ref → List Nat} (hI : CacheInv c L)
    (mt : Int) {b : Nat} (hb : b < c.bases_max_hard)
    (hcl : (GET c b).status = SQLX_BASE_CLOSING
      ∨ (GET c b).status = SQLX_BASE_CLOSING_FOR_DELETION)
    (m : Int) (o : Option Nat) : Calm m c L (_expire_base_end mt c b) o o := by
  obtain ⟨hI', hT, hst, hd, _⟩ := expire_end_spec hI mt hb hcl
  have hlen : b < c.bases.length := by rw [hI.lists.len]; exact hb
  simp only [sqlx_base_s.data, Prod.mk.injEq] at hd
  refine Calm.quiet (waiting_of_touch hT hd.2.2.2.2.2.1) ?_ o
  refine cool_sub (b := b) m hI' (fun r hr => move_sublist _ _ _ _ _ (idle_status_ne hr).2.1)
    ?_ (expire_base_end_rest mt c hlen).last_update
  rw [hst]; simp

/-- The close of an opening that is not the last one keeps the counts and the
order, and so does an opening more by the owner of the base. -/
theorem update_calm {c : sqlx_cache_s} {L : beacon_ref → List Nat} {b : Nat}
    (hI : CacheInv c L) (hb : b < c.bases_max_hard)
    {f : sqlx_base_s → sqlx_base_s}
    (hf : ∀ s, (f s).link_prev = s.link_prev ∧ (f s).link_next = s.link_next
      ∧ (f s).status = s.status ∧ (f s).index = s.index ∧ (f s).name = s.name)
    (hg : ∀ s, (f s).last_update = s.last_update ∧ (f s).count_waiting = s.count_waiting)
    (hnf : (GET c b).status ≠ SQLX_BASE_FREE)
    (hF : Fields (f (GET c b))) (m : Int) (o : Option Nat) : Calm m c L (c.update b f) o o := by
  obtain ⟨hI', _⟩ := hI.update_keep hb hf hnf hF
  refine Calm.quiet (fun j => ?_) (cool_same m hI'
    (fun j => last_update_update c b j f (fun s => (hg s).1))) o
  rw [GET_update]
  split
  · rename_i h; rw [h.1]; exact (hg _).2
  · rfl

/-- A change of the heat and of the counters of the openings of a slot keeps
the order; the counts change as the section of code tells. -/
theorem aux_calm {c c' : sqlx_cache_s} {L : beacon_ref → List Nat} (hI : CacheInv c L)
    (h : AuxSame c c') {inc dec : Option Nat}
    (hw : ∀ j, (GET c' j).count_waiting + (if dec = some j then 1 else 0)
      = (GET c j).count_waiting + (if inc = some j then 1 else 0)) (m : Int) :
    Calm m c L c' inc dec :=
  ⟨hw, cool_same m (hI.inv_aux h) (fun j => (h.slot j).2.2.2.1)⟩

theorem unlock_release_rest (cfg : config) (mt : Int) {c : sqlx_cache_s} {b : Nat}
    (hlen : b < c.bases.length) : Rest c (unlock_release cfg mt c b) b := by
  simp only [unlock_release]
  by_cases hk : c.unlock_hook = true
  · rw [if_pos hk]
    split
    all_goals
      refine Rest.rest_trans ?_ (Rest.rest_move mt _ ?_ _)
      · refine Rest.rest_trans ?_ (Rest.rest_update _ b _)
        exact Rest.rest_bases b rfl rfl rfl rfl rfl rfl rfl
      · simpa using hlen
  · rw [if_neg hk]
    split
    all_goals
      refine Rest.rest_trans ?_ (Rest.rest_move mt _ ?_ _)
      · exact Rest.rest_update _ b _
      · simpa using hlen

theorem unlock_release_last_update (cfg : config) (mt : Int) {c : sqlx_cache_s} {b : Nat}
    (hlen : b < c.bases.length) (hst : (GET c b).status = SQLX_BASE_USED) :
    (GET (unlock_release cfg mt c b) b).last_update = mt := by
  have key : ∀ (c1 : sqlx_cache_s) (y : sqlx_base_status_e), c1.bases = c.bases →
      (y = SQLX_BASE_IDLE ∨ y = SQLX_BASE_IDLE_HOT) →
      (GET (sqlx_base_move_to_list mt (c1.update b (fun s => { s with owner := none })) b y)
        b).last_update = mt := by
    intro c1 y h1 hy
    have hl1 : b < c1.bases.length := by rw [h1]; exact hlen
    rw [move_to_list_last_update mt _ (by simpa using hl1), if_pos]
    refine ⟨rfl, ?_, by rcases hy with rfl | rfl <;> rfl⟩
    rw [GET_update_self _ hl1]
    have h2 : GET c1 b = GET c b := by simp [GET, h1]
    rw [h2]
    simp only
    rw [hst]
    rcases hy with rfl | rfl <;> simp
  simp only [unlock_release]
  by_cases hk : c.unlock_hook = true
  · rw [if_pos hk]
    split
    · exact key _ _ rfl (Or.inr rfl)
    · exact key _ _ rfl (Or.inl rfl)
  · rw [if_neg hk]
    split
    · exact key _ _ rfl (Or.inr rfl)
    · exact key _ _ rfl (Or.inl rfl)

/-- The release of a base whose last opening is closed, at the time `mt`, keeps
the counts and the order. -/
theorem released_calm {c : sqlx_cache_s} {L : beacon_ref → List Nat} (hI : CacheInv c L)
    (cfg : config) (mt : Int) {b : Nat} (hb : b < c.bases_max_hard)
    (hst : (GET c b).status = SQLX_BASE_USED) (hco : (GET c b).count_open = 1)
    (o : Option Nat) : Calm mt c L (released cfg mt c b) o o := by
  have hlen : b < c.bases.length := by rw [hI.lists.len]; exact hb
  obtain ⟨hB, hT, hG⟩ := unlock_dec_but hI hb hst
  have hdec : guint_dec (GET c b).count_open = 0 := by rw [hco]; rfl
  rw [hdec] at hG
  have hst2 : (GET (c.update b (fun s => { s with count_open := guint_dec s.count_open }))
      b).status = SQLX_BASE_USED := by rw [hG]; exact hst
  obtain ⟨h2, hT2, hs2, hd2, _⟩ := unlock_release_spec hB cfg mt hst2 (by rw [hG])
  simp only [sqlx_base_s.data, Prod.mk.injEq] at hd2
  have hw1 := waiting_of_touch hT (by rw [hG])
  have hw2 := waiting_of_touch hT2 hd2.2.2.2.2.2.1
  have hR : Rest c (released cfg mt c b) b :=
    (Rest.rest_update c b _).rest_trans (unlock_release_rest cfg mt (by simpa using hlen))
  have hlu : (GET (released cfg mt c b) b).last_update = mt :=
    unlock_release_last_update cfg mt (by simpa using hlen) hst2
  exact Calm.quiet (fun j => (hw2 j).trans (hw1 j))
    (cool_cons hI.lists h2 hst hR.last_update hlu) o

/-- The first half of the eviction of a base whose last opening is closed with
a flag keeps the counts and the order. -/
theorem expire_begin_calm {c : sqlx_cache_s} {L : beacon_ref → List Nat} (hI : CacheInv c L)
    (mt : Int) {b : Nat} (hb : b < c.bases_max_hard)
    (hst : (GET c b).status = SQLX_BASE_USED) (ho : (GET c b).owner ≠ none)
    (hco : (GET c b).count_open = 1) (deleted : Bool) (m : Int) (o : Option Nat) :
    Calm m c L (_expire_base_begin mt
      (c.update b (fun s => { s with count_open := guint_dec s.count_open })) b deleted) o o := by
  have hlen : b < c.bases.length := by rw [hI.lists.len]; exact hb
  obtain ⟨hB, hT, hG⟩ := unlock_dec_but hI hb hst
  have hdec : guint_dec (GET c b).count_open = 0 := by rw [hco]; rfl
  rw [hdec] at hG
  obtain ⟨h2, hT2, hs2, hd2, _⟩ := expire_begin_but hB mt deleted (by rw [hG]; exact hst)
    (by rw [hG]; exact ho) (by rw [hG])
  have hw1 := waiting_of_touch hT (by rw [hG])
  have hw2 := waiting_of_touch hT2 (by
    simp only [sqlx_base_s.data, Prod.mk.injEq] at hd2
    exact hd2.2.2.2.2.2.1)
  have hR := (Rest.rest_update c b (fun s => { s with count_open := guint_dec s.count_open })
    ).rest_trans (expire_base_begin_rest mt _ (by simpa using hlen) deleted)
  refine Calm.quiet (fun j => (hw2 j).trans (hw1 j)) ?_ o
  refine cool_sub (b := b) m h2 (fun r hr => move_sublist _ _ _ _ _ ?_) ?_ hR.last_update
  · cases deleted
    · exact (idle_status_ne hr).2.2.2.1
    · exact (idle_status_ne hr).2.2.2.2
  · rw [hs2]; cases deleted <;> simp

end Sqlx

namespace Sqlx
open sqlx_base_status_e

/-! ## The passes and the turns keep the counts and the order -/

theorem used_update_calm {c : sqlx_cache_s} {L : beacon_ref → List Nat} (hI : CacheInv c L)
    {b : Nat} (hb : b < c.bases_max_hard) (hst : (GET c b).status = SQLX_BASE_USED)
    {f : sqlx_base_s → sqlx_base_s}
    (hf : ∀ s, (f s).link_prev = s.link_prev ∧ (f s).link_next = s.link_next
      ∧ (f s).status = s.status ∧ (f s).index = s.index ∧ (f s).name = s.name)
    (hg : ∀ s, (f s).last_update = s.last_update ∧ (f s).count_waiting = s.count_waiting)
    (hF : (f (GET c b)).owner ≠ none ∧ 1 ≤ (f (GET c b)).count_open) (m : Int)
    (o : Option Nat) : Calm m c L (c.update b f) o o := by
  have hs' : (f (GET c b)).status = SQLX_BASE_USED := by rw [(hf _).2.2.1]; exact hst
  exact update_calm hI hb hf hg (by rw [hst]; simp)
    ⟨by rw [hs']; simp, by intro h; rw [hs'] at h; simp at h,
      by intro h; rw [hs'] at h; simp at h, fun _ => hF,
      by intro h; rw [hs'] at h; simp at h⟩ m o

/-- A pass of `sqlx_cache_open_and_lock_base` keeps the counts and the order. -/
theorem open_pass_calm {c : sqlx_cache_s} {L : beacon_ref → List Nat} (hI : CacheInv c L)
    (cfg : config) (mt : Int) (l : open_locals) : (open_pass cfg mt c l).calm mt c L := by
  have hs := open_pass_shape hI cfg mt l
  generalize open_pass cfg mt c l = n at hs
  have hrefl := Calm.calm_refl hI mt none
  cases n with
  | done c' e r =>
    cases e with
    | some e =>
      simp only [open_next.shape] at hs
      obtain ⟨rfl, _⟩ := hs
      exact hrefl
    | none =>
      simp only [open_next.shape] at hs
      simp only [open_next.calm]
      rcases hs with ⟨b, hres, _, hmiss⟩ | ⟨b, hb, hst, _, _, hfin⟩ | ⟨b, hb, hst, how, _, _, rfl⟩
      · have h1 := reserve_calm hI l.self mt hmiss (b := b) (by rw [hres]) mt none
        rw [hres] at h1
        exact h1
      · have h1 := claim_calm hI mt l.self hb hst mt none
        obtain ⟨_, _, _, hcw, haux⟩ := open_finish_opened (b := b) rfl
          (claimed_length hI mt l.self hb hst) hfin
        exact h1.calm_then (fun L1 hI1 => aux_calm hI1 haux (fun j => by rw [hcw j]) mt)
      · refine used_update_calm hI hb hst ?_ ?_ ⟨?_, ?_⟩ mt none
        · intro s; exact ⟨rfl, rfl, rfl, rfl, rfl⟩
        · intro s; exact ⟨rfl, rfl⟩
        · simp
        · simp
  | retry c' l' =>
    simp only [open_next.shape] at hs
    subst hs
    exact hrefl
  | wait_used c' l' b =>
    simp only [open_next.shape] at hs
    obtain ⟨hb, hst, rfl⟩ := hs
    have hlen : b < c.bases.length := by rw [hI.lists.len]; exact hb
    simp only [open_next.calm]
    refine aux_calm hI (AuxSame.aux_update c b ?_) (fun j => ?_) mt
    · intro s; exact ⟨rfl, rfl, rfl, rfl, rfl, rfl, rfl, rfl, rfl⟩
    · rw [GET_update]
      by_cases hj : j = b
      · subst hj; simp [hlen]
      · have hj' : ¬ b = j := fun h => hj h.symm
        simp [hj, hj']
  | wait_closing c' l' =>
    simp only [open_next.shape] at hs
    subst hs
    exact hrefl
  | closing c' l' b =>
    simp only [open_next.shape] at hs
    exact first_idle_begin_calm hI hs mt none
  | abort => trivial

/-- The decrement of `count_waiting` by a thread that was waiting on the slot
`b`, whose count is not null. -/
theorem wake_calm {c : sqlx_cache_s} {L : beacon_ref → List Nat} (hI : CacheInv c L)
    {b : Nat} (hb : b < c.bases.length) (hw : 1 ≤ (GET c b).count_waiting) (m : Int) :
    Calm m c L (open_wake_used c b) none (some b) := by
  simp only [open_wake_used]
  refine aux_calm hI (AuxSame.aux_update c b ?_) (fun j => ?_) m
  · intro s; exact ⟨rfl, rfl, rfl, rfl, rfl, rfl, rfl, rfl, rfl⟩
  · rw [GET_update]
    by_cases hj : j = b
    · subst hj
      simp only [hb, and_self, if_true, guint_dec, reduceCtorEq, if_false]
      rw [if_neg (by omega)]
      omega
    · have hj' : ¬ b = j := fun h => hj h.symm
      simp [hj, hj']

/-- The function `sqlx_cache_unlock_and_close_base`, until it returns or
releases the lock, keeps the counts and the order. -/
theorem close_begin_calm {c : sqlx_cache_s} {L : beacon_ref → List Nat} (hI : CacheInv c L)
    (cfg : config) (t : GThread) (mt : Int) (bd : Int) (flags : close_flags) :
    (sqlx_cache_unlock_and_close_base_begin cfg t mt c bd flags).calm mt c L := by
  have hrefl := Calm.calm_refl hI mt none
  simp only [sqlx_cache_unlock_and_close_base_begin]
  by_cases hout : base_id_out c bd = true
  · simp only [hout, if_true, close_next.calm]; exact hrefl
  simp only [hout, Bool.false_eq_true, if_false]
  have hb : bd.toNat < c.bases_max_hard := by
    simp only [base_id_out, Bool.or_eq_true, decide_eq_true_eq, not_or, not_lt, not_le,
      ge_iff_le] at hout
    exact hout.2
  generalize bd.toNat = b at hb ⊢
  have hlen : b < c.bases.length := by rw [hI.lists.len]; exact hb
  split
  · split
    · trivial
    · split
      · trivial
      · exact hrefl
  · split
    · trivial
    · split
      · trivial
      · exact hrefl
  · split
    · trivial
    · split
      · trivial
      · exact hrefl
  · -- USED
    rename_i hst
    split
    · trivial
    · split
      · trivial
      · split
        · trivial
        · rename_i hown hown' hco
          simp only [not_lt] at hco
          simp only [ne_eq, not_not] at hown'
          obtain ⟨h1, hT1, hG1⟩ := unlock_dec_but hI hb hst
          have hdec : guint_dec (GET c b).count_open = (GET c b).count_open - 1 := by
            simp only [guint_dec]; rw [if_neg (by omega)]
          rw [hG1]
          simp only [hdec]
          by_cases hz : (GET c b).count_open - 1 = 0
          · simp only [hz, if_true]
            have hco1 : (GET c b).count_open = 1 := by omega
            split
            · -- eviction
              simp only [close_next.calm]
              exact expire_begin_calm hI mt hb hst (by rw [hown']; simp) hco1 _ mt none
            · -- release
              have hg : Calm mt c L (unlock_release cfg mt (c.update b (fun s =>
                  { s with count_open := guint_dec s.count_open })) b) none none :=
                released_calm hI cfg mt hb hst hco1 none
              split
              · split
                · rename_i c' b' hbeg
                  simp only [close_next.calm]
                  exact hg.calm_then (fun L1 hI1 => first_idle_begin_calm hI1 hbeg mt none)
                · exact hg
              · exact hg
          · simp only [hz, if_false, close_next.calm]
            refine used_update_calm hI hb hst ?_ ?_ ⟨?_, ?_⟩ mt none
            · intro s; exact ⟨rfl, rfl, rfl, rfl, rfl⟩
            · intro s; exact ⟨rfl, rfl⟩
            · show (GET c b).owner ≠ none
              rw [hown']; simp
            · show 1 ≤ guint_dec (GET c b).count_open
              rw [hdec]; omega
  · -- CLOSING
    split
    · trivial
    · split
      · trivial
      · exact hrefl
  · split
    · trivial
    · split
      · trivial
      · exact hrefl
  · exact hrefl

theorem expire_all_turn_calm {c : sqlx_cache_s} {L : beacon_ref → List Nat} (hI : CacheInv c L)
    (cfg : config) (t : GThread) (mt : Int) (nb : Nat) :
    (sqlx_cache_expire_all_turn cfg t mt c nb).calm mt c L := by
  simp only [sqlx_cache_expire_all_turn]
  split
  · rename_i c' b hbeg
    exact first_idle_begin_calm hI hbeg mt none
  · exact Calm.calm_refl hI mt none

theorem expire_turn_calm {c : sqlx_cache_s} {L : beacon_ref → List Nat} (hI : CacheInv c L)
    (cfg : config) (t : GThread) (mt : Int) (max : Nat) (deadline : Int) (nb : Nat) :
    (sqlx_cache_expire_turn cfg t mt c max deadline nb).calm mt c L := by
  have hrefl := Calm.calm_refl hI mt none
  simp only [sqlx_cache_expire_turn]
  split
  · split
    · exact hrefl
    · split
      · rename_i c' b hbeg
        exact first_idle_begin_calm hI hbeg mt none
      · exact hrefl
  · exact hrefl

end Sqlx

namespace Sqlx
open sqlx_base_status_e

/-! ## Every step keeps the counts of the waiting threads and the order -/

theorem parked_ncard (th : GThread → thread_state) (i : Nat) (t : GThread)
    (hfin : {t' | (th t').parks = some i}.Finite) :
    {t' | (th t').parks = some i}.ncard
      = ({t' | (th t').parks = some i} \ {t}).ncard
        + (if (th t).parks = some i then 1 else 0) := by
  by_cases h : (th t).parks = some i
  · rw [if_pos h]
    exact (Set.ncard_diff_singleton_add_one (show t ∈ {t' | (th t').parks = some i} from h)
      hfin).symm
  · rw [if_neg h, Nat.add_zero]
    rw [Set.diff_singleton_eq_self (show t ∉ {t' | (th t').parks = some i} from h)]

/-- A step that is paced keeps the counts of the waiting threads right. -/
theorem Waiting.paced {s s' : system} {m : Int} {L : beacon_ref → List Nat} (hW : Waiting s)
    (hP : Paced m L s s') : Waiting s' := by
  obtain ⟨t, hth, hcalm⟩ := hP
  have hother : ∀ t', t' ≠ t → s'.threads t' = s.threads t' := by
    intro t' ht
    rw [hth, Function.update_noteq ht]
  have hdiff : ∀ i, {t' | (s'.threads t').parks = some i} \ {t}
      = {t' | (s.threads t').parks = some i} \ {t} := by
    intro i
    ext t'
    simp only [Set.mem_diff, Set.mem_setOf_eq, Set.mem_singleton_iff]
    constructor
    · rintro ⟨h1, h2⟩; exact ⟨by rw [← hother t' h2]; exact h1, h2⟩
    · rintro ⟨h1, h2⟩; exact ⟨by rw [hother t' h2]; exact h1, h2⟩
  have hfin : ∀ i, {t' | (s'.threads t').parks = some i}.Finite := by
    intro i
    refine ((hW.finite i).insert t).subset ?_
    intro t' ht'
    by_cases h : t' = t
    · exact Set.mem_insert_iff.mpr (Or.inl h)
    · refine Set.mem_insert_iff.mpr (Or.inr ?_)
      show (s.threads t').parks = some i
      rw [← hother t' h]; exact ht'
  refine ⟨hfin, fun i => ?_⟩
  have e1 := parked_ncard s.threads i t (hW.finite i)
  have e2 := parked_ncard s'.threads i t (hfin i)
  rw [hdiff i] at e2
  have e3 := hcalm.waiting i
  have e4 := hW.count i
  omega

theorem Paced.paced_cool {s s' : system} {m : Int} {L : beacon_ref → List Nat} (hP : Paced m L s s') :
    Cool m s.cache L s'.cache := by
  obtain ⟨t, _, hcalm⟩ := hP
  exact hcalm.cool

theorem open_go_paced {s s' : system} {ev : event} {t : GThread} {hname : hashstr_t}
    {n : open_next} {c0 : sqlx_cache_s} {m : Int} {L : beacon_ref → List Nat}
    (h0 : Calm m s.cache L c0 none (s.threads t).parks)
    (hn : ∀ L0, CacheInv c0 L0 → n.calm m c0 L0)
    (h : open_go s t hname n = some (s', ev)) : Paced m L s s' := by
  cases n with
  | done c' err res =>
    simp only [open_go, Option.some.injEq, Prod.mk.injEq] at h
    rw [← h.1]
    refine ⟨t, by simp, ?_⟩
    simp only [Function.update_same, thread_state.parks]
    exact h0.calm_then hn
  | retry c' l' =>
    simp only [open_go, Option.some.injEq, Prod.mk.injEq] at h
    rw [← h.1]
    refine ⟨t, by simp, ?_⟩
    simp only [Function.update_same, thread_state.parks]
    exact h0.calm_then hn
  | wait_used c' l' b =>
    simp only [open_go, Option.some.injEq, Prod.mk.injEq] at h
    rw [← h.1]
    refine ⟨t, by simp, ?_⟩
    simp only [Function.update_same, thread_state.parks]
    exact h0.calm_then hn
  | wait_closing c' l' =>
    simp only [open_go, Option.some.injEq, Prod.mk.injEq] at h
    rw [← h.1]
    refine ⟨t, by simp, ?_⟩
    simp only [Function.update_same, thread_state.parks]
    exact h0.calm_then hn
  | closing c' l' b =>
    simp only [open_go, Option.some.injEq, Prod.mk.injEq] at h
    rw [← h.1]
    refine ⟨t, by simp, ?_⟩
    simp only [Function.update_same, thread_state.parks]
    exact h0.calm_then hn
  | abort => simp [open_go] at h

theorem close_go_paced {s s' : system} {ev : event} {t : GThread}
    {n : close_next (Option GError)} {m : Int} {L : beacon_ref → List Nat}
    (ho : (s.threads t).parks = none)
    (hn : n.calm m s.cache L) (h : close_go s t n = some (s', ev)) : Paced m L s s' := by
  cases n with
  | done c' err =>
    simp only [close_go, Option.some.injEq, Prod.mk.injEq] at h
    rw [← h.1]
    refine ⟨t, by simp, ?_⟩
    simp only [Function.update_same]
    rw [ho]
    exact hn
  | closing c' b =>
    simp only [close_go, Option.some.injEq, Prod.mk.injEq] at h
    rw [← h.1]
    refine ⟨t, by simp, ?_⟩
    simp only [Function.update_same]
    rw [ho]
    exact hn
  | abort => simp [close_go] at h

theorem expire_all_go_paced {s s' : system} {ev : event} {t : GThread} {nb : Nat}
    {n : close_next Nat} {c0 : sqlx_cache_s} {m : Int} {L : beacon_ref → List Nat}
    (h0 : Calm m s.cache L c0 none (s.threads t).parks)
    (hn : ∀ L0, CacheInv c0 L0 → n.calm m c0 L0)
    (h : expire_all_go s t nb n = some (s', ev)) : Paced m L s s' := by
  cases n with
  | done c' v =>
    simp only [expire_all_go, Option.some.injEq, Prod.mk.injEq] at h
    rw [← h.1]
    refine ⟨t, by simp, ?_⟩
    simp only [Function.update_same, thread_state.parks]
    exact h0.calm_then hn
  | closing c' b =>
    simp only [expire_all_go, Option.some.injEq, Prod.mk.injEq] at h
    rw [← h.1]
    refine ⟨t, by simp, ?_⟩
    simp only [Function.update_same, thread_state.parks]
    exact h0.calm_then hn
  | abort => simp [expire_all_go] at h

theorem expire_go_paced {s s' : system} {ev : event} {t : GThread} {max nb : Nat}
    {deadline : Int} {n : close_next Nat} {c0 : sqlx_cache_s} {m : Int}
    {L : beacon_ref → List Nat}
    (h0 : Calm m s.cache L c0 none (s.threads t).parks)
    (hn : ∀ L0, CacheInv c0 L0 → n.calm m c0 L0)
    (h : expire_go s t max deadline nb n = some (s', ev)) : Paced m L s s' := by
  cases n with
  | done c' v =>
    simp only [expire_go, Option.some.injEq, Prod.mk.injEq] at h
    rw [← h.1]
    refine ⟨t, by simp, ?_⟩
    simp only [Function.update_same, thread_state.parks]
    exact h0.calm_then hn
  | closing c' b =>
    simp only [expire_go, Option.some.injEq, Prod.mk.injEq] at h
    rw [← h.1]
    refine ⟨t, by simp, ?_⟩
    simp only [Function.update_same, thread_state.parks]
    exact h0.calm_then hn
  | abort => simp [expire_go] at h

theorem Paced.paced_same {s : system} {c' : sqlx_cache_s} {m : Int}
    {L : beacon_ref → List Nat} (h : ∀ o, Calm m s.cache L c' o o) :
    Paced m L s ⟨c', s.threads⟩ :=
  ⟨0, by simp, h _⟩

theorem frame_calm {c c' : sqlx_cache_s} {L : beacon_ref → List Nat}
    (h : CacheInv c L) (hbases : c'.bases = c.bases)
    (hbeacon : ∀ r, c'.beacon r = c.beacon r)
    (htree : c'.bases_by_name = c.bases_by_name)
    (hhard : c'.bases_max_hard = c.bases_max_hard)
    (hsoft : 1 ≤ c'.bases_max_soft ∧ c'.bases_max_soft ≤ c'.bases_max_hard)
    (hused : c'.bases_used = c.bases_used) (m : Int) (o : Option Nat) :
    Calm m c L c' o o := by
  obtain ⟨h1, _⟩ := h.inv_frame hbases hbeacon htree hhard hsoft hused
  have hG : ∀ j, GET c' j = GET c j := fun j => by simp [GET, hbases]
  exact Calm.quiet (fun j => by rw [hG]) (cool_same m h1 (fun j => by rw [hG])) o

/-- A thread that waits on a slot is counted by it: the slot is one of the
cache and its count is not null. -/
theorem Waiting.parked {s : system} (hW : Waiting s) {t : GThread} {b : Nat}
    (h : (s.threads t).parks = some b) :
    b < s.cache.bases.length ∧ 1 ≤ (GET s.cache b).count_waiting := by
  have hpos : 1 ≤ (GET s.cache b).count_waiting := by
    rw [hW.count b]
    exact (Set.ncard_pos (hW.finite b)).mpr ⟨t, h⟩
  refine ⟨?_, hpos⟩
  by_contra hlen
  have hz : (GET s.cache b).count_waiting = 0 := by
    simp only [GET, List.getD_eq_getElem?_getD]
    rw [List.getElem?_eq_none (by omega)]
    rfl
  omega

/-- Every step of the system, taken at the time `m`, is paced. -/
theorem run_paced {s s' : system} {ev : event} (hI : Inv s) (hW : Waiting s)
    {L : beacon_ref → List Nat} (hC : CacheInv s.cache L) (cfg : config) (a : action)
    (h : run cfg a s = some (s', ev)) (m : Int) (hm : ∀ mt, a.time = some mt → mt = m) :
    Paced m L s s' := by
  cases a with
  | open_call t hname urgent deadline start mt =>
    obtain rfl := hm mt rfl
    simp only [run] at h
    split at h
    · rename_i hts
      exact open_go_paced (by rw [hts]; exact Calm.calm_refl hC mt none)
        (fun L0 hI0 => open_pass_calm hI0 cfg mt _) h
    · simp at h
  | resume t mt =>
    obtain rfl := hm mt rfl
    simp only [run] at h
    split at h
    · simp at h
    · rename_i l hts
      exact open_go_paced (by rw [hts]; exact Calm.calm_refl hC mt none)
        (fun L0 hI0 => open_pass_calm hI0 cfg mt _) h
    · rename_i l b hts
      have hp := hW.parked (t := t) (b := b) (by rw [hts]; rfl)
      exact open_go_paced (by rw [hts]; exact wake_calm hC hp.1 hp.2 mt)
        (fun L0 hI0 => open_pass_calm hI0 cfg mt _) h
    · rename_i l hts
      exact open_go_paced (by rw [hts]; exact Calm.calm_refl hC mt none)
        (fun L0 hI0 => open_pass_calm hI0 cfg mt _) h
    · rename_i l b hts
      have hcl : closing_by s.cache t b := (hI.closing t b).mpr (by rw [hts]; rfl)
      exact open_go_paced (by rw [hts]; exact expire_end_calm hC mt hcl.1 hcl.2.1 mt none)
        (fun L0 hI0 => open_pass_calm hI0 cfg mt _) h
    · rename_i b hts
      have hcl : closing_by s.cache t b := (hI.closing t b).mpr (by rw [hts]; rfl)
      simp only [Option.some.injEq, Prod.mk.injEq] at h
      rw [← h.1]
      refine ⟨t, by simp, ?_⟩
      simp only [Function.update_same, thread_state.parks, hts]
      exact expire_end_calm hC mt hcl.1 hcl.2.1 mt none
    · rename_i nb b hts
      have hcl : closing_by s.cache t b := (hI.closing t b).mpr (by rw [hts]; rfl)
      exact expire_all_go_paced (by rw [hts]; exact expire_end_calm hC mt hcl.1 hcl.2.1 mt none)
        (fun L0 hI0 => expire_all_turn_calm hI0 cfg t mt (nb + 1)) h
    · rename_i max deadline nb b hts
      have hcl : closing_by s.cache t b := (hI.closing t b).mpr (by rw [hts]; rfl)
      exact expire_go_paced (by rw [hts]; exact expire_end_calm hC mt hcl.1 hcl.2.1 mt none)
        (fun L0 hI0 => expire_turn_calm hI0 cfg t mt max deadline (nb + 1)) h
  | close_call t bd flags mt =>
    obtain rfl := hm mt rfl
    simp only [run] at h
    split at h
    · rename_i hts
      exact close_go_paced (by rw [hts]; rfl) (close_begin_calm hC cfg t mt bd flags) h
    · simp at h
  | expire_all_call t mt =>
    obtain rfl := hm mt rfl
    simp only [run] at h
    split at h
    · rename_i hts
      exact expire_all_go_paced (by rw [hts]; exact Calm.calm_refl hC mt none)
        (fun L0 hI0 => expire_all_turn_calm hI0 cfg t mt 0) h
    · simp at h
  | expire_call t max duration start mt =>
    obtain rfl := hm mt rfl
    simp only [run] at h
    split at h
    · rename_i hts
      exact expire_go_paced (by rw [hts]; exact Calm.calm_refl hC mt none)
        (fun L0 hI0 => expire_turn_calm hI0 cfg t mt max (start + duration) 0) h
    · simp at h
  | set_handle t bd sq3 =>
    simp only [run] at h
    split at h
    · rename_i hc
      simp only [Option.some.injEq, Prod.mk.injEq] at h
      rw [← h.1]
      apply Paced.paced_same
      intro o
      simp only [sqlx_cache_set_handle]
      refine used_update_calm hC hc.2.1 hc.2.2.1 ?_ ?_ ⟨?_, ?_⟩ m o
      · intro s; exact ⟨rfl, rfl, rfl, rfl, rfl⟩
      · intro s; exact ⟨rfl, rfl⟩
      · exact ((hC.fields bd hc.2.1).used hc.2.2.1).1
      · exact ((hC.fields bd hc.2.1).used hc.2.2.1).2
    · simp at h
  | reconfigure =>
    simp only [run, Option.some.injEq, Prod.mk.injEq] at h
    rw [← h.1]
    apply Paced.paced_same
    intro o
    simp only [sqlx_cache_reconfigure]
    have h1 : 1 ≤ s.cache.bases_max_hard := le_trans hC.soft.1 hC.soft.2
    split
    · refine frame_calm hC ?_ ?_ ?_ ?_ ?_ ?_ m o
      · rfl
      · intro r; cases r <;> rfl
      · rfl
      · rfl
      · exact CLAMP_bounds _ _ h1
      · rfl
    · refine frame_calm hC ?_ ?_ ?_ ?_ ?_ ?_ m o
      · rfl
      · intro r; cases r <;> rfl
      · rfl
      · rfl
      · exact ⟨h1, le_refl _⟩
      · rfl
  | set_running b =>
    simp only [run, Option.some.injEq, Prod.mk.injEq] at h
    rw [← h.1]
    apply Paced.paced_same
    intro o
    refine frame_calm hC ?_ ?_ ?_ ?_ ?_ ?_ m o
    · rfl
    · intro r; cases r <;> rfl
    · rfl
    · rfl
    · exact hC.soft
    · rfl
  | set_unlock_hook b =>
    simp only [run, Option.some.injEq, Prod.mk.injEq] at h
    rw [← h.1]
    apply Paced.paced_same
    intro o
    refine frame_calm hC ?_ ?_ ?_ ?_ ?_ ?_ m o
    · rfl
    · intro r; cases r <;> rfl
    · rfl
    · rfl
    · exact hC.soft
    · rfl
  | set_close_hook b =>
    simp only [run, Option.some.injEq, Prod.mk.injEq] at h
    rw [← h.1]
    apply Paced.paced_same
    intro o
    refine frame_calm hC ?_ ?_ ?_ ?_ ?_ ?_ m o
    · rfl
    · intro r; cases r <;> rfl
    · rfl
    · rfl
    · exact hC.soft
    · rfl
  | set_last_memory_usage u =>
    simp only [run, Option.some.injEq, Prod.mk.injEq] at h
    rw [← h.1]
    apply Paced.paced_same
    intro o
    refine frame_calm hC ?_ ?_ ?_ ?_ ?_ ?_ m o
    · rfl
    · intro r; cases r <;> rfl
    · rfl
    · rfl
    · exact hC.soft
    · rfl

theorem init_count_waiting (cfg : config) (mt : Int) (i : Nat) :
    (GET (sqlx_cache_init cfg mt) i).count_waiting = 0 := by
  obtain ⟨_, h2, _, _⟩ := init_stack_spec mt (sqlx_cache_init_alloc cfg mt).bases_max_hard
    (sqlx_cache_init_alloc cfg mt) [] (init_alloc_Lists cfg mt) (le_refl _)
    (by intro i hi; rw [init_alloc_GET cfg mt i hi]; rfl)
  have hd := h2.data i
  simp only [sqlx_base_s.data, Prod.mk.injEq] at hd
  show (GET (sqlx_cache_init_stack mt (sqlx_cache_init_alloc cfg mt).bases_max_hard
    (sqlx_cache_init_alloc cfg mt)) i).count_waiting = 0
  rw [hd.2.2.2.2.2.1]
  by_cases hi : i < (sqlx_cache_init_alloc cfg mt).bases_max_hard
  · rw [init_alloc_GET cfg mt i hi]; rfl
  · simp only [sqlx_cache_init_alloc] at hi
    simp only [GET, List.getD_eq_getElem?_getD, sqlx_cache_init_alloc]
    rw [List.getElem?_eq_none (by simpa using hi)]
    rfl

theorem init_Waiting (cfg : config) (mt : Int) : Waiting (system_init cfg mt) := by
  have hempty : ∀ i, {t | ((system_init cfg mt).threads t).parks = some i} = ∅ := by
    intro i
    ext t
    simp [system_init, thread_state.parks]
  refine ⟨fun i => ?_, fun i => ?_⟩
  · rw [hempty i]; exact Set.finite_empty
  · rw [hempty i, Set.ncard_empty]
    exact init_count_waiting cfg mt i

/-- In every reachable state of the system, the count of the waiting threads of
every slot is the number of the threads that are waiting on it. -/
theorem reachable_waiting {s : system} (h : Reachable s) : Waiting s := by
  induction h with
  | init cfg mt => exact init_Waiting cfg mt
  | @step s s' ev cfg a hr hrun ih =>
    obtain ⟨L, hC⟩ := (reachable_inv hr).cache
    exact ih.paced (run_paced (reachable_inv hr) ih hC cfg a hrun (a.time.getD 0)
      (by intro mt hmt; rw [hmt]; rfl))

theorem ReachableAt.reachable {now : Int} {s : system} (h : ReachableAt now s) :
    Reachable s := by
  induction h with
  | init cfg mt => exact Reachable.init cfg mt
  | step cfg a _ _ hrun ih => exact Reachable.step cfg a ih hrun

/-- In every state that is reachable with a clock that never goes back, the
idle lists are in the order of their `last_update`. -/
theorem reachable_cooling {now : Int} {s : system} (h : ReachableAt now s) :
    ∃ L, CacheInv s.cache L ∧ Cooling s.cache L now := by
  induction h with
  | init cfg mt =>
    refine ⟨_, init_CacheInv cfg mt, ?_⟩
    intro r hr
    rcases hr with rfl | rfl <;> simp [L_free, beacon_ref.status]
  | @step now s s' ev cfg a hr hle hrun ih =>
    obtain ⟨L, hC, hcool⟩ := ih
    have hP := run_paced (reachable_inv hr.reachable) (reachable_waiting hr.reachable) hC cfg a
      hrun (a.time.getD now) (by intro mt hmt; rw [hmt]; rfl)
    obtain ⟨L', hC', hstep⟩ := hP.paced_cool
    refine ⟨L', hC', hstep now hcool ?_⟩
    cases hta : a.time with
    | none => exact le_refl _
    | some mt => exact hle mt hta

end Sqlx

namespace Sqlx
open sqlx_base_status_e

/-! ## The count of the waiting threads of a FREE slot -/

theorem demo_parked_reachable : Reachable demo_parked :=
  after_reachable (after_reachable (after_reachable
    (after_reachable (Reachable.init demo_cfg 1) _ _) _ _) _ _) _ _

/-- Claim C26, counterexample: after the open of "a" by the thread 7, the open of
"a" by the thread 8, that waits on the slot 0, and the close of "a" by the
thread 7 with the flag `SQLX_CLOSE_IMMEDIATELY`, the slot 0 is FREE and its
`count_waiting` is 1: the thread 8 stands between its increment and its
decrement. -/
theorem C26_free_count_counterexample :
    Reachable demo_parked
    ∧ (GET demo_parked.cache 0).status = SQLX_BASE_FREE
    ∧ (GET demo_parked.cache 0).count_waiting = 1
    ∧ (demo_parked.threads 8).parks = some 0 :=
  ⟨demo_parked_reachable, by decide, by decide, by decide⟩

/-- Claim C26, amended: in every reachable state, the threads that stand
between the increment and the decrement of `count_waiting` of a slot are
finitely many and `count_waiting` is their number; so a FREE slot has
`count_waiting = 0` if and only if no thread is waiting on it. -/
theorem C26_free_count {s : system} (h : Reachable s) (i : Nat) :
    {t | (s.threads t).parks = some i}.Finite
    ∧ (GET s.cache i).count_waiting = {t | (s.threads t).parks = some i}.ncard
    ∧ ((GET s.cache i).status = SQLX_BASE_FREE →
        ((GET s.cache i).count_waiting = 0 ↔ ∀ t, (s.threads t).parks ≠ some i)) := by
  have hW := reachable_waiting h
  refine ⟨hW.finite i, hW.count i, fun _ => ?_⟩
  rw [hW.count i, Set.ncard_eq_zero (hW.finite i)]
  constructor
  · intro he t ht
    have : t ∈ {t | (s.threads t).parks = some i} := ht
    rw [he] at this
    exact this
  · intro hn
    ext t
    simp only [Set.mem_setOf_eq, Set.mem_empty_iff_false, iff_false]
    exact hn t

theorem C26_free_count_witness :
    Reachable demo_parked
    ∧ {t | (demo_parked.threads t).parks = some 0}.Finite
    ∧ (GET demo_parked.cache 0).count_waiting
        = {t | (demo_parked.threads t).parks = some 0}.ncard
    ∧ ((GET demo_parked.cache 0).status = SQLX_BASE_FREE →
        ((GET demo_parked.cache 0).count_waiting = 0
          ↔ ∀ t, (demo_parked.threads t).parks ≠ some 0)) :=
  ⟨demo_parked_reachable, C26_free_count demo_parked_reachable 0⟩

/-! ## The order of the idle lists -/

theorem lastI_pairwise {R : Nat → Nat → Prop} : ∀ l : List Nat, l.Pairwise R →
    ∀ i ∈ l, i = (lastI l).toNat ∨ R i (lastI l).toNat := by
  intro l
  induction l with
  | nil => intro _ i hi; simp at hi
  | cons a l ih =>
    intro hp i hi
    cases l with
    | nil =>
      simp only [List.mem_singleton] at hi
      left; rw [hi]; simp [lastI]
    | cons b l' =>
      simp only [lastI]
      rcases List.mem_cons.mp hi with rfl | hi'
      · right
        obtain ⟨x, hx, hl⟩ := lastI_cons_mem b l'
        rw [hl, Int.toNat_ofNat]
        exact (List.pairwise_cons.mp hp).1 x hx
      · exact ih (List.pairwise_cons.mp hp).2 i hi'

theorem after_reachable_at {now : Int} {s : system} (h : ReachableAt now s) (cfg : config)
    (a : action) (hle : ∀ mt, a.time = some mt → now ≤ mt)
    (hrun : (run cfg a s).isSome = true) : ReachableAt (a.time.getD now) (after cfg a s) := by
  unfold after
  split
  · rename_i s' ev hr
    exact ReachableAt.step cfg a h hle hr
  · rename_i hr
    rw [hr] at hrun
    simp at hrun

theorem demo_two_idle_reachable : ReachableAt 8 demo_two_idle :=
  after_reachable_at
    (after_reachable_at
      (after_reachable_at
        (after_reachable_at (ReachableAt.init demo_cfg 1) demo_cfg
          (action.open_call 7 "a" false 0 5 5) (by decide) (by decide))
        demo_cfg (action.open_call 8 "b" false 0 6 6) (by decide) (by decide))
      demo_cfg (action.close_call 7 0 no_flags 7) (by decide) (by decide))
    demo_cfg (action.close_call 8 1 no_flags 8) (by decide) (by decide)

/-- Claim C27: when the clock never goes back from one section of code run with
the lock to the next, in every reachable state the list of the IDLE beacon and
the list of the IDLE_HOT beacon, read from `first` along `link.next`, hold the
slots of their status, their `last_update` never increases from the head to the
tail, and the slot `last` of the beacon has the least `last_update` of the
list: the tail is the coolest entry. -/
theorem C27_idle_lists_sorted {now : Int} {s : system} (h : ReachableAt now s)
    (r : beacon_ref) (hr : r = beacon_ref.idle ∨ r = beacon_ref.idle_hot) :
    (∀ i, i ∈ beacon_slots s.cache r
      ↔ (i < s.cache.bases_max_hard ∧ (GET s.cache i).status = r.status))
    ∧ (beacon_slots s.cache r).Pairwise
        (fun i j => (GET s.cache j).last_update ≤ (GET s.cache i).last_update)
    ∧ (∀ i ∈ beacon_slots s.cache r,
        (GET s.cache (s.cache.beacon r).last.toNat).last_update ≤ (GET s.cache i).last_update)
    ∧ (∀ i ∈ beacon_slots s.cache r, (GET s.cache i).last_update ≤ now) := by
  obtain ⟨L, hC, hcool⟩ := reachable_cooling h
  rw [beacon_slots_eq hC.lists r]
  obtain ⟨hp, hb⟩ := hcool r hr
  refine ⟨hC.lists.mem r, hp, ?_, hb⟩
  intro i hi
  rw [(hC.lists.dl r).last]
  rcases lastI_pairwise (L r) hp i hi with h1 | h1
  · rw [← h1]
  · exact h1

theorem C27_idle_lists_sorted_witness :
    ReachableAt 8 demo_two_idle
    ∧ beacon_slots demo_two_idle.cache beacon_ref.idle = [1, 0]
    ∧ (∀ i, i ∈ beacon_slots demo_two_idle.cache beacon_ref.idle
      ↔ (i < demo_two_idle.cache.bases_max_hard
          ∧ (GET demo_two_idle.cache i).status = beacon_ref.idle.status))
    ∧ (beacon_slots demo_two_idle.cache beacon_ref.idle).Pairwise
        (fun i j => (GET demo_two_idle.cache j).last_update
          ≤ (GET demo_two_idle.cache i).last_update)
    ∧ (∀ i ∈ beacon_slots demo_two_idle.cache beacon_ref.idle,
        (GET demo_two_idle.cache (demo_two_idle.cache.beacon beacon_ref.idle).last.toNat).last_update
          ≤ (GET demo_two_idle.cache i).last_update)
    ∧ (∀ i ∈ beacon_slots demo_two_idle.cache beacon_ref.idle,
        (GET demo_two_idle.cache i).last_update ≤ 8) :=
  ⟨demo_two_idle_reachable, by decide,
    C27_idle_lists_sorted demo_two_idle_reachable beacon_ref.idle (Or.inl rfl)⟩

end Sqlx
